import Mathlib

/-! The storage package of netclave/common.

A shallow embedding of `storage/storage.go`, the three SQL drivers
(`sqlite_storage.go`, `mysql_storage.go`, `postgresql_storage.go`), the Redis
driver and the `GenericStorage` facade, followed by theorems about them.

Conventions of the embedding

* Go `string` is `String`; `[]string` is `List String`; `uint32` is a `Nat`; `int64` is an
  `Int`, wrapped by `wrapInt64` where the source can overflow; a `time.Duration` and a
  reading of the clock are integers in nanoseconds.
* A Go `error` is `Option String` (`none` is `nil`, `some msg` carries the message), and a
  method returns the tuple of its Go results together with the store it leaves.
* `CreateWhereClause` returns `none` where the source panics on an index out of range;
  a method that would panic returns the error `indexPanic`, which is never reached.
* The clock, and the failures a backend may report, are inputs of every operation (`Env`).
-/

set_option autoImplicit false

namespace Storage

/-! ## Constants of `storage.go` -/

def REDIS_STORAGE : String := "redis"
def SQLITE_STORAGE : String := "sqlite"
def POSTGRE_SQL_STORAGE : String := "postgresql"
def MY_SQL_STORAGE : String := "mysql"

def NumberOfColumns : Nat := 10
def TruncateInterval : Int := 60 * 1000

/-! ## Library functions the package calls -/

/-- The UTF-8 bytes of one code point: what `[]byte(s)` holds for each character of `s`. -/
def utf8Bytes (c : Nat) : List Nat :=
  if c < 0x80 then [c]
  else if c < 0x800 then [0xC0 + c / 64, 0x80 + c % 64]
  else if c < 0x10000 then [0xE0 + c / 4096, 0x80 + c / 64 % 64, 0x80 + c % 64]
  else [0xF0 + c / 262144, 0x80 + c / 4096 % 64, 0x80 + c / 64 % 64, 0x80 + c % 64]

/-- The bytes of a string, `[]byte(data)`. -/
def bytesOf (data : String) : List Nat :=
  data.data.flatMap (fun c => utf8Bytes c.toNat)

/-- One bit of the reflected CRC-32 division by the IEEE polynomial `0xEDB88320`. -/
def crc32Bit (crc : Nat) : Nat :=
  if crc % 2 = 1 then (crc / 2) ^^^ 0xEDB88320 else crc / 2

/-- One byte of CRC-32: xor the byte in, then eight bit steps. -/
def crc32Byte (crc b : Nat) : Nat :=
  crc32Bit (crc32Bit (crc32Bit (crc32Bit (crc32Bit (crc32Bit (crc32Bit (crc32Bit (crc ^^^ b))))))))

/-- The function `crc32.ChecksumIEEE` of the Go standard library. -/
def ChecksumIEEE (bytes : List Nat) : Nat :=
  (bytes.foldl crc32Byte 0xFFFFFFFF) ^^^ 0xFFFFFFFF

/-- The decimal text of a natural number: `strconv.Itoa` and `fmt.Sprint` on the
non-negative integers the package prints. -/
def Itoa (n : Nat) : String := toString n

/-! ## `storage.go`: the key/pattern codec -/

/-- Embeds `SplitToParts`: `strings.Split(key, "/")`. -/
def SplitToParts (key : String) : List String :=
  (key.data.splitOn (Char.ofNat 47)).map String.mk

/-- Embeds `CalculateHash`: the CRC-32/IEEE checksum of the bytes of `data`. -/
def CalculateHash (data : String) : Nat :=
  ChecksumIEEE (bytesOf data)

/-- Embeds `CalculateHashesOfColumns`: one hash per column, in order. -/
def CalculateHashesOfColumns (columns : List String) : List Nat :=
  columns.foldl (fun result column => result ++ [CalculateHash column]) []

/-- The first loop of `CreateWhereClause`: `hashesLen` is decreased while
`hashesLen-1 >= 0 && columns[hashesLen-1] == "*"`; `none` is the index panic. -/
def trimHashesLen (columns : List String) : Nat → Option Nat
  | 0 => some 0
  | n + 1 =>
    match columns[n]? with
    | none => none
    | some column => if column = "*" then trimHashesLen columns n else some (n + 1)

/-- The second loop of `CreateWhereClause`, from `index` on, `fuel` iterations left. -/
def whereLoop (columns : List String) (hashes : List Nat) (hashesLen : Nat) :
    Nat → Nat → String → Option String
  | 0, _, result => some result
  | fuel + 1, index, result =>
    match hashes[index]?, columns[index]? with
    | some hash, some column =>
      if column = "*" then whereLoop columns hashes hashesLen fuel (index + 1) result
      else
        let hashStr := Itoa hash
        let columnName := "column_" ++ Itoa (index + 1) ++ "_hash"
        let result := result ++ (columnName ++ " = " ++ hashStr)
        let result := if index + 1 < hashesLen then result ++ " AND " else result
        whereLoop columns hashes hashesLen fuel (index + 1) result
    | _, _ => none

/-- Embeds `CreateWhereClause(columns, hashes)`; `none` when the source panics. -/
def CreateWhereClause (columns : List String) (hashes : List Nat) : Option String :=
  match trimHashesLen columns hashes.length with
  | none => none
  | some hashesLen => whereLoop columns hashes hashesLen hashesLen 0 ""

/-- Embeds `CheckTableName`: an error exactly when the table contains `/`. -/
def CheckTableName (table : String) : Option String :=
  if Char.ofNat 47 ∈ table.data then some "Table can not contains '/' in its name" else none


/-! ## The relational backend

The drivers hand SQL text to `database/sql`.  The backend is modelled by the rows of
its two tables.  SQL leaves the order in which a cursor returns rows open; here it is
the order of insertion.  Two parts of a statement are kept as the text the driver
assembles and are read back the way an SQL engine reads them: the conditions after
`WHERE`, and the text values spliced between single quotes (characters other than the
quote, and the backslash on MySQL, are taken to be read as they stand).  The fixed
skeleton of each statement is a function below. -/

inductive Dialect where
  | sqlite
  | mysql
  | postgresql
  deriving DecidableEq, Repr

/-- A row of table `keys` (the `id` column is the position in the list). -/
structure KeyRow where
  table : String
  table_hash : Nat
  key : String
  columns : List Nat
  value : String
  ttl : Int
  deriving DecidableEq, Repr

/-- A row of table `maps`. -/
structure MapRow where
  table : String
  table_hash : Nat
  key : String
  columns : List Nat
  value : String
  object_key : String
  object_key_hash : Nat
  deriving DecidableEq, Repr

/-- What an SQL driver works on: both tables and the package variable `LastTruncate`. -/
structure Store where
  keys : List KeyRow
  maps : List MapRow
  LastTruncate : Int
  deriving DecidableEq, Repr

/-- The inputs an operation takes from its surroundings: the readings of `time.Now()` (in
nanoseconds since the epoch) taken by the sweep and by the operation itself, and the
error, if any, that the backend reports for each call made to it: the sweep's `Exec` and
its `RowsAffected`, the operation's own statement (or Redis command), the second query
of `GetKeys`, the `RowsAffected` of `DelKey`, and the opening of the connection. -/
structure Env where
  sweepClock : Int
  opClock : Int
  sweepErr : Option String
  sweepRowsErr : Option String
  stmtErr : Option String
  stmtErr2 : Option String
  rowsErr : Option String
  openErr : Option String
  deriving DecidableEq, Repr

/-- An environment in which no backend call fails. -/
def Env.quiet (sweepClock opClock : Int) : Env :=
  { sweepClock := sweepClock, opClock := opClock, sweepErr := none, sweepRowsErr := none,
    stmtErr := none, stmtErr2 := none, rowsErr := none, openErr := none }

/-- Stands for the message with which the backend rejects a statement it cannot parse. -/
def syntaxError : String := "syntax error"

/-- Stands for the message with which the backend rejects an unknown column. -/
def noSuchColumn : String := "no such column"

def quoteChar : Char := Char.ofNat 39
def backslashChar : Char := Char.ofNat 92

/-- The character a MySQL backslash escape stands for (`none`: the backslash is kept). -/
def mysqlEscape (c : Char) : Option Char :=
  if c = Char.ofNat 48 then some (Char.ofNat 0)
  else if c = Char.ofNat 98 then some (Char.ofNat 8)
  else if c = Char.ofNat 110 then some (Char.ofNat 10)
  else if c = Char.ofNat 114 then some (Char.ofNat 13)
  else if c = Char.ofNat 116 then some (Char.ofNat 9)
  else if c = Char.ofNat 90 then some (Char.ofNat 26)
  else if c = Char.ofNat 37 ∨ c = Char.ofNat 95 then none
  else some c

/-- Reading a string literal after its opening quote: the content and the text left after
the closing quote.  A doubled quote stands for one quote; MySQL also reads backslash
escapes.  `none`: the literal is not terminated. -/
def readLiteral (d : Dialect) : List Char → Option (List Char × List Char)
  | [] => none
  | c :: cs =>
    if c = quoteChar then
      match cs with
      | c2 :: cs2 =>
        if c2 = quoteChar then (readLiteral d cs2).map (fun r => (quoteChar :: r.1, r.2))
        else some ([], c2 :: cs2)
      | [] => some ([], [])
    else if d = Dialect.mysql ∧ c = backslashChar then
      match cs with
      | c2 :: cs2 =>
        match mysqlEscape c2 with
        | some e => (readLiteral d cs2).map (fun r => (e :: r.1, r.2))
        | none => (readLiteral d cs2).map (fun r => (c :: c2 :: r.1, r.2))
      | [] => none
    else (readLiteral d cs).map (fun r => (c :: r.1, r.2))

/-- The value the backend reads from `'` + text + `'` where the driver splices `text`
into a statement.  `none`: the literal does not end at the driver's closing quote, so the
statement is not the one the driver assembled; the backend is taken to reject it. -/
def sqlText (d : Dialect) (text : String) : Option String :=
  match readLiteral d (text.data ++ [quoteChar]) with
  | some (content, []) => some (String.mk content)
  | _ => none

/-- Dropping a fixed text from the front of the input. -/
def dropPrefix : List Char → List Char → Option (List Char)
  | [], cs => some cs
  | _ :: _, [] => none
  | p :: ps, c :: cs => if p = c then dropPrefix ps cs else none

/-- The number a run of decimal digits stands for. -/
def digitsValue (ds : List Char) : Nat :=
  ds.foldl (fun n c => 10 * n + (c.toNat - 48)) 0

/-- Reading an unsigned decimal number: its value and the text left. -/
def readNat (cs : List Char) : Option (Nat × List Char) :=
  let ds := cs.takeWhile Char.isDigit
  if ds = [] then none
  else some (digitsValue ds, cs.dropWhile Char.isDigit)

/-- Reading `name = number` conditions joined by ` AND `, as they stand after `WHERE`. -/
def parseWhere : Nat → List Char → Option (List (String × Nat))
  | 0, _ => none
  | fuel + 1, cs =>
    let name := cs.takeWhile (fun c => c != Char.ofNat 32)
    match dropPrefix " = ".data (cs.dropWhile (fun c => c != Char.ofNat 32)) with
    | none => none
    | some r1 =>
      match readNat r1 with
      | none => none
      | some (n, r2) =>
        if r2 = [] then some [(String.mk name, n)]
        else
          match dropPrefix " AND ".data r2 with
          | none => none
          | some r3 => (parseWhere fuel r3).map (fun rest => (String.mk name, n) :: rest)

/-- The names `column_1_hash` .. `column_10_hash` of the schema. -/
def hashColumnNames : List String :=
  (List.range NumberOfColumns).map (fun j => "column_" ++ Itoa (j + 1) ++ "_hash")

/-- The value of a hash column of a `keys` row, by name. -/
def KeyRow.hashColumn (r : KeyRow) (name : String) : Option Nat :=
  if name = "table_hash" then some r.table_hash
  else
    let j := hashColumnNames.indexOf name
    if j < NumberOfColumns then some (r.columns.getD j 0) else none

/-- The value of a hash column of a `maps` row, by name. -/
def MapRow.hashColumn (r : MapRow) (name : String) : Option Nat :=
  if name = "table_hash" then some r.table_hash
  else if name = "object_key_hash" then some r.object_key_hash
  else
    let j := hashColumnNames.indexOf name
    if j < NumberOfColumns then some (r.columns.getD j 0) else none

/-- Whether a name is a hash column of `keys`. -/
def isKeysColumn (name : String) : Bool :=
  name = "table_hash" ∨ hashColumnNames.indexOf name < NumberOfColumns

/-- Whether a name is a hash column of `maps`. -/
def isMapsColumn (name : String) : Bool :=
  name = "table_hash" ∨ name = "object_key_hash" ∨ hashColumnNames.indexOf name < NumberOfColumns

/-- The rows of `keys` selected by the text after `WHERE`. -/
def whereKeys (rows : List KeyRow) (text : String) : Except String (List KeyRow) :=
  match parseWhere (text.length + 1) text.data with
  | none => Except.error syntaxError
  | some conds =>
    if conds.all (fun c => isKeysColumn c.1) then
      Except.ok (rows.filter (fun r => conds.all (fun c => r.hashColumn c.1 = some c.2)))
    else Except.error noSuchColumn

/-- The rows of `maps` selected by the text after `WHERE`. -/
def whereMaps (rows : List MapRow) (text : String) : Except String (List MapRow) :=
  match parseWhere (text.length + 1) text.data with
  | none => Except.error syntaxError
  | some conds =>
    if conds.all (fun c => isMapsColumn c.1) then
      Except.ok (rows.filter (fun r => conds.all (fun c => r.hashColumn c.1 = some c.2)))
    else Except.error noSuchColumn

/-- The `Query` of a `SELECT ... FROM keys WHERE` + text. -/
def queryKeys (err : Option String) (s : Store) (text : String) : Except String (List KeyRow) :=
  match err with
  | some e => Except.error e
  | none => whereKeys s.keys text

/-- The `Query` of a `SELECT ... FROM maps WHERE` + text. -/
def queryMaps (err : Option String) (s : Store) (text : String) : Except String (List MapRow) :=
  match err with
  | some e => Except.error e
  | none => whereMaps s.maps text

/-- The `Exec` of `DELETE FROM keys WHERE` + text: the store left and the rows affected. -/
def execDeleteKeys (err : Option String) (s : Store) (text : String) : Except String (Store × Int) :=
  match err with
  | some e => Except.error e
  | none =>
    match whereKeys s.keys text with
    | Except.error e => Except.error e
    | Except.ok hit =>
      Except.ok ({ s with keys := s.keys.filter (fun r => r ∉ hit) }, (hit.length : Int))

/-- The `Exec` of `DELETE FROM maps WHERE` + text. -/
def execDeleteMaps (err : Option String) (s : Store) (text : String) : Except String Store :=
  match err with
  | some e => Except.error e
  | none =>
    match whereMaps s.maps text with
    | Except.error e => Except.error e
    | Except.ok hit => Except.ok { s with maps := s.maps.filter (fun r => r ∉ hit) }

/-- The `Exec` of `DELETE FROM keys WHERE ttl < now`. -/
def execSweep (err : Option String) (s : Store) (now : Int) : Except String Store :=
  match err with
  | some e => Except.error e
  | none => Except.ok { s with keys := s.keys.filter (fun r => ¬ (r.ttl < now)) }

/-- The uniqueness constraint `columns_unique_key` of table `keys`. -/
def KeyRow.conflicts (a b : KeyRow) : Bool :=
  a.columns = b.columns ∧ a.table_hash = b.table_hash

/-- The uniqueness constraint `map_columns_unique_key` of table `maps`. -/
def MapRow.conflicts (a b : MapRow) : Bool :=
  a.columns = b.columns ∧ a.table_hash = b.table_hash ∧ a.object_key_hash = b.object_key_hash

/-- The clause `DO UPDATE SET value = EXCLUDED.value, ttl = EXCLUDED.ttl` on a row of `keys`. -/
def KeyRow.updated (r row : KeyRow) : KeyRow :=
  if r.conflicts row then { r with value := row.value, ttl := row.ttl } else r

/-- The clause `DO UPDATE SET value = EXCLUDED.value` on a row of `maps`. -/
def MapRow.updated (r row : MapRow) : MapRow :=
  if r.conflicts row then { r with value := row.value } else r

/-- The rows of `keys` after an insert with `DO UPDATE SET value, ttl` on conflict: the
conflicting row takes the new value and ttl, and without conflict the row is appended. -/
def upsertKey (rows : List KeyRow) (row : KeyRow) : List KeyRow :=
  if rows.any (fun r => r.conflicts row) then rows.map (fun r => r.updated row)
  else rows ++ [row]

/-- The rows of `maps` after an insert with `DO UPDATE SET value` on conflict. -/
def upsertMap (rows : List MapRow) (row : MapRow) : List MapRow :=
  if rows.any (fun r => r.conflicts row) then rows.map (fun r => r.updated row)
  else rows ++ [row]

/-- The `Exec` of the `INSERT INTO keys ... VALUES (...)` statement with its upsert clause
(`ON CONFLICT(...) DO UPDATE SET value, ttl` / `ON DUPLICATE KEY UPDATE value, ttl`):
the text values are given as the driver splices them, between single quotes and unescaped.
When each text is read back as one literal, the statement is the one the driver assembled
and its effect is the upsert of the row read.  When a text ends its literal early, the text
handed to `Exec` is not that statement: the backend parses it as it stands, rejects it in
most cases, and runs it when it happens to be a statement or a script of its own (which may
then write other rows or touch the other table).  Only the rejection is modelled here, so
this branch says nothing of a text built to be run; what is stated of the rows a write
leaves is stated for texts with `literalSafe`, which never reach this branch. -/
def execInsertKey (d : Dialect) (err : Option String) (s : Store) (table : String)
    (tableHash : Nat) (key : String) (columns : List Nat) (value : String) (ttl : Int) :
    Except String Store :=
  match err with
  | some e => Except.error e
  | none =>
    match sqlText d table, sqlText d key, sqlText d value with
    | some t, some k, some v =>
      let row : KeyRow :=
        { table := t, table_hash := tableHash, key := k, columns := columns, value := v, ttl := ttl }
      Except.ok { s with keys := upsertKey s.keys row }
    | _, _, _ => Except.error syntaxError

/-- The `Exec` of the `INSERT INTO maps ... VALUES (...)` statement with its upsert clause
(`DO UPDATE SET value`), the text values spliced as in `execInsertKey`; as there, a text
that ends its literal early is taken to be rejected, which leaves out a text built to be
run by the backend, and what is stated of the rows a write leaves is stated for texts with
`literalSafe`. -/
def execInsertMap (d : Dialect) (err : Option String) (s : Store) (table : String)
    (tableHash : Nat) (key objectKey : String) (objectKeyHash : Nat) (columns : List Nat)
    (value : String) : Except String Store :=
  match err with
  | some e => Except.error e
  | none =>
    match sqlText d table, sqlText d key, sqlText d objectKey, sqlText d value with
    | some t, some k, some o, some v =>
      let row : MapRow :=
        { table := t, table_hash := tableHash, key := k, columns := columns, value := v,
          object_key := o, object_key_hash := objectKeyHash }
      Except.ok { s with maps := upsertMap s.maps row }
    | _, _, _, _ => Except.error syntaxError

/-! ## Time -/

def maxInt64 : Int := 9223372036854775807

/-- The value an `int64` holds after arithmetic that may overflow. -/
def wrapInt64 (x : Int) : Int := (x + 2 ^ 63) % 2 ^ 64 - 2 ^ 63

/-- Embeds `Time.UnixNano()` of the instant `t` nanoseconds after the epoch. -/
def UnixNano (t : Int) : Int := wrapInt64 t

/-- Embeds `time.Now().UnixNano() / int64(time.Millisecond)` at the clock reading `t`. -/
def nowMillis (t : Int) : Int := (UnixNano t).tdiv 1000000

/-- Embeds `Duration.Milliseconds()` of a duration in nanoseconds. -/
def Milliseconds (d : Int) : Int := d.tdiv 1000000

/-- The `ttl` that `SetKey` writes, at clock reading `clock`, for `expiration`. -/
def untilMilliseconds (clock expiration : Int) : Int :=
  let untilTime := if Milliseconds expiration ≤ 0 then maxInt64 else clock + expiration
  (UnixNano untilTime).tdiv 1000000

/-! ## The SQL drivers

`SQLiteStorage`, `MySQLStorage` and `PostgreSQLStorage` carry the same methods; the
source texts differ in the quoting of identifiers, in the upsert clause, and in `GetKeys`,
which the SQLite driver ends after the query on `keys`.  One definition per method, under
`SQLStorage`, embeds the three; it takes the dialect as a parameter where the dialect matters (the reading of
spliced text values, and `GetKeys`). -/

/-- The message of the segment-count check. -/
def tooManyColumns : String := "Too many data columns"

/-- The outcome recorded where the source would panic on an index out of range. -/
def indexPanic : String := "panic: runtime error: index out of range"

/-- The ten values written to `column_1_hash` .. `column_10_hash`: the loop
`for i := 1; i <= NumberOfColumns; i++` of `SetKey` and `AddToMap`. -/
def paddedHashes (hashes : List Nat) : List Nat :=
  (List.range NumberOfColumns).map (fun j =>
    if j + 1 ≤ hashes.length then hashes.getD j 0 else 0)

/-- The text after `WHERE` in the statements on `keys` and in `GetMap`. -/
def whereTable (tableHash : Nat) (clause : String) : String :=
  let sql := "table_hash = " ++ Itoa tableHash
  if clause ≠ "" then sql ++ " AND " ++ clause else sql

/-- The text after `WHERE` in `DelFromMap` and `GetFromMap`. -/
def whereObject (tableHash objectKeyHash : Nat) (clause : String) : String :=
  let sql := "table_hash = " ++ Itoa tableHash ++ " AND object_key_hash = " ++ Itoa objectKeyHash
  if clause ≠ "" then sql ++ " AND " ++ clause else sql

/-- Embeds `KeysCleanUp`, the expiry sweep, throttled by `LastTruncate`. -/
def SQLStorage.KeysCleanUp (env : Env) (s : Store) : Option String × Store :=
  let now := nowMillis env.sweepClock
  if now - s.LastTruncate > TruncateInterval then
    match execSweep env.sweepErr s now with
    | Except.error err => (some err, s)
    | Except.ok s1 =>
      match env.sweepRowsErr with
      | some err => (some err, s1)
      | none => (none, { s1 with LastTruncate := now })
  else (none, s)

/-- The row loop of `GetKeys` over the `keys` cursor. -/
def unexpiredKeyNames (now : Int) (rows : List KeyRow) : List String :=
  (rows.filter (fun r => r.ttl ≥ now)).map (fun r => r.table ++ "/" ++ r.key)

/-- Embeds `GetKeys(table, pattern)`: the keys (`[]` also stands for the nil slice) and the error. -/
def SQLStorage.GetKeys (d : Dialect) (env : Env) (s : Store) (table pattern : String) :
    (List String × Option String) × Store :=
  match SQLStorage.KeysCleanUp env s with
  | (some err, s1) => (([], some err), s1)
  | (none, s1) =>
    let columns := SplitToParts pattern
    if columns.length > NumberOfColumns then (([], some tooManyColumns), s1)
    else
      let hashes := CalculateHashesOfColumns columns
      let tableHash := CalculateHash table
      match CreateWhereClause columns hashes with
      | none => (([], some indexPanic), s1)
      | some clause =>
        let now := nowMillis env.opClock
        match queryKeys env.stmtErr s1 (whereTable tableHash clause) with
        | Except.error err => (([], some err), s1)
        | Except.ok rows =>
          let keys := unexpiredKeyNames now rows
          if d = Dialect.sqlite then ((keys, none), s1)
          else
            match queryMaps env.stmtErr2 s1 (whereTable tableHash clause) with
            | Except.error err => (([], some err), s1)
            | Except.ok mrows => ((keys ++ mrows.map (fun r => r.table ++ "/" ++ r.key), none), s1)

/-- Embeds `SetKey(table, key, value, expiration)`, `expiration` in nanoseconds. -/
def SQLStorage.SetKey (d : Dialect) (env : Env) (s : Store) (table key value : String) (expiration : Int) :
    Option String × Store :=
  match SQLStorage.KeysCleanUp env s with
  | (some err, s1) => (some err, s1)
  | (none, s1) =>
    let columns := SplitToParts key
    if columns.length > NumberOfColumns then (some tooManyColumns, s1)
    else
      let hashes := CalculateHashesOfColumns columns
      let tableHash := CalculateHash table
      match execInsertKey d env.stmtErr s1 table tableHash key (paddedHashes hashes) value
          (untilMilliseconds env.opClock expiration) with
      | Except.error err => (some err, s1)
      | Except.ok s2 => (none, s2)

/-- The row loop of `GetKey`: the value of the first row with `ttl >= now`. -/
def firstUnexpired (now : Int) : List KeyRow → String
  | [] => ""
  | r :: rows => if r.ttl ≥ now then r.value else firstUnexpired now rows

/-- Embeds `GetKey(table, key)`. -/
def SQLStorage.GetKey (env : Env) (s : Store) (table key : String) : (String × Option String) × Store :=
  match SQLStorage.KeysCleanUp env s with
  | (some err, s1) => (("", some err), s1)
  | (none, s1) =>
    let columns := SplitToParts key
    if columns.length > NumberOfColumns then (("", some tooManyColumns), s1)
    else
      let hashes := CalculateHashesOfColumns columns
      let tableHash := CalculateHash table
      match CreateWhereClause columns hashes with
      | none => (("", some indexPanic), s1)
      | some clause =>
        let now := nowMillis env.opClock
        match queryKeys env.stmtErr s1 (whereTable tableHash clause) with
        | Except.error err => (("", some err), s1)
        | Except.ok rows => ((firstUnexpired now rows, none), s1)

/-- The loop of `GetFullKey` that joins `parts[1:]` with `/`. -/
def joinRest : List String → String
  | [] => ""
  | [part] => part
  | part :: rest => part ++ "/" ++ joinRest rest

/-- Embeds `GetFullKey(key)`. -/
def SQLStorage.GetFullKey (env : Env) (s : Store) (key : String) : (String × Option String) × Store :=
  match SplitToParts key with
  | [] => (("", some indexPanic), s)
  | table :: rest => SQLStorage.GetKey env s table (joinRest rest)

/-- Embeds `DelKey(table, key)`: the rows affected and the error. -/
def SQLStorage.DelKey (env : Env) (s : Store) (table key : String) : (Int × Option String) × Store :=
  match SQLStorage.KeysCleanUp env s with
  | (some err, s1) => ((0, some err), s1)
  | (none, s1) =>
    let columns := SplitToParts key
    if columns.length > NumberOfColumns then ((-1, some tooManyColumns), s1)
    else
      let hashes := CalculateHashesOfColumns columns
      let tableHash := CalculateHash table
      match CreateWhereClause columns hashes with
      | none => ((-1, some indexPanic), s1)
      | some clause =>
        match execDeleteKeys env.stmtErr s1 (whereTable tableHash clause) with
        | Except.error err => ((-1, some err), s1)
        | Except.ok (s2, affected) =>
          match env.rowsErr with
          | some err => ((0, some err), s2)
          | none => ((affected, none), s2)

/-- Embeds `AddToMap(table, key, objectKey, object)`. -/
def SQLStorage.AddToMap (d : Dialect) (env : Env) (s : Store) (table key objectKey object : String) :
    Option String × Store :=
  let columns := SplitToParts key
  if columns.length > NumberOfColumns then (some tooManyColumns, s)
  else
    let hashes := CalculateHashesOfColumns columns
    let tableHash := CalculateHash table
    let objectKeyHash := CalculateHash objectKey
    match execInsertMap d env.stmtErr s table tableHash key objectKey objectKeyHash
        (paddedHashes hashes) object with
    | Except.error err => (some err, s)
    | Except.ok s1 => (none, s1)

/-- Embeds `DelFromMap(table, key, objectKey)`. -/
def SQLStorage.DelFromMap (env : Env) (s : Store) (table key objectKey : String) : Option String × Store :=
  let columns := SplitToParts key
  if columns.length > NumberOfColumns then (some tooManyColumns, s)
  else
    let hashes := CalculateHashesOfColumns columns
    let tableHash := CalculateHash table
    let objectKeyHash := CalculateHash objectKey
    match CreateWhereClause columns hashes with
    | none => (some indexPanic, s)
    | some clause =>
      match execDeleteMaps env.stmtErr s (whereObject tableHash objectKeyHash clause) with
      | Except.error err => (some err, s)
      | Except.ok s1 => (none, s1)

/-- Embeds `GetFromMap(table, key, objectKey)`: the value of the first row, or the empty string. -/
def SQLStorage.GetFromMap (env : Env) (s : Store) (table key objectKey : String) :
    (String × Option String) × Store :=
  let columns := SplitToParts key
  if columns.length > NumberOfColumns then (("", some tooManyColumns), s)
  else
    let hashes := CalculateHashesOfColumns columns
    let tableHash := CalculateHash table
    let objectKeyHash := CalculateHash objectKey
    match CreateWhereClause columns hashes with
    | none => (("", some indexPanic), s)
    | some clause =>
      match queryMaps env.stmtErr s (whereObject tableHash objectKeyHash clause) with
      | Except.error err => (("", some err), s)
      | Except.ok [] => (("", none), s)
      | Except.ok (r :: _) => ((r.value, none), s)

/-- The assignment `result[objectKey] = value` on a Go map kept as an association list. -/
def mapAssign (result : List (String × String)) (objectKey value : String) :
    List (String × String) :=
  if result.any (fun e => e.1 = objectKey) then
    result.map (fun e => if e.1 = objectKey then (objectKey, value) else e)
  else result ++ [(objectKey, value)]

/-- Embeds `GetMap(table, key)`: the map (`[]` also stands for the nil map) and the error. -/
def SQLStorage.GetMap (env : Env) (s : Store) (table key : String) :
    (List (String × String) × Option String) × Store :=
  let columns := SplitToParts key
  if columns.length > NumberOfColumns then (([], some tooManyColumns), s)
  else
    let hashes := CalculateHashesOfColumns columns
    let tableHash := CalculateHash table
    match CreateWhereClause columns hashes with
    | none => (([], some indexPanic), s)
    | some clause =>
      match queryMaps env.stmtErr s (whereTable tableHash clause) with
      | Except.error err => (([], some err), s)
      | Except.ok rows =>
        ((rows.foldl (fun result r => mapAssign result r.object_key r.value) [], none), s)

open SQLStorage

/-- The store right after the schema is created: both tables empty, `LastTruncate = 0`. -/
def Store.empty : Store := { keys := [], maps := [], LastTruncate := 0 }

/-! ## The clause as the specification words it -/

/-- The condition for path position `i` (1-based) and hash `h`: `column_<i>_hash = <h>`. -/
def whereTerm (i h : Nat) : String := "column_" ++ Itoa i ++ "_hash" ++ " = " ++ Itoa h

/-- The terms for the positions `index <= j < index + count` that do not hold `*`. -/
def termsRange (columns : List String) (hashes : List Nat) (index count : Nat) : List String :=
  ((List.range' index count).filter (fun j => columns.getD j "" ≠ "*")).map
    (fun j => whereTerm (j + 1) (hashes.getD j 0))

/-- The terms of a clause: one for each 1-based position `i` with `columns[i-1] != "*"`,
in increasing `i`, carrying `hashes[i-1]` in decimal. -/
def whereTerms (columns : List String) (hashes : List Nat) : List String :=
  ((List.range columns.length).filter (fun j => columns.getD j "" ≠ "*")).map
    (fun j => whereTerm (j + 1) (hashes.getD j 0))

/-- The text of one condition after `WHERE`. -/
def condText (c : String × Nat) : String := c.1 ++ " = " ++ Itoa c.2

/-- What `table_hash = <tableHash>` and the clause built from `columns` and `hashes` ask
of the hash columns of a row: the table hash, and the hash of every position of the path
that does not hold `*`. -/
def hashesMatch (tableHash : Nat) (columns : List String) (hashes : List Nat)
    (rowTableHash : Nat) (rowColumns : List Nat) : Bool :=
  rowTableHash = tableHash ∧
    (List.range columns.length).all (fun j =>
      columns.getD j "" = "*" ∨ rowColumns.getD j 0 = hashes.getD j 0)

/-- The conditions of a clause: column name and hash for each position without `*`. -/
def columnConds (columns : List String) (hashes : List Nat) : List (String × Nat) :=
  ((List.range columns.length).filter (fun j => columns.getD j "" ≠ "*")).map
    (fun j => ("column_" ++ Itoa (j + 1) ++ "_hash", hashes.getD j 0))

/-! ## The Redis driver

The server is modelled by its keyspace: string values with an optional expiry instant
(milliseconds) and hashes.  Every command first drops the string values that have
expired at the clock reading of the operation. -/

inductive RedisValue where
  | str (value : String) (expireAt : Option Int)
  | hash (fields : List (String × String))
  deriving DecidableEq, Repr

/-- The keyspace, in insertion order. -/
abbrev RedisDB := List (String × RedisValue)

/-- The message of `redis.Nil`. -/
def redisNil : String := "redis: nil"

/-- The reply to a command on a key that holds the other kind of value. -/
def wrongType : String :=
  "WRONGTYPE Operation against a key holding the wrong kind of value"

/-- Whether an entry has not expired at `now` (milliseconds). -/
def RedisValue.live (now : Int) : RedisValue → Bool
  | RedisValue.str _ (some expireAt) => now ≤ expireAt
  | _ => true

/-- The keyspace without the entries expired at `now`. -/
def purge (now : Int) (db : RedisDB) : RedisDB :=
  db.filter (fun e => e.2.live now)

/-- The value a key holds. -/
def redisFind (db : RedisDB) (key : String) : Option RedisValue :=
  (db.find? (fun e => e.1 = key)).map (fun e => e.2)

/-- Writing a value under a key: in place when the key exists, at the end otherwise. -/
def redisPut (db : RedisDB) (key : String) (v : RedisValue) : RedisDB :=
  if db.any (fun e => e.1 = key) then db.map (fun e => if e.1 = key then (key, v) else e)
  else db ++ [(key, v)]

/-- The matching of a character class `[...]` of a glob pattern, after the `[`: whether
`c` is in the class (before negation) and the pattern left after the `]`. -/
def globClass (c : Char) : List Char → Bool → Bool × List Char
  | [], hit => (hit, [])
  | p :: ps, hit =>
    if p = Char.ofNat 93 then (hit, ps)
    else if p = Char.ofNat 92 then
      match ps with
      | q :: qs => globClass c qs (hit || q = c)
      | [] => (hit, [])
    else
      match ps with
      | m :: e :: rest =>
        if m = Char.ofNat 45 ∧ e ≠ Char.ofNat 93 then
          let lo := min p.toNat e.toNat
          let hi := max p.toNat e.toNat
          globClass c rest (hit || (lo ≤ c.toNat ∧ c.toNat ≤ hi))
        else globClass c (m :: e :: rest) (hit || p = c)
      | rest => globClass c rest (hit || p = c)
termination_by ps => ps.length

/-- The glob matching of the `KEYS` command (`*`, `?`, `[...]` and `\` escapes), on
characters; `fuel` bounds the steps. -/
def globMatch : Nat → List Char → List Char → Bool
  | 0, _, _ => false
  | _ + 1, [], [] => true
  | _ + 1, [], _ :: _ => false
  | fuel + 1, p :: ps, text =>
    if p = Char.ofNat 42 then
      match text with
      | [] => globMatch fuel ps []
      | c :: cs => globMatch fuel ps (c :: cs) || globMatch fuel (p :: ps) cs
    else
      match text with
      | [] => false
      | c :: cs =>
        if p = Char.ofNat 63 then globMatch fuel ps cs
        else if p = Char.ofNat 91 then
          let negated := ps.head? = some (Char.ofNat 94)
          let r := globClass c (if negated then ps.drop 1 else ps) false
          (r.1 != negated) && globMatch fuel r.2 cs
        else if p = Char.ofNat 92 then
          match ps with
          | q :: qs => q = c && globMatch fuel qs cs
          | [] => p = c && globMatch fuel [] cs
        else p = c && globMatch fuel ps cs

/-- Whether a key matches a `KEYS` pattern. -/
def keyMatches (pattern key : String) : Bool :=
  globMatch (2 * (pattern.length + key.length) + 2) pattern.data key.data

/-- The characters `strings.Fields` splits on. -/
def isSpace (c : Char) : Bool :=
  c.toNat ∈ [9, 10, 11, 12, 13, 32, 0x85, 0xA0, 0x1680, 0x2028, 0x2029, 0x202F, 0x205F, 0x3000]
    ∨ (0x2000 ≤ c.toNat ∧ c.toNat ≤ 0x200A)

/-- Embeds `strings.Fields` on characters. -/
def fieldsAux : List Char → List Char → List String
  | [], cur => if cur = [] then [] else [String.mk cur.reverse]
  | c :: cs, cur =>
    if isSpace c then
      if cur = [] then fieldsAux cs [] else String.mk cur.reverse :: fieldsAux cs []
    else fieldsAux cs (c :: cur)

/-- Embeds `strings.Fields`. -/
def Fields (s : String) : List String := fieldsAux s.data []

namespace RedisStorage

/-- Embeds `RedisStorage.GetKeys`: the reply of `KEYS table/pattern` is printed with `%v`, its
brackets are cut off and the rest is split by `strings.Fields`. -/
def GetKeys (env : Env) (db : RedisDB) (table pattern : String) :
    (List String × Option String) × RedisDB :=
  let db := purge (nowMillis env.opClock) db
  match env.stmtErr with
  | some err => (([], some err), db)
  | none =>
    let reply := (db.filter (fun e => keyMatches (table ++ "/" ++ pattern) e.1)).map (fun e => e.1)
    let keysString := " ".intercalate reply
    ((Fields keysString, none), db)

/-- The arguments `Set` sends for an expiration: `none` (no expiry), or the instant, in
milliseconds, at which the value expires (`PX` below a second or off a whole second,
`EX` otherwise; a positive duration below the unit counts as one unit). -/
def redisExpiry (now expiration : Int) : Option Int :=
  if expiration > 0 then
    if expiration < 1000000000 ∨ expiration % 1000000000 ≠ 0 then
      some (now + (if expiration < 1000000 then 1 else expiration.tdiv 1000000))
    else some (now + expiration.tdiv 1000000000 * 1000)
  else none

/-- Embeds `RedisStorage.SetKey`. -/
def SetKey (env : Env) (db : RedisDB) (table key value : String) (expiration : Int) :
    Option String × RedisDB :=
  let now := nowMillis env.opClock
  let db := purge now db
  match env.stmtErr with
  | some err => (some err, db)
  | none =>
    let keep : Option Int :=
      match redisFind db (table ++ "/" ++ key) with
      | some (RedisValue.str _ e) => e
      | _ => none
    let expireAt := if expiration = -1 then keep else redisExpiry now expiration
    (none, redisPut db (table ++ "/" ++ key) (RedisValue.str value expireAt))

/-- The command `GET`. -/
def redisGet (env : Env) (db : RedisDB) (key : String) : (String × Option String) × RedisDB :=
  let db := purge (nowMillis env.opClock) db
  match env.stmtErr with
  | some err => (("", some err), db)
  | none =>
    match redisFind db key with
    | none => (("", some redisNil), db)
    | some (RedisValue.hash _) => (("", some wrongType), db)
    | some (RedisValue.str value _) => ((value, none), db)

/-- The treatment of the error of `Get` in `GetKey` and `GetFullKey`. -/
def nilIsAbsent (r : (String × Option String) × RedisDB) : (String × Option String) × RedisDB :=
  match r.1.2 with
  | some err => if err = redisNil then (("", none), r.2) else (("", some err), r.2)
  | none => r

/-- Embeds `RedisStorage.GetFullKey`. -/
def GetFullKey (env : Env) (db : RedisDB) (key : String) : (String × Option String) × RedisDB :=
  nilIsAbsent (redisGet env db key)

/-- Embeds `RedisStorage.GetKey`. -/
def GetKey (env : Env) (db : RedisDB) (table key : String) :
    (String × Option String) × RedisDB :=
  nilIsAbsent (redisGet env db (table ++ "/" ++ key))

/-- Embeds `RedisStorage.DelKey`. -/
def DelKey (env : Env) (db : RedisDB) (table key : String) : (Int × Option String) × RedisDB :=
  let db := purge (nowMillis env.opClock) db
  match env.stmtErr with
  | some err => ((-1, some err), db)
  | none =>
    if db.any (fun e => e.1 = table ++ "/" ++ key) then
      ((1, none), db.filter (fun e => e.1 ≠ table ++ "/" ++ key))
    else ((0, none), db)

/-- Embeds `RedisStorage.AddToMap`. -/
def AddToMap (env : Env) (db : RedisDB) (table key objectKey object : String) :
    Option String × RedisDB :=
  let db := purge (nowMillis env.opClock) db
  match env.stmtErr with
  | some err => (some err, db)
  | none =>
    match redisFind db (table ++ "/" ++ key) with
    | some (RedisValue.str _ _) => (some wrongType, db)
    | some (RedisValue.hash fields) =>
      (none, redisPut db (table ++ "/" ++ key) (RedisValue.hash (mapAssign fields objectKey object)))
    | none => (none, redisPut db (table ++ "/" ++ key) (RedisValue.hash [(objectKey, object)]))

/-- Embeds `RedisStorage.DelFromMap`. -/
def DelFromMap (env : Env) (db : RedisDB) (table key objectKey : String) :
    Option String × RedisDB :=
  let db := purge (nowMillis env.opClock) db
  match env.stmtErr with
  | some err => (some err, db)
  | none =>
    match redisFind db (table ++ "/" ++ key) with
    | some (RedisValue.str _ _) => (some wrongType, db)
    | some (RedisValue.hash fields) =>
      let left := fields.filter (fun e => e.1 ≠ objectKey)
      if left = [] then (none, db.filter (fun e => e.1 ≠ table ++ "/" ++ key))
      else (none, redisPut db (table ++ "/" ++ key) (RedisValue.hash left))
    | none => (none, db)

/-- Embeds `RedisStorage.GetFromMap`: the error of `HGet`, `redis.Nil` included, is returned. -/
def GetFromMap (env : Env) (db : RedisDB) (table key objectKey : String) :
    (String × Option String) × RedisDB :=
  let db := purge (nowMillis env.opClock) db
  match env.stmtErr with
  | some err => (("", some err), db)
  | none =>
    match redisFind db (table ++ "/" ++ key) with
    | some (RedisValue.str _ _) => (("", some wrongType), db)
    | some (RedisValue.hash fields) =>
      match fields.find? (fun e => e.1 = objectKey) with
      | some e => ((e.2, none), db)
      | none => (("", some redisNil), db)
    | none => (("", some redisNil), db)

/-- Embeds `RedisStorage.GetMap`. -/
def GetMap (env : Env) (db : RedisDB) (table key : String) :
    (List (String × String) × Option String) × RedisDB :=
  let db := purge (nowMillis env.opClock) db
  match env.stmtErr with
  | some err => (([], some err), db)
  | none =>
    match redisFind db (table ++ "/" ++ key) with
    | some (RedisValue.str _ _) => (([], some wrongType), db)
    | some (RedisValue.hash fields) =>
      ((fields.foldl (fun result e => mapAssign result e.1 e.2) [], none), db)
    | none => (([], none), db)

end RedisStorage

/-! ## Library functions of the facade -/

/-- Embeds `strconv.ParseInt(s, 10, 64)`; `none` is a syntax or range error. -/
def ParseInt (s : String) : Option Int :=
  let signed : Bool × List Char :=
    match s.data with
    | c :: cs =>
      if c = Char.ofNat 43 then (false, cs) else if c = Char.ofNat 45 then (true, cs)
      else (false, c :: cs)
    | [] => (false, [])
  if signed.2 = [] ∨ ¬ signed.2.all Char.isDigit then none
  else
    let n : Int := digitsValue signed.2
    if signed.1 then (if n ≤ 2 ^ 63 then some (-n) else none)
    else (if n < 2 ^ 63 then some n else none)

/-- The alphabet of `base64.StdEncoding`. -/
def base64Alphabet : List Char :=
  "ABCDEFGHIJKLMNOPQRSTUVWXYZabcdefghijklmnopqrstuvwxyz0123456789+/".data

def base64Char (i : Nat) : Char := base64Alphabet.getD i (Char.ofNat 65)

/-- Embeds `base64.StdEncoding.EncodeToString` on bytes. -/
def base64Encode : List Nat → List Char
  | a :: b :: c :: rest =>
    base64Char (a / 4) :: base64Char (a % 4 * 16 + b / 16) :: base64Char (b % 16 * 4 + c / 64)
      :: base64Char (c % 64) :: base64Encode rest
  | [a, b] =>
    [base64Char (a / 4), base64Char (a % 4 * 16 + b / 16), base64Char (b % 16 * 4), Char.ofNat 61]
  | [a] => [base64Char (a / 4), base64Char (a % 4 * 16), Char.ofNat 61, Char.ofNat 61]
  | [] => []

/-- The value of a character of the alphabet. -/
def base64Value (c : Char) : Option Nat :=
  let i := base64Alphabet.indexOf c
  if i < 64 then some i else none

/-- The quantum decoder of `base64.StdEncoding.DecodeString`, on text without line breaks. -/
def base64DecodeAux : List Char → Option (List Nat)
  | [] => some []
  | [a, b, c, d] =>
    match base64Value a, base64Value b with
    | some x, some y =>
      if c = Char.ofNat 61 then
        if d = Char.ofNat 61 then some [x * 4 + y / 16] else none
      else
        match base64Value c with
        | some z =>
          if d = Char.ofNat 61 then some [x * 4 + y / 16, y % 16 * 16 + z / 4]
          else
            match base64Value d with
            | some u => some [x * 4 + y / 16, y % 16 * 16 + z / 4, z % 4 * 64 + u]
            | none => none
        | none => none
    | _, _ => none
  | a :: b :: c :: d :: rest =>
    match base64Value a, base64Value b, base64Value c, base64Value d, base64DecodeAux rest with
    | some x, some y, some z, some u, some bytes =>
      some ((x * 4 + y / 16) :: (y % 16 * 16 + z / 4) :: (z % 4 * 64 + u) :: bytes)
    | _, _, _, _, _ => none
  | _ => none

/-- Embeds `base64.StdEncoding.DecodeString`: line breaks are skipped; `none` is a corrupt input. -/
def base64Decode (s : String) : Option (List Nat) :=
  base64DecodeAux (s.data.filter (fun c => c ≠ Char.ofNat 10 ∧ c ≠ Char.ofNat 13))

/-- The message of `base64.CorruptInputError`. -/
def corruptInput : String := "illegal base64 data"

/-- What the facade needs of `encoding/json` for the objects of type `α` it stores:
`json.Marshal` and `json.Unmarshal` into a fresh element, on bytes. -/
structure Codec (α : Type) where
  marshal : α → Except String (List Nat)
  unmarshal : List Nat → Except String α

/-- The text a list of UTF-8 bytes spells; every byte below 128 is its own character, which
covers the base64 alphabet. -/
def textOfBytes (bytes : List Nat) : String := String.mk (bytes.map Char.ofNat)

/-- The types `reflect.TypeOf` can report, as far as `GetMap` looks into them. -/
inductive GoType where
  | bool
  | int
  | float64
  | string
  | struct
  | interface
  | func
  | ptr (elem : GoType)
  | slice (elem : GoType)
  | array (elem : GoType)
  | chan (elem : GoType)
  | map (key elem : GoType)
  deriving DecidableEq, Repr

/-- Embeds `reflect.Kind`, by name. -/
def GoType.Kind : GoType → String
  | GoType.bool => "bool"
  | GoType.int => "int"
  | GoType.float64 => "float64"
  | GoType.string => "string"
  | GoType.struct => "struct"
  | GoType.interface => "interface"
  | GoType.func => "func"
  | GoType.ptr _ => "ptr"
  | GoType.slice _ => "slice"
  | GoType.array _ => "array"
  | GoType.chan _ => "chan"
  | GoType.map _ _ => "map"

/-- Embeds `Type.Elem()`; `none` is its panic. -/
def GoType.Elem : GoType → Option GoType
  | GoType.ptr e => some e
  | GoType.slice e => some e
  | GoType.array e => some e
  | GoType.chan e => some e
  | GoType.map _ e => some e
  | _ => none

/-- Embeds `Type.Key()`; `none` is its panic. -/
def GoType.Key : GoType → Option GoType
  | GoType.map k _ => some k
  | _ => none

/-- The shape test of `GetMap`, with the short-circuit evaluation of `||`:
`some true` when the type is rejected, `none` when a `reflect` call panics. -/
def shapeRejected (paramType : GoType) : Option Bool :=
  if paramType.Kind ≠ "ptr" then some true
  else
    match paramType.Elem with
    | none => none
    | some container =>
      if container.Kind ≠ "map" then some true
      else
        match container.Key, container.Elem with
        | some key, some message =>
          if key.Kind ≠ "string" then some true else some (decide (message.Kind ≠ "ptr"))
        | _, _ => none

/-- A non-nil `reference` handed to `GetMap`: its dynamic type, whether the pointer it
holds is nil, and the entries of the map it points to (`[]` also for a nil map). -/
structure Reference (α : Type) where
  type : GoType
  nilPointer : Bool
  content : List (String × α)

/-! ## `storage.go`: `CreateStorage`, and `generic_storage.go` -/

/-- The value of `credentials[name]`. -/
def credential (credentials : List (String × String)) (name : String) : String :=
  ((credentials.find? (fun e => e.1 = name)).map (fun e => e.2)).getD ""

/-- The concrete type behind the `Storage` interface. -/
inductive Driver where
  | redis
  | sql (d : Dialect)
  deriving DecidableEq, Repr

/-- What the facade works on: the relational database and the Redis keyspace its
credentials address, and counts of the `Setup`, `Create` and `Destroy` calls made. -/
structure World where
  sql : Store
  redis : RedisDB
  setups : Nat
  opened : Nat
  closed : Nat
  deriving DecidableEq, Repr

/-- The `Create` method of a driver: Redis parses `credentials["db"]`, the SQL drivers call
`sql.Open`. -/
def Driver.Create (driver : Driver) (env : Env) (credentials : List (String × String)) :
    Option String :=
  match driver with
  | Driver.redis =>
    match ParseInt (credential credentials "db") with
    | none => some "strconv.ParseInt: parsing: invalid syntax"
    | some _ => none
  | Driver.sql _ => env.openErr

/-- The body shared by the four cases of `CreateStorage`. -/
def createDriver (driver : Driver) (env : Env) (w : World) (credentials : List (String × String))
    (setup : Bool) : (Option Driver × Option String) × World :=
  let w1 := if setup = true then { w with setups := w.setups + 1 } else w
  match driver.Create env credentials with
  | some err => ((some driver, some err), w1)
  | none => ((some driver, none), { w1 with opened := w1.opened + 1 })

/-- Embeds `CreateStorage(credentials, storageType, setup)`. -/
def CreateStorage (env : Env) (w : World) (credentials : List (String × String))
    (storageType : String) (setup : Bool) : (Option Driver × Option String) × World :=
  if storageType = REDIS_STORAGE then createDriver Driver.redis env w credentials setup
  else if storageType = SQLITE_STORAGE then
    createDriver (Driver.sql Dialect.sqlite) env w credentials setup
  else if storageType = POSTGRE_SQL_STORAGE then
    createDriver (Driver.sql Dialect.postgresql) env w credentials setup
  else if storageType = MY_SQL_STORAGE then
    createDriver (Driver.sql Dialect.mysql) env w credentials setup
  else ((none, some "No such storage type"), w)

/-- Embeds `storage.Destroy()`. -/
def destroy (w : World) : World := { w with closed := w.closed + 1 }

/-- Running a method of the SQL drivers on the world. -/
def onSql {α : Type} (w : World) (r : α × Store) : α × World := (r.1, { w with sql := r.2 })

/-- Running a method of the Redis driver on the world. -/
def onRedis {α : Type} (w : World) (r : α × RedisDB) : α × World := (r.1, { w with redis := r.2 })

namespace Driver

def GetKeys (driver : Driver) (env : Env) (w : World) (table pattern : String) :
    (List String × Option String) × World :=
  match driver with
  | redis => onRedis w (RedisStorage.GetKeys env w.redis table pattern)
  | sql d => onSql w (SQLStorage.GetKeys d env w.sql table pattern)

def SetKey (driver : Driver) (env : Env) (w : World) (table key value : String)
    (expiration : Int) : Option String × World :=
  match driver with
  | redis => onRedis w (RedisStorage.SetKey env w.redis table key value expiration)
  | sql d => onSql w (SQLStorage.SetKey d env w.sql table key value expiration)

def GetFullKey (driver : Driver) (env : Env) (w : World) (key : String) :
    (String × Option String) × World :=
  match driver with
  | redis => onRedis w (RedisStorage.GetFullKey env w.redis key)
  | sql _ => onSql w (SQLStorage.GetFullKey env w.sql key)

def GetKey (driver : Driver) (env : Env) (w : World) (table key : String) :
    (String × Option String) × World :=
  match driver with
  | redis => onRedis w (RedisStorage.GetKey env w.redis table key)
  | sql _ => onSql w (SQLStorage.GetKey env w.sql table key)

def DelKey (driver : Driver) (env : Env) (w : World) (table key : String) :
    (Int × Option String) × World :=
  match driver with
  | redis => onRedis w (RedisStorage.DelKey env w.redis table key)
  | sql _ => onSql w (SQLStorage.DelKey env w.sql table key)

def AddToMap (driver : Driver) (env : Env) (w : World) (table key objectKey object : String) :
    Option String × World :=
  match driver with
  | redis => onRedis w (RedisStorage.AddToMap env w.redis table key objectKey object)
  | sql d => onSql w (SQLStorage.AddToMap d env w.sql table key objectKey object)

def DelFromMap (driver : Driver) (env : Env) (w : World) (table key objectKey : String) :
    Option String × World :=
  match driver with
  | redis => onRedis w (RedisStorage.DelFromMap env w.redis table key objectKey)
  | sql _ => onSql w (SQLStorage.DelFromMap env w.sql table key objectKey)

def GetFromMap (driver : Driver) (env : Env) (w : World) (table key objectKey : String) :
    (String × Option String) × World :=
  match driver with
  | redis => onRedis w (RedisStorage.GetFromMap env w.redis table key objectKey)
  | sql _ => onSql w (SQLStorage.GetFromMap env w.sql table key objectKey)

def GetMap (driver : Driver) (env : Env) (w : World) (table key : String) :
    (List (String × String) × Option String) × World :=
  match driver with
  | redis => onRedis w (RedisStorage.GetMap env w.redis table key)
  | sql _ => onSql w (SQLStorage.GetMap env w.sql table key)

end Driver

/-- The facade: credentials and the declared backend type. -/
structure GenericStorage where
  Credentials : List (String × String)
  StorageType : String
  deriving DecidableEq, Repr

/-- The outcome recorded where a method would be called on a nil `Storage`. -/
def nilStorage : String := "panic: runtime error: invalid memory address or nil pointer dereference"

namespace GenericStorage

/-- The opening of every facade method after the table check: `CreateStorage`, the
return of its error, and the driver for the call (`defer storage.Destroy()` is the
`destroy` applied to the world the call leaves). -/
def acquire (gs : GenericStorage) (env : Env) (w : World) : Except (String × World) (Driver × World) :=
  match CreateStorage env w gs.Credentials gs.StorageType false with
  | ((_, some err), w1) => Except.error (err, w1)
  | ((none, none), w1) => Except.error (nilStorage, w1)
  | ((some driver, none), w1) => Except.ok (driver, w1)

def GetKeys (gs : GenericStorage) (env : Env) (w : World) (table pattern : String) :
    (List String × Option String) × World :=
  match CheckTableName table with
  | some err => (([], some err), w)
  | none =>
    match gs.acquire env w with
    | Except.error (err, w1) => (([], some err), w1)
    | Except.ok (storage, w1) =>
      let r := storage.GetKeys env w1 table pattern
      (r.1, destroy r.2)

def SetKey (gs : GenericStorage) (env : Env) (w : World) (table key value : String)
    (expiration : Int) : Option String × World :=
  match CheckTableName table with
  | some err => (some err, w)
  | none =>
    match gs.acquire env w with
    | Except.error (err, w1) => (some err, w1)
    | Except.ok (storage, w1) =>
      let r := storage.SetKey env w1 table key value expiration
      (r.1, destroy r.2)

def GetFullKey (gs : GenericStorage) (env : Env) (w : World) (key : String) :
    (String × Option String) × World :=
  match gs.acquire env w with
  | Except.error (err, w1) => (("", some err), w1)
  | Except.ok (storage, w1) =>
    let r := storage.GetFullKey env w1 key
    (r.1, destroy r.2)

def GetKey (gs : GenericStorage) (env : Env) (w : World) (table key : String) :
    (String × Option String) × World :=
  match CheckTableName table with
  | some err => (("", some err), w)
  | none =>
    match gs.acquire env w with
    | Except.error (err, w1) => (("", some err), w1)
    | Except.ok (storage, w1) =>
      let r := storage.GetKey env w1 table key
      (r.1, destroy r.2)

def DelKey (gs : GenericStorage) (env : Env) (w : World) (table key : String) :
    (Int × Option String) × World :=
  match CheckTableName table with
  | some err => ((0, some err), w)
  | none =>
    match gs.acquire env w with
    | Except.error (err, w1) => ((0, some err), w1)
    | Except.ok (storage, w1) =>
      let r := storage.DelKey env w1 table key
      (r.1, destroy r.2)

/-- Embeds `AddToMap`: `json.Marshal`, then base64, then the driver. -/
def AddToMap {α : Type} (codec : Codec α) (gs : GenericStorage) (env : Env) (w : World)
    (table key objectKey : String) (object : α) : Option String × World :=
  match CheckTableName table with
  | some err => (some err, w)
  | none =>
    match gs.acquire env w with
    | Except.error (err, w1) => (some err, w1)
    | Except.ok (storage, w1) =>
      match codec.marshal object with
      | Except.error err => (some err, destroy w1)
      | Except.ok json =>
        let encodedString := String.mk (base64Encode json)
        let r := storage.AddToMap env w1 table key objectKey encodedString
        (r.1, destroy r.2)

def DelFromMap (gs : GenericStorage) (env : Env) (w : World) (table key objectKey : String) :
    Option String × World :=
  match CheckTableName table with
  | some err => (some err, w)
  | none =>
    match gs.acquire env w with
    | Except.error (err, w1) => (some err, w1)
    | Except.ok (storage, w1) =>
      let r := storage.DelFromMap env w1 table key objectKey
      (r.1, destroy r.2)

/-- Embeds `GetFromMap`: the error, and the value `json.Unmarshal` decodes for the reference. -/
def GetFromMap {α : Type} (codec : Codec α) (gs : GenericStorage) (env : Env) (w : World)
    (table key objectKey : String) : (Option α × Option String) × World :=
  match CheckTableName table with
  | some err => ((none, some err), w)
  | none =>
    match gs.acquire env w with
    | Except.error (err, w1) => ((none, some err), w1)
    | Except.ok (storage, w1) =>
      let r := storage.GetFromMap env w1 table key objectKey
      match r.1.2 with
      | some err => ((none, some err), destroy r.2)
      | none =>
        match base64Decode r.1.1 with
        | none => ((none, some corruptInput), destroy r.2)
        | some bytes =>
          match codec.unmarshal bytes with
          | Except.error err => ((none, some err), destroy r.2)
          | Except.ok v => ((some v, none), destroy r.2)

/-- The loop of `GetMap` over the entries the driver returned, taken in the order of the
list (Go ranges over a map in an order of its choosing): each is decoded into a fresh
element and stored under its key; the first failure ends the loop. -/
def decodeInto {α : Type} (codec : Codec α) :
    List (String × String) → List (String × α) → List (String × α) × Option String
  | [], content => (content, none)
  | (key, element) :: data, content =>
    match base64Decode element with
    | none => (content, some corruptInput)
    | some bytes =>
      match codec.unmarshal bytes with
      | Except.error err => (content, some err)
      | Except.ok v =>
        let content :=
          if content.any (fun e => e.1 = key) then
            content.map (fun e => if e.1 = key then (key, v) else e)
          else content ++ [(key, v)]
        decodeInto codec data content

/-- Embeds `GetMap`: the entries of the map behind the reference after the call, and the error. -/
def GetMap {α : Type} (codec : Codec α) (gs : GenericStorage) (env : Env) (w : World)
    (table key : String) (reference : Option (Reference α)) :
    (List (String × α) × Option String) × World :=
  let before : List (String × α) := (reference.map (fun r => r.content)).getD []
  match CheckTableName table with
  | some err => ((before, some err), w)
  | none =>
    match gs.acquire env w with
    | Except.error (err, w1) => ((before, some err), w1)
    | Except.ok (storage, w1) =>
      let r := storage.GetMap env w1 table key
      match r.1.2 with
      | some err => ((before, some err), destroy r.2)
      | none =>
        match reference with
        | none => ((before, some "reference is null"), destroy r.2)
        | some ref =>
          match shapeRejected ref.type with
          | none => ((before, some nilStorage), destroy r.2)
          | some true =>
            ((before, some "fill slice: parameter is not in format *map[string]*interface\x7b\x7d"),
              destroy r.2)
          | some false =>
            if ref.nilPointer then ((before, some nilStorage), destroy r.2)
            else (decodeInto codec r.1.1 ref.content, destroy r.2)

end GenericStorage

/-! ## Notions used to state the properties -/

/-- Whether a text can be spliced between single quotes and be read back unchanged: it
holds no single quote and, for MySQL, no backslash. -/
def literalSafe (d : Dialect) (text : String) : Bool :=
  !(text.data.contains quoteChar) && !(decide (d = Dialect.mysql) && text.data.contains backslashChar)

/-- Whether the filter built from `(table, pattern)` selects a row with these hash columns. -/
def selects (table pattern : String) (rowTableHash : Nat) (rowColumns : List Nat) : Bool :=
  hashesMatch (CalculateHash table) (SplitToParts pattern)
    (CalculateHashesOfColumns (SplitToParts pattern)) rowTableHash rowColumns

/-- The hash tuple `SetKey` and `AddToMap` write for `key`. -/
def keyColumns (key : String) : List Nat :=
  paddedHashes (CalculateHashesOfColumns (SplitToParts key))

/-- The row `SetKey(table, key, value, _)` hands to the backend, with the `ttl` computed. -/
def writtenRow (table key value : String) (ttl : Int) : KeyRow :=
  { table := table, table_hash := CalculateHash table, key := key, columns := keyColumns key,
    value := value, ttl := ttl }

/-- The store with other rows of `keys`. -/
def Store.withKeys (s : Store) (rows : List KeyRow) : Store := { s with keys := rows }

/-- The store with other rows of `maps`. -/
def Store.withMaps (s : Store) (rows : List MapRow) : Store := { s with maps := rows }

/-- The row `AddToMap(table, key, objectKey, object)` hands to the backend. -/
def writtenMapRow (table key objectKey object : String) : MapRow :=
  { table := table, table_hash := CalculateHash table, key := key, columns := keyColumns key,
    value := object, object_key := objectKey, object_key_hash := CalculateHash objectKey }

/-- The rows of `maps` that the filter of `(table, key, objectKey)` selects. -/
def entryRows (table key objectKey : String) (rows : List MapRow) : List MapRow :=
  rows.filter (fun r =>
    r.object_key_hash = CalculateHash objectKey ∧ selects table key r.table_hash r.columns)

/-- The error a key operation returns for a key of more than 10 segments: the error of
the sweep, which runs first, or else the one of the segment check. -/
def rejection (env : Env) (s : Store) : Option String :=
  match (KeysCleanUp env s).1 with
  | some err => some err
  | none => some tooManyColumns

/-- An environment in which neither the sweep nor the statements of the operation fail. -/
def Env.noFailure (env : Env) : Prop :=
  env.sweepErr = none ∧ env.sweepRowsErr = none ∧ env.stmtErr = none ∧ env.stmtErr2 = none ∧
    env.rowsErr = none

instance (env : Env) : Decidable env.noFailure := by
  unfold Env.noFailure
  exact inferInstance

/-- The pattern `p` followed by `n` extra `/*` segments. -/
def withStars (p : String) : Nat → String
  | 0 => p
  | n + 1 => withStars p n ++ "/*"

/-! ## Inputs of the worked examples -/

/-- A clock reading: 1 700 000 000 seconds after the epoch, in nanoseconds. -/
def exampleClock : Int := 1700000000000000000

/-- An environment at `exampleClock` in which no backend call fails. -/
def exampleEnv : Env := Env.quiet exampleClock exampleClock

/-- The store after `SetKey("t", "a/b", "w", 0)` on an empty store. -/
def storeAB : Store := (SetKey Dialect.postgresql exampleEnv Store.empty "t" "a/b" "w" 0).2

/-- The store after `SetKey("t", "x", "w", 0)` on an empty store. -/
def storeX : Store := (SetKey Dialect.sqlite exampleEnv Store.empty "t" "x" "w" 0).2

/-- Whether the key `k` agrees with the pattern `p` at every segment position where `p`
does not hold `*`; a position after the last segment of `k` reads as the empty segment,
the way its hash column reads 0. -/
def agrees (p k : String) : Bool :=
  (List.range (SplitToParts p).length).all (fun j =>
    (SplitToParts p).getD j "" = "*" ∨ (SplitToParts k).getD j "" = (SplitToParts p).getD j "")

/-- A row of `keys` whose hash columns are the hashes of its texts, as `SetKey` writes it. -/
def KeyRow.consistent (r : KeyRow) : Bool :=
  r.table_hash = CalculateHash r.table ∧ r.columns = keyColumns r.key ∧
    (SplitToParts r.key).length ≤ NumberOfColumns

/-- The names of a list have pairwise distinct CRC-32 values. -/
def crcDistinct (names : List String) : Prop :=
  ∀ a ∈ names, ∀ b ∈ names, CalculateHash a = CalculateHash b → a = b

instance (names : List String) : Decidable (crcDistinct names) := by
  unfold crcDistinct
  exact inferInstance

/-- The store of the wildcard example: keys `a/1`, `a/2`, `b/1` under table `t`. -/
def storeWild : Store :=
  (SetKey Dialect.sqlite exampleEnv
    (SetKey Dialect.sqlite exampleEnv
      (SetKey Dialect.sqlite exampleEnv Store.empty "t" "a/1" "u" 0).2 "t" "a/2" "v" 0).2
    "t" "b/1" "w" 0).2

/-- The store after `AddToMap("t", "k", "o", "v")` on an empty store (the three dialects
leave the same rows). -/
def storeMapOnly : Store := (AddToMap Dialect.mysql exampleEnv Store.empty "t" "k" "o" "v").2

/-- The uniqueness constraint `columns_unique_key` holds of the rows of `keys`. -/
def uniqueKeys (rows : List KeyRow) : Prop :=
  rows.Pairwise (fun a b => a.conflicts b = false)

instance (rows : List KeyRow) : Decidable (uniqueKeys rows) := by
  unfold uniqueKeys
  exact inferInstance

/-- A key of 10 segments and a key of 11 segments. -/
def tenSegments : String := "a/b/c/d/e/f/g/h/i/j"
def elevenSegments : String := "a/b/c/d/e/f/g/h/i/j/k"

/-- A store with one record that expired long before `exampleClock`, never swept. -/
def storeExpired : Store :=
  { keys := [{ table := "t", table_hash := CalculateHash "t", key := "old",
               columns := keyColumns "old", value := "w", ttl := 5 }],
    maps := [], LastTruncate := 0 }

/-- The declared types of the three relational backends. -/
def isSqlType (storageType : String) : Prop :=
  storageType = SQLITE_STORAGE ∨ storageType = POSTGRE_SQL_STORAGE ∨ storageType = MY_SQL_STORAGE

instance (storageType : String) : Decidable (isSqlType storageType) := by
  unfold isSqlType
  exact inferInstance

/-- Nothing was stored between two worlds: the Redis keyspace and the rows of `maps` are
the same, and the rows of `keys` are rows that were there before (the sweep may have
removed expired ones). -/
def storesNothing (w w2 : World) : Prop :=
  w2.redis = w.redis ∧ w2.sql.maps = w.sql.maps ∧ w2.sql.keys.Sublist w.sql.keys

/-- An empty world. -/
def worldEmpty : World := { sql := Store.empty, redis := [], setups := 0, opened := 0, closed := 0 }

/-- A world whose relational store is `storeExpired`. -/
def worldExpired : World :=
  { sql := storeExpired, redis := [], setups := 0, opened := 0, closed := 0 }

/-- A facade on Redis and one on SQLite. -/
def redisFacade : GenericStorage := { Credentials := [("db", "0")], StorageType := "redis" }
def sqliteFacade : GenericStorage :=
  { Credentials := [("filename", "store.db")], StorageType := "sqlite" }

/-- A codec for the examples: a text is encoded as its bytes. -/
def textCodec : Codec String :=
  { marshal := fun s => Except.ok (bytesOf s), unmarshal := fun b => Except.ok (textOfBytes b) }


/-! ## Sequences of calls -/

/-- A call of a method of the `Storage` interface, with its arguments. -/
inductive Call where
  | getKeys (table pattern : String)
  | setKey (table key value : String) (expiration : Int)
  | getFullKey (key : String)
  | getKey (table key : String)
  | delKey (table key : String)
  | addToMap (table key objectKey object : String)
  | delFromMap (table key objectKey : String)
  | getFromMap (table key objectKey : String)
  | getMap (table key : String)
  deriving DecidableEq, Repr

/-- What a call returns to its caller. -/
inductive Observation where
  | names (keys : List String) (err : Option String)
  | status (err : Option String)
  | value (v : String) (err : Option String)
  | count (n : Int) (err : Option String)
  | entries (m : List (String × String)) (err : Option String)
  deriving DecidableEq, Repr

/-- A call on an SQL driver: what it returns and the store it leaves. -/
def Call.onSql (d : Dialect) (env : Env) (s : Store) : Call → Observation × Store
  | Call.getKeys table pattern =>
    let r := SQLStorage.GetKeys d env s table pattern
    (Observation.names r.1.1 r.1.2, r.2)
  | Call.setKey table key value expiration =>
    let r := SQLStorage.SetKey d env s table key value expiration
    (Observation.status r.1, r.2)
  | Call.getFullKey key =>
    let r := SQLStorage.GetFullKey env s key
    (Observation.value r.1.1 r.1.2, r.2)
  | Call.getKey table key =>
    let r := SQLStorage.GetKey env s table key
    (Observation.value r.1.1 r.1.2, r.2)
  | Call.delKey table key =>
    let r := SQLStorage.DelKey env s table key
    (Observation.count r.1.1 r.1.2, r.2)
  | Call.addToMap table key objectKey object =>
    let r := SQLStorage.AddToMap d env s table key objectKey object
    (Observation.status r.1, r.2)
  | Call.delFromMap table key objectKey =>
    let r := SQLStorage.DelFromMap env s table key objectKey
    (Observation.status r.1, r.2)
  | Call.getFromMap table key objectKey =>
    let r := SQLStorage.GetFromMap env s table key objectKey
    (Observation.value r.1.1 r.1.2, r.2)
  | Call.getMap table key =>
    let r := SQLStorage.GetMap env s table key
    (Observation.entries r.1.1 r.1.2, r.2)

/-- A call on the Redis driver: what it returns and the keyspace it leaves. -/
def Call.onRedis (env : Env) (db : RedisDB) : Call → Observation × RedisDB
  | Call.getKeys table pattern =>
    let r := RedisStorage.GetKeys env db table pattern
    (Observation.names r.1.1 r.1.2, r.2)
  | Call.setKey table key value expiration =>
    let r := RedisStorage.SetKey env db table key value expiration
    (Observation.status r.1, r.2)
  | Call.getFullKey key =>
    let r := RedisStorage.GetFullKey env db key
    (Observation.value r.1.1 r.1.2, r.2)
  | Call.getKey table key =>
    let r := RedisStorage.GetKey env db table key
    (Observation.value r.1.1 r.1.2, r.2)
  | Call.delKey table key =>
    let r := RedisStorage.DelKey env db table key
    (Observation.count r.1.1 r.1.2, r.2)
  | Call.addToMap table key objectKey object =>
    let r := RedisStorage.AddToMap env db table key objectKey object
    (Observation.status r.1, r.2)
  | Call.delFromMap table key objectKey =>
    let r := RedisStorage.DelFromMap env db table key objectKey
    (Observation.status r.1, r.2)
  | Call.getFromMap table key objectKey =>
    let r := RedisStorage.GetFromMap env db table key objectKey
    (Observation.value r.1.1 r.1.2, r.2)
  | Call.getMap table key =>
    let r := RedisStorage.GetMap env db table key
    (Observation.entries r.1.1 r.1.2, r.2)

/-- The observations of a sequence of calls on an SQL driver, each call in its environment. -/
def observeSql (d : Dialect) : List (Env × Call) → Store → List Observation
  | [], _ => []
  | (env, c) :: rest, s => (c.onSql d env s).1 :: observeSql d rest (c.onSql d env s).2

/-- The observations of a sequence of calls on the Redis driver. -/
def observeRedis : List (Env × Call) → RedisDB → List Observation
  | [], _ => []
  | (env, c) :: rest, db => (c.onRedis env db).1 :: observeRedis rest (c.onRedis env db).2

/-- The store a sequence of calls on an SQL driver leaves. -/
def runSql (d : Dialect) : List (Env × Call) → Store → Store
  | [], s => s
  | (env, c) :: rest, s => runSql d rest (c.onSql d env s).2

/-- Whether the method of the SQL drivers opens with `KeysCleanUp`. -/
def Call.sweeps : Call → Bool
  | Call.getKeys _ _ => true
  | Call.setKey _ _ _ _ => true
  | Call.getFullKey _ => true
  | Call.getKey _ _ => true
  | Call.delKey _ _ => true
  | _ => false

/-- Whether `KeysCleanUp` executes its `DELETE` on the store: the interval has elapsed and
the `Exec` does not fail. -/
def sweepExecutes (env : Env) (s : Store) : Bool :=
  decide (nowMillis env.sweepClock - s.LastTruncate > TruncateInterval) &&
    decide (env.sweepErr = none)

/-- The clock readings, in milliseconds, of the sweeps that execute their `DELETE` during
a sequence of calls on an SQL driver, in the order of the calls. -/
def sweepLog (d : Dialect) : List (Env × Call) → Store → List Int
  | [], _ => []
  | (env, c) :: rest, s =>
    (if c.sweeps && sweepExecutes env s then [nowMillis env.sweepClock] else []) ++
      sweepLog d rest (c.onSql d env s).2

/-- An environment at `exampleClock` in which the `DELETE` of the sweep fails. -/
def lockedEnv : Env := { exampleEnv with sweepErr := some "database is locked" }

/-- A PEM-style public key, as `StorePublicKey` stores it under table `publickeys`. -/
def examplePem : String :=
  "-----BEGIN PUBLIC KEY-----\nMFkwEwYHKoZIzj0CAQYIKoZIzj0DAQcDQgAE\n-----END PUBLIC KEY-----\n"

/-- The message of `json.Unmarshal` on an empty input. -/
def unexpectedEnd : String := "unexpected end of JSON input"

/-- The codec of `encoding/json` for Go strings of printable ASCII characters other than the
double quote and the backslash: the text between double quotes; the empty input is a
syntax error. -/
def jsonText : Codec String :=
  { marshal := fun s => Except.ok (34 :: bytesOf s ++ [34]),
    unmarshal := fun b =>
      match b with
      | [] => Except.error unexpectedEnd
      | c :: rest =>
        if c = 34 ∧ rest.getLast? = some 34 then Except.ok (textOfBytes rest.dropLast)
        else Except.error "invalid character looking for beginning of value" }

/-- The declared type the facade carries for each SQL driver. -/
def Dialect.storageType : Dialect → String
  | Dialect.sqlite => SQLITE_STORAGE
  | Dialect.mysql => MY_SQL_STORAGE
  | Dialect.postgresql => POSTGRE_SQL_STORAGE

/-- Whether the facade can decode a stored text: it is base64 of bytes that
`json.Unmarshal` accepts. -/
def decodable {α : Type} (codec : Codec α) (text : String) : Prop :=
  ∃ bytes a, base64Decode text = some bytes ∧ codec.unmarshal bytes = Except.ok a

/-- A destination of `GetMap` of type `*map[string]*string`, pointing to an empty map. -/
def exampleRef : Reference String :=
  { type := GoType.ptr (GoType.map GoType.string (GoType.ptr GoType.string)),
    nilPointer := false, content := [] }

/-- The world after the facade's `AddToMap("t", "k", "o", "first")` on SQLite. -/
def worldEntry : World :=
  (sqliteFacade.AddToMap jsonText exampleEnv worldEmpty "t" "k" "o" "first").2

/-- The shape the destination of `GetMap` must have, as the specification words it: a
pointer to a map with string keys and pointer-typed elements. -/
def wellShaped : GoType → Bool
  | GoType.ptr (GoType.map GoType.string (GoType.ptr _)) => true
  | _ => false

/-- The message of the shape test of `GetMap`. -/
def shapeMismatch : String :=
  "fill slice: parameter is not in format *map[string]*interface\x7b\x7d"

/-- The world `worldEntry` after the driver's `AddToMap("t", "k", "b", "%%%")`: the value of
`b` is not base64 text. -/
def worldBad : World :=
  { worldEntry with
    sql := (SQLStorage.AddToMap Dialect.sqlite exampleEnv worldEntry.sql "t" "k" "b" "%%%").2 }

/-- A destination of type `map[string]*string`: a map, not a pointer to one. -/
def mapRef : Reference String :=
  { type := GoType.map GoType.string (GoType.ptr GoType.string), nilPointer := false,
    content := [] }

/-- A destination of type `*map[string]*string` whose pointer is nil. -/
def nilRef : Reference String := { exampleRef with nilPointer := true }

/-! ## Notions used to compare the Redis driver with the SQL drivers -/

/-- The entry of the Redis keyspace that stands for a row of `keys` without expiry. -/
def rowEntry (r : KeyRow) : String × RedisValue :=
  (r.table ++ "/" ++ r.key, RedisValue.str r.value none)

/-- The `(table, key)` name a call of `SetKey`, `GetKey` or `DelKey` uses. -/
def Call.name : Call → List (String × String)
  | Call.setKey table key _ _ => [(table, key)]
  | Call.getKey table key => [(table, key)]
  | Call.delKey table key => [(table, key)]
  | _ => []

/-- The `(table, key)` names a sequence of calls uses. -/
def namesOf : List (Env × Call) → List (String × String)
  | [] => []
  | (_, c) :: rest => c.name ++ namesOf rest

/-- No name's filter selects the hash tuple of another name: no key of the list extends
another by further segments or differs from it only at a `*` segment, and no two names
share their CRC-32 values. -/
def exactNames (names : List (String × String)) : Prop :=
  ∀ a ∈ names, ∀ b ∈ names,
    selects a.1 a.2 (CalculateHash b.1) (keyColumns b.2) = true → a = b

instance (names : List (String × String)) : Decidable (exactNames names) := by
  unfold exactNames
  exact inferInstance

/-- A name that both backends carry unchanged: a table without `/`, a key of at most 10
segments, texts that can be spliced into a statement, and no white space (on which the
Redis driver splits the reply of `KEYS`). -/
def plainName (d : Dialect) (a : String × String) : Prop :=
  Char.ofNat 47 ∉ a.1.data ∧ (SplitToParts a.2).length ≤ NumberOfColumns ∧
    literalSafe d a.1 = true ∧ literalSafe d a.2 = true ∧
    ∀ c ∈ (a.1 ++ "/" ++ a.2).data, isSpace c = false

instance (d : Dialect) (a : String × String) : Decidable (plainName d a) := by
  unfold plainName
  exact inferInstance

/-- The calls that are compared, relative to the names in play: `SetKey` without expiry
and with a value that can be spliced; `GetKey` and `DelKey`; and `GetKeys` with a pattern
of at most 10 segments whose glob matches, among the names in play, those the filter of
the SQL drivers selects. -/
def Call.comparable (d : Dialect) (names : List (String × String)) : Call → Prop
  | Call.setKey _ _ value expiration => expiration ≤ 0 ∧ literalSafe d value = true
  | Call.getKey _ _ => True
  | Call.delKey _ _ => True
  | Call.getKeys table pattern =>
    (SplitToParts pattern).length ≤ NumberOfColumns ∧
      ∀ a ∈ names, keyMatches (table ++ "/" ++ pattern) (a.1 ++ "/" ++ a.2)
        = selects table pattern (CalculateHash a.1) (keyColumns a.2)
  | _ => False

instance (d : Dialect) (names : List (String × String)) (c : Call) :
    Decidable (c.comparable d names) := by
  cases c <;> unfold Call.comparable <;> exact inferInstance

/-- Two observations agree: they are equal, the keys of `GetKeys` being compared as sets. -/
def Observation.agrees : Observation → Observation → Prop
  | Observation.names l e, Observation.names l2 e2 => e = e2 ∧ ∀ x, x ∈ l ↔ x ∈ l2
  | a, b => a = b

/-- A store of an SQL driver and a Redis keyspace that hold the same records: no map
entries, the keyspace entry of every row in the order of the rows, every row carrying
the hashes of its texts and the `ttl` of "no expiry", under pairwise distinct names. -/
def alike (names : List (String × String)) (s : Store) (db : RedisDB) : Prop :=
  s.maps = [] ∧ db = s.keys.map rowEntry ∧
    (∀ r ∈ s.keys, (r.table, r.key) ∈ names ∧ r.table_hash = CalculateHash r.table ∧
      r.columns = keyColumns r.key ∧ r.ttl = 9223372036854) ∧
    (s.keys.map (fun r => (r.table, r.key))).Nodup

/-- A sequence on which the drivers differ: `SetKey("t", "a/b", "w", 0)`, then `GetKey`,
`GetKeys` and `DelKey` of `("t", "a")`. -/
def prefixCalls : List (Env × Call) :=
  [(exampleEnv, Call.setKey "t" "a/b" "w" 0), (exampleEnv, Call.getKey "t" "a"),
   (exampleEnv, Call.getKeys "t" "a"), (exampleEnv, Call.delKey "t" "a")]

/-- A sequence on which the drivers agree: three records, then reads and a delete. -/
def agreeingCalls : List (Env × Call) :=
  [(exampleEnv, Call.setKey "t" "a/1" "u" 0), (exampleEnv, Call.setKey "t" "a/2" "v" 0),
   (exampleEnv, Call.setKey "t" "b/1" "w" 0), (exampleEnv, Call.getKeys "t" "a/*"),
   (exampleEnv, Call.getKey "t" "a/2"), (exampleEnv, Call.delKey "t" "a/1"),
   (exampleEnv, Call.getKeys "t" "*"), (exampleEnv, Call.getKey "t" "a/1")]

/-- Whether a row of `maps` carries the hash tuple that `AddToMap`, `DelFromMap` and
`GetFromMap` compute for `(table, key, objectKey)`: the entry the call addresses. -/
def MapRow.addressed (table key objectKey : String) (r : MapRow) : Bool :=
  r.table_hash = CalculateHash table ∧ r.columns = keyColumns key ∧
    r.object_key_hash = CalculateHash objectKey

/-- The driver that `CreateStorage` builds for a storage type, as the specification words
it: one for each of the four tags, none otherwise. -/
def driverOf (storageType : String) : Option Driver :=
  if storageType = "redis" then some Driver.redis
  else if storageType = "sqlite" then some (Driver.sql Dialect.sqlite)
  else if storageType = "postgresql" then some (Driver.sql Dialect.postgresql)
  else if storageType = "mysql" then some (Driver.sql Dialect.mysql)
  else none

/-- The uniqueness constraint `map_columns_unique_key` holds of the rows of `maps`. -/
def uniqueMaps (rows : List MapRow) : Prop :=
  rows.Pairwise (fun a b => a.conflicts b = false)

instance (rows : List MapRow) : Decidable (uniqueMaps rows) := by
  unfold uniqueMaps
  exact inferInstance

/-- The invariant of the stores of the SQL drivers: both uniqueness constraints hold and
every row carries ten positional hashes. -/
def Store.wellFormed (s : Store) : Prop :=
  uniqueKeys s.keys ∧ uniqueMaps s.maps ∧ (∀ r ∈ s.keys, r.columns.length = NumberOfColumns) ∧
    ∀ r ∈ s.maps, r.columns.length = NumberOfColumns

/-! ## `Init`: the statements that create the schema -/

/-- The loop of `Init` that lists the positional columns of the uniqueness constraint:
`column_1_hash, ..., column_10_hash`. -/
def uniqueIndexValues : String :=
  (List.range' 1 NumberOfColumns).foldl
    (fun values i =>
      (values ++ "column_" ++ Itoa i ++ "_hash") ++ (if i ≠ NumberOfColumns then ", " else ""))
    ""

namespace SQLiteStorage

/-- The text `keysTableSQL` that `SQLiteStorage.Init` hands to `Prepare`. -/
def keysTableSQL : String :=
  let sql := "CREATE TABLE IF NOT EXISTS keys (\n\t\t\x22id\x22 integer NOT NULL PRIMARY KEY AUTOINCREMENT,\t\t\n\t\t\x22table\x22 TEXT,\n\t\t\x22table_hash\x22 INTEGER,\n\t\t\x22key\x22 TEXT,\n\t\t"
  let sql := (List.range' 1 NumberOfColumns).foldl
    (fun sql i => sql ++ ("\x22column_" ++ Itoa i ++ "_hash\x22 INTEGER,\n\t\t")) sql
  let sql := sql ++ ("\x22value\x22 TEXT,\n\t\t\x22ttl\x22 INTEGER,\t\t\n\t   CONSTRAINT columns_unique_key UNIQUE("
    ++ (uniqueIndexValues ++ ", table_hash") ++ "));\n\t  ")
  let sql := sql ++ "CREATE INDEX IF NOT EXISTS table_hash_index ON keys(table_hash);\n\t"
  let sql := (List.range' 1 NumberOfColumns).foldl
    (fun sql i => sql ++ ("CREATE INDEX IF NOT EXISTS column_" ++ Itoa i
      ++ "_hash_index ON keys(column_" ++ Itoa i ++ "_hash);\n\t\t")) sql
  sql ++ "CREATE INDEX IF NOT EXISTS ttl_index ON keys(ttl);\n\t"

/-- The text `mapsTableSQL` that `SQLiteStorage.Init` hands to `Prepare`. -/
def mapsTableSQL : String :=
  let sql := "CREATE TABLE IF NOT EXISTS maps (\n\t\t\x22id\x22 integer NOT NULL PRIMARY KEY AUTOINCREMENT,\t\t\n\t\t\x22table\x22 TEXT,\n\t\t\x22table_hash\x22 INTEGER,\n\t\t\x22key\x22 TEXT,\n\t\t"
  let sql := (List.range' 1 NumberOfColumns).foldl
    (fun sql i => sql ++ ("\x22column_" ++ Itoa i ++ "_hash\x22 INTEGER,\n\t\t")) sql
  let sql := sql ++ ("\x22value\x22 TEXT,\n\t\t\x22object_key\x22 TEXT,\t\t\n\t\t\x22object_key_hash\x22 INTEGER,\t\t\n\t   CONSTRAINT map_columns_unique_key UNIQUE("
    ++ (uniqueIndexValues ++ ", table_hash" ++ ", object_key_hash") ++ "));\n\t  ")
  let sql := sql ++ "CREATE INDEX IF NOT EXISTS table_hash_index ON keys(table_hash);\n\t"
  let sql := (List.range' 1 NumberOfColumns).foldl
    (fun sql i => sql ++ ("CREATE INDEX IF NOT EXISTS column_" ++ Itoa i
      ++ "_hash_index ON keys(column_" ++ Itoa i ++ "_hash);\n\t\t")) sql
  sql ++ "CREATE INDEX IF NOT EXISTS object_key_hash_index ON keys(object_key_hash);\n\t"

end SQLiteStorage

namespace PostgreSQLStorage

/-- The statements of the part of `PostgreSQLStorage.Init` on `keys`, in the order of
the calls of `executeSingleQuery`. -/
def keysStatements : List String :=
  let sql := "CREATE TABLE IF NOT EXISTS keys (\n\t\t \x22id\x22 BIGSERIAL NOT NULL PRIMARY KEY,\t\t\n\t\t \x22table\x22 TEXT,\n\t\t \x22table_hash\x22 BIGINT,\n\t\t \x22key\x22 TEXT,\n\t\t "
  let sql := (List.range' 1 NumberOfColumns).foldl
    (fun sql i => sql ++ ("\x22column_" ++ Itoa i ++ "_hash\x22 BIGINT,\n\t\t ")) sql
  let sql := sql ++ ("\x22value\x22 TEXT,\n\t\t \x22ttl\x22 BIGINT,\t\t\n\t\tCONSTRAINT columns_unique_key UNIQUE("
    ++ (uniqueIndexValues ++ ", table_hash") ++ "));")
  [sql, "CREATE INDEX IF NOT EXISTS table_hash_index ON keys(table_hash);"]
    ++ (List.range' 1 NumberOfColumns).map (fun i =>
      "CREATE INDEX IF NOT EXISTS column_" ++ Itoa i ++ "_hash_index ON keys(column_"
        ++ Itoa i ++ "_hash);")
    ++ ["CREATE INDEX IF NOT EXISTS ttl_index ON keys(ttl);"]

/-- The statements of the part of `PostgreSQLStorage.Init` on `maps`. -/
def mapsStatements : List String :=
  let sql := "CREATE TABLE IF NOT EXISTS maps (\n\t\t \x22id\x22 BIGSERIAL NOT NULL PRIMARY KEY,\t\t\n\t\t \x22table\x22 TEXT,\n\t\t \x22table_hash\x22 BIGINT,\n\t\t \x22key\x22 TEXT,\n\t\t "
  let sql := (List.range' 1 NumberOfColumns).foldl
    (fun sql i => sql ++ ("\x22column_" ++ Itoa i ++ "_hash\x22 BIGINT,\n\t\t ")) sql
  let sql := sql ++ ("\x22value\x22 TEXT,\n\t\t \x22object_key\x22 TEXT,\t\t\n\t\t \x22object_key_hash\x22 BIGINT,\t\t\n\t\tCONSTRAINT map_columns_unique_key UNIQUE("
    ++ (uniqueIndexValues ++ ", table_hash" ++ ", object_key_hash") ++ "));")
  [sql, "CREATE INDEX IF NOT EXISTS table_hash_index ON maps(table_hash);"]
    ++ (List.range' 1 NumberOfColumns).map (fun i =>
      "CREATE INDEX IF NOT EXISTS column_" ++ Itoa i ++ "_hash_index ON maps(column_"
        ++ Itoa i ++ "_hash);")
    ++ ["CREATE INDEX IF NOT EXISTS object_key_hash_index ON maps(object_key_hash);"]

end PostgreSQLStorage

namespace MySQLStorage

/-- The statements of the part of `MySQLStorage.Init` on `keys`. -/
def keysStatements : List String :=
  let sql := "CREATE TABLE IF NOT EXISTS " ++ "\x60" ++ "keys" ++ "\x60"
    ++ "(\n\t\t id BIGINT NOT NULL AUTO_INCREMENT,\t\t\n\t\t " ++ "\x60" ++ "table" ++ "\x60"
    ++ " LONGTEXT,\n\t\t table_hash BIGINT,\n\t\t " ++ "\x60" ++ "key" ++ "\x60"
    ++ " LONGTEXT,\n\t\t "
  let sql := (List.range' 1 NumberOfColumns).foldl
    (fun sql i => sql ++ ("column_" ++ Itoa i ++ "_hash BIGINT,\n\t\t ")) sql
  let sql := sql ++ ("value LONGTEXT,\n\t\t ttl BIGINT,\n\t\t PRIMARY KEY (id),\n\t\tCONSTRAINT columns_unique_key UNIQUE("
    ++ (uniqueIndexValues ++ ", table_hash") ++ "));\n\t   ")
  [sql, "CREATE INDEX table_hash_index ON " ++ "\x60" ++ "keys" ++ "\x60" ++ "(table_hash);"]
    ++ (List.range' 1 NumberOfColumns).map (fun i =>
      "CREATE INDEX column_" ++ Itoa i ++ "_hash_index ON " ++ "\x60" ++ "keys" ++ "\x60"
        ++ "(column_" ++ Itoa i ++ "_hash);")
    ++ ["CREATE INDEX ttl_index ON " ++ "\x60" ++ "keys" ++ "\x60" ++ "(ttl);"]

/-- The statements of the part of `MySQLStorage.Init` on `maps`. -/
def mapsStatements : List String :=
  let sql := "CREATE TABLE IF NOT EXISTS maps (\n\t\t id BIGINT NOT NULL AUTO_INCREMENT,\t\t\n\t\t "
    ++ "\x60" ++ "table" ++ "\x60" ++ " LONGTEXT,\n\t\t table_hash BIGINT,\n\t\t "
    ++ "\x60" ++ "key" ++ "\x60" ++ " LONGTEXT,\n\t\t "
  let sql := (List.range' 1 NumberOfColumns).foldl
    (fun sql i => sql ++ ("column_" ++ Itoa i ++ "_hash BIGINT,\n\t\t ")) sql
  let sql := sql ++ ("value LONGTEXT,\n\t\t object_key LONGTEXT,\t\t\n\t\t object_key_hash BIGINT,\n\t\t PRIMARY KEY (id),\t\n\t\tCONSTRAINT map_columns_unique_key UNIQUE("
    ++ (uniqueIndexValues ++ ", table_hash" ++ ", object_key_hash") ++ "));\n\t   ")
  [sql, "CREATE INDEX table_hash_index ON maps(table_hash);"]
    ++ (List.range' 1 NumberOfColumns).map (fun i =>
      "CREATE INDEX column_" ++ Itoa i ++ "_hash_index ON maps(column_" ++ Itoa i ++ "_hash);")
    ++ ["CREATE INDEX object_key_hash_index ON maps(object_key_hash);"]

end MySQLStorage

/-- Whether a character is a blank, a tab or a line break. -/
def isBlank (c : Char) : Bool := c = Char.ofNat 32 ∨ c = Char.ofNat 9 ∨ c = Char.ofNat 10

/-- The index a statement creates, if it is a `CREATE INDEX [IF NOT EXISTS] <name> ON
<table>(<column>)`: its name, its table (without backticks) and its column. -/
def parseIndex (statement : List Char) : Option (String × String × String) :=
  match dropPrefix "CREATE INDEX ".data (statement.dropWhile isBlank) with
  | none => none
  | some rest =>
    let rest := (dropPrefix "IF NOT EXISTS ".data rest).getD rest
    let name := rest.takeWhile (fun c => c ≠ Char.ofNat 32)
    match dropPrefix " ON ".data (rest.dropWhile (fun c => c ≠ Char.ofNat 32)) with
    | none => none
    | some target =>
      let table := (target.takeWhile (fun c => c ≠ Char.ofNat 40)).filter
        (fun c => c ≠ Char.ofNat 96)
      let column := ((target.dropWhile (fun c => c ≠ Char.ofNat 40)).drop 1).takeWhile
        (fun c => c ≠ Char.ofNat 41)
      some (String.mk name, String.mk table, String.mk column)

/-- The indexes that the statements of a text (separated by `;`) create. -/
def indexesOf (text : String) : List (String × String × String) :=
  (text.data.splitOn (Char.ofNat 59)).filterMap parseIndex

/-- The indexes on the table hash and the ten positional hashes of a table, as the
specification words them, under the names `Init` gives them. -/
def hashIndexes (table : String) : List (String × String × String) :=
  ("table_hash_index", table, "table_hash") ::
    (List.range' 1 NumberOfColumns).map (fun i =>
      ("column_" ++ Itoa i ++ "_hash_index", table, "column_" ++ Itoa i ++ "_hash"))

/-! ## Package `networkutils` -/

/-- Embeds `networkutils.ParseIP`: the loop over `strings.Split(remoteAddress, ":")` that
joins every part but the last, a `:` after each part but the last one joined. -/
def ParseIP (remoteAddress : String) : String :=
  let ipPort := remoteAddress
  let ipPortSplit := (ipPort.data.splitOn (Char.ofNat 58)).map String.mk
  (List.range (ipPortSplit.length - 1)).foldl (fun ip i =>
    let ip := ip ++ ipPortSplit.getD i ""
    if (i : Int) < (ipPortSplit.length : Int) - 2 then ip ++ ":" else ip) ""

/-- Whether each text that the call splices into a statement is read back as the literal
it was spliced as: `SetKey` splices table, key and value, `AddToMap` table, key, object key
and object; the statements of the other methods carry hashes only. -/
def Call.textsSafe (d : Dialect) : Call → Bool
  | Call.setKey table key value _ =>
    literalSafe d table && literalSafe d key && literalSafe d value
  | Call.addToMap table key objectKey object =>
    literalSafe d table && literalSafe d key && literalSafe d objectKey && literalSafe d object
  | _ => true
/-! ## Facts about strings and decimal text -/

theorem intercalate_go_append (x y s : String) (l : List String) :
    String.intercalate.go (x ++ y) s l = x ++ String.intercalate.go y s l := by
  induction l generalizing y with
  | nil => simp [String.intercalate.go]
  | cons a l ih =>
    simp only [String.intercalate.go]
    rw [String.append_assoc, String.append_assoc, ih, String.append_assoc]

theorem intercalate_singleton (s a : String) : s.intercalate [a] = a := by
  simp [String.intercalate, String.intercalate.go]

theorem intercalate_cons_cons (s a b : String) (l : List String) :
    s.intercalate (a :: b :: l) = a ++ s ++ s.intercalate (b :: l) := by
  simp only [String.intercalate, String.intercalate.go]
  rw [String.append_assoc, intercalate_go_append, intercalate_go_append, String.append_assoc]

theorem intercalate_cons_of_ne_nil (s a : String) (l : List String) (h : l ≠ []) :
    s.intercalate (a :: l) = a ++ s ++ s.intercalate l := by
  cases l with
  | nil => exact absurd rfl h
  | cons b l => exact intercalate_cons_cons s a b l

/-! ## Facts about the codec -/

theorem CalculateHashesOfColumns_eq_map (columns : List String) :
    CalculateHashesOfColumns columns = columns.map CalculateHash := by
  have h : ∀ (acc : List Nat),
      columns.foldl (fun result column => result ++ [CalculateHash column]) acc
        = acc ++ columns.map CalculateHash := by
    induction columns with
    | nil => intro acc; simp
    | cons c cs ih => intro acc; simp [ih]
  simpa [CalculateHashesOfColumns] using h []

theorem CalculateHashesOfColumns_length (columns : List String) :
    (CalculateHashesOfColumns columns).length = columns.length := by
  simp [CalculateHashesOfColumns_eq_map]

theorem SplitToParts_ne_nil (key : String) : SplitToParts key ≠ [] := by
  unfold SplitToParts
  intro h
  have := List.splitOnP_ne_nil (fun c => c == Char.ofNat 47) key.data
  simp [List.splitOn] at h
  exact this h

/-- What the first loop of `CreateWhereClause` leaves: a length `m` whose last position,
if any, does not hold `*`, all positions from `m` up to `n` holding `*`. -/
theorem trimHashesLen_spec (columns : List String) :
    ∀ n, n ≤ columns.length →
      ∃ m, trimHashesLen columns n = some m ∧ m ≤ n ∧
        (∀ j, m ≤ j → j < n → columns.getD j "" = "*") ∧
        (∀ k, m = k + 1 → columns.getD k "" ≠ "*") := by
  intro n
  induction n with
  | zero => intro _; exact ⟨0, rfl, le_refl _, fun j _ h => absurd h (Nat.not_lt_zero _), fun k h => by omega⟩
  | succ n ih =>
    intro hn
    have hlt : n < columns.length := hn
    by_cases hstar : columns[n] = "*"
    · obtain ⟨m, hm, hle, hall, hlast⟩ := ih (Nat.le_of_lt hlt)
      refine ⟨m, ?_, Nat.le_succ_of_le hle, ?_, hlast⟩
      · simp [trimHashesLen, List.getElem?_eq_getElem hlt, hstar, hm]
      · intro j hj hjn
        by_cases hjn2 : j < n
        · exact hall j hj hjn2
        · have : j = n := by omega
          subst this
          rw [List.getD_eq_getElem _ _ hlt]; exact hstar
    · refine ⟨n + 1, ?_, le_refl _, fun j hj hjn => by omega, ?_⟩
      · simp [trimHashesLen, List.getElem?_eq_getElem hlt, hstar]
      · intro k hk
        have : k = n := by omega
        subst this
        rw [List.getD_eq_getElem _ _ hlt]; exact hstar

theorem termsRange_zero (columns : List String) (hashes : List Nat) (index : Nat) :
    termsRange columns hashes index 0 = [] := by
  simp [termsRange]

theorem termsRange_succ_star (columns : List String) (hashes : List Nat) (index count : Nat)
    (h : columns.getD index "" = "*") :
    termsRange columns hashes index (count + 1) = termsRange columns hashes (index + 1) count := by
  have h2 : columns[index]?.getD "" = "*" := by simpa [List.getD_eq_getElem?_getD] using h
  simp [termsRange, List.range'_succ, List.filter_cons, h2]

theorem termsRange_succ (columns : List String) (hashes : List Nat) (index count : Nat)
    (h : columns.getD index "" ≠ "*") :
    termsRange columns hashes index (count + 1)
      = whereTerm (index + 1) (hashes.getD index 0) :: termsRange columns hashes (index + 1) count := by
  have h2 : ¬ columns[index]?.getD "" = "*" := by simpa [List.getD_eq_getElem?_getD] using h
  simp [termsRange, List.range'_succ, List.filter_cons, h2]

theorem termsRange_ne_nil (columns : List String) (hashes : List Nat) (index count k : Nat)
    (hk1 : index ≤ k) (hk2 : k < index + count) (hk : columns.getD k "" ≠ "*") :
    termsRange columns hashes index count ≠ [] := by
  intro h
  have hmem : k ∈ (List.range' index count).filter (fun j => columns.getD j "" ≠ "*") := by
    have hk3 : ¬ columns[k]?.getD "" = "*" := by simpa [List.getD_eq_getElem?_getD] using hk
    simp [List.mem_filter, List.mem_range'_1, hk1, hk2, hk3]
  simp only [termsRange, List.map_eq_nil_iff] at h
  rw [h] at hmem
  exact absurd hmem (List.not_mem_nil _)

/-- The second loop of `CreateWhereClause` appends the terms of the positions it walks,
joined by ` AND `. -/
theorem whereLoop_eq (columns : List String) (hashes : List Nat) (hashesLen : Nat)
    (hc : hashesLen ≤ columns.length) (hh : hashesLen ≤ hashes.length)
    (hlast : ∀ k, hashesLen = k + 1 → columns.getD k "" ≠ "*") :
    ∀ fuel index result, index + fuel = hashesLen →
      whereLoop columns hashes hashesLen fuel index result
        = some (result ++ " AND ".intercalate (termsRange columns hashes index fuel)) := by
  intro fuel
  induction fuel with
  | zero =>
    intro index result _
    simp [whereLoop, termsRange_zero, String.intercalate]
  | succ fuel ih =>
    intro index result hsum
    have hic : index < columns.length := by omega
    have hih : index < hashes.length := by omega
    have hgc : columns.getD index "" = columns[index] := List.getD_eq_getElem _ _ hic
    have hgh : hashes.getD index 0 = hashes[index] := List.getD_eq_getElem _ _ hih
    by_cases hstar : columns[index] = "*"
    · rw [termsRange_succ_star _ _ _ _ (by rw [hgc]; exact hstar)]
      simp only [whereLoop, List.getElem?_eq_getElem hic, List.getElem?_eq_getElem hih, hstar,
        if_true]
      exact ih (index + 1) result (by omega)
    · rw [termsRange_succ _ _ _ _ (by rw [hgc]; exact hstar)]
      simp only [whereLoop, List.getElem?_eq_getElem hic, List.getElem?_eq_getElem hih, hstar,
        if_false]
      rw [ih (index + 1) _ (by omega)]
      by_cases hf : fuel = 0
      · subst hf
        have hnl : ¬ (index + 1 < hashesLen) := by omega
        simp only [hnl, if_false, termsRange_zero, intercalate_singleton]
        rw [whereTerm, hgh]
        simp [String.intercalate]
      · have hl : index + 1 < hashesLen := by omega
        have hne : termsRange columns hashes (index + 1) fuel ≠ [] := by
          obtain ⟨k, hk⟩ : ∃ k, hashesLen = k + 1 := ⟨hashesLen - 1, by omega⟩
          exact termsRange_ne_nil columns hashes (index + 1) fuel k (by omega) (by omega)
            (hlast k hk)
        simp only [hl, if_true]
        rw [intercalate_cons_of_ne_nil _ _ _ hne]
        rw [whereTerm, hgh]
        simp only [String.append_assoc]

theorem termsRange_all_star (columns : List String) (hashes : List Nat) (index count : Nat)
    (h : ∀ j, index ≤ j → j < index + count → columns.getD j "" = "*") :
    termsRange columns hashes index count = [] := by
  simp only [termsRange, List.map_eq_nil_iff, List.filter_eq_nil_iff]
  intro j hj
  rw [List.mem_range'_1] at hj
  have := h j hj.1 hj.2
  simpa [List.getD_eq_getElem?_getD] using this

theorem whereTerms_eq_termsRange (columns : List String) (hashes : List Nat) :
    whereTerms columns hashes = termsRange columns hashes 0 columns.length := by
  simp [whereTerms, termsRange, List.range_eq_range']

theorem termsRange_append (columns : List String) (hashes : List Nat) (index m n : Nat) :
    termsRange columns hashes index (n + m)
      = termsRange columns hashes index m ++ termsRange columns hashes (index + m) n := by
  simp [termsRange, ← List.range'_append_1, List.filter_append]

/-- The closed form of `CreateWhereClause`. -/
theorem CreateWhereClause_eq (columns : List String) (hashes : List Nat)
    (h : columns.length = hashes.length) :
    CreateWhereClause columns hashes = some (" AND ".intercalate (whereTerms columns hashes)) := by
  obtain ⟨m, hm, hle, hall, hlast⟩ := trimHashesLen_spec columns hashes.length (by omega)
  unfold CreateWhereClause
  rw [hm]
  simp only
  rw [whereLoop_eq columns hashes m (by omega) hle hlast m 0 "" (by omega)]
  rw [whereTerms_eq_termsRange]
  have hsplit : columns.length = (columns.length - m) + m := by omega
  rw [hsplit, termsRange_append, termsRange_all_star columns hashes (0 + m)]
  · simp
  · intro j hj1 hj2
    exact hall j (by omega) (by omega)

/-! ## Reading back what the drivers print -/

theorem digitChar_spec (k : Nat) (hk : k < 10) :
    (Nat.digitChar k).isDigit = true ∧ (Nat.digitChar k).toNat - 48 = k := by
  interval_cases k <;> decide

theorem toDigitsCore_append (fuel : Nat) : ∀ (n : Nat) (ds : List Char),
    Nat.toDigitsCore 10 fuel n ds = Nat.toDigitsCore 10 fuel n [] ++ ds := by
  induction fuel with
  | zero => intro n ds; simp [Nat.toDigitsCore]
  | succ f ih =>
    intro n ds
    simp only [Nat.toDigitsCore]
    split
    · simp
    · rw [ih (n / 10) (_ :: ds), ih (n / 10) [_]]
      simp

theorem digitsValue_append_singleton (ds : List Char) (c : Char) :
    digitsValue (ds ++ [c]) = 10 * digitsValue ds + (c.toNat - 48) := by
  simp [digitsValue, List.foldl_append]

theorem toDigitsCore_spec (fuel : Nat) : ∀ n, n < fuel →
    Nat.toDigitsCore 10 fuel n [] ≠ [] ∧
      (∀ c ∈ Nat.toDigitsCore 10 fuel n [], c.isDigit = true) ∧
      digitsValue (Nat.toDigitsCore 10 fuel n []) = n := by
  induction fuel with
  | zero => intro n h; omega
  | succ f ih =>
    intro n hn
    have hd := digitChar_spec (n % 10) (Nat.mod_lt _ (by decide))
    simp only [Nat.toDigitsCore]
    split
    · rename_i h0
      have hlt : n < 10 := by omega
      have hmod : n % 10 = n := Nat.mod_eq_of_lt hlt
      refine ⟨by simp, ?_, ?_⟩
      · intro c hc
        simp only [List.mem_singleton] at hc
        rw [hc]; exact hd.1
      · simp only [digitsValue, List.foldl_cons, List.foldl_nil]
        rw [hd.2]; omega
    · rename_i h0
      have hlt : n / 10 < f := by omega
      obtain ⟨_, h2, h3⟩ := ih (n / 10) hlt
      rw [toDigitsCore_append]
      refine ⟨by simp, ?_, ?_⟩
      · intro c hc
        rw [List.mem_append] at hc
        rcases hc with hc | hc
        · exact h2 c hc
        · simp only [List.mem_singleton] at hc
          rw [hc]; exact hd.1
      · rw [digitsValue_append_singleton, h3, hd.2]
        omega

theorem Itoa_data (n : Nat) : (Itoa n).data = Nat.toDigitsCore 10 (n + 1) n [] := rfl

theorem Itoa_ne_nil (n : Nat) : (Itoa n).data ≠ [] :=
  Itoa_data n ▸ (toDigitsCore_spec (n + 1) n (Nat.lt_succ_self n)).1

theorem Itoa_isDigit (n : Nat) : ∀ c ∈ (Itoa n).data, c.isDigit = true :=
  Itoa_data n ▸ (toDigitsCore_spec (n + 1) n (Nat.lt_succ_self n)).2.1

theorem Itoa_value (n : Nat) : digitsValue (Itoa n).data = n :=
  Itoa_data n ▸ (toDigitsCore_spec (n + 1) n (Nat.lt_succ_self n)).2.2

theorem takeWhile_append_stop {α : Type} (p : α → Bool) (ds rest : List α)
    (hd : ∀ c ∈ ds, p c = true) (hrest : ∀ c, rest.head? = some c → p c = false) :
    (ds ++ rest).takeWhile p = ds ∧ (ds ++ rest).dropWhile p = rest := by
  induction ds with
  | nil =>
    cases rest with
    | nil => simp
    | cons c cs =>
      have := hrest c rfl
      simp [List.takeWhile, List.dropWhile, this]
  | cons d ds ih =>
    have hd1 : p d = true := hd d (List.mem_cons_self _ _)
    obtain ⟨h1, h2⟩ := ih (fun c hc => hd c (List.mem_cons_of_mem _ hc))
    simp [List.takeWhile, List.dropWhile, hd1, h1, h2]

theorem readNat_Itoa (n : Nat) (rest : List Char)
    (hrest : ∀ c, rest.head? = some c → c.isDigit = false) :
    readNat ((Itoa n).data ++ rest) = some (n, rest) := by
  obtain ⟨h1, h2⟩ := takeWhile_append_stop Char.isDigit (Itoa n).data rest (Itoa_isDigit n) hrest
  simp [readNat, h1, h2, Itoa_ne_nil, Itoa_value]

theorem dropPrefix_append (p rest : List Char) : dropPrefix p (p ++ rest) = some rest := by
  induction p with
  | nil => cases rest <;> rfl
  | cons c cs ih => simp [dropPrefix, ih]

/-- A clause text made of conditions whose names hold no blank reads back as these
conditions. -/
theorem parseWhere_intercalate : ∀ (conds : List (String × Nat)), conds ≠ [] →
    (∀ c ∈ conds, Char.ofNat 32 ∉ c.1.data) →
    ∀ fuel, conds.length ≤ fuel →
      parseWhere fuel (" AND ".intercalate (conds.map condText)).data = some conds := by
  intro conds
  induction conds with
  | nil => intro h; exact absurd rfl h
  | cons c rest ih =>
    intro _ hnames fuel hfuel
    obtain ⟨f, rfl⟩ : ∃ f, fuel = f + 1 := ⟨fuel - 1, by simp at hfuel; omega⟩
    have hname : ∀ x ∈ c.1.data, (x != Char.ofNat 32) = true := by
      intro x hx
      have : x ≠ Char.ofNat 32 := fun h => hnames c (List.mem_cons_self _ _) (h ▸ hx)
      simpa using this
    by_cases hrest : rest = []
    · subst hrest
      have htext : (" AND ".intercalate ([c].map condText)).data
          = c.1.data ++ (" = ".data ++ ((Itoa c.2).data ++ [])) := by
        simp [intercalate_singleton, condText, String.data_append]
      rw [htext]
      obtain ⟨h1, h2⟩ := takeWhile_append_stop (fun x => x != Char.ofNat 32) c.1.data
        (" = ".data ++ ((Itoa c.2).data ++ [])) hname (by intro x hx; simp at hx; subst hx; decide)
      simp only [parseWhere, h1, h2, dropPrefix_append]
      rw [readNat_Itoa c.2 [] (by simp)]
      simp
    · have htext : (" AND ".intercalate ((c :: rest).map condText)).data
          = c.1.data ++ (" = ".data ++ ((Itoa c.2).data ++
              (" AND ".data ++ (" AND ".intercalate (rest.map condText)).data))) := by
        rw [List.map_cons, intercalate_cons_of_ne_nil _ _ _ (by simpa using hrest)]
        simp [condText, String.data_append]
      rw [htext]
      obtain ⟨h1, h2⟩ := takeWhile_append_stop (fun x => x != Char.ofNat 32) c.1.data
        (" = ".data ++ ((Itoa c.2).data ++
              (" AND ".data ++ (" AND ".intercalate (rest.map condText)).data)))
        hname (by intro x hx; simp at hx; subst hx; decide)
      simp only [parseWhere, h1, h2, dropPrefix_append]
      rw [readNat_Itoa c.2 _ (by intro x hx; simp at hx; subst hx; decide)]
      have hih := ih hrest (fun x hx => hnames x (List.mem_cons_of_mem _ hx)) f
        (by simp at hfuel; omega)
      have hne : " AND ".data ++ (" AND ".intercalate (rest.map condText)).data ≠ [] := by
        intro h
        have := congrArg List.length h
        simp at this
      simp only [hne, if_false, dropPrefix_append, hih, Option.map_some']

/-! ## What the backend reads in the text after `WHERE` -/

theorem whereTerms_eq_columnConds (columns : List String) (hashes : List Nat) :
    whereTerms columns hashes = (columnConds columns hashes).map condText := by
  simp only [whereTerms, columnConds, List.map_map]
  rfl

theorem condText_data (c : String × Nat) :
    (condText c).data = c.1.data ++ (" = ".data ++ (Itoa c.2).data) := by
  simp [condText, String.data_append]

theorem intercalate_condText_length : ∀ (conds : List (String × Nat)),
    conds.length ≤ (" AND ".intercalate (conds.map condText)).data.length := by
  intro conds
  induction conds with
  | nil => simp
  | cons c rest ih =>
    by_cases hrest : rest = []
    · subst hrest
      simp [intercalate_singleton, condText_data]
      omega
    · rw [List.map_cons, intercalate_cons_of_ne_nil _ _ _ (by simpa using hrest)]
      simp only [String.data_append, condText_data, List.length_append, List.length_cons]
      have : " = ".data.length = 3 := rfl
      omega

theorem intercalate_condText_ne_empty (conds : List (String × Nat)) (h : conds ≠ []) :
    " AND ".intercalate (conds.map condText) ≠ "" := by
  intro he
  have hlen := intercalate_condText_length conds
  rw [he] at hlen
  cases conds with
  | nil => exact h rfl
  | cons c rest => simp at hlen

theorem tableHashText : ("table_hash = " : String) = "table_hash" ++ " = " := by decide

theorem objectKeyHashText (x : String) :
    " AND object_key_hash = " ++ x = " AND " ++ ("object_key_hash = " ++ x) := by
  rw [← String.append_assoc]
  rfl

/-- The text after `WHERE` on `keys` is the conjunction of the table condition and the
conditions of the clause. -/
theorem whereTable_eq (tableHash : Nat) (columns : List String) (hashes : List Nat) :
    whereTable tableHash (" AND ".intercalate (whereTerms columns hashes))
      = " AND ".intercalate
          ((("table_hash", tableHash) :: columnConds columns hashes).map condText) := by
  rw [whereTerms_eq_columnConds]
  by_cases hnil : columnConds columns hashes = []
  · rw [hnil]
    simp [whereTable, String.intercalate, String.intercalate.go, condText, tableHashText]
  · have hne := intercalate_condText_ne_empty _ hnil
    rw [List.map_cons, intercalate_cons_of_ne_nil _ _ _ (by simpa using hnil)]
    simp [whereTable, hne, condText, tableHashText]

/-- The text after `WHERE` of `DelFromMap` and `GetFromMap`. -/
theorem whereObject_eq (tableHash objectKeyHash : Nat) (columns : List String)
    (hashes : List Nat) :
    whereObject tableHash objectKeyHash (" AND ".intercalate (whereTerms columns hashes))
      = " AND ".intercalate
          ((("table_hash", tableHash) :: ("object_key_hash", objectKeyHash)
              :: columnConds columns hashes).map condText) := by
  rw [whereTerms_eq_columnConds]
  by_cases hnil : columnConds columns hashes = []
  · rw [hnil]
    simp [whereObject, String.intercalate, String.intercalate.go, condText, tableHashText,
      objectKeyHashText, String.append_assoc]
  · have hne := intercalate_condText_ne_empty _ hnil
    rw [List.map_cons, List.map_cons, intercalate_cons_cons,
      intercalate_cons_of_ne_nil _ _ _ (by simpa using hnil)]
    simp [whereObject, hne, condText, tableHashText, objectKeyHashText, String.append_assoc]

theorem columnName_no_blank (i : Nat) :
    Char.ofNat 32 ∉ ("column_" ++ Itoa i ++ "_hash").data := by
  simp only [String.data_append, List.mem_append, not_or]
  refine ⟨⟨by decide, ?_⟩, by decide⟩
  intro h
  have := Itoa_isDigit i _ h
  revert this
  decide

theorem columnConds_no_blank (columns : List String) (hashes : List Nat) :
    ∀ c ∈ columnConds columns hashes, Char.ofNat 32 ∉ c.1.data := by
  intro c hc
  simp only [columnConds, List.mem_map] at hc
  obtain ⟨j, _, rfl⟩ := hc
  exact columnName_no_blank (j + 1)

theorem columnName_index (j : Nat) (hj : j < NumberOfColumns) :
    hashColumnNames.indexOf ("column_" ++ Itoa (j + 1) ++ "_hash") = j ∧
      ("column_" ++ Itoa (j + 1) ++ "_hash" : String) ≠ "table_hash" ∧
      ("column_" ++ Itoa (j + 1) ++ "_hash" : String) ≠ "object_key_hash" := by
  unfold NumberOfColumns at hj
  interval_cases j <;> decide

theorem mem_columnConds (columns : List String) (hashes : List Nat) (c : String × Nat) :
    c ∈ columnConds columns hashes ↔
      ∃ j, j < columns.length ∧ columns.getD j "" ≠ "*" ∧
        c = ("column_" ++ Itoa (j + 1) ++ "_hash", hashes.getD j 0) := by
  simp only [columnConds, List.mem_map, List.mem_filter, List.mem_range, decide_eq_true_eq]
  constructor
  · rintro ⟨j, ⟨h1, h2⟩, rfl⟩; exact ⟨j, h1, h2, rfl⟩
  · rintro ⟨j, h1, h2, rfl⟩; exact ⟨j, ⟨h1, h2⟩, rfl⟩

/-- Evaluating the conditions of a clause on the hash columns of a `keys` row. -/
theorem keyRow_conds (tableHash : Nat) (columns : List String) (hashes : List Nat)
    (hlen : columns.length ≤ NumberOfColumns) (r : KeyRow) :
    ((("table_hash", tableHash) :: columnConds columns hashes).all
        (fun c => r.hashColumn c.1 = some c.2))
      = hashesMatch tableHash columns hashes r.table_hash r.columns := by
  rw [Bool.eq_iff_iff]
  simp only [List.all_cons, Bool.and_eq_true, List.all_eq_true, decide_eq_true_eq, hashesMatch,
    Bool.decide_and, Bool.decide_or, Bool.or_eq_true, List.mem_range]
  constructor
  · rintro ⟨h1, h2⟩
    refine ⟨by simpa [KeyRow.hashColumn] using h1, ?_⟩
    intro j hj
    by_cases hstar : columns.getD j "" = "*"
    · exact Or.inl hstar
    · right
      have := h2 _ ((mem_columnConds columns hashes _).2 ⟨j, hj, hstar, rfl⟩)
      obtain ⟨hi, hn, _⟩ := columnName_index j (by omega)
      simpa [KeyRow.hashColumn, hi, hn, (by omega : j < NumberOfColumns)] using this
  · rintro ⟨h1, h2⟩
    refine ⟨by simpa [KeyRow.hashColumn] using h1, ?_⟩
    intro c hc
    obtain ⟨j, hj, hstar, rfl⟩ := (mem_columnConds columns hashes c).1 hc
    obtain ⟨hi, hn, _⟩ := columnName_index j (by omega)
    rcases h2 j hj with h | h
    · exact absurd h hstar
    · simpa [KeyRow.hashColumn, hi, hn, (by omega : j < NumberOfColumns)] using h

theorem conds_no_blank (tableHash : Nat) (columns : List String) (hashes : List Nat) :
    ∀ c ∈ ("table_hash", tableHash) :: columnConds columns hashes,
      Char.ofNat 32 ∉ c.1.data := by
  intro c hc
  rcases List.mem_cons.1 hc with rfl | hc
  · show Char.ofNat 32 ∉ "table_hash".data
    decide
  · exact columnConds_no_blank columns hashes c hc

theorem objectConds_no_blank (tableHash objectKeyHash : Nat) (columns : List String)
    (hashes : List Nat) :
    ∀ c ∈ ("table_hash", tableHash) :: ("object_key_hash", objectKeyHash)
        :: columnConds columns hashes, Char.ofNat 32 ∉ c.1.data := by
  intro c hc
  rcases List.mem_cons.1 hc with rfl | hc
  · show Char.ofNat 32 ∉ "table_hash".data
    decide
  · rcases List.mem_cons.1 hc with rfl | hc
    · show Char.ofNat 32 ∉ "object_key_hash".data
      decide
    · exact columnConds_no_blank columns hashes c hc

theorem columnConds_isKeysColumn (columns : List String) (hashes : List Nat)
    (hlen : columns.length ≤ NumberOfColumns) :
    ∀ c ∈ columnConds columns hashes, isKeysColumn c.1 = true ∧ isMapsColumn c.1 = true := by
  intro c hc
  obtain ⟨j, hj, _, rfl⟩ := (mem_columnConds columns hashes c).1 hc
  obtain ⟨hi, _, _⟩ := columnName_index j (by omega)
  have hj2 : j < NumberOfColumns := by omega
  simp [isKeysColumn, isMapsColumn, hi, hj2]

theorem intercalate_condText_fuel (conds : List (String × Nat)) :
    conds.length ≤ (" AND ".intercalate (conds.map condText)).length + 1 :=
  Nat.le_succ_of_le (intercalate_condText_length conds)

/-- The rows of `keys` a statement selects with the table condition and a clause. -/
theorem whereKeys_whereTable (rows : List KeyRow) (tableHash : Nat) (columns : List String)
    (hashes : List Nat) (hlen : columns.length ≤ NumberOfColumns) :
    whereKeys rows (whereTable tableHash (" AND ".intercalate (whereTerms columns hashes)))
      = Except.ok (rows.filter
          (fun r => hashesMatch tableHash columns hashes r.table_hash r.columns)) := by
  rw [whereTable_eq]
  unfold whereKeys
  rw [parseWhere_intercalate _ (by simp) (conds_no_blank tableHash columns hashes) _
    (intercalate_condText_fuel _)]
  have hall : (("table_hash", tableHash) :: columnConds columns hashes).all
      (fun c => isKeysColumn c.1) = true := by
    rw [List.all_cons, Bool.and_eq_true, List.all_eq_true]
    exact ⟨by show isKeysColumn "table_hash" = true; decide,
      fun c hc => (columnConds_isKeysColumn columns hashes hlen c hc).1⟩
  simp only [hall, if_true]
  congr 1
  apply List.filter_congr
  intro r _
  exact keyRow_conds tableHash columns hashes hlen r

/-- Evaluating the conditions of a clause on the hash columns of a `maps` row. -/
theorem mapRow_conds (tableHash : Nat) (columns : List String) (hashes : List Nat)
    (hlen : columns.length ≤ NumberOfColumns) (r : MapRow) :
    ((("table_hash", tableHash) :: columnConds columns hashes).all
        (fun c => r.hashColumn c.1 = some c.2))
      = hashesMatch tableHash columns hashes r.table_hash r.columns := by
  rw [Bool.eq_iff_iff]
  simp only [List.all_cons, Bool.and_eq_true, List.all_eq_true, decide_eq_true_eq, hashesMatch,
    Bool.decide_and, Bool.decide_or, Bool.or_eq_true, List.mem_range]
  constructor
  · rintro ⟨h1, h2⟩
    refine ⟨by simpa [MapRow.hashColumn] using h1, ?_⟩
    intro j hj
    by_cases hstar : columns.getD j "" = "*"
    · exact Or.inl hstar
    · right
      have := h2 _ ((mem_columnConds columns hashes _).2 ⟨j, hj, hstar, rfl⟩)
      obtain ⟨hi, hn, ho⟩ := columnName_index j (by omega)
      simpa [MapRow.hashColumn, hi, hn, ho, (by omega : j < NumberOfColumns)] using this
  · rintro ⟨h1, h2⟩
    refine ⟨by simpa [MapRow.hashColumn] using h1, ?_⟩
    intro c hc
    obtain ⟨j, hj, hstar, rfl⟩ := (mem_columnConds columns hashes c).1 hc
    obtain ⟨hi, hn, ho⟩ := columnName_index j (by omega)
    rcases h2 j hj with h | h
    · exact absurd h hstar
    · simpa [MapRow.hashColumn, hi, hn, ho, (by omega : j < NumberOfColumns)] using h

/-- The rows of `maps` a statement selects with the table condition and a clause. -/
theorem whereMaps_whereTable (rows : List MapRow) (tableHash : Nat) (columns : List String)
    (hashes : List Nat) (hlen : columns.length ≤ NumberOfColumns) :
    whereMaps rows (whereTable tableHash (" AND ".intercalate (whereTerms columns hashes)))
      = Except.ok (rows.filter
          (fun r => hashesMatch tableHash columns hashes r.table_hash r.columns)) := by
  rw [whereTable_eq]
  unfold whereMaps
  rw [parseWhere_intercalate _ (by simp) (conds_no_blank tableHash columns hashes) _
    (intercalate_condText_fuel _)]
  have hall : (("table_hash", tableHash) :: columnConds columns hashes).all
      (fun c => isMapsColumn c.1) = true := by
    rw [List.all_cons, Bool.and_eq_true, List.all_eq_true]
    exact ⟨by show isMapsColumn "table_hash" = true; decide,
      fun c hc => (columnConds_isKeysColumn columns hashes hlen c hc).2⟩
  simp only [hall, if_true]
  congr 1
  apply List.filter_congr
  intro r _
  exact mapRow_conds tableHash columns hashes hlen r

/-- The rows of `maps` selected by `DelFromMap` and `GetFromMap`. -/
theorem whereMaps_whereObject (rows : List MapRow) (tableHash objectKeyHash : Nat)
    (columns : List String) (hashes : List Nat) (hlen : columns.length ≤ NumberOfColumns) :
    whereMaps rows
        (whereObject tableHash objectKeyHash (" AND ".intercalate (whereTerms columns hashes)))
      = Except.ok (rows.filter (fun r =>
          r.object_key_hash = objectKeyHash ∧
            hashesMatch tableHash columns hashes r.table_hash r.columns)) := by
  rw [whereObject_eq]
  unfold whereMaps
  rw [parseWhere_intercalate _ (by simp)
    (objectConds_no_blank tableHash objectKeyHash columns hashes) _
    (intercalate_condText_fuel _)]
  have hall : (("table_hash", tableHash) :: ("object_key_hash", objectKeyHash)
      :: columnConds columns hashes).all (fun c => isMapsColumn c.1) = true := by
    rw [List.all_cons, List.all_cons, Bool.and_eq_true, Bool.and_eq_true, List.all_eq_true]
    exact ⟨by show isMapsColumn "table_hash" = true; decide,
      by show isMapsColumn "object_key_hash" = true; decide,
      fun c hc => (columnConds_isKeysColumn columns hashes hlen c hc).2⟩
  simp only [hall, if_true]
  congr 1
  apply List.filter_congr
  intro r _
  have h := mapRow_conds tableHash columns hashes hlen r
  rw [List.all_cons] at h ⊢
  rw [List.all_cons, ← h]
  have ho : (decide (r.hashColumn "object_key_hash" = some objectKeyHash))
      = decide (r.object_key_hash = objectKeyHash) := by
    simp [MapRow.hashColumn]
  simp only [ho, Bool.decide_and, List.all_cons]
  cases decide (r.hashColumn "table_hash" = some tableHash) <;>
    cases decide (r.object_key_hash = objectKeyHash) <;> simp

/-- On the hashes of its own columns `CreateWhereClause` does not panic. -/
theorem CreateWhereClause_hashes (columns : List String) :
    CreateWhereClause columns (CalculateHashesOfColumns columns)
      = some (" AND ".intercalate (whereTerms columns (CalculateHashesOfColumns columns))) :=
  CreateWhereClause_eq columns _ (CalculateHashesOfColumns_length columns).symm

theorem readLiteral_safe (d : Dialect) : ∀ (cs : List Char), quoteChar ∉ cs →
    (d = Dialect.mysql → backslashChar ∉ cs) →
    readLiteral d (cs ++ [quoteChar]) = some (cs, []) := by
  intro cs
  induction cs with
  | nil => intro _ _; simp [readLiteral]
  | cons c cs ih =>
    intro hq hb
    have hc : c ≠ quoteChar := fun h => hq (h ▸ List.mem_cons_self _ _)
    have hq2 : quoteChar ∉ cs := fun h => hq (List.mem_cons_of_mem _ h)
    have hb2 : d = Dialect.mysql → backslashChar ∉ cs :=
      fun hd h => hb hd (List.mem_cons_of_mem _ h)
    have hcb : ¬ (d = Dialect.mysql ∧ c = backslashChar) :=
      fun h => hb h.1 (h.2 ▸ List.mem_cons_self _ _)
    rw [List.cons_append, readLiteral.eq_def]
    simp [hc, hcb, ih hq2 hb2]

/-- A text without quote (and, for MySQL, without backslash) is read back unchanged. -/
theorem sqlText_safe (d : Dialect) (text : String) (h : literalSafe d text = true) :
    sqlText d text = some text := by
  simp only [literalSafe, Bool.and_eq_true, Bool.not_eq_true', Bool.and_eq_false_imp,
    decide_eq_true_eq] at h
  have h1 : quoteChar ∉ text.data := by
    intro hm
    have := h.1
    simp [List.contains_iff_exists_mem_beq] at this
    exact this hm
  have h2 : d = Dialect.mysql → backslashChar ∉ text.data := by
    intro hd hm
    have := h.2 hd
    simp [List.contains_iff_exists_mem_beq] at this
    exact this hm
  simp [sqlText, readLiteral_safe d text.data h1 h2]

/-! ## The clause: shape of the text and trailing wildcards -/

theorem whereTerm_data (i h : Nat) :
    (whereTerm i h).data
      = Char.ofNat 99 :: ("olumn_".data ++ ((Itoa i).data ++ ("_hash".data ++ " = ".data)))
          ++ (Itoa h).data := by
  simp [whereTerm, String.data_append]

theorem intercalate_data_head (s a : String) (l : List String) :
    ∃ t, (s.intercalate (a :: l)).data = a.data ++ t := by
  cases l with
  | nil => exact ⟨[], by simp [intercalate_singleton]⟩
  | cons b l =>
    exact ⟨s.data ++ (s.intercalate (b :: l)).data, by
      rw [intercalate_cons_cons]; simp [String.data_append]⟩

theorem intercalate_data_last (s : String) : ∀ (l : List String) (h : l ≠ []),
    ∃ t, (s.intercalate l).data = t ++ (l.getLast h).data := by
  intro l
  induction l with
  | nil => intro h; exact absurd rfl h
  | cons a l ih =>
    intro _
    cases l with
    | nil => exact ⟨[], by simp [intercalate_singleton]⟩
    | cons b l =>
      obtain ⟨t, ht⟩ := ih (by simp)
      refine ⟨a.data ++ s.data ++ t, ?_⟩
      rw [intercalate_cons_cons, List.getLast_cons (by simp)]
      simp [String.data_append, ht]

theorem mem_whereTerms (columns : List String) (hashes : List Nat) (t : String)
    (ht : t ∈ whereTerms columns hashes) : ∃ i h, t = whereTerm i h := by
  simp only [whereTerms, List.mem_map] at ht
  obtain ⟨j, _, rfl⟩ := ht
  exact ⟨_, _, rfl⟩

theorem whereTerms_all_star (columns : List String) (hashes : List Nat)
    (h : ∀ c ∈ columns, c = "*") : whereTerms columns hashes = [] := by
  rw [whereTerms_eq_termsRange]
  apply termsRange_all_star
  intro j _ hj
  have hj2 : j < columns.length := by omega
  rw [List.getD_eq_getElem _ _ hj2]
  exact h _ (List.getElem_mem _)

theorem clause_no_and_prefix (columns : List String) (hashes : List Nat) :
    ¬ " AND ".data <+: (" AND ".intercalate (whereTerms columns hashes)).data := by
  rintro ⟨u, hu⟩
  cases hl : whereTerms columns hashes with
  | nil =>
    rw [hl] at hu
    have := congrArg List.length hu
    simp [String.intercalate] at this
  | cons a l =>
    rw [hl] at hu
    obtain ⟨i, h, rfl⟩ := mem_whereTerms columns hashes a (hl ▸ List.mem_cons_self _ _)
    obtain ⟨t, ht⟩ := intercalate_data_head " AND " (whereTerm i h) l
    rw [ht, whereTerm_data] at hu
    have h0 := congrArg List.head? hu
    revert h0
    simp

theorem clause_no_and_suffix (columns : List String) (hashes : List Nat) :
    ¬ " AND ".data <:+ (" AND ".intercalate (whereTerms columns hashes)).data := by
  rintro ⟨u, hu⟩
  by_cases hl : whereTerms columns hashes = []
  · rw [hl] at hu
    have := congrArg List.length hu
    simp [String.intercalate] at this
  · obtain ⟨t, ht⟩ := intercalate_data_last " AND " _ hl
    obtain ⟨i, h, hih⟩ := mem_whereTerms columns hashes _ (List.getLast_mem hl)
    rw [ht, hih, whereTerm_data] at hu
    have h0 := congrArg List.getLast? hu
    have hne := Itoa_ne_nil h
    rw [← List.append_assoc, ← List.append_assoc, List.getLast?_append_of_ne_nil _ hne,
      List.getLast?_eq_getLast _ hne] at h0
    have hd := Itoa_isDigit h _ (List.getLast_mem hne)
    have h1 : (u ++ " AND ".data).getLast? = some (Char.ofNat 32) := by
      simp
    rw [h1] at h0
    injection h0 with h0
    rw [← h0] at hd
    revert hd
    decide

theorem splitOnP_append_sep {α : Type} (p : α → Bool) (sep : α) (hsep : p sep = true)
    (r : List α) (hr : ∀ x ∈ r, ¬ p x = true) : ∀ (l : List α),
    (l ++ sep :: r).splitOnP p = l.splitOnP p ++ [r] := by
  intro l
  induction l with
  | nil =>
    simp [List.splitOnP_cons, hsep, List.splitOnP_eq_single p _ hr]
  | cons x xs ih =>
    rw [List.cons_append, List.splitOnP_cons, List.splitOnP_cons, ih]
    by_cases hx : p x = true
    · simp [hx]
    · simp only [hx, if_false]
      cases hs : List.splitOnP p xs with
      | nil => exact absurd hs (List.splitOnP_ne_nil p xs)
      | cons a as => simp [List.modifyHead]

theorem SplitToParts_append_star (p : String) :
    SplitToParts (p ++ "/*") = SplitToParts p ++ ["*"] := by
  unfold SplitToParts
  rw [String.data_append]
  have h : ("/*" : String).data = Char.ofNat 47 :: [Char.ofNat 42] := by decide
  rw [h]
  simp only [List.splitOn]
  rw [splitOnP_append_sep _ _ (by decide) _ (by decide)]
  simp

theorem SplitToParts_withStars (p : String) (n : Nat) :
    SplitToParts (withStars p n) = SplitToParts p ++ List.replicate n "*" := by
  induction n with
  | zero => simp [withStars]
  | succ n ih =>
    rw [withStars, SplitToParts_append_star, ih, List.replicate_succ', List.append_assoc]

theorem termsRange_congr (c1 c2 : List String) (h1 h2 : List Nat) (index count : Nat)
    (hc : ∀ j, index ≤ j → j < index + count → c1.getD j "" = c2.getD j "")
    (hh : ∀ j, index ≤ j → j < index + count → h1.getD j 0 = h2.getD j 0) :
    termsRange c1 h1 index count = termsRange c2 h2 index count := by
  unfold termsRange
  have hf : (List.range' index count).filter (fun j => c1.getD j "" ≠ "*")
      = (List.range' index count).filter (fun j => c2.getD j "" ≠ "*") := by
    apply List.filter_congr
    intro j hj
    rw [List.mem_range'_1] at hj
    rw [hc j hj.1 hj.2]
  rw [hf]
  apply List.map_congr_left
  intro j hj
  have hj2 := (List.mem_filter.1 hj).1
  rw [List.mem_range'_1] at hj2
  rw [hh j hj2.1 hj2.2]

/-- A trailing `*` segment adds no term. -/
theorem whereTerms_append_star (columns : List String) (hashes : List Nat) (h : Nat)
    (hlen : hashes.length = columns.length) :
    whereTerms (columns ++ ["*"]) (hashes ++ [h]) = whereTerms columns hashes := by
  rw [whereTerms_eq_termsRange, whereTerms_eq_termsRange]
  have hl : (columns ++ ["*"]).length = 1 + columns.length := by simp; omega
  rw [hl, termsRange_append, termsRange_all_star _ _ (0 + columns.length) 1, List.append_nil]
  · apply termsRange_congr
    · intro j _ hj
      rw [List.getD_eq_getElem?_getD, List.getD_eq_getElem?_getD,
        List.getElem?_append_left (by omega)]
    · intro j _ hj
      rw [List.getD_eq_getElem?_getD, List.getD_eq_getElem?_getD,
        List.getElem?_append_left (by omega)]
  · intro j hj1 hj2
    have : j = columns.length := by omega
    subst this
    simp [List.getD_eq_getElem?_getD]

theorem whereTerms_withStars (p : String) (n : Nat) :
    whereTerms (SplitToParts (withStars p n)) (CalculateHashesOfColumns (SplitToParts (withStars p n)))
      = whereTerms (SplitToParts p) (CalculateHashesOfColumns (SplitToParts p)) := by
  induction n with
  | zero => rfl
  | succ n ih =>
    rw [withStars, SplitToParts_append_star, CalculateHashesOfColumns_eq_map, List.map_append,
      List.map_singleton, ← CalculateHashesOfColumns_eq_map,
      whereTerms_append_star _ _ _ (CalculateHashesOfColumns_length _), ih]

/-! ## The sweep and the clock -/

theorem tdiv_million_le (a : Int) (h : a ≤ maxInt64) : a.tdiv 1000000 ≤ 9223372036854 := by
  unfold maxInt64 at h
  rcases le_or_lt 0 a with h0 | h0
  · rw [Int.tdiv_eq_ediv h0 (by decide)]; omega
  · have h1 : a.tdiv 1000000 = -((-a).tdiv 1000000) := by rw [Int.neg_tdiv, neg_neg]
    have h2 : 0 ≤ (-a).tdiv 1000000 := Int.tdiv_nonneg (by omega) (by decide)
    omega

theorem wrapInt64_le (x : Int) : wrapInt64 x ≤ maxInt64 := by
  unfold wrapInt64 maxInt64
  have := Int.emod_lt_of_pos (x + 2 ^ 63) (show (0 : Int) < 2 ^ 64 by decide)
  omega

/-- A clock reading in milliseconds never exceeds the `ttl` written for "no expiry". -/
theorem nowMillis_le (t : Int) : nowMillis t ≤ 9223372036854 :=
  tdiv_million_le _ (wrapInt64_le t)

theorem untilMilliseconds_zero (clock : Int) : untilMilliseconds clock 0 = 9223372036854 := by
  simp [untilMilliseconds, Milliseconds, UnixNano, wrapInt64, maxInt64]
  decide

theorem KeysCleanUp_noFailure (env : Env) (s : Store) (h1 : env.sweepErr = none)
    (h2 : env.sweepRowsErr = none) : (KeysCleanUp env s).1 = none := by
  unfold KeysCleanUp execSweep
  rw [h1, h2]
  simp only
  split <;> rfl

theorem KeysCleanUp_maps (env : Env) (s : Store) : (KeysCleanUp env s).2.maps = s.maps := by
  unfold KeysCleanUp execSweep
  cases env.sweepErr <;> cases env.sweepRowsErr <;> simp only <;> split <;> rfl

/-- The sweep leaves the rows of `keys` as they are or removes those with `ttl < now`. -/
theorem KeysCleanUp_keys (env : Env) (s : Store) :
    (KeysCleanUp env s).2.keys = s.keys ∨
      (KeysCleanUp env s).2.keys
        = s.keys.filter (fun r => ¬ (r.ttl < nowMillis env.sweepClock)) := by
  unfold KeysCleanUp execSweep
  cases env.sweepErr <;> cases env.sweepRowsErr <;> simp only <;> split <;> simp

theorem KeysCleanUp_sublist (env : Env) (s : Store) :
    (KeysCleanUp env s).2.keys.Sublist s.keys := by
  rcases KeysCleanUp_keys env s with h | h
  · rw [h]
  · rw [h]
    exact List.filter_sublist _

theorem KeysCleanUp_mem (env : Env) (s : Store) (r : KeyRow)
    (h : r ∈ (KeysCleanUp env s).2.keys) : r ∈ s.keys :=
  (KeysCleanUp_sublist env s).subset h

theorem KeysCleanUp_keep (env : Env) (s : Store) (r : KeyRow) (hr : r ∈ s.keys)
    (h : nowMillis env.sweepClock ≤ r.ttl) : r ∈ (KeysCleanUp env s).2.keys := by
  rcases KeysCleanUp_keys env s with hk | hk <;> rw [hk]
  · exact hr
  · simp [List.mem_filter, hr, h]

/-! ## What the operations do when nothing fails -/

theorem paddedHashes_getD (hashes : List Nat) (j : Nat) (hj : j < NumberOfColumns) :
    (paddedHashes hashes).getD j 0 = hashes.getD j 0 := by
  unfold paddedHashes
  rw [List.getD_eq_getElem?_getD, List.getElem?_map, List.getElem?_range hj]
  simp only [Option.map_some', Option.getD_some]
  split
  · rfl
  · rw [List.getD_eq_default _ _ (by omega)]

theorem paddedHashes_length (hashes : List Nat) :
    (paddedHashes hashes).length = NumberOfColumns := by
  simp [paddedHashes]

/-- The row written for a key is selected by the filter built from the same key. -/
theorem selects_keyColumns (table key : String)
    (hlen : (SplitToParts key).length ≤ NumberOfColumns) :
    selects table key (CalculateHash table) (keyColumns key) = true := by
  simp only [selects, hashesMatch, keyColumns, Bool.decide_and, Bool.and_eq_true,
    decide_eq_true_eq, List.all_eq_true, List.mem_range, Bool.decide_or, Bool.or_eq_true,
    true_and]
  intro j hj
  right
  exact paddedHashes_getD _ j (by omega)

theorem selects_table_hash (table pattern : String) (h : Nat) (cols : List Nat)
    (hs : selects table pattern h cols = true) : h = CalculateHash table := by
  simp only [selects, hashesMatch, Bool.decide_and, Bool.and_eq_true, decide_eq_true_eq] at hs
  exact hs.1

theorem GetKey_run (env : Env) (s : Store) (table key : String)
    (hs : (KeysCleanUp env s).1 = none) (hlen : (SplitToParts key).length ≤ NumberOfColumns)
    (he : env.stmtErr = none) :
    GetKey env s table key
      = ((firstUnexpired (nowMillis env.opClock)
            ((KeysCleanUp env s).2.keys.filter (fun r => selects table key r.table_hash r.columns)),
          none), (KeysCleanUp env s).2) := by
  unfold GetKey
  rcases hk : KeysCleanUp env s with ⟨e, s1⟩
  rw [hk] at hs
  simp only at hs
  subst hs
  simp only [Nat.not_lt.2 hlen, if_false, CreateWhereClause_hashes, queryKeys, he,
    whereKeys_whereTable _ _ _ _ hlen]
  rfl

theorem SetKey_run (d : Dialect) (env : Env) (s : Store) (table key value : String)
    (expiration : Int) (hs : (KeysCleanUp env s).1 = none)
    (hlen : (SplitToParts key).length ≤ NumberOfColumns) (he : env.stmtErr = none)
    (ht : literalSafe d table = true) (hk : literalSafe d key = true)
    (hv : literalSafe d value = true) :
    SetKey d env s table key value expiration
      = (none, (KeysCleanUp env s).2.withKeys (upsertKey (KeysCleanUp env s).2.keys
          (writtenRow table key value (untilMilliseconds env.opClock expiration)))) := by
  unfold SetKey
  rcases hc : KeysCleanUp env s with ⟨e, s1⟩
  rw [hc] at hs
  simp only at hs
  subst hs
  simp only [Nat.not_lt.2 hlen, if_false, execInsertKey, he, sqlText_safe d _ ht,
    sqlText_safe d _ hk, sqlText_safe d _ hv]
  rfl

theorem firstUnexpired_const (now : Int) (v : String) : ∀ (l : List KeyRow), l ≠ [] →
    (∀ r ∈ l, now ≤ r.ttl ∧ r.value = v) → firstUnexpired now l = v := by
  intro l hne hall
  cases l with
  | nil => exact absurd rfl hne
  | cons r rest =>
    have := hall r (List.mem_cons_self _ _)
    simp [firstUnexpired, this.1, this.2]

theorem updated_columns (r row : KeyRow) :
    (r.updated row).columns = r.columns ∧ (r.updated row).table_hash = r.table_hash := by
  unfold KeyRow.updated
  split <;> exact ⟨rfl, rfl⟩

theorem updated_of_conflicts (r row : KeyRow) (h : r.conflicts row = true) :
    (r.updated row).value = row.value ∧ (r.updated row).ttl = row.ttl := by
  simp [KeyRow.updated, h]

theorem conflicts_eq (a b : KeyRow) :
    a.conflicts b = true ↔ (a.columns = b.columns ∧ a.table_hash = b.table_hash) := by
  simp [KeyRow.conflicts]

theorem conflicts_updated (a b row : KeyRow) :
    (a.updated row).conflicts (b.updated row) = a.conflicts b := by
  unfold KeyRow.conflicts
  rw [(updated_columns a row).1, (updated_columns a row).2, (updated_columns b row).1,
    (updated_columns b row).2]

theorem upsertKey_mem (rows : List KeyRow) (row r : KeyRow) (h : r ∈ upsertKey rows row) :
    (r.columns = row.columns ∧ r.table_hash = row.table_hash ∧ r.value = row.value ∧
        r.ttl = row.ttl) ∨ (r ∈ rows ∧ r.conflicts row = false) := by
  unfold upsertKey at h
  split at h
  · rw [List.mem_map] at h
    obtain ⟨r0, hr0, rfl⟩ := h
    by_cases hc : r0.conflicts row = true
    · left
      have hc2 := (conflicts_eq r0 row).1 hc
      exact ⟨(updated_columns r0 row).1.trans hc2.1, (updated_columns r0 row).2.trans hc2.2,
        (updated_of_conflicts r0 row hc).1, (updated_of_conflicts r0 row hc).2⟩
    · right
      have : r0.updated row = r0 := by simp [KeyRow.updated, hc]
      rw [this]
      exact ⟨hr0, by simpa using hc⟩
  · rename_i hany
    rw [List.mem_append] at h
    rcases h with h | h
    · right
      refine ⟨h, ?_⟩
      simp only [List.any_eq_true, not_exists, not_and, Bool.not_eq_true] at hany
      exact hany r h
    · left
      simp only [List.mem_singleton] at h
      subst h
      exact ⟨rfl, rfl, rfl, rfl⟩

theorem upsertKey_has (rows : List KeyRow) (row : KeyRow) :
    ∃ r ∈ upsertKey rows row, r.columns = row.columns ∧ r.table_hash = row.table_hash ∧
      r.value = row.value ∧ r.ttl = row.ttl := by
  unfold upsertKey
  split
  · rename_i hany
    rw [List.any_eq_true] at hany
    obtain ⟨r0, hr0, hc⟩ := hany
    have hc2 := (conflicts_eq r0 row).1 hc
    exact ⟨r0.updated row, List.mem_map.2 ⟨r0, hr0, rfl⟩,
      (updated_columns r0 row).1.trans hc2.1, (updated_columns r0 row).2.trans hc2.2,
      (updated_of_conflicts r0 row hc).1, (updated_of_conflicts r0 row hc).2⟩
  · exact ⟨row, by simp, rfl, rfl, rfl, rfl⟩

/-! ## Claims C1 to C3 -/

/-- Claim C1, as stated, fails on the code.  `GetKey` returns the first unexpired row its
filter selects, and the filter of a key leaves the positions after the key's last
segment, and those holding `*`, unconstrained: on a store that holds `a/b` with value
`w`, `SetKey(t, "a", "v", 0)` followed by `GetKey(t, "a")` returns `w`, and on a store
that holds `x`, `SetKey(t, "*", "v", 0)` followed by `GetKey(t, "*")` returns `w`.
A value with a single quote breaks the literal it is spliced into: `SetKey` returns
the backend's error and the following `GetKey` finds nothing. -/
theorem C1_counterexample :
    (GetKey exampleEnv (SetKey Dialect.postgresql exampleEnv storeAB "t" "a" "v" 0).2 "t" "a").1
        = ("w", none) ∧
      (GetKey exampleEnv (SetKey Dialect.sqlite exampleEnv storeX "t" "*" "v" 0).2 "t" "*").1
        = ("w", none) ∧
      (SetKey Dialect.sqlite exampleEnv Store.empty "t" "a/b" "it's" 0).1 ≠ none ∧
      (GetKey exampleEnv (SetKey Dialect.sqlite exampleEnv Store.empty "t" "a/b" "it's" 0).2
          "t" "a/b").1 = ("", none) := by
  decide

/-- Claim C1, amended: in each SQL driver, when no backend call fails, for table, key and
value that hold no single quote (and no backslash on MySQL), a key of at most 10
segments, and a store in which every row selected by the filter of `(table, key)` carries
the hash tuple of `key`, `SetKey(table, key, value, 0)` returns a nil error and the
`GetKey(table, key)` that follows returns exactly `value` with a nil error. -/
theorem C1_set_then_get (d : Dialect) (env1 env2 : Env) (s : Store) (table key value : String)
    (h1 : env1.noFailure) (h2 : env2.noFailure)
    (hlen : (SplitToParts key).length ≤ NumberOfColumns)
    (ht : literalSafe d table = true) (hk : literalSafe d key = true)
    (hv : literalSafe d value = true)
    (hsolo : ∀ r ∈ s.keys, selects table key r.table_hash r.columns = true →
      r.columns = keyColumns key) :
    (SetKey d env1 s table key value 0).1 = none ∧
      (GetKey env2 (SetKey d env1 s table key value 0).2 table key).1 = (value, none) := by
  have hs1 := KeysCleanUp_noFailure env1 s h1.1 h1.2.1
  rw [SetKey_run d env1 s table key value 0 hs1 hlen h1.2.2.1 ht hk hv]
  refine ⟨rfl, ?_⟩
  rw [GetKey_run env2 _ table key (KeysCleanUp_noFailure env2 _ h2.1 h2.2.1) hlen h2.2.2.1]
  simp only [Prod.mk.injEq, and_true]
  rw [untilMilliseconds_zero]
  apply firstUnexpired_const
  · obtain ⟨r, hr, hc, hth, _, httl⟩ := upsertKey_has (KeysCleanUp env1 s).2.keys
      (writtenRow table key value 9223372036854)
    intro hnil
    have hmem : r ∈ List.filter (fun r => selects table key r.table_hash r.columns)
        (KeysCleanUp env2 ((KeysCleanUp env1 s).2.withKeys
          (upsertKey (KeysCleanUp env1 s).2.keys
            (writtenRow table key value 9223372036854)))).2.keys := by
      rw [List.mem_filter]
      refine ⟨KeysCleanUp_keep env2 _ r hr ?_, ?_⟩
      · rw [httl]; exact nowMillis_le _
      · rw [hc, hth]
        exact selects_keyColumns table key hlen
    rw [hnil] at hmem
    exact absurd hmem (List.not_mem_nil _)
  · intro r hr
    rw [List.mem_filter] at hr
    obtain ⟨hr1, hsel⟩ := hr
    rcases upsertKey_mem _ _ r (KeysCleanUp_mem env2 _ r hr1) with h | h
    · exact ⟨h.2.2.2 ▸ nowMillis_le _, h.2.2.1⟩
    · exfalso
      have hcols := hsolo r (KeysCleanUp_mem env1 s r h.1) hsel
      have hth := selects_table_hash table key _ _ hsel
      have hcf := h.2
      simp [KeyRow.conflicts, writtenRow, hcols, hth] at hcf

/-- The instance of the specification: `setKey(t, "a/b", "v", noExpiry)` then
`getKey(t, "a/b")` returns `"v"`, here on a store that already holds the key `x`. -/
theorem C1_set_then_get_witness :
    (SetKey Dialect.sqlite exampleEnv storeX "t" "a/b" "v" 0).1 = none ∧
      (GetKey exampleEnv (SetKey Dialect.sqlite exampleEnv storeX "t" "a/b" "v" 0).2 "t" "a/b").1
        = ("v", none) :=
  C1_set_then_get Dialect.sqlite exampleEnv exampleEnv storeX "t" "a/b" "v"
    (by decide) (by decide) (by decide) (by decide) (by decide) (by decide) (by decide)

/-- Claim C2: for `columns` and `hashes` of equal length, `CreateWhereClause` returns the
terms `column_<i>_hash = <hashes[i-1]>` of exactly the 1-based positions `i` with
`columns[i-1] != "*"`, in increasing `i`, joined by ` AND `; the result is empty when
every segment is `*`, and it neither begins nor ends with ` AND `. -/
theorem C2_where_clause_terms (columns : List String) (hashes : List Nat)
    (h : columns.length = hashes.length) :
    ∃ clause, CreateWhereClause columns hashes = some clause ∧
      clause = " AND ".intercalate (whereTerms columns hashes) ∧
      ((∀ c ∈ columns, c = "*") → clause = "") ∧
      ¬ " AND ".data <+: clause.data ∧ ¬ " AND ".data <:+ clause.data := by
  refine ⟨_, CreateWhereClause_eq columns hashes h, rfl, ?_, clause_no_and_prefix columns hashes,
    clause_no_and_suffix columns hashes⟩
  intro hall
  rw [whereTerms_all_star columns hashes hall]
  rfl

/-- An instance with a wildcard in the middle and one at the end: the second term is
numbered by its position 3 in the path. -/
theorem C2_where_clause_terms_witness :
    ["a", "*", "b", "*"].length = [11, 12, 13, 14].length ∧
      CreateWhereClause ["a", "*", "b", "*"] [11, 12, 13, 14]
        = some "column_1_hash = 11 AND column_3_hash = 13" := by
  refine ⟨by decide, ?_⟩
  obtain ⟨clause, h1, h2, _⟩ :=
    C2_where_clause_terms ["a", "*", "b", "*"] [11, 12, 13, 14] (by decide)
  rw [h1, h2]
  decide

/-- Claim C3: when `p` followed by `n` extra `/*` segments still has at most 10 segments,
the filter built from the longer pattern is the filter built from `p`, and `GetKeys`
returns the same on both, on every store, in every SQL driver. -/
theorem C3_trailing_wildcards (d : Dialect) (env : Env) (s : Store) (table p : String) (n : Nat)
    (h : (SplitToParts (withStars p n)).length ≤ NumberOfColumns) :
    CreateWhereClause (SplitToParts (withStars p n))
        (CalculateHashesOfColumns (SplitToParts (withStars p n)))
      = CreateWhereClause (SplitToParts p) (CalculateHashesOfColumns (SplitToParts p)) ∧
    GetKeys d env s table (withStars p n) = GetKeys d env s table p := by
  have hclause : CreateWhereClause (SplitToParts (withStars p n))
        (CalculateHashesOfColumns (SplitToParts (withStars p n)))
      = CreateWhereClause (SplitToParts p) (CalculateHashesOfColumns (SplitToParts p)) := by
    rw [CreateWhereClause_hashes, CreateWhereClause_hashes, whereTerms_withStars]
  refine ⟨hclause, ?_⟩
  have h2 : (SplitToParts p).length ≤ NumberOfColumns := by
    rw [SplitToParts_withStars] at h
    simp at h
    omega
  simp only [GetKeys, Nat.not_lt.2 h, Nat.not_lt.2 h2, if_false, hclause]

/-- The instance of the specification: `GetKeys(t, "a/*/*")` and `GetKeys(t, "a")`. -/
theorem C3_trailing_wildcards_witness :
    withStars "a" 2 = "a/*/*" ∧
      GetKeys Dialect.mysql exampleEnv storeAB "t" "a/*/*"
        = GetKeys Dialect.mysql exampleEnv storeAB "t" "a" :=
  ⟨by decide, (C3_trailing_wildcards Dialect.mysql exampleEnv storeAB "t" "a" 2 (by decide)).2⟩

/-! ## Claims C4 and C5 -/

theorem GetKeys_run (d : Dialect) (env : Env) (s : Store) (table pattern : String)
    (hs : (KeysCleanUp env s).1 = none)
    (hlen : (SplitToParts pattern).length ≤ NumberOfColumns)
    (he : env.stmtErr = none) (he2 : env.stmtErr2 = none) :
    GetKeys d env s table pattern
      = ((unexpiredKeyNames (nowMillis env.opClock)
            ((KeysCleanUp env s).2.keys.filter
              (fun r => selects table pattern r.table_hash r.columns))
          ++ (if d = Dialect.sqlite then []
              else ((KeysCleanUp env s).2.maps.filter
                (fun r => selects table pattern r.table_hash r.columns)).map
                  (fun r => r.table ++ "/" ++ r.key)),
          none), (KeysCleanUp env s).2) := by
  unfold GetKeys
  rcases hk : KeysCleanUp env s with ⟨e, s1⟩
  rw [hk] at hs
  simp only at hs
  subst hs
  simp only [Nat.not_lt.2 hlen, if_false, CreateWhereClause_hashes, queryKeys, queryMaps, he,
    he2, whereKeys_whereTable _ _ _ _ hlen, whereMaps_whereTable _ _ _ _ hlen]
  by_cases hd : d = Dialect.sqlite
  · simp [hd]
    rfl
  · simp [hd]
    rfl

theorem CalculateHash_empty : CalculateHash "" = 0 := by decide

/-- The hash at a position is the hash of the segment there, the empty segment included. -/
theorem hashes_getD (columns : List String) (j : Nat) :
    (CalculateHashesOfColumns columns).getD j 0 = CalculateHash (columns.getD j "") := by
  rw [CalculateHashesOfColumns_eq_map, List.getD_eq_getElem?_getD, List.getD_eq_getElem?_getD,
    List.getElem?_map]
  cases columns[j]? with
  | none => simp [CalculateHash_empty]
  | some c => simp

theorem getD_mem_or_default (l : List String) (j : Nat) : l.getD j "" = "" ∨ l.getD j "" ∈ l := by
  rw [List.getD_eq_getElem?_getD]
  cases h : l[j]? with
  | none => left; rfl
  | some c => right; exact List.getElem?_mem h

/-- Under the distinctness of the checksums involved, the filter selects the rows of the
table whose key agrees with the pattern. -/
theorem selects_iff_agrees (table p : String) (r : KeyRow) (hc : r.consistent = true)
    (hlen : (SplitToParts p).length ≤ NumberOfColumns)
    (hT : CalculateHash r.table = CalculateHash table → r.table = table)
    (hS : crcDistinct ("" :: (SplitToParts p ++ SplitToParts r.key))) :
    selects table p r.table_hash r.columns = true ↔ (r.table = table ∧ agrees p r.key = true) := by
  simp only [KeyRow.consistent, Bool.decide_and, Bool.and_eq_true, decide_eq_true_eq] at hc
  obtain ⟨hth, hcols, _⟩ := hc
  simp only [selects, hashesMatch, agrees, Bool.decide_and, Bool.and_eq_true, decide_eq_true_eq,
    List.all_eq_true, List.mem_range, Bool.decide_or, Bool.or_eq_true]
  have hpos : ∀ j, j < (SplitToParts p).length →
      (r.columns.getD j 0 = (CalculateHashesOfColumns (SplitToParts p)).getD j 0 ↔
        (SplitToParts r.key).getD j "" = (SplitToParts p).getD j "") := by
    intro j hj
    rw [hcols, keyColumns, paddedHashes_getD _ j (by omega), hashes_getD, hashes_getD]
    constructor
    · intro h
      apply hS _ _ _ _ h
      · rcases getD_mem_or_default (SplitToParts r.key) j with h0 | h0
        · rw [h0]; exact List.mem_cons_self _ _
        · exact List.mem_cons_of_mem _ (List.mem_append_right _ h0)
      · rw [List.getD_eq_getElem _ _ hj]
        exact List.mem_cons_of_mem _ (List.mem_append_left _ (List.getElem_mem _))
    · intro h; rw [h]
  constructor
  · rintro ⟨h1, h2⟩
    refine ⟨hT (hth ▸ h1), ?_⟩
    intro j hj
    rcases h2 j hj with h | h
    · exact Or.inl h
    · exact Or.inr ((hpos j hj).1 h)
  · rintro ⟨h1, h2⟩
    refine ⟨by rw [hth, h1], ?_⟩
    intro j hj
    rcases h2 j hj with h | h
    · exact Or.inl h
    · exact Or.inr ((hpos j hj).2 h)

/-- Claim C4, as stated, fails on the code: the drivers do not list the same keys once
the store holds a map entry.  On the store left by `AddToMap(t, k, o, v)`, which holds no
record, `GetKeys(t, "*")` of MySQL and PostgreSQL returns `t/k` and that of SQLite
returns nothing. -/
theorem C4_counterexample :
    storeMapOnly.keys = [] ∧
      (GetKeys Dialect.mysql exampleEnv storeMapOnly "t" "*").1 = (["t/k"], none) ∧
      (GetKeys Dialect.postgresql exampleEnv storeMapOnly "t" "*").1 = (["t/k"], none) ∧
      (GetKeys Dialect.sqlite exampleEnv storeMapOnly "t" "*").1 = ([], none) := by
  decide

/-- Claim C4, amended: in each SQL driver, when no backend call fails, on a store without
map entries whose records are all unexpired and carry the hashes of their texts, and
assuming that the CRC-32 values of the distinct table names, and of the distinct
segments (the empty one included), are distinct, `GetKeys(t, p)` for a pattern of at most
10 segments returns a nil error and lists `t/k` for exactly the stored records `(t, k)`
whose key `k` agrees with `p` at every position where `p` is not `*`. -/
theorem C4_wildcard_matching (d : Dialect) (env : Env) (s : Store) (table p : String)
    (hq : env.noFailure) (hlen : (SplitToParts p).length ≤ NumberOfColumns)
    (hmaps : s.maps = [])
    (hcons : ∀ r ∈ s.keys, r.consistent = true)
    (hlive : ∀ r ∈ s.keys, nowMillis env.sweepClock ≤ r.ttl ∧ nowMillis env.opClock ≤ r.ttl)
    (hT : crcDistinct (table :: s.keys.map (fun r => r.table)))
    (hS : crcDistinct ("" :: (SplitToParts p ++ s.keys.flatMap (fun r => SplitToParts r.key)))) :
    (GetKeys d env s table p).1.2 = none ∧
      ∀ x, x ∈ (GetKeys d env s table p).1.1 ↔
        ∃ r ∈ s.keys, r.table = table ∧ agrees p r.key = true ∧ x = table ++ "/" ++ r.key := by
  rw [GetKeys_run d env s table p (KeysCleanUp_noFailure env s hq.1 hq.2.1) hlen hq.2.2.1
    hq.2.2.2.1]
  refine ⟨rfl, ?_⟩
  have hkeys : (KeysCleanUp env s).2.keys = s.keys := by
    rcases KeysCleanUp_keys env s with h | h
    · exact h
    · rw [h, List.filter_eq_self]
      intro r hr
      have := (hlive r hr).1
      simp only [decide_eq_true_eq, not_lt]
      exact this
  have hsel : ∀ r ∈ s.keys, (selects table p r.table_hash r.columns = true ↔
      (r.table = table ∧ agrees p r.key = true)) := by
    intro r hr
    apply selects_iff_agrees table p r (hcons r hr) hlen
    · intro h
      exact hT _ (List.mem_cons_of_mem _ (List.mem_map_of_mem _ hr)) _ (List.mem_cons_self _ _) h
    · intro a ha b hb hab
      apply hS a _ b _ hab
      · rcases List.mem_cons.1 ha with h | h
        · rw [h]; exact List.mem_cons_self _ _
        · refine List.mem_cons_of_mem _ ?_
          rcases List.mem_append.1 h with h | h
          · exact List.mem_append_left _ h
          · exact List.mem_append_right _ (List.mem_flatMap.2 ⟨r, hr, h⟩)
      · rcases List.mem_cons.1 hb with h | h
        · rw [h]; exact List.mem_cons_self _ _
        · refine List.mem_cons_of_mem _ ?_
          rcases List.mem_append.1 h with h | h
          · exact List.mem_append_left _ h
          · exact List.mem_append_right _ (List.mem_flatMap.2 ⟨r, hr, h⟩)
  intro x
  simp only [KeysCleanUp_maps, hmaps, hkeys, List.filter_nil, List.map_nil, ite_self,
    List.append_nil, unexpiredKeyNames, List.mem_map, List.mem_filter, decide_eq_true_eq]
  constructor
  · rintro ⟨r, ⟨⟨hr, hs⟩, _⟩, rfl⟩
    obtain ⟨h1, h2⟩ := (hsel r hr).1 hs
    exact ⟨r, hr, h1, h2, by rw [h1]⟩
  · rintro ⟨r, hr, h1, h2, rfl⟩
    exact ⟨r, ⟨⟨hr, (hsel r hr).2 ⟨h1, h2⟩⟩, (hlive r hr).2⟩, by rw [h1]⟩

/-- The instance of the specification: with keys `a/1`, `a/2`, `b/1` under table `t`,
`GetKeys(t, "a/*")` returns exactly `t/a/1` and `t/a/2`. -/
theorem C4_wildcard_matching_witness :
    (GetKeys Dialect.sqlite exampleEnv storeWild "t" "a/*").1 = (["t/a/1", "t/a/2"], none) ∧
      ∀ x, x ∈ (GetKeys Dialect.sqlite exampleEnv storeWild "t" "a/*").1.1 ↔
        ∃ r ∈ storeWild.keys, r.table = "t" ∧ agrees "a/*" r.key = true ∧
          x = "t" ++ "/" ++ r.key :=
  ⟨by decide,
    (C4_wildcard_matching Dialect.sqlite exampleEnv storeWild "t" "a/*" (by decide) (by decide)
      (by decide) (by decide) (by decide) (by decide) (by decide)).2⟩

/-- Claim C5 fails on the SQLite driver, whose `GetKeys` ends after the query on `keys`:
after `AddToMap(t, k, o, v)` on an empty store, `GetKeys(t, "*")` returns `t/k` on MySQL
and on PostgreSQL, and the empty list on SQLite. -/
theorem C5_sqlite_omits_map_entries :
    (GetKeys Dialect.mysql exampleEnv
        (AddToMap Dialect.mysql exampleEnv Store.empty "t" "k" "o" "v").2 "t" "*").1
      = (["t/k"], none) ∧
    (GetKeys Dialect.postgresql exampleEnv
        (AddToMap Dialect.postgresql exampleEnv Store.empty "t" "k" "o" "v").2 "t" "*").1
      = (["t/k"], none) ∧
    (AddToMap Dialect.sqlite exampleEnv Store.empty "t" "k" "o" "v").1 = none ∧
    (GetKeys Dialect.sqlite exampleEnv
        (AddToMap Dialect.sqlite exampleEnv Store.empty "t" "k" "o" "v").2 "t" "*").1
      = ([], none) := by
  decide

/-! ## Upsert and the uniqueness constraint -/

theorem filter_conflicts_unique (row : KeyRow) : ∀ (rows : List KeyRow), uniqueKeys rows →
    rows.filter (fun r => r.conflicts row) = [] ∨
      ∃ r, rows.filter (fun r => r.conflicts row) = [r] := by
  intro rows
  induction rows with
  | nil => intro _; left; rfl
  | cons a l ih =>
    intro hu
    unfold uniqueKeys at hu
    rw [List.pairwise_cons] at hu
    by_cases hc : a.conflicts row = true
    · right
      refine ⟨a, ?_⟩
      have hnil : l.filter (fun r => r.conflicts row) = [] := by
        rw [List.filter_eq_nil_iff]
        intro b hb hcb
        have h1 := (conflicts_eq a row).1 hc
        have h2 := (conflicts_eq b row).1 hcb
        have h3 : a.conflicts b = true :=
          (conflicts_eq a b).2 ⟨h1.1.trans h2.1.symm, h1.2.trans h2.2.symm⟩
        rw [hu.1 b hb] at h3
        exact absurd h3 (by decide)
      simp [List.filter_cons, hc, hnil]
    · have : (a :: l).filter (fun r => r.conflicts row) = l.filter (fun r => r.conflicts row) := by
        simp [List.filter_cons, hc]
      rw [this]
      exact ih hu.2

theorem upsertKey_filter (rows : List KeyRow) (row : KeyRow) (hu : uniqueKeys rows) :
    ∃ r, (upsertKey rows row).filter (fun x => x.conflicts row) = [r] ∧
      r.value = row.value ∧ r.ttl = row.ttl := by
  unfold upsertKey
  split
  · rename_i hany
    have hmap : (rows.map (fun r => r.updated row)).filter (fun x => x.conflicts row)
        = (rows.filter (fun x => x.conflicts row)).map (fun r => r.updated row) := by
      rw [List.filter_map]
      congr 1
      apply List.filter_congr
      intro r _
      simp only [Function.comp, KeyRow.conflicts, (updated_columns r row).1,
        (updated_columns r row).2]
    rw [hmap]
    rcases filter_conflicts_unique row rows hu with h | ⟨r, h⟩
    · exfalso
      rw [List.any_eq_true] at hany
      obtain ⟨r0, hr0, hc⟩ := hany
      have : r0 ∈ rows.filter (fun x => x.conflicts row) := List.mem_filter.2 ⟨hr0, hc⟩
      rw [h] at this
      exact absurd this (List.not_mem_nil _)
    · have hr : r.conflicts row = true := by
        have : r ∈ rows.filter (fun x => x.conflicts row) := by
          rw [h]; exact List.mem_singleton_self r
        exact (List.mem_filter.1 this).2
      rw [h]
      exact ⟨r.updated row, rfl, (updated_of_conflicts r row hr).1,
        (updated_of_conflicts r row hr).2⟩
  · rename_i hany
    refine ⟨row, ?_, rfl, rfl⟩
    rw [List.filter_append]
    have hnil : rows.filter (fun x => x.conflicts row) = [] := by
      rw [List.filter_eq_nil_iff]
      intro r hr hc
      exact hany (List.any_eq_true.2 ⟨r, hr, hc⟩)
    rw [hnil]
    simp [KeyRow.conflicts]

/-- The upsert keeps the uniqueness constraint. -/
theorem upsertKey_unique (rows : List KeyRow) (row : KeyRow) (hu : uniqueKeys rows) :
    uniqueKeys (upsertKey rows row) := by
  unfold upsertKey
  split
  · unfold uniqueKeys
    rw [List.pairwise_map]
    apply List.Pairwise.imp _ hu
    intro a b hab
    rw [conflicts_updated]
    exact hab
  · rename_i hany
    unfold uniqueKeys
    rw [List.pairwise_append]
    refine ⟨hu, List.pairwise_singleton _ _, ?_⟩
    intro a ha b hb
    rw [List.mem_singleton] at hb
    subst hb
    simp only [List.any_eq_true, not_exists, not_and, Bool.not_eq_true] at hany
    exact hany a ha

theorem uniqueKeys_sweep (env : Env) (s : Store) (hu : uniqueKeys s.keys) :
    uniqueKeys (KeysCleanUp env s).2.keys :=
  List.Pairwise.sublist (KeysCleanUp_sublist env s) hu

/-! ## Claim C6 -/

/-- Claim C6, as stated, fails on the code.  When the second value holds a single quote
the second `SetKey` is rejected by the backend and the row keeps `v1`; and with a key of
11 segments both calls are rejected and no row is left. -/
theorem C6_counterexample :
    (SetKey Dialect.sqlite exampleEnv
        (SetKey Dialect.sqlite exampleEnv Store.empty "t" "a" "v1" 0).2 "t" "a" "it's" 0).1
      ≠ none ∧
    (SetKey Dialect.sqlite exampleEnv
        (SetKey Dialect.sqlite exampleEnv Store.empty "t" "a" "v1" 0).2 "t" "a" "it's" 0).2.keys
      = [{ table := "t", table_hash := CalculateHash "t", key := "a",
           columns := keyColumns "a", value := "v1", ttl := 9223372036854 }] ∧
    (SetKey Dialect.sqlite exampleEnv
        (SetKey Dialect.sqlite exampleEnv Store.empty "t" elevenSegments "v1" 0).2
        "t" elevenSegments "v2" 0).2.keys = [] := by
  decide

/-- Claim C6, amended: in each SQL driver, when no backend call fails, for table, key and
values that hold no single quote (and no backslash on MySQL), a key of at most 10
segments and a store that satisfies the uniqueness constraint of `keys`, two sequential
`SetKey` calls with the same `(table, key)` return nil errors and leave exactly one
`keys` row with the hash tuple of `(table, key)`, carrying the value `v2` and the `ttl`
computed by the second call. -/
theorem C6_upsert_latest (d : Dialect) (env1 env2 : Env) (s : Store)
    (table key v1 v2 : String) (x1 x2 : Int)
    (h1 : env1.noFailure) (h2 : env2.noFailure)
    (hlen : (SplitToParts key).length ≤ NumberOfColumns)
    (ht : literalSafe d table = true) (hk : literalSafe d key = true)
    (hv1 : literalSafe d v1 = true) (hv2 : literalSafe d v2 = true)
    (hu : uniqueKeys s.keys) :
    (SetKey d env1 s table key v1 x1).1 = none ∧
      (SetKey d env2 (SetKey d env1 s table key v1 x1).2 table key v2 x2).1 = none ∧
      ∃ r, (SetKey d env2 (SetKey d env1 s table key v1 x1).2 table key v2 x2).2.keys.filter
            (fun r => r.columns = keyColumns key ∧ r.table_hash = CalculateHash table) = [r] ∧
          r.value = v2 ∧ r.ttl = untilMilliseconds env2.opClock x2 := by
  rw [SetKey_run d env1 s table key v1 x1 (KeysCleanUp_noFailure env1 s h1.1 h1.2.1) hlen
    h1.2.2.1 ht hk hv1]
  rw [SetKey_run d env2 _ table key v2 x2 (KeysCleanUp_noFailure env2 _ h2.1 h2.2.1) hlen
    h2.2.2.1 ht hk hv2]
  refine ⟨rfl, rfl, ?_⟩
  have hu1 := upsertKey_unique _ (writtenRow table key v1 (untilMilliseconds env1.opClock x1))
    (uniqueKeys_sweep env1 s hu)
  have hu2 := uniqueKeys_sweep env2 ((KeysCleanUp env1 s).2.withKeys
    (upsertKey (KeysCleanUp env1 s).2.keys
      (writtenRow table key v1 (untilMilliseconds env1.opClock x1)))) hu1
  obtain ⟨r, hr, hv, httl⟩ := upsertKey_filter _
    (writtenRow table key v2 (untilMilliseconds env2.opClock x2)) hu2
  refine ⟨r, ?_, hv, httl⟩
  rw [← hr]
  apply List.filter_congr
  intro x _
  simp [KeyRow.conflicts, writtenRow, Store.withKeys]

/-- Two writes of the key `a` on a store that holds the key `x`: one row for `a`, with the
second value and the `ttl` of the second call (one second after `exampleClock`). -/
theorem C6_upsert_latest_witness :
    (SetKey Dialect.mysql exampleEnv
        (SetKey Dialect.mysql exampleEnv storeX "t" "a" "v1" 0).2 "t" "a" "v2" 1000000000).2.keys
      = [{ table := "t", table_hash := CalculateHash "t", key := "x",
           columns := keyColumns "x", value := "w", ttl := 9223372036854 },
         { table := "t", table_hash := CalculateHash "t", key := "a",
           columns := keyColumns "a", value := "v2", ttl := 1700000001000 }] ∧
    ∃ r, (SetKey Dialect.mysql exampleEnv
          (SetKey Dialect.mysql exampleEnv storeX "t" "a" "v1" 0).2 "t" "a" "v2" 1000000000).2.keys.filter
            (fun r => r.columns = keyColumns "a" ∧ r.table_hash = CalculateHash "t") = [r] ∧
        r.value = "v2" ∧ r.ttl = untilMilliseconds exampleEnv.opClock 1000000000 :=
  ⟨by decide,
    (C6_upsert_latest Dialect.mysql exampleEnv exampleEnv storeX "t" "a" "v1" "v2" 0 1000000000
      (by decide) (by decide) (by decide) (by decide) (by decide) (by decide) (by decide)
      (by decide)).2.2⟩

/-! ## The other operations when nothing fails, and the segment check -/

theorem DelKey_run (env : Env) (s : Store) (table key : String)
    (hs : (KeysCleanUp env s).1 = none) (hlen : (SplitToParts key).length ≤ NumberOfColumns)
    (he : env.stmtErr = none) (hr : env.rowsErr = none) :
    DelKey env s table key
      = (((((KeysCleanUp env s).2.keys.filter
              (fun r => selects table key r.table_hash r.columns)).length : Int), none),
          (KeysCleanUp env s).2.withKeys ((KeysCleanUp env s).2.keys.filter (fun r =>
            r ∉ (KeysCleanUp env s).2.keys.filter
              (fun r => selects table key r.table_hash r.columns)))) := by
  unfold DelKey
  rcases hk : KeysCleanUp env s with ⟨e, s1⟩
  rw [hk] at hs
  simp only at hs
  subst hs
  simp only [Nat.not_lt.2 hlen, if_false, CreateWhereClause_hashes, execDeleteKeys, he, hr,
    whereKeys_whereTable _ _ _ _ hlen]
  rfl

theorem AddToMap_run (d : Dialect) (env : Env) (s : Store) (table key objectKey object : String)
    (hlen : (SplitToParts key).length ≤ NumberOfColumns) (he : env.stmtErr = none)
    (ht : literalSafe d table = true) (hk : literalSafe d key = true)
    (ho : literalSafe d objectKey = true) (hv : literalSafe d object = true) :
    AddToMap d env s table key objectKey object
      = (none, s.withMaps (upsertMap s.maps (writtenMapRow table key objectKey object))) := by
  unfold AddToMap
  simp only [Nat.not_lt.2 hlen, if_false, execInsertMap, he, sqlText_safe d _ ht,
    sqlText_safe d _ hk, sqlText_safe d _ ho, sqlText_safe d _ hv]
  rfl

theorem DelFromMap_run (env : Env) (s : Store) (table key objectKey : String)
    (hlen : (SplitToParts key).length ≤ NumberOfColumns) (he : env.stmtErr = none) :
    DelFromMap env s table key objectKey
      = (none, s.withMaps (s.maps.filter (fun r => r ∉ entryRows table key objectKey s.maps))) := by
  unfold DelFromMap
  simp only [Nat.not_lt.2 hlen, if_false, CreateWhereClause_hashes, execDeleteMaps, he,
    whereMaps_whereObject _ _ _ _ _ hlen]
  rfl

theorem GetFromMap_run (env : Env) (s : Store) (table key objectKey : String)
    (hlen : (SplitToParts key).length ≤ NumberOfColumns) (he : env.stmtErr = none) :
    GetFromMap env s table key objectKey
      = ((((entryRows table key objectKey s.maps).head?.map (fun r => r.value)).getD "", none),
          s) := by
  unfold GetFromMap
  simp only [Nat.not_lt.2 hlen, if_false, CreateWhereClause_hashes, queryMaps, he,
    whereMaps_whereObject _ _ _ _ _ hlen]
  unfold entryRows selects
  cases List.filter (fun r => decide (r.object_key_hash = CalculateHash objectKey ∧
      hashesMatch (CalculateHash table) (SplitToParts key)
        (CalculateHashesOfColumns (SplitToParts key)) r.table_hash r.columns = true)) s.maps with
  | nil => rfl
  | cons r rest => rfl

theorem GetMap_run (env : Env) (s : Store) (table key : String)
    (hlen : (SplitToParts key).length ≤ NumberOfColumns) (he : env.stmtErr = none) :
    GetMap env s table key
      = (((s.maps.filter (fun r => selects table key r.table_hash r.columns)).foldl
            (fun result r => mapAssign result r.object_key r.value) [], none), s) := by
  unfold GetMap
  simp only [Nat.not_lt.2 hlen, if_false, CreateWhereClause_hashes, queryMaps, he,
    whereMaps_whereTable _ _ _ _ hlen]
  rfl

theorem GetKeys_rejected (d : Dialect) (env : Env) (s : Store) (table pattern : String)
    (hlen : NumberOfColumns < (SplitToParts pattern).length) :
    GetKeys d env s table pattern = (([], rejection env s), (KeysCleanUp env s).2) := by
  unfold GetKeys rejection
  rcases hk : KeysCleanUp env s with ⟨e, s1⟩
  cases e <;> simp [hlen]

theorem SetKey_rejected (d : Dialect) (env : Env) (s : Store) (table key value : String)
    (expiration : Int) (hlen : NumberOfColumns < (SplitToParts key).length) :
    SetKey d env s table key value expiration = (rejection env s, (KeysCleanUp env s).2) := by
  unfold SetKey rejection
  rcases hk : KeysCleanUp env s with ⟨e, s1⟩
  cases e <;> simp [hlen]

theorem GetKey_rejected (env : Env) (s : Store) (table key : String)
    (hlen : NumberOfColumns < (SplitToParts key).length) :
    GetKey env s table key = (("", rejection env s), (KeysCleanUp env s).2) := by
  unfold GetKey rejection
  rcases hk : KeysCleanUp env s with ⟨e, s1⟩
  cases e <;> simp [hlen]

theorem DelKey_rejected (env : Env) (s : Store) (table key : String)
    (hlen : NumberOfColumns < (SplitToParts key).length) :
    DelKey env s table key
      = ((if (KeysCleanUp env s).1 = none then -1 else 0, rejection env s),
          (KeysCleanUp env s).2) := by
  unfold DelKey rejection
  rcases hk : KeysCleanUp env s with ⟨e, s1⟩
  cases e <;> simp [hlen]

theorem AddToMap_rejected (d : Dialect) (env : Env) (s : Store)
    (table key objectKey object : String)
    (hlen : NumberOfColumns < (SplitToParts key).length) :
    AddToMap d env s table key objectKey object = (some tooManyColumns, s) := by
  simp [AddToMap, hlen]

theorem DelFromMap_rejected (env : Env) (s : Store) (table key objectKey : String)
    (hlen : NumberOfColumns < (SplitToParts key).length) :
    DelFromMap env s table key objectKey = (some tooManyColumns, s) := by
  simp [DelFromMap, hlen]

theorem GetFromMap_rejected (env : Env) (s : Store) (table key objectKey : String)
    (hlen : NumberOfColumns < (SplitToParts key).length) :
    GetFromMap env s table key objectKey = (("", some tooManyColumns), s) := by
  simp [GetFromMap, hlen]

theorem GetMap_rejected (env : Env) (s : Store) (table key : String)
    (hlen : NumberOfColumns < (SplitToParts key).length) :
    GetMap env s table key = (([], some tooManyColumns), s) := by
  simp [GetMap, hlen]

theorem rejection_noFailure (env : Env) (s : Store) (h : env.noFailure) :
    rejection env s = some tooManyColumns := by
  unfold rejection
  rw [KeysCleanUp_noFailure env s h.1 h.2.1]

/-- With a key of at most 10 segments `SetKey` returns nil or the backend's rejection of a
broken literal. -/
theorem SetKey_accepted (d : Dialect) (env : Env) (s : Store) (table key value : String)
    (expiration : Int) (h : env.noFailure)
    (hlen : (SplitToParts key).length ≤ NumberOfColumns) :
    (SetKey d env s table key value expiration).1 = none ∨
      (SetKey d env s table key value expiration).1 = some syntaxError := by
  unfold SetKey
  rcases hk : KeysCleanUp env s with ⟨e, s1⟩
  have he : e = none := by
    have := KeysCleanUp_noFailure env s h.1 h.2.1
    rw [hk] at this
    exact this
  subst he
  simp only [Nat.not_lt.2 hlen, if_false, execInsertKey, h.2.2.1]
  cases sqlText d table <;> cases sqlText d key <;> cases sqlText d value <;> simp

theorem AddToMap_accepted (d : Dialect) (env : Env) (s : Store)
    (table key objectKey object : String) (h : env.noFailure)
    (hlen : (SplitToParts key).length ≤ NumberOfColumns) :
    (AddToMap d env s table key objectKey object).1 = none ∨
      (AddToMap d env s table key objectKey object).1 = some syntaxError := by
  unfold AddToMap
  simp only [Nat.not_lt.2 hlen, if_false, execInsertMap, h.2.2.1]
  cases sqlText d table <;> cases sqlText d key <;> cases sqlText d objectKey <;>
    cases sqlText d object <;> simp

/-- A key of exactly 10 segments fills all ten hash columns with its segment hashes. -/
theorem keyColumns_full (key : String) (h : (SplitToParts key).length = NumberOfColumns) :
    keyColumns key = CalculateHashesOfColumns (SplitToParts key) := by
  have hl : (CalculateHashesOfColumns (SplitToParts key)).length = NumberOfColumns := by
    rw [CalculateHashesOfColumns_length, h]
  apply List.ext_getElem
  · rw [keyColumns, paddedHashes_length, hl]
  · intro n h1 h2
    have hn : n < NumberOfColumns := by rw [← hl]; exact h2
    rw [← List.getD_eq_getElem _ 0 h1, ← List.getD_eq_getElem _ 0 h2]
    exact paddedHashes_getD _ n hn

/-! ## Claims C7 and C8 -/

/-- Claim C7: in each SQL driver, when the sweep and the backend statements do not fail,
each of `GetKeys`, `SetKey`, `GetKey`, `DelKey`, `AddToMap`, `DelFromMap`, `GetFromMap`
and `GetMap` returns the error `Too many data columns` if and only if its key or pattern
splits into more than 10 segments; a key of exactly 10 segments has all ten of its
segment hashes written (and `SetKey` of it succeeds and stores them), and a key of more
than 10 segments is rejected with nothing written, not truncated. -/
theorem C7_segment_bound (d : Dialect) (env : Env) (s : Store)
    (table key value objectKey object : String) (expiration : Int) (h : env.noFailure) :
    ((GetKeys d env s table key).1.2 = some "Too many data columns"
        ↔ NumberOfColumns < (SplitToParts key).length) ∧
    ((SetKey d env s table key value expiration).1 = some "Too many data columns"
        ↔ NumberOfColumns < (SplitToParts key).length) ∧
    ((GetKey env s table key).1.2 = some "Too many data columns"
        ↔ NumberOfColumns < (SplitToParts key).length) ∧
    ((DelKey env s table key).1.2 = some "Too many data columns"
        ↔ NumberOfColumns < (SplitToParts key).length) ∧
    ((AddToMap d env s table key objectKey object).1 = some "Too many data columns"
        ↔ NumberOfColumns < (SplitToParts key).length) ∧
    ((DelFromMap env s table key objectKey).1 = some "Too many data columns"
        ↔ NumberOfColumns < (SplitToParts key).length) ∧
    ((GetFromMap env s table key objectKey).1.2 = some "Too many data columns"
        ↔ NumberOfColumns < (SplitToParts key).length) ∧
    ((GetMap env s table key).1.2 = some "Too many data columns"
        ↔ NumberOfColumns < (SplitToParts key).length) ∧
    ((SplitToParts key).length = NumberOfColumns →
        keyColumns key = CalculateHashesOfColumns (SplitToParts key)) ∧
    ((SplitToParts key).length = NumberOfColumns → literalSafe d table = true →
        literalSafe d key = true → literalSafe d value = true →
        (SetKey d env s table key value expiration).1 = none ∧
          ∃ r ∈ (SetKey d env s table key value expiration).2.keys,
            r.table_hash = CalculateHash table ∧
              r.columns = CalculateHashesOfColumns (SplitToParts key) ∧ r.value = value) ∧
    (NumberOfColumns < (SplitToParts key).length →
        (SetKey d env s table key value expiration).2 = (KeysCleanUp env s).2 ∧
          (AddToMap d env s table key objectKey object).2 = s) := by
  have hsweep := KeysCleanUp_noFailure env s h.1 h.2.1
  have hrej := rejection_noFailure env s h
  by_cases hlen : NumberOfColumns < (SplitToParts key).length
  · have hne : (SplitToParts key).length ≠ NumberOfColumns := by omega
    rw [GetKeys_rejected d env s table key hlen, SetKey_rejected d env s table key value
      expiration hlen, GetKey_rejected env s table key hlen, DelKey_rejected env s table key hlen,
      AddToMap_rejected d env s table key objectKey object hlen,
      DelFromMap_rejected env s table key objectKey hlen,
      GetFromMap_rejected env s table key objectKey hlen, GetMap_rejected env s table key hlen,
      hrej]
    simp [hlen, hne, tooManyColumns]
  · have hle : (SplitToParts key).length ≤ NumberOfColumns := by omega
    have hset := SetKey_accepted d env s table key value expiration h hle
    have hadd := AddToMap_accepted d env s table key objectKey object h hle
    refine ⟨?_, ?_, ?_, ?_, ?_, ?_, ?_, ?_, keyColumns_full key, ?_, fun hc => absurd hc hlen⟩
    · rw [GetKeys_run d env s table key hsweep hle h.2.2.1 h.2.2.2.1]
      simp [hlen]
    · rcases hset with h0 | h0 <;> rw [h0] <;> simp [hlen, syntaxError]
    · rw [GetKey_run env s table key hsweep hle h.2.2.1]
      simp [hlen]
    · rw [DelKey_run env s table key hsweep hle h.2.2.1 h.2.2.2.2]
      simp [hlen]
    · rcases hadd with h0 | h0 <;> rw [h0] <;> simp [hlen, syntaxError]
    · rw [DelFromMap_run env s table key objectKey hle h.2.2.1]
      simp [hlen]
    · rw [GetFromMap_run env s table key objectKey hle h.2.2.1]
      simp [hlen]
    · rw [GetMap_run env s table key hle h.2.2.1]
      simp [hlen]
    · intro hten ht hk hv
      rw [SetKey_run d env s table key value expiration hsweep hle h.2.2.1 ht hk hv]
      refine ⟨rfl, ?_⟩
      obtain ⟨r, hr, hc, hth, hval, _⟩ := upsertKey_has (KeysCleanUp env s).2.keys
        (writtenRow table key value (untilMilliseconds env.opClock expiration))
      exact ⟨r, hr, hth, hc.trans (keyColumns_full key hten), hval⟩

/-- A key of exactly 10 segments is stored with its ten hashes, and one of 11 segments is
rejected by every operation. -/
theorem C7_segment_bound_witness :
    (SplitToParts tenSegments).length = 10 ∧ (SplitToParts elevenSegments).length = 11 ∧
    (SetKey Dialect.sqlite exampleEnv Store.empty "t" tenSegments "v" 0).2.keys
      = [{ table := "t", table_hash := CalculateHash "t", key := tenSegments,
           columns := CalculateHashesOfColumns (SplitToParts tenSegments), value := "v",
           ttl := 9223372036854 }] ∧
    (GetKeys Dialect.sqlite exampleEnv Store.empty "t" elevenSegments).1.2
      = some "Too many data columns" ∧
    (SetKey Dialect.sqlite exampleEnv Store.empty "t" elevenSegments "v" 0).1
      = some "Too many data columns" ∧
    (GetKey exampleEnv Store.empty "t" elevenSegments).1.2 = some "Too many data columns" ∧
    (DelKey exampleEnv Store.empty "t" elevenSegments).1.2 = some "Too many data columns" ∧
    (AddToMap Dialect.sqlite exampleEnv Store.empty "t" elevenSegments "o" "v").1
      = some "Too many data columns" ∧
    (DelFromMap exampleEnv Store.empty "t" elevenSegments "o").1
      = some "Too many data columns" ∧
    (GetFromMap exampleEnv Store.empty "t" elevenSegments "o").1.2
      = some "Too many data columns" ∧
    (GetMap exampleEnv Store.empty "t" elevenSegments).1.2 = some "Too many data columns" :=
  have h := C7_segment_bound Dialect.sqlite exampleEnv Store.empty "t" elevenSegments "v" "o" "v"
    0 (by decide)
  have hlen : NumberOfColumns < (SplitToParts elevenSegments).length := by decide
  ⟨by decide, by decide, by decide, h.1.2 hlen, h.2.1.2 hlen, h.2.2.1.2 hlen, h.2.2.2.1.2 hlen,
    h.2.2.2.2.1.2 hlen, h.2.2.2.2.2.1.2 hlen, h.2.2.2.2.2.2.1.2 hlen, h.2.2.2.2.2.2.2.1.2 hlen⟩

/-- Claim C8, as stated, fails on the code for the four key operations, which run the
expiry sweep before they count the segments: `SetKey` with a key of 11 segments, on a
store that holds an expired record and was never swept, returns `Too many data columns`
after the sweep has deleted the record and set `LastTruncate`. -/
theorem C8_counterexample :
    storeExpired.keys ≠ [] ∧ storeExpired.LastTruncate = 0 ∧
      SetKey Dialect.sqlite exampleEnv storeExpired "t" elevenSegments "v" 0
        = (some "Too many data columns",
            { keys := [], maps := [], LastTruncate := 1700000000000 }) := by
  decide

/-- Claim C8, amended: in every SQL driver, when a map operation (`AddToMap`,
`DelFromMap`, `GetFromMap`, `GetMap`) is rejected because its key has more than 10
segments, no statement has been executed and the store is exactly as before; when a key
operation (`GetKeys`, `SetKey`, `GetKey`, `DelKey`) gets such a key, its own statement
is not executed and the store is the one the expiry sweep leaves: `maps` as before, and
`keys` and `LastTruncate` as before too when the sweep was not due. -/
theorem C8_rejected_leaves_store (d : Dialect) (env : Env) (s : Store)
    (table key value objectKey object : String) (expiration : Int)
    (hlen : NumberOfColumns < (SplitToParts key).length) :
    AddToMap d env s table key objectKey object = (some "Too many data columns", s) ∧
    DelFromMap env s table key objectKey = (some "Too many data columns", s) ∧
    GetFromMap env s table key objectKey = (("", some "Too many data columns"), s) ∧
    GetMap env s table key = (([], some "Too many data columns"), s) ∧
    (GetKeys d env s table key).2 = (KeysCleanUp env s).2 ∧
    (SetKey d env s table key value expiration).2 = (KeysCleanUp env s).2 ∧
    (GetKey env s table key).2 = (KeysCleanUp env s).2 ∧
    (DelKey env s table key).2 = (KeysCleanUp env s).2 ∧
    (KeysCleanUp env s).2.maps = s.maps ∧
    (nowMillis env.sweepClock - s.LastTruncate ≤ TruncateInterval →
      (KeysCleanUp env s).2 = s) := by
  rw [GetKeys_rejected d env s table key hlen, SetKey_rejected d env s table key value
    expiration hlen, GetKey_rejected env s table key hlen, DelKey_rejected env s table key hlen,
    AddToMap_rejected d env s table key objectKey object hlen,
    DelFromMap_rejected env s table key objectKey hlen,
    GetFromMap_rejected env s table key objectKey hlen, GetMap_rejected env s table key hlen]
  refine ⟨rfl, rfl, rfl, rfl, rfl, rfl, rfl, rfl, KeysCleanUp_maps env s, ?_⟩
  intro hdue
  unfold KeysCleanUp
  simp [not_lt.2 hdue]

/-- With a key of 11 segments the map operations leave `storeExpired` untouched, and
`SetKey` leaves what the sweep leaves. -/
theorem C8_rejected_leaves_store_witness :
    NumberOfColumns < (SplitToParts elevenSegments).length ∧
    AddToMap Dialect.mysql exampleEnv storeExpired "t" elevenSegments "o" "v"
      = (some "Too many data columns", storeExpired) ∧
    GetMap exampleEnv storeExpired "t" elevenSegments
      = (([], some "Too many data columns"), storeExpired) ∧
    (SetKey Dialect.mysql exampleEnv storeExpired "t" elevenSegments "v" 0).2
      = (KeysCleanUp exampleEnv storeExpired).2 :=
  have h := C8_rejected_leaves_store Dialect.mysql exampleEnv storeExpired "t" elevenSegments
    "v" "o" "v" 0 (by decide)
  ⟨by decide, h.1, h.2.2.2.1, h.2.2.2.2.2.1⟩

/-! ## The facade: claims C9 and C10 -/

theorem CheckTableName_iff (table : String) :
    CheckTableName table = none ↔ Char.ofNat 47 ∉ table.data := by
  unfold CheckTableName
  split <;> simp_all

theorem CheckTableName_slash (table : String) (h : Char.ofNat 47 ∈ table.data) :
    CheckTableName table = some "Table can not contains '/' in its name" := by
  simp [CheckTableName, h]

/-- Claim C9, as stated, fails on the code for the Redis backend, whose driver counts no
segments: `GenericStorage.SetKey` with a key of 11 segments returns a nil error and
stores the value, and `GetKey` then returns it. -/
theorem C9_counterexample :
    NumberOfColumns < (SplitToParts elevenSegments).length ∧
    redisFacade.SetKey exampleEnv worldEmpty "t" elevenSegments "v" 0
      = (none, { sql := Store.empty,
                 redis := [("t/a/b/c/d/e/f/g/h/i/j/k", RedisValue.str "v" none)],
                 setups := 0, opened := 1, closed := 1 }) ∧
    (redisFacade.GetKey exampleEnv
        (redisFacade.SetKey exampleEnv worldEmpty "t" elevenSegments "v" 0).2
        "t" elevenSegments).1 = ("v", none) := by
  decide

theorem rejection_ne_none (env : Env) (s : Store) : rejection env s ≠ none := by
  unfold rejection
  split <;> simp

/-- What `acquire` gives for a relational backend type: an error, or an SQL driver, with
the stores untouched. -/
theorem acquire_sql (gs : GenericStorage) (env : Env) (w : World) (h : isSqlType gs.StorageType) :
    (∃ err w1, gs.acquire env w = Except.error (err, w1) ∧ w1.sql = w.sql ∧ w1.redis = w.redis) ∨
      (∃ d w1, gs.acquire env w = Except.ok (Driver.sql d, w1) ∧ w1.sql = w.sql ∧
        w1.redis = w.redis) := by
  unfold GenericStorage.acquire CreateStorage createDriver Driver.Create
  rcases h with h | h | h <;> rw [h] <;>
    simp only [SQLITE_STORAGE, POSTGRE_SQL_STORAGE, MY_SQL_STORAGE, REDIS_STORAGE] <;>
    cases env.openErr <;> simp <;> exact ⟨_, _, ⟨rfl, rfl⟩, rfl, rfl⟩

theorem storesNothing_destroy_sweep (env : Env) (w w1 : World) (h1 : w1.sql = w.sql)
    (h2 : w1.redis = w.redis) :
    storesNothing w (destroy { w1 with sql := (KeysCleanUp env w1.sql).2 }) := by
  refine ⟨h2, ?_, ?_⟩
  · show (KeysCleanUp env w1.sql).2.maps = w.sql.maps
    rw [KeysCleanUp_maps, h1]
  · show (KeysCleanUp env w1.sql).2.keys.Sublist w.sql.keys
    rw [← h1]
    exact KeysCleanUp_sublist env w1.sql

theorem storesNothing_destroy (w w1 : World) (h1 : w1.sql = w.sql) (h2 : w1.redis = w.redis) :
    storesNothing w (destroy w1) := by
  refine ⟨h2, ?_, ?_⟩
  · show w1.sql.maps = w.sql.maps
    rw [h1]
  · show w1.sql.keys.Sublist w.sql.keys
    rw [h1]

theorem storesNothing_of_eq (w w1 : World) (h1 : w1.sql = w.sql) (h2 : w1.redis = w.redis) :
    storesNothing w w1 := by
  refine ⟨h2, ?_, ?_⟩
  · rw [h1]
  · rw [h1]

/-- Claim C9, amended: for the relational backend types (sqlite, postgresql, mysql) and
every key or pattern of more than 10 segments, each `GenericStorage` operation taking
that key (`GetKeys`, `SetKey`, `GetKey`, `DelKey`, `AddToMap`, `DelFromMap`,
`GetFromMap`, `GetMap`) returns an error and stores nothing: the Redis keyspace and the
rows of `maps` are unchanged and no row of `keys` is added or changed. -/
theorem C9_too_many_segments_sql {α : Type} (codec : Codec α) (gs : GenericStorage) (env : Env)
    (w : World) (table key value objectKey : String) (object : α)
    (reference : Option (Reference α)) (expiration : Int)
    (hsql : isSqlType gs.StorageType)
    (hlen : NumberOfColumns < (SplitToParts key).length) :
    ((gs.GetKeys env w table key).1.2 ≠ none ∧ storesNothing w (gs.GetKeys env w table key).2) ∧
    ((gs.SetKey env w table key value expiration).1 ≠ none ∧
      storesNothing w (gs.SetKey env w table key value expiration).2) ∧
    ((gs.GetKey env w table key).1.2 ≠ none ∧ storesNothing w (gs.GetKey env w table key).2) ∧
    ((gs.DelKey env w table key).1.2 ≠ none ∧ storesNothing w (gs.DelKey env w table key).2) ∧
    ((gs.AddToMap codec env w table key objectKey object).1 ≠ none ∧
      storesNothing w (gs.AddToMap codec env w table key objectKey object).2) ∧
    ((gs.DelFromMap env w table key objectKey).1 ≠ none ∧
      storesNothing w (gs.DelFromMap env w table key objectKey).2) ∧
    ((gs.GetFromMap codec env w table key objectKey).1.2 ≠ none ∧
      storesNothing w (gs.GetFromMap codec env w table key objectKey).2) ∧
    ((gs.GetMap codec env w table key reference).1.2 ≠ none ∧
      storesNothing w (gs.GetMap codec env w table key reference).2) := by
  have hw : storesNothing w w := storesNothing_of_eq w w rfl rfl
  have hrej := fun s => rejection_ne_none env s
  refine ⟨?_, ?_, ?_, ?_, ?_, ?_, ?_, ?_⟩
  · unfold GenericStorage.GetKeys
    cases CheckTableName table with
    | some err => exact ⟨by simp, hw⟩
    | none =>
      rcases acquire_sql gs env w hsql with ⟨err, w1, ha, h1, h2⟩ | ⟨d, w1, ha, h1, h2⟩
      · rw [ha]; exact ⟨by simp, storesNothing_of_eq w w1 h1 h2⟩
      · rw [ha]
        simp only [Driver.GetKeys, onSql, GetKeys_rejected d env w1.sql table key hlen]
        exact ⟨hrej _, storesNothing_destroy_sweep env w w1 h1 h2⟩
  · unfold GenericStorage.SetKey
    cases CheckTableName table with
    | some err => exact ⟨by simp, hw⟩
    | none =>
      rcases acquire_sql gs env w hsql with ⟨err, w1, ha, h1, h2⟩ | ⟨d, w1, ha, h1, h2⟩
      · rw [ha]; exact ⟨by simp, storesNothing_of_eq w w1 h1 h2⟩
      · rw [ha]
        simp only [Driver.SetKey, onSql,
          SetKey_rejected d env w1.sql table key value expiration hlen]
        exact ⟨hrej _, storesNothing_destroy_sweep env w w1 h1 h2⟩
  · unfold GenericStorage.GetKey
    cases CheckTableName table with
    | some err => exact ⟨by simp, hw⟩
    | none =>
      rcases acquire_sql gs env w hsql with ⟨err, w1, ha, h1, h2⟩ | ⟨d, w1, ha, h1, h2⟩
      · rw [ha]; exact ⟨by simp, storesNothing_of_eq w w1 h1 h2⟩
      · rw [ha]
        simp only [Driver.GetKey, onSql, GetKey_rejected env w1.sql table key hlen]
        exact ⟨hrej _, storesNothing_destroy_sweep env w w1 h1 h2⟩
  · unfold GenericStorage.DelKey
    cases CheckTableName table with
    | some err => exact ⟨by simp, hw⟩
    | none =>
      rcases acquire_sql gs env w hsql with ⟨err, w1, ha, h1, h2⟩ | ⟨d, w1, ha, h1, h2⟩
      · rw [ha]; exact ⟨by simp, storesNothing_of_eq w w1 h1 h2⟩
      · rw [ha]
        simp only [Driver.DelKey, onSql, DelKey_rejected env w1.sql table key hlen]
        exact ⟨hrej _, storesNothing_destroy_sweep env w w1 h1 h2⟩
  · unfold GenericStorage.AddToMap
    cases CheckTableName table with
    | some err => exact ⟨by simp, hw⟩
    | none =>
      rcases acquire_sql gs env w hsql with ⟨err, w1, ha, h1, h2⟩ | ⟨d, w1, ha, h1, h2⟩
      · rw [ha]; exact ⟨by simp, storesNothing_of_eq w w1 h1 h2⟩
      · rw [ha]
        cases codec.marshal object with
        | error err => exact ⟨by simp, storesNothing_destroy w w1 h1 h2⟩
        | ok json =>
          simp only [Driver.AddToMap, onSql, AddToMap_rejected d env w1.sql table key objectKey _ hlen]
          exact ⟨by simp, storesNothing_destroy w _ h1 h2⟩
  · unfold GenericStorage.DelFromMap
    cases CheckTableName table with
    | some err => exact ⟨by simp, hw⟩
    | none =>
      rcases acquire_sql gs env w hsql with ⟨err, w1, ha, h1, h2⟩ | ⟨d, w1, ha, h1, h2⟩
      · rw [ha]; exact ⟨by simp, storesNothing_of_eq w w1 h1 h2⟩
      · rw [ha]
        simp only [Driver.DelFromMap, onSql, DelFromMap_rejected env w1.sql table key objectKey hlen]
        exact ⟨by simp, storesNothing_destroy w _ h1 h2⟩
  · unfold GenericStorage.GetFromMap
    cases CheckTableName table with
    | some err => exact ⟨by simp, hw⟩
    | none =>
      rcases acquire_sql gs env w hsql with ⟨err, w1, ha, h1, h2⟩ | ⟨d, w1, ha, h1, h2⟩
      · rw [ha]; exact ⟨by simp, storesNothing_of_eq w w1 h1 h2⟩
      · rw [ha]
        simp only [Driver.GetFromMap, onSql, GetFromMap_rejected env w1.sql table key objectKey hlen]
        exact ⟨by simp, storesNothing_destroy w _ h1 h2⟩
  · unfold GenericStorage.GetMap
    cases CheckTableName table with
    | some err => exact ⟨by simp, hw⟩
    | none =>
      rcases acquire_sql gs env w hsql with ⟨err, w1, ha, h1, h2⟩ | ⟨d, w1, ha, h1, h2⟩
      · rw [ha]; exact ⟨by simp, storesNothing_of_eq w w1 h1 h2⟩
      · rw [ha]
        simp only [Driver.GetMap, onSql, GetMap_rejected env w1.sql table key hlen]
        exact ⟨by simp, storesNothing_destroy w _ h1 h2⟩

/-- On SQLite, `SetKey` with a key of 11 segments returns the error of the segment check;
of the store with an expired record only the sweep's removal is seen. -/
theorem C9_too_many_segments_sql_witness :
    isSqlType sqliteFacade.StorageType ∧
    NumberOfColumns < (SplitToParts elevenSegments).length ∧
    sqliteFacade.SetKey exampleEnv worldExpired "t" elevenSegments "v" 0
      = (some "Too many data columns",
          { sql := { keys := [], maps := [], LastTruncate := 1700000000000 }, redis := [],
            setups := 0, opened := 1, closed := 1 }) ∧
    ((sqliteFacade.SetKey exampleEnv worldExpired "t" elevenSegments "v" 0).1 ≠ none ∧
      storesNothing worldExpired
        (sqliteFacade.SetKey exampleEnv worldExpired "t" elevenSegments "v" 0).2) :=
  ⟨by decide, by decide, by decide,
    (C9_too_many_segments_sql textCodec sqliteFacade exampleEnv worldExpired "t" elevenSegments
      "v" "o" "obj" none 0 (by decide) (by decide)).2.1⟩

/-- Claim C10: `CheckTableName` returns an error exactly when the table contains `/`, and
every `GenericStorage` operation that takes a table, called with such a table, returns
that error and leaves the world as it was: `CreateStorage` is not reached (no driver is
set up, opened or closed) and no store is touched. -/
theorem C10_table_with_slash {α : Type} (codec : Codec α) (gs : GenericStorage) (env : Env)
    (w : World) (table key value objectKey : String) (object : α)
    (reference : Option (Reference α)) (expiration : Int)
    (h : Char.ofNat 47 ∈ table.data) :
    (∀ t : String, CheckTableName t ≠ none ↔ Char.ofNat 47 ∈ t.data) ∧
    CheckTableName table = some "Table can not contains '/' in its name" ∧
    gs.GetKeys env w table key = (([], CheckTableName table), w) ∧
    gs.SetKey env w table key value expiration = (CheckTableName table, w) ∧
    gs.GetKey env w table key = (("", CheckTableName table), w) ∧
    gs.DelKey env w table key = ((0, CheckTableName table), w) ∧
    gs.AddToMap codec env w table key objectKey object = (CheckTableName table, w) ∧
    gs.DelFromMap env w table key objectKey = (CheckTableName table, w) ∧
    gs.GetFromMap codec env w table key objectKey = ((none, CheckTableName table), w) ∧
    (gs.GetMap codec env w table key reference).1.2 = CheckTableName table ∧
    (gs.GetMap codec env w table key reference).2 = w := by
  have hc := CheckTableName_slash table h
  refine ⟨?_, hc, ?_, ?_, ?_, ?_, ?_, ?_, ?_, ?_, ?_⟩
  · intro t
    rw [Ne, CheckTableName_iff, not_not]
  · simp [GenericStorage.GetKeys, hc]
  · simp [GenericStorage.SetKey, hc]
  · simp [GenericStorage.GetKey, hc]
  · simp [GenericStorage.DelKey, hc]
  · simp [GenericStorage.AddToMap, hc]
  · simp [GenericStorage.DelFromMap, hc]
  · simp [GenericStorage.GetFromMap, hc]
  · simp [GenericStorage.GetMap, hc]
  · simp [GenericStorage.GetMap, hc]

/-- With the table `t/x` every operation of a facade on SQLite returns the error of
`CheckTableName` and the world, counters included, is the one before the call. -/
theorem C10_table_with_slash_witness :
    Char.ofNat 47 ∈ ("t/x" : String).data ∧
    sqliteFacade.SetKey exampleEnv worldExpired "t/x" "a" "v" 0
      = (some "Table can not contains '/' in its name", worldExpired) ∧
    sqliteFacade.GetKeys exampleEnv worldExpired "t/x" "a"
      = (([], some "Table can not contains '/' in its name"), worldExpired) :=
  have h := C10_table_with_slash textCodec sqliteFacade exampleEnv worldExpired "t/x" "a" "v" "o"
    "obj" none 0 (by decide)
  ⟨by decide, h.2.1 ▸ h.2.2.2.1, h.2.1 ▸ h.2.2.1⟩


/-! ## The `ttl` that `SetKey` writes -/

theorem wrapInt64_id (x : Int) (h1 : -(2 ^ 63) ≤ x) (h2 : x ≤ maxInt64) : wrapInt64 x = x := by
  unfold wrapInt64
  unfold maxInt64 at h2
  rw [Int.emod_eq_of_lt (by omega) (by omega)]
  omega

theorem Milliseconds_nonpos (d : Int) : Milliseconds d ≤ 0 ↔ d < 1000000 := by
  unfold Milliseconds
  rcases le_or_lt 0 d with h0 | h0
  · rw [Int.tdiv_eq_ediv h0 (by decide)]; omega
  · have h1 : d.tdiv 1000000 = -((-d).tdiv 1000000) := by rw [Int.neg_tdiv, neg_neg]
    have h2 : 0 ≤ (-d).tdiv 1000000 := Int.tdiv_nonneg (by omega) (by decide)
    constructor
    · intro _; omega
    · intro _; omega

/-- The `ttl` written at a clock reading after the epoch, for an expiry instant that an
`int64` of nanoseconds holds. -/
theorem untilMilliseconds_eq (clock d : Int) (h0 : 0 ≤ clock) (hfit : clock + d ≤ maxInt64) :
    untilMilliseconds clock d
      = if d < 1000000 then 9223372036854 else (clock + d) / 1000000 := by
  unfold untilMilliseconds
  simp only [Milliseconds_nonpos]
  split
  · simp [UnixNano, wrapInt64, maxInt64]
    decide
  · rename_i hd
    simp only [UnixNano]
    rw [wrapInt64_id _ (by omega) hfit, Int.tdiv_eq_ediv (by omega) (by decide)]

theorem nowMillis_eq (clock : Int) (h0 : 0 ≤ clock) (h1 : clock ≤ maxInt64) :
    nowMillis clock = clock / 1000000 := by
  unfold nowMillis UnixNano
  rw [wrapInt64_id _ (by omega) h1, Int.tdiv_eq_ediv h0 (by decide)]

theorem Milliseconds_eq (d : Int) (h0 : 0 ≤ d) : Milliseconds d = d / 1000000 := by
  unfold Milliseconds
  rw [Int.tdiv_eq_ediv h0 (by decide)]

/-- Claim C11, as stated, fails on the code: `SetKey` tests `expiration.Milliseconds() <= 0`,
so a positive duration below one millisecond (here 500 microseconds) stores the sentinel
9223372036854; and the `ttl` of a longer duration is the millisecond of the instant
`now + d` taken in nanoseconds, which is one more than the clock reading in milliseconds
plus the milliseconds of `d` when their sub-millisecond parts add up to a millisecond
(here 1.5 ms at a clock reading 0.999999 ms after a whole millisecond). -/
theorem C11_counterexample :
    (0 : Int) < 500000 ∧
      (SetKey Dialect.sqlite exampleEnv Store.empty "t" "a" "v" 500000).1 = none ∧
      (SetKey Dialect.sqlite exampleEnv Store.empty "t" "a" "v" 500000).2.keys.map (fun r => r.ttl)
        = [9223372036854] ∧
      nowMillis 1700000000000999999 + Milliseconds 1500000 = 1700000000001 ∧
      (SetKey Dialect.sqlite (Env.quiet 1700000000000999999 1700000000000999999) Store.empty
          "t" "a" "v" 1500000).2.keys.map (fun r => r.ttl) = [1700000000002] := by
  decide

/-- Claim C11, amended: in each SQL driver, when no backend call fails, for texts without a
single quote (or backslash on MySQL), a key of at most 10 segments, a clock reading after
the epoch and an expiry instant before the sentinel, `SetKey` returns a nil error and
leaves a record of `(table, key)` with the value; every such record has `ttl` equal to the
sentinel 9223372036854 exactly when the duration is below one millisecond (which includes
every non-positive duration), and otherwise the clock reading in milliseconds plus the
milliseconds of the duration, plus one when their sub-millisecond remainders add up to a
millisecond or more (never for a duration of whole milliseconds). -/
theorem C11_ttl_written (d : Dialect) (env : Env) (s : Store) (table key value : String)
    (expiration : Int) (h : env.noFailure)
    (hlen : (SplitToParts key).length ≤ NumberOfColumns)
    (ht : literalSafe d table = true) (hk : literalSafe d key = true)
    (hv : literalSafe d value = true)
    (h0 : 0 ≤ env.opClock) (hfit : env.opClock + expiration < 9223372036854000000) :
    (SetKey d env s table key value expiration).1 = none ∧
      (∃ r ∈ (SetKey d env s table key value expiration).2.keys,
        r.table_hash = CalculateHash table ∧ r.columns = keyColumns key ∧ r.value = value) ∧
      (∀ r ∈ (SetKey d env s table key value expiration).2.keys,
        r.table_hash = CalculateHash table → r.columns = keyColumns key →
          (r.ttl = 9223372036854 ↔ expiration < 1000000) ∧
          r.ttl = if expiration < 1000000 then 9223372036854
            else nowMillis env.opClock + Milliseconds expiration +
              (if env.opClock % 1000000 + expiration % 1000000 ≥ 1000000 then 1 else 0)) := by
  have hs1 := KeysCleanUp_noFailure env s h.1 h.2.1
  rw [SetKey_run d env s table key value expiration hs1 hlen h.2.2.1 ht hk hv]
  have httl := untilMilliseconds_eq env.opClock expiration h0 (by unfold maxInt64; omega)
  refine ⟨rfl, ?_, ?_⟩
  · obtain ⟨r, hr, hc, hth, hval, _⟩ := upsertKey_has (KeysCleanUp env s).2.keys
      (writtenRow table key value (untilMilliseconds env.opClock expiration))
    exact ⟨r, hr, hth, hc, hval⟩
  · intro r hr hth hc
    have hr2 : r ∈ upsertKey (KeysCleanUp env s).2.keys
        (writtenRow table key value (untilMilliseconds env.opClock expiration)) := hr
    have hrt : r.ttl = untilMilliseconds env.opClock expiration := by
      rcases upsertKey_mem _ _ _ hr2 with h1 | h1
      · exact h1.2.2.2
      · have : r.conflicts (writtenRow table key value
            (untilMilliseconds env.opClock expiration)) = true := by
          rw [conflicts_eq]
          exact ⟨hc, hth⟩
        rw [this] at h1
        exact absurd h1.2 (by decide)
    rw [hrt, httl]
    by_cases hd : expiration < 1000000
    · simp [hd]
    · simp only [hd, if_false, iff_false]
      rw [nowMillis_eq _ h0 (by unfold maxInt64; omega), Milliseconds_eq _ (by omega)]
      constructor
      · omega
      · split <;> omega

theorem C11_ttl_written_witness :
    (SetKey Dialect.mysql exampleEnv storeAB "t" "a/b" "v" 2000000).1 = none ∧
      (∃ r ∈ (SetKey Dialect.mysql exampleEnv storeAB "t" "a/b" "v" 2000000).2.keys,
        r.table_hash = CalculateHash "t" ∧ r.columns = keyColumns "a/b" ∧ r.value = "v") ∧
      (∀ r ∈ (SetKey Dialect.mysql exampleEnv storeAB "t" "a/b" "v" 2000000).2.keys,
        r.table_hash = CalculateHash "t" → r.columns = keyColumns "a/b" →
          (r.ttl = 9223372036854 ↔ (2000000 : Int) < 1000000) ∧
          r.ttl = if (2000000 : Int) < 1000000 then 9223372036854
            else nowMillis exampleEnv.opClock + Milliseconds 2000000 +
              (if exampleEnv.opClock % 1000000 + 2000000 % 1000000 ≥ 1000000 then 1 else 0)) :=
  C11_ttl_written Dialect.mysql exampleEnv storeAB "t" "a/b" "v" 2000000 (by decide) (by decide)
    (by decide) (by decide) (by decide) (by decide) (by decide)



/-! ## Expired records are never read -/

theorem whereKeys_mem (rows : List KeyRow) (text : String) (l : List KeyRow)
    (h : whereKeys rows text = Except.ok l) : ∀ r ∈ l, r ∈ rows := by
  unfold whereKeys at h
  split at h
  · exact absurd h (by simp)
  · split at h
    · injection h with h
      subst h
      intro r hr
      exact (List.mem_filter.1 hr).1
    · exact absurd h (by simp)

theorem whereMaps_mem (rows : List MapRow) (text : String) (l : List MapRow)
    (h : whereMaps rows text = Except.ok l) : ∀ r ∈ l, r ∈ rows := by
  unfold whereMaps at h
  split at h
  · exact absurd h (by simp)
  · split at h
    · injection h with h
      subst h
      intro r hr
      exact (List.mem_filter.1 hr).1
    · exact absurd h (by simp)

theorem firstUnexpired_mem (now : Int) : ∀ (l : List KeyRow),
    firstUnexpired now l = "" ∨ ∃ r ∈ l, now ≤ r.ttl ∧ r.value = firstUnexpired now l := by
  intro l
  induction l with
  | nil => exact Or.inl rfl
  | cons r rest ih =>
    unfold firstUnexpired
    by_cases h : r.ttl ≥ now
    · simp only [h, if_true]
      exact Or.inr ⟨r, List.mem_cons_self _ _, h, rfl⟩
    · simp only [h, if_false]
      rcases ih with ih | ⟨x, hx, hx2⟩
      · exact Or.inl ih
      · exact Or.inr ⟨x, List.mem_cons_of_mem _ hx, hx2⟩

theorem firstUnexpired_expired (now : Int) : ∀ (l : List KeyRow),
    (∀ r ∈ l, r.ttl < now) → firstUnexpired now l = "" := by
  intro l
  induction l with
  | nil => intro _; rfl
  | cons r rest ih =>
    intro h
    unfold firstUnexpired
    have h1 := h r (List.mem_cons_self _ _)
    have h2 : ¬ (r.ttl ≥ now) := by omega
    simp only [h2, if_false]
    exact ih (fun x hx => h x (List.mem_cons_of_mem _ hx))

/-- Whatever `GetKey` returns is the empty string or the value of a row of `keys` whose
`ttl` is not below the clock reading of the call. -/
theorem GetKey_unexpired (env : Env) (s : Store) (table key : String) :
    (GetKey env s table key).1.1 = "" ∨
      ∃ r ∈ s.keys, nowMillis env.opClock ≤ r.ttl ∧ r.value = (GetKey env s table key).1.1 := by
  unfold GetKey
  have hmem := KeysCleanUp_mem env s
  generalize KeysCleanUp env s = k at hmem ⊢
  obtain ⟨e, s1⟩ := k
  cases e with
  | some err => exact Or.inl rfl
  | none =>
    simp only
    split
    · exact Or.inl rfl
    · split
      · exact Or.inl rfl
      · rename_i clause _
        unfold queryKeys
        cases env.stmtErr with
        | some e => exact Or.inl rfl
        | none =>
          simp only
          cases hq : whereKeys s1.keys (whereTable (CalculateHash table) clause) with
          | error e => exact Or.inl rfl
          | ok rows =>
            simp only
            rcases firstUnexpired_mem (nowMillis env.opClock) rows with h | ⟨r, hr, h1, h2⟩
            · exact Or.inl h
            · exact Or.inr ⟨r, hmem r (whereKeys_mem _ _ _ hq r hr), h1, h2⟩

/-- Every name `GetKeys` lists comes from a row of `keys` whose `ttl` is not below the
clock reading of the call or, on MySQL and PostgreSQL, from a row of `maps`. -/
theorem GetKeys_unexpired (d : Dialect) (env : Env) (s : Store) (table pattern x : String)
    (hx : x ∈ (GetKeys d env s table pattern).1.1) :
    (∃ r ∈ s.keys, nowMillis env.opClock ≤ r.ttl ∧ x = r.table ++ "/" ++ r.key) ∨
      (d ≠ Dialect.sqlite ∧ ∃ m ∈ s.maps, x = m.table ++ "/" ++ m.key) := by
  unfold GetKeys at hx
  have hmem := KeysCleanUp_mem env s
  have hmaps := KeysCleanUp_maps env s
  generalize KeysCleanUp env s = k at hx hmem hmaps
  obtain ⟨e, s1⟩ := k
  cases e with
  | some err => simp at hx
  | none =>
    simp only at hx hmem hmaps
    split at hx
    · simp at hx
    · split at hx
      · simp at hx
      · rename_i clause _
        unfold queryKeys at hx
        cases hse : env.stmtErr with
        | some e => rw [hse] at hx; simp at hx
        | none =>
          rw [hse] at hx
          simp only at hx
          cases hq : whereKeys s1.keys (whereTable (CalculateHash table) clause) with
          | error e => rw [hq] at hx; simp at hx
          | ok rows =>
            rw [hq] at hx
            simp only at hx
            have hkeys : ∀ y ∈ unexpiredKeyNames (nowMillis env.opClock) rows,
                ∃ r ∈ s.keys, nowMillis env.opClock ≤ r.ttl ∧ y = r.table ++ "/" ++ r.key := by
              intro y hy
              unfold unexpiredKeyNames at hy
              rw [List.mem_map] at hy
              obtain ⟨r, hr, rfl⟩ := hy
              rw [List.mem_filter] at hr
              exact ⟨r, hmem r (whereKeys_mem _ _ _ hq r hr.1), by simpa using hr.2, rfl⟩
            split at hx
            · exact Or.inl (hkeys x hx)
            · rename_i hd
              unfold queryMaps at hx
              cases hse2 : env.stmtErr2 with
              | some e => rw [hse2] at hx; simp at hx
              | none =>
                rw [hse2] at hx
                simp only at hx
                cases hq2 : whereMaps s1.maps (whereTable (CalculateHash table) clause) with
                | error e => rw [hq2] at hx; simp at hx
                | ok mrows =>
                  rw [hq2] at hx
                  simp only [List.mem_append, List.mem_map] at hx
                  rcases hx with hx | ⟨m, hm, rfl⟩
                  · exact Or.inl (hkeys x hx)
                  · refine Or.inr ⟨hd, m, ?_, rfl⟩
                    rw [← hmaps]
                    exact whereMaps_mem _ _ _ hq2 m hm

/-- Claim C12: in each SQL driver, whatever `GetKey` returns is the empty string or the
value of a record whose `ttl` is not below the clock reading of the call, and every name
`GetKeys` lists comes from such a record (or, on MySQL and PostgreSQL, from a map entry,
which has no `ttl`), whether or not a sweep has run; and when no backend call fails, after
`SetKey(table, key, value, expiration)` on a store with no other record that the filter
of `(table, key)` selects, a `GetKey(table, key)` at a clock reading past the written
`ttl` returns the empty string with a nil error. -/
theorem C12_expired_never_read (d : Dialect) (env1 env2 : Env) (s : Store)
    (table key value : String) (expiration : Int)
    (h1 : env1.noFailure) (h2 : env2.noFailure)
    (hlen : (SplitToParts key).length ≤ NumberOfColumns)
    (ht : literalSafe d table = true) (hk : literalSafe d key = true)
    (hv : literalSafe d value = true)
    (hempty : ∀ r ∈ s.keys, selects table key r.table_hash r.columns = false)
    (hpast : untilMilliseconds env1.opClock expiration < nowMillis env2.opClock) :
    (∀ (env : Env) (s0 : Store) (t k : String),
        (GetKey env s0 t k).1.1 = "" ∨
          ∃ r ∈ s0.keys, nowMillis env.opClock ≤ r.ttl ∧ r.value = (GetKey env s0 t k).1.1) ∧
      (∀ (d0 : Dialect) (env : Env) (s0 : Store) (t p x : String),
        x ∈ (GetKeys d0 env s0 t p).1.1 →
          (∃ r ∈ s0.keys, nowMillis env.opClock ≤ r.ttl ∧ x = r.table ++ "/" ++ r.key) ∨
            (d0 ≠ Dialect.sqlite ∧ ∃ m ∈ s0.maps, x = m.table ++ "/" ++ m.key)) ∧
      (SetKey d env1 s table key value expiration).1 = none ∧
      (∃ r ∈ (SetKey d env1 s table key value expiration).2.keys,
        r.table_hash = CalculateHash table ∧ r.columns = keyColumns key ∧ r.value = value ∧
          r.ttl = untilMilliseconds env1.opClock expiration) ∧
      (GetKey env2 (SetKey d env1 s table key value expiration).2 table key).1 = ("", none) := by
  refine ⟨GetKey_unexpired, GetKeys_unexpired, ?_⟩
  have hs1 := KeysCleanUp_noFailure env1 s h1.1 h1.2.1
  rw [SetKey_run d env1 s table key value expiration hs1 hlen h1.2.2.1 ht hk hv]
  refine ⟨rfl, ?_, ?_⟩
  · obtain ⟨r, hr, hc, hth, hval, httl⟩ := upsertKey_has (KeysCleanUp env1 s).2.keys
      (writtenRow table key value (untilMilliseconds env1.opClock expiration))
    exact ⟨r, hr, hth, hc, hval, httl⟩
  · rw [GetKey_run env2 _ table key (KeysCleanUp_noFailure env2 _ h2.1 h2.2.1) hlen h2.2.2.1]
    simp only [Prod.mk.injEq, and_true]
    apply firstUnexpired_expired
    intro r hr
    rw [List.mem_filter] at hr
    have hr1 : r ∈ upsertKey (KeysCleanUp env1 s).2.keys
        (writtenRow table key value (untilMilliseconds env1.opClock expiration)) :=
      KeysCleanUp_mem env2 _ r hr.1
    rcases upsertKey_mem _ _ _ hr1 with h | h
    · rw [h.2.2.2]
      exact hpast
    · have := hempty r (KeysCleanUp_mem env1 s r h.1)
      rw [this] at hr
      exact absurd hr.2 (by decide)

theorem C12_expired_never_read_witness :
    (GetKey (Env.quiet (exampleClock + 5000000) (exampleClock + 5000000))
        (SetKey Dialect.sqlite exampleEnv Store.empty "t" "a" "v" 1000000).2 "t" "a").2.keys.length
        = 1 ∧
      (GetKey (Env.quiet (exampleClock + 5000000) (exampleClock + 5000000))
        (SetKey Dialect.sqlite exampleEnv Store.empty "t" "a" "v" 1000000).2 "t" "a").1
        = ("", none) :=
  ⟨by decide,
    (C12_expired_never_read Dialect.sqlite exampleEnv
      (Env.quiet (exampleClock + 5000000) (exampleClock + 5000000)) Store.empty "t" "a" "v"
      1000000 (by decide) (by decide) (by decide) (by decide) (by decide) (by decide)
      (by decide) (by decide)).2.2.2.2⟩



/-! ## The throttle of the sweep -/

theorem KeysCleanUp_idle (env : Env) (s : Store)
    (h : ¬ (nowMillis env.sweepClock - s.LastTruncate > TruncateInterval)) :
    KeysCleanUp env s = (none, s) := by
  unfold KeysCleanUp
  simp only [h, if_false]

theorem KeysCleanUp_swept (env : Env) (s : Store)
    (h : nowMillis env.sweepClock - s.LastTruncate > TruncateInterval)
    (h1 : env.sweepErr = none) (h2 : env.sweepRowsErr = none) :
    KeysCleanUp env s
      = (none, { keys := s.keys.filter (fun r => ¬ (r.ttl < nowMillis env.sweepClock)),
                 maps := s.maps, LastTruncate := nowMillis env.sweepClock }) := by
  unfold KeysCleanUp execSweep
  simp only [h, if_true, h1, h2]

theorem KeysCleanUp_failed (env : Env) (s : Store) (err : String)
    (h : nowMillis env.sweepClock - s.LastTruncate > TruncateInterval)
    (h1 : env.sweepErr = some err) : KeysCleanUp env s = (some err, s) := by
  unfold KeysCleanUp execSweep
  simp only [h, if_true, h1]

theorem KeysCleanUp_LastTruncate (env : Env) (s : Store) (h2 : env.sweepRowsErr = none) :
    (KeysCleanUp env s).2.LastTruncate
      = if sweepExecutes env s then nowMillis env.sweepClock else s.LastTruncate := by
  unfold sweepExecutes
  by_cases h : nowMillis env.sweepClock - s.LastTruncate > TruncateInterval
  · cases h1 : env.sweepErr with
    | none => rw [KeysCleanUp_swept env s h h1 h2]; simp [h]
    | some err => rw [KeysCleanUp_failed env s err h h1]; simp
  · rw [KeysCleanUp_idle env s h]; simp [h]

theorem GetKeys_store (d : Dialect) (env : Env) (s : Store) (table pattern : String) :
    (GetKeys d env s table pattern).2 = (KeysCleanUp env s).2 := by
  unfold GetKeys
  generalize KeysCleanUp env s = k
  obtain ⟨e, s1⟩ := k
  cases e with
  | some err => rfl
  | none =>
    simp only
    repeat' split
    all_goals rfl

theorem GetKey_store (env : Env) (s : Store) (table key : String) :
    (GetKey env s table key).2 = (KeysCleanUp env s).2 := by
  unfold GetKey
  generalize KeysCleanUp env s = k
  obtain ⟨e, s1⟩ := k
  cases e with
  | some err => rfl
  | none =>
    simp only
    repeat' split
    all_goals rfl

theorem GetFullKey_store (env : Env) (s : Store) (key : String) :
    (GetFullKey env s key).2 = (KeysCleanUp env s).2 := by
  unfold GetFullKey
  have hne := SplitToParts_ne_nil key
  cases h : SplitToParts key with
  | nil => exact absurd h hne
  | cons table rest => exact GetKey_store env s table (joinRest rest)

theorem SetKey_LastTruncate (d : Dialect) (env : Env) (s : Store) (table key value : String)
    (expiration : Int) :
    (SetKey d env s table key value expiration).2.LastTruncate
      = (KeysCleanUp env s).2.LastTruncate := by
  unfold SetKey
  generalize KeysCleanUp env s = k
  obtain ⟨e, s1⟩ := k
  cases e with
  | some err => rfl
  | none =>
    simp only
    split
    · rfl
    · unfold execInsertKey
      cases env.stmtErr with
      | some e => rfl
      | none =>
        simp only
        cases sqlText d table <;> cases sqlText d key <;> cases sqlText d value <;> rfl

theorem DelKey_LastTruncate (env : Env) (s : Store) (table key : String) :
    (DelKey env s table key).2.LastTruncate = (KeysCleanUp env s).2.LastTruncate := by
  unfold DelKey
  generalize KeysCleanUp env s = k
  obtain ⟨e, s1⟩ := k
  cases e with
  | some err => rfl
  | none =>
    simp only
    split
    · rfl
    · split
      · rfl
      · unfold execDeleteKeys
        cases env.stmtErr with
        | some e => rfl
        | none =>
          simp only
          rename_i clause _
          cases whereKeys s1.keys (whereTable (CalculateHash table) clause) with
          | error e => rfl
          | ok hit =>
            simp only
            cases env.rowsErr <;> rfl

theorem AddToMap_LastTruncate (d : Dialect) (env : Env) (s : Store)
    (table key objectKey object : String) :
    (AddToMap d env s table key objectKey object).2.LastTruncate = s.LastTruncate := by
  unfold AddToMap
  simp only
  split
  · rfl
  · unfold execInsertMap
    cases env.stmtErr with
    | some e => rfl
    | none =>
      simp only
      cases sqlText d table <;> cases sqlText d key <;> cases sqlText d objectKey <;>
        cases sqlText d object <;> rfl

theorem DelFromMap_LastTruncate (env : Env) (s : Store) (table key objectKey : String) :
    (DelFromMap env s table key objectKey).2.LastTruncate = s.LastTruncate := by
  unfold DelFromMap
  simp only
  split
  · rfl
  · split
    · rfl
    · unfold execDeleteMaps
      cases env.stmtErr with
      | some e => rfl
      | none =>
        simp only
        rename_i clause _
        cases whereMaps s.maps
          (whereObject (CalculateHash table) (CalculateHash objectKey) clause) with
        | error e => rfl
        | ok hit => rfl

theorem GetFromMap_store (env : Env) (s : Store) (table key objectKey : String) :
    (GetFromMap env s table key objectKey).2 = s := by
  unfold GetFromMap
  simp only
  repeat' split
  all_goals rfl

theorem GetMap_store (env : Env) (s : Store) (table key : String) :
    (GetMap env s table key).2 = s := by
  unfold GetMap
  simp only
  repeat' split
  all_goals rfl

/-- The `LastTruncate` a call leaves: that of its sweep, or, for the map methods, the one
it found. -/
theorem onSql_LastTruncate (d : Dialect) (env : Env) (s : Store) (c : Call) :
    (c.onSql d env s).2.LastTruncate
      = if c.sweeps then (KeysCleanUp env s).2.LastTruncate else s.LastTruncate := by
  cases c with
  | getKeys table pattern => simp [Call.onSql, Call.sweeps, GetKeys_store]
  | setKey table key value expiration => simp [Call.onSql, Call.sweeps, SetKey_LastTruncate]
  | getFullKey key => simp [Call.onSql, Call.sweeps, GetFullKey_store]
  | getKey table key => simp [Call.onSql, Call.sweeps, GetKey_store]
  | delKey table key => simp [Call.onSql, Call.sweeps, DelKey_LastTruncate]
  | addToMap table key objectKey object => simp [Call.onSql, Call.sweeps, AddToMap_LastTruncate]
  | delFromMap table key objectKey => simp [Call.onSql, Call.sweeps, DelFromMap_LastTruncate]
  | getFromMap table key objectKey => simp [Call.onSql, Call.sweeps, GetFromMap_store]
  | getMap table key => simp [Call.onSql, Call.sweeps, GetMap_store]

/-- Every sweep logged in a sequence executes more than the interval after the
`LastTruncate` the sequence starts from, and after every sweep logged before it. -/
theorem sweepLog_spaced (d : Dialect) : ∀ (calls : List (Env × Call)) (s : Store),
    (∀ c ∈ calls, c.1.sweepRowsErr = none) →
      (∀ t ∈ sweepLog d calls s, t - s.LastTruncate > TruncateInterval) ∧
        (sweepLog d calls s).Pairwise (fun a b => b - a > TruncateInterval) := by
  intro calls
  induction calls with
  | nil => intro s _; simp [sweepLog]
  | cons c rest ih =>
    intro s hrows
    obtain ⟨env, c⟩ := c
    have hr : env.sweepRowsErr = none := hrows (env, c) (List.mem_cons_self _ _)
    have ih2 := ih (c.onSql d env s).2 (fun x hx => hrows x (List.mem_cons_of_mem _ hx))
    rw [onSql_LastTruncate, KeysCleanUp_LastTruncate env s hr] at ih2
    unfold sweepLog
    by_cases hex : (c.sweeps && sweepExecutes env s) = true
    · simp only [hex, if_true, List.singleton_append, List.mem_cons, List.pairwise_cons]
      rw [Bool.and_eq_true] at hex
      simp only [hex.1, hex.2, if_true] at ih2
      have hdue : nowMillis env.sweepClock - s.LastTruncate > TruncateInterval := by
        have := hex.2
        unfold sweepExecutes at this
        simp only [Bool.and_eq_true, decide_eq_true_eq] at this
        exact this.1
      have hpos : TruncateInterval > 0 := by decide
      refine ⟨?_, ih2.1, ih2.2⟩
      intro t ht
      rcases ht with rfl | ht
      · exact hdue
      · have := ih2.1 t ht
        omega
    · have hsame : (if c.sweeps = true then
          (if sweepExecutes env s = true then nowMillis env.sweepClock else s.LastTruncate)
          else s.LastTruncate) = s.LastTruncate := by
        cases hc : c.sweeps <;> cases hs : sweepExecutes env s <;> simp_all
      rw [hsame] at ih2
      simp only [hex, List.nil_append]
      exact ih2

/-- Claim C13: `KeysCleanUp` at a clock reading `now` (milliseconds) leaves the store as
it is when `now - LastTruncate > 60000` does not hold; when it holds and the backend calls
of the sweep succeed, it deletes the rows of `keys` with `ttl < now` and sets
`LastTruncate` to `now`; hence in every sequence of calls on an SQL driver in which the
count of the rows affected by the sweep is read without failure, any two sweeps whose
`DELETE` executes are more than 60000 ms apart, the later after the earlier. -/
theorem C13_sweep_throttle (d : Dialect) (calls : List (Env × Call)) (s : Store)
    (hrows : ∀ c ∈ calls, c.1.sweepRowsErr = none) :
    (∀ (env : Env) (s0 : Store), ¬ (nowMillis env.sweepClock - s0.LastTruncate > 60000) →
        KeysCleanUp env s0 = (none, s0)) ∧
      (∀ (env : Env) (s0 : Store), nowMillis env.sweepClock - s0.LastTruncate > 60000 →
        env.sweepErr = none → env.sweepRowsErr = none →
        KeysCleanUp env s0
          = (none, { keys := s0.keys.filter (fun r => ¬ (r.ttl < nowMillis env.sweepClock)),
                     maps := s0.maps, LastTruncate := nowMillis env.sweepClock })) ∧
      (sweepLog d calls s).Pairwise (fun a b => b - a > 60000) := by
  have hT : TruncateInterval = 60000 := by decide
  refine ⟨?_, ?_, ?_⟩
  · intro env s0 h
    exact KeysCleanUp_idle env s0 (by rw [hT]; exact h)
  · intro env s0 h h1 h2
    exact KeysCleanUp_swept env s0 (by rw [hT]; exact h) h1 h2
  · have := (sweepLog_spaced d calls s hrows).2
    rw [hT] at this
    exact this

/-- The sequence of the worked example of the throttle: a `SetKey`, a `GetKey` 30 seconds
later and a `GetKey` 61 seconds after the `SetKey`. -/
theorem C13_sweep_throttle_witness :
    sweepLog Dialect.sqlite
        [(exampleEnv, Call.setKey "t" "a" "v" 0),
         (Env.quiet (exampleClock + 30000000000) (exampleClock + 30000000000), Call.getKey "t" "a"),
         (Env.quiet (exampleClock + 61000000000) (exampleClock + 61000000000), Call.getKey "t" "a")]
        Store.empty = [1700000000000, 1700000061000] ∧
      (sweepLog Dialect.sqlite
        [(exampleEnv, Call.setKey "t" "a" "v" 0),
         (Env.quiet (exampleClock + 30000000000) (exampleClock + 30000000000), Call.getKey "t" "a"),
         (Env.quiet (exampleClock + 61000000000) (exampleClock + 61000000000), Call.getKey "t" "a")]
        Store.empty).Pairwise (fun a b => b - a > 60000) :=
  ⟨by decide,
    (C13_sweep_throttle Dialect.sqlite
      [(exampleEnv, Call.setKey "t" "a" "v" 0),
       (Env.quiet (exampleClock + 30000000000) (exampleClock + 30000000000), Call.getKey "t" "a"),
       (Env.quiet (exampleClock + 61000000000) (exampleClock + 61000000000), Call.getKey "t" "a")]
      Store.empty (by decide)).2.2⟩



/-! ## A failing sweep -/

/-- Claim C14: in each SQL driver, when the sweep is due and its `DELETE` fails with an
error, `GetKeys`, `SetKey`, `GetFullKey`, `GetKey` and `DelKey` return that error (with no
keys, the empty string, or 0 rows) and leave the store exactly as it was: no row of
`keys` or `maps` is changed and `LastTruncate` keeps its value. -/
theorem C14_sweep_failure_aborts (d : Dialect) (env : Env) (s : Store)
    (table key value pattern : String) (expiration : Int) (err : String)
    (hdue : nowMillis env.sweepClock - s.LastTruncate > 60000)
    (herr : env.sweepErr = some err) :
    GetKeys d env s table pattern = (([], some err), s) ∧
      SetKey d env s table key value expiration = (some err, s) ∧
      GetKey env s table key = (("", some err), s) ∧
      GetFullKey env s (table ++ "/" ++ key) = (("", some err), s) ∧
      DelKey env s table key = ((0, some err), s) := by
  have hk : KeysCleanUp env s = (some err, s) :=
    KeysCleanUp_failed env s err (by rw [show TruncateInterval = 60000 by decide]; exact hdue) herr
  have hg : ∀ t k, GetKey env s t k = (("", some err), s) := by
    intro t k
    unfold GetKey
    rw [hk]
  refine ⟨?_, ?_, hg table key, ?_, ?_⟩
  · unfold GetKeys
    rw [hk]
  · unfold SetKey
    rw [hk]
  · unfold GetFullKey
    have hne := SplitToParts_ne_nil (table ++ "/" ++ key)
    cases h : SplitToParts (table ++ "/" ++ key) with
    | nil => exact absurd h hne
    | cons t rest => exact hg t (joinRest rest)
  · unfold DelKey
    rw [hk]

theorem C14_sweep_failure_aborts_witness :
    GetKeys Dialect.mysql lockedEnv storeExpired "t" "*" = (([], some "database is locked"), storeExpired) ∧
      SetKey Dialect.mysql lockedEnv storeExpired "t" "a" "v" 0
        = (some "database is locked", storeExpired) ∧
      GetKey lockedEnv storeExpired "t" "a" = (("", some "database is locked"), storeExpired) ∧
      GetFullKey lockedEnv storeExpired ("t" ++ "/" ++ "a")
        = (("", some "database is locked"), storeExpired) ∧
      DelKey lockedEnv storeExpired "t" "a" = ((0, some "database is locked"), storeExpired) :=
  C14_sweep_failure_aborts Dialect.mysql lockedEnv storeExpired "t" "a" "v" "*" 0
    "database is locked" (by decide) (by decide)



/-! ## Deleting a key -/

theorem filter_not_mem_filter {α : Type} [DecidableEq α] (p : α → Bool) (l : List α) :
    l.filter (fun r => r ∉ l.filter p) = l.filter (fun r => !p r) := by
  apply List.filter_congr
  intro r hr
  simp [List.mem_filter, hr]

theorem length_filter_not {α : Type} (p : α → Bool) (l : List α) :
    ((l.filter (fun r => !p r)).length : Int) = (l.length : Int) - ((l.filter p).length : Int) := by
  induction l with
  | nil => simp
  | cons a rest ih =>
    cases h : p a <;> simp [List.filter_cons, h] <;> omega

/-- The sweep keeps the rows of `keys` when each carries the `ttl` of "no expiry". -/
theorem KeysCleanUp_unexpiring (env : Env) (s : Store)
    (h : ∀ r ∈ s.keys, r.ttl = 9223372036854) : (KeysCleanUp env s).2.keys = s.keys := by
  rcases KeysCleanUp_keys env s with hk | hk
  · exact hk
  · rw [hk, List.filter_eq_self]
    intro r hr
    have := nowMillis_le env.sweepClock
    have := h r hr
    simp only [decide_eq_true_eq]
    omega

theorem upsertKey_nil (row : KeyRow) : upsertKey [] row = [row] := by
  simp [upsertKey]

theorem KeysCleanUp_empty_keys (env : Env) (s : Store) (h : s.keys = []) :
    (KeysCleanUp env s).2.keys = [] := by
  have := KeysCleanUp_sublist env s
  rw [h] at this
  exact List.sublist_nil.1 this

/-- After `DelKey(table, key)` the filter of `(table, key)` selects no row of `keys`. -/
theorem DelKey_then_GetKey (env1 env2 : Env) (s : Store) (table key : String)
    (h1 : env1.noFailure) (h2 : env2.noFailure)
    (hlen : (SplitToParts key).length ≤ NumberOfColumns) :
    (GetKey env2 (DelKey env1 s table key).2 table key).1 = ("", none) := by
  rw [DelKey_run env1 s table key (KeysCleanUp_noFailure env1 s h1.1 h1.2.1) hlen h1.2.2.1
    h1.2.2.2.2]
  rw [GetKey_run env2 _ table key (KeysCleanUp_noFailure env2 _ h2.1 h2.2.1) hlen h2.2.2.1]
  simp only [Prod.mk.injEq, and_true]
  apply firstUnexpired_expired
  intro r hr
  rw [List.mem_filter] at hr
  have hr1 := KeysCleanUp_mem env2 _ r hr.1
  simp only [Store.withKeys, List.mem_filter, decide_eq_true_eq, not_and] at hr1
  exact absurd hr.2 (hr1.2 hr1.1)

/-- On the store that holds only the record written by `SetKey(table, key, v, 0)`:
`GetKey` returns `v`, `DelKey` returns 1 and the `GetKey` that follows returns the empty
string. -/
theorem SetKey_GetKey_DelKey (d : Dialect) (env0 env1 env2 env3 : Env) (table key v : String)
    (h0 : env0.noFailure) (h1 : env1.noFailure) (h2 : env2.noFailure) (h3 : env3.noFailure)
    (hlen : (SplitToParts key).length ≤ NumberOfColumns)
    (ht : literalSafe d table = true) (hk : literalSafe d key = true)
    (hv : literalSafe d v = true) :
    (SetKey d env0 Store.empty table key v 0).1 = none ∧
      (GetKey env1 (SetKey d env0 Store.empty table key v 0).2 table key).1 = (v, none) ∧
      (DelKey env2 (GetKey env1 (SetKey d env0 Store.empty table key v 0).2 table key).2
          table key).1 = (1, none) ∧
      (GetKey env3
        (DelKey env2 (GetKey env1 (SetKey d env0 Store.empty table key v 0).2 table key).2
          table key).2 table key).1 = ("", none) := by
  refine ⟨?_, ?_, ?_, DelKey_then_GetKey env2 env3 _ table key h2 h3 hlen⟩
  · rw [SetKey_run d env0 _ table key v 0 (KeysCleanUp_noFailure env0 _ h0.1 h0.2.1) hlen
      h0.2.2.1 ht hk hv]
  all_goals
    have hs0 : (SetKey d env0 Store.empty table key v 0).2.keys
        = [writtenRow table key v 9223372036854] := by
      rw [SetKey_run d env0 _ table key v 0 (KeysCleanUp_noFailure env0 _ h0.1 h0.2.1) hlen
        h0.2.2.1 ht hk hv, untilMilliseconds_zero]
      simp only [Store.withKeys]
      rw [KeysCleanUp_empty_keys env0 Store.empty rfl, upsertKey_nil]
    have hs1 : (KeysCleanUp env1 (SetKey d env0 Store.empty table key v 0).2).2.keys
        = [writtenRow table key v 9223372036854] := by
      rw [KeysCleanUp_unexpiring, hs0]
      rw [hs0]
      intro r hr
      rw [List.mem_singleton.1 hr]
      rfl
    have hsel : selects table key (writtenRow table key v 9223372036854).table_hash
        (writtenRow table key v 9223372036854).columns = true := selects_keyColumns table key hlen
  · rw [GetKey_run env1 _ table key (KeysCleanUp_noFailure env1 _ h1.1 h1.2.1) hlen h1.2.2.1,
      hs1]
    simp only [List.filter_cons, hsel, if_true, List.filter_nil, Prod.mk.injEq, and_true]
    have := nowMillis_le env1.opClock
    simp [firstUnexpired, writtenRow, this]
  · rw [GetKey_store]
    rw [DelKey_run env2 _ table key (KeysCleanUp_noFailure env2 _ h2.1 h2.2.1) hlen h2.2.2.1
      h2.2.2.2.2]
    have hs2 : (KeysCleanUp env2 (KeysCleanUp env1
        (SetKey d env0 Store.empty table key v 0).2).2).2.keys
        = [writtenRow table key v 9223372036854] := by
      rw [KeysCleanUp_unexpiring, hs1]
      rw [hs1]
      intro r hr
      rw [List.mem_singleton.1 hr]
      rfl
    rw [hs2]
    simp [List.filter_cons, hsel]

/-- Claim C15: in each SQL driver, when no backend call fails, for every store state,
table and key of at most 10 segments, `DelKey(table, key)` returns, with a nil error, the
number of rows of `keys` its statement removed, and a following `GetKey(table, key)`
returns the empty string with a nil error; and on the store that holds only the record
written by `SetKey("publickeys", "user42", v, 0)`, for a text `v` that the statement
carries (no single quote, or backslash on MySQL, as in a PEM text), `GetKey` returns `v`,
`DelKey` returns 1 and the `GetKey` that follows returns the empty string. -/
theorem C15_delete_then_get (d : Dialect) (env0 env1 env2 env3 : Env) (s : Store)
    (table key v : String)
    (h0 : env0.noFailure) (h1 : env1.noFailure) (h2 : env2.noFailure) (h3 : env3.noFailure)
    (hlen : (SplitToParts key).length ≤ NumberOfColumns)
    (hv : literalSafe d v = true) :
    (DelKey env1 s table key).1
        = (((KeysCleanUp env1 s).2.keys.length : Int)
            - ((DelKey env1 s table key).2.keys.length : Int), none) ∧
      (GetKey env2 (DelKey env1 s table key).2 table key).1 = ("", none) ∧
      (SetKey d env0 Store.empty "publickeys" "user42" v 0).1 = none ∧
      (GetKey env1 (SetKey d env0 Store.empty "publickeys" "user42" v 0).2
          "publickeys" "user42").1 = (v, none) ∧
      (DelKey env2 (GetKey env1 (SetKey d env0 Store.empty "publickeys" "user42" v 0).2
          "publickeys" "user42").2 "publickeys" "user42").1 = (1, none) ∧
      (GetKey env3
        (DelKey env2 (GetKey env1 (SetKey d env0 Store.empty "publickeys" "user42" v 0).2
          "publickeys" "user42").2 "publickeys" "user42").2 "publickeys" "user42").1
        = ("", none) := by
  refine ⟨?_, DelKey_then_GetKey env1 env2 s table key h1 h2 hlen,
    SetKey_GetKey_DelKey d env0 env1 env2 env3 "publickeys" "user42" v h0 h1 h2 h3 (by decide)
      (by cases d <;> decide) (by cases d <;> decide) hv⟩
  rw [DelKey_run env1 s table key (KeysCleanUp_noFailure env1 s h1.1 h1.2.1) hlen h1.2.2.1
    h1.2.2.2.2]
  simp only [Store.withKeys, Prod.mk.injEq, and_true]
  rw [filter_not_mem_filter, length_filter_not]
  omega

theorem C15_delete_then_get_witness :
    (DelKey exampleEnv storeWild "t" "a").1 = (2, none) ∧
      (GetKey exampleEnv (DelKey exampleEnv storeWild "t" "a").2 "t" "a").1 = ("", none) ∧
      (GetKey exampleEnv
        (SetKey Dialect.sqlite exampleEnv Store.empty "publickeys" "user42" examplePem 0).2
        "publickeys" "user42").1 = (examplePem, none) ∧
      (DelKey exampleEnv (GetKey exampleEnv
        (SetKey Dialect.sqlite exampleEnv Store.empty "publickeys" "user42" examplePem 0).2
        "publickeys" "user42").2 "publickeys" "user42").1 = (1, none) ∧
      (GetKey exampleEnv
        (DelKey exampleEnv (GetKey exampleEnv
          (SetKey Dialect.sqlite exampleEnv Store.empty "publickeys" "user42" examplePem 0).2
          "publickeys" "user42").2 "publickeys" "user42").2 "publickeys" "user42").1
        = ("", none) :=
  have h := C15_delete_then_get Dialect.sqlite exampleEnv exampleEnv exampleEnv exampleEnv
    storeWild "t" "a" examplePem (by decide) (by decide) (by decide) (by decide) (by decide)
    (by decide)
  ⟨h.1.trans (by decide), h.2.1, h.2.2.2⟩



/-! ## `GetFullKey` -/

theorem joinRest_map_mk : ∀ (l : List (List Char)),
    joinRest (l.map String.mk) = String.mk (List.intercalate [Char.ofNat 47] l) := by
  intro l
  induction l with
  | nil => rfl
  | cons a rest ih =>
    cases rest with
    | nil => simp [joinRest, List.intercalate]
    | cons b rest =>
      have h : joinRest (List.map String.mk (a :: b :: rest))
          = String.mk a ++ "/" ++ joinRest (List.map String.mk (b :: rest)) := by
        simp [joinRest]
      rw [h, ih]
      apply String.ext
      simp [List.intercalate, List.intersperse]

/-- The segments of a key, joined with `/`, spell the key. -/
theorem joinRest_SplitToParts (key : String) : joinRest (SplitToParts key) = key := by
  unfold SplitToParts
  rw [joinRest_map_mk, List.intercalate_splitOn]

theorem SplitToParts_cons (table key : String) (h : Char.ofNat 47 ∉ table.data) :
    SplitToParts (table ++ "/" ++ key) = table :: SplitToParts key := by
  unfold SplitToParts
  have hd : (table ++ "/" ++ key).data = table.data ++ Char.ofNat 47 :: key.data := by
    simp [String.data_append]
  rw [hd]
  simp only [List.splitOn]
  rw [List.splitOnP_first]
  · simp
  · intro x hx hp
    simp only [beq_iff_eq] at hp
    subst hp
    exact h hx
  · simp

theorem SplitToParts_single (key : String) (h : Char.ofNat 47 ∉ key.data) :
    SplitToParts key = [key] := by
  unfold SplitToParts
  simp only [List.splitOn]
  rw [List.splitOnP_eq_single]
  · simp
  · intro x hx hp
    simp only [beq_iff_eq] at hp
    subst hp
    exact h hx

/-- Claim C16: in each SQL driver, for every table name without `/` and every key,
`GetFullKey(table + "/" + key)` returns what `GetKey(table, key)` returns and leaves the
same store (the segments after the first, joined with `/`, spell `key`); for a full key
without `/` it is `GetKey(fullKey, "")`; and `SplitToParts` never returns an empty list,
so the first segment is always there. -/
theorem C16_full_key (env : Env) (s : Store) (table key fullKey : String)
    (ht : Char.ofNat 47 ∉ table.data) (hf : Char.ofNat 47 ∉ fullKey.data) :
    GetFullKey env s (table ++ "/" ++ key) = GetKey env s table key ∧
      SplitToParts (table ++ "/" ++ key) = table :: SplitToParts key ∧
      joinRest (SplitToParts key) = key ∧
      GetFullKey env s fullKey = GetKey env s fullKey "" ∧
      (∀ k : String, SplitToParts k ≠ [] ∧ 1 ≤ (SplitToParts k).length) := by
  refine ⟨?_, SplitToParts_cons table key ht, joinRest_SplitToParts key, ?_, ?_⟩
  · unfold GetFullKey
    rw [SplitToParts_cons table key ht]
    simp only [joinRest_SplitToParts]
  · unfold GetFullKey
    rw [SplitToParts_single fullKey hf]
    rfl
  · intro k
    have := SplitToParts_ne_nil k
    refine ⟨this, ?_⟩
    cases h : SplitToParts k with
    | nil => exact absurd h this
    | cons a l => simp

theorem C16_full_key_witness :
    GetFullKey exampleEnv storeAB ("t" ++ "/" ++ "a/b") = (("w", none), storeAB) ∧
      GetKey exampleEnv storeAB "t" "a/b" = (("w", none), storeAB) ∧
      GetFullKey exampleEnv storeAB "t" = GetKey exampleEnv storeAB "t" "" :=
  have h := C16_full_key exampleEnv storeAB "t" "a/b" "t" (by decide) (by decide)
  ⟨h.1.trans (by decide), by decide, h.2.2.2.1⟩



/-! ## Reading what is absent -/

/-- On an SQL backend, the facade hands the empty string of an absent entry to
`base64` and then to `json.Unmarshal`, whose error on the empty input it returns. -/
theorem GetFromMap_absent_sql {α : Type} (codec : Codec α) (gs : GenericStorage) (env : Env)
    (w : World) (table key objectKey err : String)
    (hsql : isSqlType gs.StorageType) (hopen : env.openErr = none)
    (hs : env.stmtErr = none) (ht : CheckTableName table = none)
    (hlen : (SplitToParts key).length ≤ NumberOfColumns)
    (habsent : entryRows table key objectKey w.sql.maps = [])
    (hcodec : codec.unmarshal [] = Except.error err) :
    (gs.GetFromMap codec env w table key objectKey).1 = (none, some err) := by
  unfold GenericStorage.GetFromMap
  rw [ht]
  simp only
  rcases acquire_sql gs env w hsql with ⟨e, w1, hacq, _, _⟩ | ⟨d, w1, hacq, hw, _⟩
  · exfalso
    unfold GenericStorage.acquire CreateStorage createDriver Driver.Create at hacq
    rcases hsql with h | h | h <;> rw [h] at hacq <;>
      simp [SQLITE_STORAGE, POSTGRE_SQL_STORAGE, MY_SQL_STORAGE, REDIS_STORAGE, hopen] at hacq
  · rw [hacq]
    simp only [Driver.GetFromMap, onSql]
    rw [GetFromMap_run env w1.sql table key objectKey hlen hs, hw, habsent]
    simp [base64Decode, base64DecodeAux, hcodec]

/-- Claim C17 fails on the code for `GetFromMap`: the Redis driver returns the error
`redis.Nil` of `HGet` for an absent entry, where its `GetKey` turns that error into a nil
error, and the facade returns an error on every backend (`redis: nil` on Redis, the
error of `json.Unmarshal` on the empty input on an SQL backend); the other reads of
something absent return the empty string or the empty mapping with a nil error. -/
theorem C17_absent_entry_is_error :
    RedisStorage.GetKey exampleEnv [] "t" "k" = (("", none), []) ∧
      RedisStorage.GetMap exampleEnv [] "t" "k" = (([], none), []) ∧
      RedisStorage.GetFromMap exampleEnv [] "t" "k" "o" = (("", some "redis: nil"), []) ∧
      (redisFacade.GetFromMap jsonText exampleEnv worldEmpty "t" "k" "o").1
        = (none, some "redis: nil") ∧
      GetKey exampleEnv Store.empty "t" "k" = (("", none), (KeysCleanUp exampleEnv Store.empty).2) ∧
      GetMap exampleEnv Store.empty "t" "k" = (([], none), Store.empty) ∧
      GetFromMap exampleEnv Store.empty "t" "k" "o" = (("", none), Store.empty) ∧
      (sqliteFacade.GetFromMap jsonText exampleEnv worldEmpty "t" "k" "o").1
        = (none, some "unexpected end of JSON input") := by
  decide



/-! ## Maps: assignment, upsert and the round trip at driver level -/

theorem mem_mapAssign (m : List (String × String)) (y v : String) (e : String × String) :
    e ∈ mapAssign m y v ↔ e = (y, v) ∨ (e ∈ m ∧ e.1 ≠ y) := by
  unfold mapAssign
  split
  · rename_i hany
    rw [List.any_eq_true] at hany
    obtain ⟨e0, he0, hk⟩ := hany
    simp only [decide_eq_true_eq] at hk
    rw [List.mem_map]
    constructor
    · rintro ⟨a, ha, rfl⟩
      by_cases h : a.1 = y
      · simp [h]
      · simp only [h, if_false]
        exact Or.inr ⟨ha, h⟩
    · rintro (rfl | ⟨he, hne⟩)
      · exact ⟨e0, he0, by simp [hk]⟩
      · exact ⟨e, he, by simp [hne]⟩
  · rename_i hany
    simp only [List.any_eq_true, decide_eq_true_eq, not_exists, not_and] at hany
    rw [List.mem_append, List.mem_singleton]
    constructor
    · rintro (h | h)
      · exact Or.inr ⟨h, hany e h⟩
      · exact Or.inl h
    · rintro (h | ⟨h, _⟩)
      · exact Or.inr h
      · exact Or.inl h

/-- Every entry of the map built from a list of pairs comes from the start or from the list. -/
theorem mem_foldl_mapAssign : ∀ (l : List (String × String)) (acc : List (String × String))
    (e : String × String),
    e ∈ l.foldl (fun result p => mapAssign result p.1 p.2) acc → e ∈ acc ∨ e ∈ l := by
  intro l
  induction l with
  | nil => intro acc e h; exact Or.inl h
  | cons p rest ih =>
    intro acc e h
    rw [List.foldl_cons] at h
    rcases ih _ e h with h1 | h1
    · rcases (mem_mapAssign acc p.1 p.2 e).1 h1 with h2 | h2
      · exact Or.inr (by rw [h2]; exact List.mem_cons_self _ _)
      · exact Or.inl h2.1
    · exact Or.inr (List.mem_cons_of_mem _ h1)

/-- A key of the start or of the list is a key of the map built. -/
theorem key_foldl_mapAssign (x : String) : ∀ (l : List (String × String))
    (acc : List (String × String)),
    ((∃ e ∈ acc, e.1 = x) ∨ ∃ e ∈ l, e.1 = x) →
      ∃ e ∈ l.foldl (fun result p => mapAssign result p.1 p.2) acc, e.1 = x := by
  intro l
  induction l with
  | nil =>
    intro acc h
    rcases h with h | ⟨e, he, _⟩
    · exact h
    · simp at he
  | cons p rest ih =>
    intro acc h
    rw [List.foldl_cons]
    apply ih
    rcases h with ⟨e, he, hx⟩ | ⟨e, he, hx⟩
    · left
      by_cases hp : e.1 = p.1
      · exact ⟨(p.1, p.2), (mem_mapAssign _ _ _ _).2 (Or.inl rfl), by rw [← hp]; exact hx⟩
      · exact ⟨e, (mem_mapAssign _ _ _ _).2 (Or.inr ⟨he, hp⟩), hx⟩
    · rcases List.mem_cons.1 he with rfl | he
      · left
        exact ⟨(e.1, e.2), (mem_mapAssign _ _ _ _).2 (Or.inl rfl), hx⟩
      · right
        exact ⟨e, he, hx⟩

/-- The map `GetMap` builds from rows: when some row carries the object key `x` and every
row that carries it has the value `v`, the map holds `x` with `v` and with nothing else;
every entry of the map is the object key and value of a row. -/
theorem GetMap_fold (rows : List MapRow) (x v : String)
    (hex : ∃ r ∈ rows, r.object_key = x)
    (hall : ∀ r ∈ rows, r.object_key = x → r.value = v) :
    (x, v) ∈ rows.foldl (fun result r => mapAssign result r.object_key r.value) [] ∧
      (∀ v2, (x, v2) ∈ rows.foldl (fun result r => mapAssign result r.object_key r.value) []
        → v2 = v) ∧
      (∀ e ∈ rows.foldl (fun result r => mapAssign result r.object_key r.value) [],
        ∃ r ∈ rows, r.object_key = e.1 ∧ r.value = e.2) := by
  have hmap : rows.foldl (fun result r => mapAssign result r.object_key r.value) []
      = (rows.map (fun r => (r.object_key, r.value))).foldl
          (fun result p => mapAssign result p.1 p.2) [] := by
    rw [List.foldl_map]
  rw [hmap]
  have hsrc : ∀ e ∈ (rows.map (fun r => (r.object_key, r.value))).foldl
      (fun result p => mapAssign result p.1 p.2) [],
      ∃ r ∈ rows, r.object_key = e.1 ∧ r.value = e.2 := by
    intro e he
    rcases mem_foldl_mapAssign _ _ e he with h | h
    · simp at h
    · rw [List.mem_map] at h
      obtain ⟨r, hr, rfl⟩ := h
      exact ⟨r, hr, rfl, rfl⟩
  have huniq : ∀ v2, (x, v2) ∈ (rows.map (fun r => (r.object_key, r.value))).foldl
      (fun result p => mapAssign result p.1 p.2) [] → v2 = v := by
    intro v2 h
    obtain ⟨r, hr, h1, h2⟩ := hsrc _ h
    exact h2.symm.trans (hall r hr h1)
  refine ⟨?_, huniq, hsrc⟩
  obtain ⟨r, hr, hrx⟩ := hex
  obtain ⟨e, he, hx⟩ := key_foldl_mapAssign x (rows.map (fun r => (r.object_key, r.value))) []
    (Or.inr ⟨(r.object_key, r.value), List.mem_map.2 ⟨r, hr, rfl⟩, hrx⟩)
  have : e = (x, v) := by
    obtain ⟨a, b⟩ := e
    simp only at hx
    subst hx
    rw [huniq b he]
  rw [← this]
  exact he

theorem mapConflicts_eq (a b : MapRow) :
    a.conflicts b = true ↔ (a.columns = b.columns ∧ a.table_hash = b.table_hash ∧
      a.object_key_hash = b.object_key_hash) := by
  simp [MapRow.conflicts]

/-- A row of `maps` after an upsert is the new row, a conflicting row with the new value,
or an untouched row that does not conflict. -/
theorem upsertMap_mem (rows : List MapRow) (row r : MapRow) (h : r ∈ upsertMap rows row) :
    r = row ∨ (∃ r0 ∈ rows, r0.conflicts row = true ∧ r = { r0 with value := row.value }) ∨
      (r ∈ rows ∧ r.conflicts row = false) := by
  unfold upsertMap at h
  split at h
  · rw [List.mem_map] at h
    obtain ⟨r0, hr0, rfl⟩ := h
    by_cases hc : r0.conflicts row = true
    · right; left
      exact ⟨r0, hr0, hc, by simp [MapRow.updated, hc]⟩
    · right; right
      have : r0.updated row = r0 := by simp [MapRow.updated, hc]
      rw [this]
      exact ⟨hr0, by simpa using hc⟩
  · rename_i hany
    rw [List.mem_append] at h
    rcases h with h | h
    · right; right
      refine ⟨h, ?_⟩
      simp only [List.any_eq_true, not_exists, not_and, Bool.not_eq_true] at hany
      exact hany r h
    · left
      simpa using h

theorem upsertMap_has (rows : List MapRow) (row : MapRow) :
    row ∈ upsertMap rows row ∨
      ∃ r0 ∈ rows, r0.conflicts row = true ∧ { r0 with value := row.value } ∈ upsertMap rows row := by
  unfold upsertMap
  split
  · rename_i hany
    rw [List.any_eq_true] at hany
    obtain ⟨r0, hr0, hc⟩ := hany
    right
    exact ⟨r0, hr0, hc, List.mem_map.2 ⟨r0, hr0, by simp [MapRow.updated, hc]⟩⟩
  · left
    simp

/-- The round trip at driver level: after `AddToMap(table, key, x, v)` the map that
`GetMap(table, key)` returns holds `x` with `v` and nothing else under `x`; its other
entries come from rows the store held. -/
theorem AddToMap_then_GetMap (d : Dialect) (env1 env2 : Env) (s : Store)
    (table key x v : String)
    (he1 : env1.stmtErr = none) (he2 : env2.stmtErr = none)
    (hlen : (SplitToParts key).length ≤ NumberOfColumns)
    (ht : literalSafe d table = true) (hk : literalSafe d key = true)
    (ho : literalSafe d x = true) (hv : literalSafe d v = true)
    (hsolo : ∀ r ∈ s.maps, selects table key r.table_hash r.columns = true →
      r.columns = keyColumns key)
    (hobj : ∀ r ∈ s.maps, selects table key r.table_hash r.columns = true →
      (r.object_key = x ↔ r.object_key_hash = CalculateHash x)) :
    (AddToMap d env1 s table key x v).1 = none ∧
      (GetMap env2 (AddToMap d env1 s table key x v).2 table key).1.2 = none ∧
      (x, v) ∈ (GetMap env2 (AddToMap d env1 s table key x v).2 table key).1.1 ∧
      (∀ v2, (x, v2) ∈ (GetMap env2 (AddToMap d env1 s table key x v).2 table key).1.1 →
        v2 = v) ∧
      (∀ e ∈ (GetMap env2 (AddToMap d env1 s table key x v).2 table key).1.1,
        e = (x, v) ∨ ∃ r ∈ s.maps, selects table key r.table_hash r.columns = true ∧
          r.object_key = e.1 ∧ r.value = e.2) := by
  rw [AddToMap_run d env1 s table key x v hlen he1 ht hk ho hv]
  rw [GetMap_run env2 _ table key hlen he2]
  simp only [Store.withMaps]
  have hselrow : selects table key (CalculateHash table) (keyColumns key) = true :=
    selects_keyColumns table key hlen
  -- a conflicting row of the store carries the object key `x`
  have hconf : ∀ r0 ∈ s.maps, r0.conflicts (writtenMapRow table key x v) = true →
      selects table key r0.table_hash r0.columns = true ∧ r0.object_key = x := by
    intro r0 hr0 hc
    rw [mapConflicts_eq] at hc
    have hsel : selects table key r0.table_hash r0.columns = true := by
      rw [hc.1, hc.2.1]
      exact hselrow
    exact ⟨hsel, (hobj r0 hr0 hsel).2 hc.2.2⟩
  have hex : ∃ r ∈ (upsertMap s.maps (writtenMapRow table key x v)).filter
      (fun r => selects table key r.table_hash r.columns), r.object_key = x := by
    rcases upsertMap_has s.maps (writtenMapRow table key x v) with h | ⟨r0, hr0, hc, h⟩
    · exact ⟨_, List.mem_filter.2 ⟨h, hselrow⟩, rfl⟩
    · exact ⟨_, List.mem_filter.2 ⟨h, (hconf r0 hr0 hc).1⟩, (hconf r0 hr0 hc).2⟩
  have hclass : ∀ r ∈ (upsertMap s.maps (writtenMapRow table key x v)).filter
      (fun r => selects table key r.table_hash r.columns),
      (r.object_key = x ∧ r.value = v) ∨
        (r ∈ s.maps ∧ r.conflicts (writtenMapRow table key x v) = false) := by
    intro r hr
    rw [List.mem_filter] at hr
    rcases upsertMap_mem _ _ _ hr.1 with h | ⟨r0, hr0, hc, h⟩ | h
    · left; rw [h]; exact ⟨rfl, rfl⟩
    · left; rw [h]; exact ⟨(hconf r0 hr0 hc).2, rfl⟩
    · right; exact h
  have hall : ∀ r ∈ (upsertMap s.maps (writtenMapRow table key x v)).filter
      (fun r => selects table key r.table_hash r.columns), r.object_key = x → r.value = v := by
    intro r hr hx
    rcases hclass r hr with h | h
    · exact h.2
    · exfalso
      have hsel := (List.mem_filter.1 hr).2
      have hcols := hsolo r h.1 hsel
      have hth := selects_table_hash table key _ _ hsel
      have hh := (hobj r h.1 hsel).1 hx
      have : r.conflicts (writtenMapRow table key x v) = true := by
        rw [mapConflicts_eq]
        exact ⟨hcols, hth, hh⟩
      rw [this] at h
      exact absurd h.2 (by decide)
  obtain ⟨h1, h2, h3⟩ := GetMap_fold _ x v hex hall
  refine ⟨trivial, trivial, h1, h2, ?_⟩
  intro e he
  obtain ⟨r, hr, hk1, hk2⟩ := h3 e he
  rcases hclass r hr with h | h
  · left
    obtain ⟨a, b⟩ := e
    simp only at hk1 hk2
    rw [← hk1, ← hk2, h.1, h.2]
  · right
    exact ⟨r, h.1, (List.mem_filter.1 hr).2, hk1, hk2⟩

/-- After `DelFromMap(table, key, x)` the filter of `(table, key, x)` selects no row. -/
theorem DelFromMap_then_GetFromMap (env1 env2 : Env) (s : Store) (table key x : String)
    (he1 : env1.stmtErr = none) (he2 : env2.stmtErr = none)
    (hlen : (SplitToParts key).length ≤ NumberOfColumns) :
    (DelFromMap env1 s table key x).1 = none ∧
      (GetFromMap env2 (DelFromMap env1 s table key x).2 table key x).1 = ("", none) ∧
      entryRows table key x (DelFromMap env1 s table key x).2.maps = [] := by
  rw [DelFromMap_run env1 s table key x hlen he1]
  rw [GetFromMap_run env2 _ table key x hlen he2]
  have hnone : entryRows table key x
      (s.withMaps (s.maps.filter (fun r => r ∉ entryRows table key x s.maps))).maps = [] := by
    simp only [Store.withMaps, entryRows]
    rw [List.filter_eq_nil_iff]
    intro r hr
    rw [List.mem_filter] at hr
    intro hp
    have hin : r ∈ List.filter (fun r => decide (r.object_key_hash = CalculateHash x ∧
        selects table key r.table_hash r.columns = true)) s.maps :=
      List.mem_filter.2 ⟨hr.1, hp⟩
    have := hr.2
    simp only [decide_eq_true_eq] at this
    exact this hin
  refine ⟨rfl, ?_, hnone⟩
  rw [hnone]
  rfl



/-! ## Base64 -/

theorem base64Char_mem (i : Nat) : base64Char i ∈ base64Alphabet := by
  unfold base64Char
  rw [List.getD_eq_getElem?_getD]
  cases h : base64Alphabet[i]? with
  | none => simp only [Option.getD_none]; decide
  | some c => simp only [Option.getD_some]; exact List.getElem?_mem h

theorem base64Alphabet_plain : ∀ c ∈ base64Alphabet,
    c ≠ Char.ofNat 61 ∧ c ≠ Char.ofNat 10 ∧ c ≠ Char.ofNat 13 ∧ c ≠ Char.ofNat 39 ∧
      c ≠ Char.ofNat 92 := by
  decide

set_option maxRecDepth 100000 in
theorem base64Value_char : ∀ i, i < 64 → base64Value (base64Char i) = some i := by
  decide

theorem base64Encode_chars : ∀ (bytes : List Nat), ∀ c ∈ base64Encode bytes,
    c ∈ base64Alphabet ∨ c = Char.ofNat 61 := by
  intro bytes
  induction bytes using base64Encode.induct with
  | case1 a b c rest ih =>
    intro x hx
    simp only [base64Encode, List.mem_cons] at hx
    rcases hx with rfl | rfl | rfl | rfl | hx
    · exact Or.inl (base64Char_mem _)
    · exact Or.inl (base64Char_mem _)
    · exact Or.inl (base64Char_mem _)
    · exact Or.inl (base64Char_mem _)
    · exact ih x hx
  | case2 a b =>
    intro x hx
    simp only [base64Encode, List.mem_cons, List.not_mem_nil, or_false] at hx
    rcases hx with rfl | rfl | rfl | rfl
    · exact Or.inl (base64Char_mem _)
    · exact Or.inl (base64Char_mem _)
    · exact Or.inl (base64Char_mem _)
    · exact Or.inr rfl
  | case3 a =>
    intro x hx
    simp only [base64Encode, List.mem_cons, List.not_mem_nil, or_false] at hx
    rcases hx with rfl | rfl | rfl | rfl
    · exact Or.inl (base64Char_mem _)
    · exact Or.inl (base64Char_mem _)
    · exact Or.inr rfl
    · exact Or.inr rfl
  | case4 =>
    intro x hx
    simp [base64Encode] at hx

theorem base64Char_ne_pad (i : Nat) : base64Char i ≠ Char.ofNat 61 :=
  (base64Alphabet_plain _ (base64Char_mem i)).1

/-- The quantum decoder reads back what the encoder writes for bytes. -/
theorem base64DecodeAux_encode : ∀ (bytes : List Nat), (∀ b ∈ bytes, b < 256) →
    base64DecodeAux (base64Encode bytes) = some bytes := by
  intro bytes
  induction bytes using base64Encode.induct with
  | case1 a b c rest ih =>
    intro hb
    have ha : a < 256 := hb a (by simp)
    have hb2 : b < 256 := hb b (by simp)
    have hc : c < 256 := hb c (by simp)
    have ih2 := ih (fun x hx => hb x (by simp [hx]))
    have v1 := base64Value_char (a / 4) (by omega)
    have v2 := base64Value_char (a % 4 * 16 + b / 16) (by omega)
    have v3 := base64Value_char (b % 16 * 4 + c / 64) (by omega)
    have v4 := base64Value_char (c % 64) (by omega)
    have e1 : a / 4 * 4 + (a % 4 * 16 + b / 16) / 16 = a := by omega
    have e2 : (a % 4 * 16 + b / 16) % 16 * 16 + (b % 16 * 4 + c / 64) / 4 = b := by omega
    have e3 : (b % 16 * 4 + c / 64) % 4 * 64 + c % 64 = c := by omega
    rw [base64Encode]
    cases hrest : base64Encode rest with
    | nil =>
      rw [hrest] at ih2
      simp only [base64DecodeAux] at ih2
      have hr : rest = [] := by
        injection ih2 with h
        exact h.symm
      subst hr
      simp only [base64DecodeAux, v1, v2, v3, v4, base64Char_ne_pad, if_false, e1, e2, e3]
    | cons x xs =>
      rw [hrest] at ih2
      simp only [base64DecodeAux, v1, v2, v3, v4, ih2, e1, e2, e3]
  | case2 a b =>
    intro hb
    have ha : a < 256 := hb a (by simp)
    have hb2 : b < 256 := hb b (by simp)
    have v1 := base64Value_char (a / 4) (by omega)
    have v2 := base64Value_char (a % 4 * 16 + b / 16) (by omega)
    have v3 := base64Value_char (b % 16 * 4) (by omega)
    have e1 : a / 4 * 4 + (a % 4 * 16 + b / 16) / 16 = a := by omega
    have e2 : (a % 4 * 16 + b / 16) % 16 * 16 + (b % 16 * 4) / 4 = b := by omega
    simp only [base64Encode, base64DecodeAux, v1, v2, v3, base64Char_ne_pad, if_false, if_true,
      e1, e2]
  | case3 a =>
    intro hb
    have ha : a < 256 := hb a (by simp)
    have v1 := base64Value_char (a / 4) (by omega)
    have v2 := base64Value_char (a % 4 * 16) (by omega)
    have e1 : a / 4 * 4 + (a % 4 * 16) / 16 = a := by omega
    simp only [base64Encode, base64DecodeAux, v1, v2, if_true, e1]
  | case4 =>
    intro _
    rfl

/-- Decoding reverses encoding: `DecodeString(EncodeToString(bytes)) = bytes`. -/
theorem base64Decode_encode (bytes : List Nat) (hb : ∀ b ∈ bytes, b < 256) :
    base64Decode (String.mk (base64Encode bytes)) = some bytes := by
  unfold base64Decode
  have hf : List.filter (fun c => decide (c ≠ Char.ofNat 10 ∧ c ≠ Char.ofNat 13))
      (base64Encode bytes) = base64Encode bytes := by
    rw [List.filter_eq_self]
    intro c hc
    rcases base64Encode_chars bytes c hc with h | h
    · have := base64Alphabet_plain c h
      simp only [decide_eq_true_eq]
      exact ⟨this.2.1, this.2.2.1⟩
    · subst h
      decide
  show base64DecodeAux (List.filter _ (base64Encode bytes)) = some bytes
  rw [hf]
  exact base64DecodeAux_encode bytes hb

/-- The base64 text of any bytes can be spliced into a statement of any dialect. -/
theorem literalSafe_base64 (d : Dialect) (bytes : List Nat) :
    literalSafe d (String.mk (base64Encode bytes)) = true := by
  have hq : Char.ofNat 39 ∉ base64Encode bytes := by
    intro h
    rcases base64Encode_chars bytes _ h with h1 | h1
    · exact (base64Alphabet_plain _ h1).2.2.2.1 rfl
    · exact absurd h1 (by decide)
  have hb : Char.ofNat 92 ∉ base64Encode bytes := by
    intro h
    rcases base64Encode_chars bytes _ h with h1 | h1
    · exact (base64Alphabet_plain _ h1).2.2.2.2 rfl
    · exact absurd h1 (by decide)
  simp [literalSafe, quoteChar, backslashChar, hq, hb]



/-! ## The facade over an SQL driver -/

theorem acquire_dialect (gs : GenericStorage) (env : Env) (w : World) (d : Dialect)
    (hty : gs.StorageType = d.storageType) (hopen : env.openErr = none) :
    gs.acquire env w = Except.ok (Driver.sql d, { w with opened := w.opened + 1 }) := by
  unfold GenericStorage.acquire CreateStorage createDriver Driver.Create
  rw [hty]
  cases d <;>
    simp [Dialect.storageType, SQLITE_STORAGE, POSTGRE_SQL_STORAGE, MY_SQL_STORAGE,
      REDIS_STORAGE, hopen]

/-- The assignment `m[key] = v` on a Go map kept as an association list. -/
theorem mem_assign {α : Type} (content : List (String × α)) (k : String) (v : α)
    (e : String × α) :
    e ∈ (if content.any (fun e => e.1 = k) then
          content.map (fun e => if e.1 = k then (k, v) else e)
        else content ++ [(k, v)]) ↔ e = (k, v) ∨ (e ∈ content ∧ e.1 ≠ k) := by
  split
  · rename_i hany
    rw [List.any_eq_true] at hany
    obtain ⟨e0, he0, hk⟩ := hany
    simp only [decide_eq_true_eq] at hk
    rw [List.mem_map]
    constructor
    · rintro ⟨a, ha, rfl⟩
      by_cases h : a.1 = k
      · simp [h]
      · simp only [h, if_false]
        exact Or.inr ⟨ha, h⟩
    · rintro (rfl | ⟨he, hne⟩)
      · exact ⟨e0, he0, by simp [hk]⟩
      · exact ⟨e, he, by simp [hne]⟩
  · rename_i hany
    simp only [List.any_eq_true, decide_eq_true_eq, not_exists, not_and] at hany
    rw [List.mem_append, List.mem_singleton]
    constructor
    · rintro (h | h)
      · exact Or.inr ⟨h, hany e h⟩
      · exact Or.inl h
    · rintro (h | ⟨h, _⟩)
      · exact Or.inr h
      · exact Or.inl h

/-- The loop of `GetMap` ends without error when every entry can be decoded. -/
theorem decodeInto_ok {α : Type} (codec : Codec α) : ∀ (data : List (String × String))
    (content : List (String × α)), (∀ e ∈ data, decodable codec e.2) →
    (GenericStorage.decodeInto codec data content).2 = none := by
  intro data
  induction data with
  | nil => intro content _; rfl
  | cons e rest ih =>
    intro content h
    obtain ⟨k, el⟩ := e
    obtain ⟨bytes, a, h1, h2⟩ := h (k, el) (List.mem_cons_self _ _)
    simp only at h1
    simp only [GenericStorage.decodeInto, h1, h2]
    exact ih _ (fun e he => h e (List.mem_cons_of_mem _ he))

/-- The loop of `GetMap` stores the decoded object under `x`, and nothing else under `x`,
when the data hold `x` with the text `enc` only and `enc` decodes to `obj`. -/
theorem decodeInto_mem {α : Type} (codec : Codec α) (x enc : String) (obj : α)
    (bytes : List Nat) (hdec : base64Decode enc = some bytes)
    (hun : codec.unmarshal bytes = Except.ok obj) :
    ∀ (data : List (String × String)) (content : List (String × α)),
      (∀ e ∈ data, decodable codec e.2) → (∀ v2, (x, v2) ∈ data → v2 = enc) →
      ((x, enc) ∈ data ∨ ((x, obj) ∈ content ∧ ∀ o, (x, o) ∈ content → o = obj)) →
      (x, obj) ∈ (GenericStorage.decodeInto codec data content).1 ∧
        ∀ o, (x, o) ∈ (GenericStorage.decodeInto codec data content).1 → o = obj := by
  intro data
  induction data with
  | nil =>
    intro content _ _ h
    rcases h with h | h
    · simp at h
    · exact h
  | cons e rest ih =>
    intro content hall huniq h
    obtain ⟨k, el⟩ := e
    obtain ⟨bs, a, h1, h2⟩ := hall (k, el) (List.mem_cons_self _ _)
    simp only at h1
    simp only [GenericStorage.decodeInto, h1, h2]
    apply ih _ (fun e he => hall e (List.mem_cons_of_mem _ he))
      (fun v2 hv2 => huniq v2 (List.mem_cons_of_mem _ hv2))
    by_cases hk : k = x
    · subst hk
      have hel : el = enc := huniq el (List.mem_cons_self _ _)
      subst hel
      have ha : a = obj := by
        rw [hdec] at h1
        injection h1 with h1
        subst h1
        rw [hun] at h2
        injection h2 with h2
        exact h2.symm
      subst ha
      right
      refine ⟨(mem_assign content k a (k, a)).2 (Or.inl rfl), ?_⟩
      intro o ho
      rcases (mem_assign content k a (k, o)).1 ho with h3 | h3
      · injection h3 with _ h3
      · exact absurd rfl h3.2
    · rcases h with h | h
      · left
        rcases List.mem_cons.1 h with h | h
        · injection h with h _
          exact absurd h.symm hk
        · exact h
      · right
        refine ⟨(mem_assign content k a (x, obj)).2 (Or.inr ⟨h.1, fun hx => hk hx.symm⟩), ?_⟩
        intro o ho
        rcases (mem_assign content k a (x, o)).1 ho with h3 | h3
        · injection h3 with h3 _
          exact absurd h3.symm hk
        · exact h.2 o h3.1

/-- The facade's `AddToMap` on an SQL backend: the driver's `AddToMap` with the base64 text
of the JSON bytes. -/
theorem facade_AddToMap_sql {α : Type} (codec : Codec α) (gs : GenericStorage) (d : Dialect)
    (env : Env) (w : World) (table key x : String) (obj : α) (bytes : List Nat)
    (hty : gs.StorageType = d.storageType) (hopen : env.openErr = none)
    (htab : CheckTableName table = none) (hm : codec.marshal obj = Except.ok bytes) :
    gs.AddToMap codec env w table key x obj
      = ((AddToMap d env w.sql table key x (String.mk (base64Encode bytes))).1,
          destroy { w with opened := w.opened + 1,
                           sql := (AddToMap d env w.sql table key x
                             (String.mk (base64Encode bytes))).2 }) := by
  unfold GenericStorage.AddToMap
  rw [htab]
  simp only
  rw [acquire_dialect gs env w d hty hopen]
  simp only [hm, Driver.AddToMap, onSql]

/-- The facade's `GetMap` on an SQL backend, for a destination of the right shape behind a
pointer that is not nil, when the driver returns a map: the loop over its entries. -/
theorem facade_GetMap_sql {α : Type} (codec : Codec α) (gs : GenericStorage) (d : Dialect)
    (env : Env) (w : World) (table key : String) (ref : Reference α)
    (hty : gs.StorageType = d.storageType) (hopen : env.openErr = none)
    (htab : CheckTableName table = none)
    (hdrv : (GetMap env w.sql table key).1.2 = none)
    (hshape : shapeRejected ref.type = some false) (hnil : ref.nilPointer = false) :
    (gs.GetMap codec env w table key (some ref)).1
      = GenericStorage.decodeInto codec (GetMap env w.sql table key).1.1 ref.content := by
  unfold GenericStorage.GetMap
  rw [htab]
  simp only
  rw [acquire_dialect gs env w d hty hopen]
  simp only [Driver.GetMap, onSql, hdrv, hshape, hnil]
  rfl



/-! ## The map round trip -/

set_option maxRecDepth 100000 in
/-- Claim C18, as stated, fails on the code of the SQL drivers.  The upsert of `AddToMap`
goes by the CRC-32 of the object key: `plumless` and `buckeroo` share theirs, so
`AddToMap(t, k, "buckeroo", v)` on a store that holds `plumless` overwrites its value and
`GetMap(t, k)` holds no `buckeroo` (at driver level and through the facade).  `GetMap`
selects by the filter of `(t, k)`, which also selects the entries under longer keys: with
`x` stored under `k/z` after `k`, the map of `GetMap(t, "k")` holds `x` with the value
stored under `k/z`.  An object key with a single quote breaks the statement: `AddToMap`
returns the backend's error and `GetMap` returns the empty map. -/
theorem C18_counterexample :
    (GetMap exampleEnv
        (AddToMap Dialect.sqlite exampleEnv
          (AddToMap Dialect.sqlite exampleEnv Store.empty "t" "k" "plumless" "v0").2
          "t" "k" "buckeroo" "v").2 "t" "k").1 = ([("plumless", "v")], none) ∧
      (sqliteFacade.GetMap jsonText exampleEnv
        (sqliteFacade.AddToMap jsonText exampleEnv
          (sqliteFacade.AddToMap jsonText exampleEnv worldEmpty "t" "k" "plumless" "a").2
          "t" "k" "buckeroo" "b").2 "t" "k" (some exampleRef)).1 = ([("plumless", "b")], none) ∧
      (GetMap exampleEnv
        (AddToMap Dialect.sqlite exampleEnv
          (AddToMap Dialect.sqlite exampleEnv
            (AddToMap Dialect.sqlite exampleEnv Store.empty "t" "k" "x" "v0").2
            "t" "k/z" "x" "other").2 "t" "k" "x" "v").2 "t" "k").1 = ([("x", "other")], none) ∧
      (AddToMap Dialect.sqlite exampleEnv Store.empty "t" "k" "it's" "v").1 ≠ none ∧
      (GetMap exampleEnv (AddToMap Dialect.sqlite exampleEnv Store.empty "t" "k" "it's" "v").2
        "t" "k").1 = ([], none) := by
  decide

theorem worldEntry_maps : worldEntry.sql.maps
      = [{ table := "t", table_hash := 2238339752, key := "k",
           columns := [140662621, 0, 0, 0, 0, 0, 0, 0, 0, 0], value := "ImZpcnN0Ig==",
           object_key := "o", object_key_hash := 252678980 }] := by
  decide

/-- The entry of `worldEntry` is the base64 text of the JSON text of `first`. -/
theorem worldEntry_decodable : ∀ r ∈ worldEntry.sql.maps,
    selects "t" "k" r.table_hash r.columns = true → decodable jsonText r.value := by
  intro r hr _
  rw [worldEntry_maps, List.mem_singleton] at hr
  rw [hr]
  exact ⟨[34, 102, 105, 114, 115, 116, 34], "first", by decide, rfl⟩

/-- Claim C18, amended: on an SQL driver `d`, when no backend call fails, for a table
without `/`, a key `k` of at most 10 segments, table, key and object key `x` without a
single quote (or backslash on MySQL), and a store in which every entry that the filter of
`(t, k)` selects carries the hash tuple of `k` (no entry under a longer key) and carries
the object key `x` exactly when it carries the CRC-32 of `x`: the driver's
`AddToMap(t, k, x, v)`, for a text `v` without a quote, followed by `GetMap(t, k)` yields a
map that holds `x` with exactly `v`; the facade's `AddToMap(t, k, x, obj)`, for an object
whose JSON bytes decode back to it, followed by the facade's `GetMap(t, k, ref)` into a
destination of the right shape, the other selected entries being decodable, yields a map
that holds `x` with exactly `obj`; and on every store, after `DelFromMap(t, k, x)` the
driver's `GetFromMap(t, k, x)` finds no row and returns the empty string with a nil error. -/
theorem C18_map_round_trip {α : Type} (codec : Codec α) (gs : GenericStorage) (d : Dialect)
    (env1 env2 env3 env4 : Env) (w : World) (table key x v : String) (obj : α)
    (bytes : List Nat) (ref : Reference α)
    (he1 : env1.stmtErr = none) (he2 : env2.stmtErr = none) (he3 : env3.stmtErr = none)
    (he4 : env4.stmtErr = none) (ho1 : env1.openErr = none) (ho2 : env2.openErr = none)
    (hty : gs.StorageType = d.storageType)
    (htab : Char.ofNat 47 ∉ table.data)
    (hlen : (SplitToParts key).length ≤ NumberOfColumns)
    (ht : literalSafe d table = true) (hk : literalSafe d key = true)
    (hx : literalSafe d x = true) (hv : literalSafe d v = true)
    (hsolo : ∀ r ∈ w.sql.maps, selects table key r.table_hash r.columns = true →
      r.columns = keyColumns key)
    (hobj : ∀ r ∈ w.sql.maps, selects table key r.table_hash r.columns = true →
      (r.object_key = x ↔ r.object_key_hash = CalculateHash x))
    (hm : codec.marshal obj = Except.ok bytes) (hb : ∀ b ∈ bytes, b < 256)
    (hu : codec.unmarshal bytes = Except.ok obj)
    (hdec : ∀ r ∈ w.sql.maps, selects table key r.table_hash r.columns = true →
      decodable codec r.value)
    (hshape : shapeRejected ref.type = some false) (hnil : ref.nilPointer = false) :
    (AddToMap d env1 w.sql table key x v).1 = none ∧
      (GetMap env2 (AddToMap d env1 w.sql table key x v).2 table key).1.2 = none ∧
      (x, v) ∈ (GetMap env2 (AddToMap d env1 w.sql table key x v).2 table key).1.1 ∧
      (∀ v2, (x, v2) ∈ (GetMap env2 (AddToMap d env1 w.sql table key x v).2 table key).1.1 →
        v2 = v) ∧
      (gs.AddToMap codec env1 w table key x obj).1 = none ∧
      (gs.GetMap codec env2 (gs.AddToMap codec env1 w table key x obj).2 table key
        (some ref)).1.2 = none ∧
      (x, obj) ∈ (gs.GetMap codec env2 (gs.AddToMap codec env1 w table key x obj).2 table key
        (some ref)).1.1 ∧
      (∀ o, (x, o) ∈ (gs.GetMap codec env2 (gs.AddToMap codec env1 w table key x obj).2
        table key (some ref)).1.1 → o = obj) ∧
      (∀ s0 : Store, (DelFromMap env3 s0 table key x).1 = none ∧
        (GetFromMap env4 (DelFromMap env3 s0 table key x).2 table key x).1 = ("", none)) := by
  have hcheck : CheckTableName table = none := (CheckTableName_iff table).2 htab
  obtain ⟨d1, d2, d3, d4, _⟩ := AddToMap_then_GetMap d env1 env2 w.sql table key x v he1 he2
    hlen ht hk hx hv hsolo hobj
  obtain ⟨f1, f2, f3, f4, f5⟩ := AddToMap_then_GetMap d env1 env2 w.sql table key x
    (String.mk (base64Encode bytes)) he1 he2 hlen ht hk hx (literalSafe_base64 d bytes)
    hsolo hobj
  have hadd := facade_AddToMap_sql codec gs d env1 w table key x obj bytes hty ho1 hcheck hm
  have hget := facade_GetMap_sql codec gs d env2 (gs.AddToMap codec env1 w table key x obj).2
    table key ref hty ho2 hcheck (by rw [hadd]; exact f2) hshape hnil
  have hdata : (GetMap env2 (gs.AddToMap codec env1 w table key x obj).2.sql table key).1.1
      = (GetMap env2 (AddToMap d env1 w.sql table key x (String.mk (base64Encode bytes))).2
          table key).1.1 := by
    rw [hadd]
    rfl
  have hall : ∀ e ∈ (GetMap env2
      (AddToMap d env1 w.sql table key x (String.mk (base64Encode bytes))).2 table key).1.1,
      decodable codec e.2 := by
    intro e he
    rcases f5 e he with h | ⟨r, hr, hsel, _, hval⟩
    · rw [h]
      exact ⟨bytes, obj, base64Decode_encode bytes hb, hu⟩
    · rw [← hval]
      exact hdec r hr hsel
  have hmem := decodeInto_mem codec x (String.mk (base64Encode bytes)) obj bytes
    (base64Decode_encode bytes hb) hu _ ref.content hall f4 (Or.inl f3)
  refine ⟨d1, d2, d3, d4, ?_, ?_, ?_, ?_, ?_⟩
  · rw [hadd]
    exact f1
  · rw [hget, hdata]
    exact decodeInto_ok codec _ _ hall
  · rw [hget, hdata]
    exact hmem.1
  · rw [hget, hdata]
    exact hmem.2
  · intro s0
    have := DelFromMap_then_GetFromMap env3 env4 s0 table key x he3 he4 hlen
    exact ⟨this.1, this.2.1⟩

theorem C18_map_round_trip_witness :
    ("x", "v") ∈ (GetMap exampleEnv (AddToMap Dialect.sqlite exampleEnv worldEntry.sql "t" "k" "x"
        "v").2 "t" "k").1.1 ∧
      ("x", "obj") ∈ (sqliteFacade.GetMap jsonText exampleEnv
        (sqliteFacade.AddToMap jsonText exampleEnv worldEntry "t" "k" "x" "obj").2 "t" "k"
        (some exampleRef)).1.1 ∧
      (∀ s0 : Store, (DelFromMap exampleEnv s0 "t" "k" "x").1 = none ∧
        (GetFromMap exampleEnv (DelFromMap exampleEnv s0 "t" "k" "x").2 "t" "k" "x").1
          = ("", none)) :=
  have h := C18_map_round_trip jsonText sqliteFacade Dialect.sqlite exampleEnv exampleEnv
    exampleEnv exampleEnv worldEntry "t" "k" "x" "v" "obj" [34, 111, 98, 106, 34] exampleRef
    (by decide) (by decide) (by decide) (by decide) (by decide) (by decide) (by decide)
    (by decide) (by decide) (by decide) (by decide) (by decide) (by decide) (by decide)
    (by decide) rfl (by decide) rfl worldEntry_decodable (by decide) (by decide)
  ⟨h.2.2.1, h.2.2.2.2.2.2.1, h.2.2.2.2.2.2.2.2⟩



/-! ## The destination of `GetMap` -/

/-- The shape test of the source rejects exactly the types that are not of the shape
`*map[string]*T`, and no `reflect` call of the test panics. -/
theorem shapeRejected_eq (t : GoType) : shapeRejected t = some (!wellShaped t) := by
  cases t with
  | ptr c =>
    cases c with
    | map k e => cases k <;> cases e <;> rfl
    | _ => rfl
  | _ => rfl

theorem keys_mapAssign (m : List (String × String)) (y v : String) :
    (mapAssign m y v).map Prod.fst
      = if y ∈ m.map Prod.fst then m.map Prod.fst else m.map Prod.fst ++ [y] := by
  unfold mapAssign
  by_cases h : y ∈ m.map Prod.fst
  · have hany : m.any (fun e => decide (e.1 = y)) = true := by
      rw [List.mem_map] at h
      obtain ⟨e, he, hy⟩ := h
      exact List.any_eq_true.2 ⟨e, he, by simpa using hy⟩
    simp only [hany, if_true, h, List.map_map]
    apply List.map_congr_left
    intro e _
    by_cases he : e.1 = y <;> simp [he]
  · have hany : ¬ (m.any (fun e => decide (e.1 = y)) = true) := by
      intro hh
      rw [List.any_eq_true] at hh
      obtain ⟨e, he, hy⟩ := hh
      exact h (List.mem_map.2 ⟨e, he, by simpa using hy⟩)
    simp [hany, h]

theorem nodup_mapAssign (m : List (String × String)) (y v : String)
    (h : (m.map Prod.fst).Nodup) : ((mapAssign m y v).map Prod.fst).Nodup := by
  rw [keys_mapAssign]
  split
  · exact h
  · rename_i hy
    rw [List.nodup_append]
    refine ⟨h, List.nodup_singleton y, ?_⟩
    intro a ha hb
    rw [List.mem_singleton] at hb
    subst hb
    exact hy ha

theorem nodup_foldl_mapAssign {β : Type} (f : β → String) (g : β → String) :
    ∀ (l : List β) (acc : List (String × String)), (acc.map Prod.fst).Nodup →
      ((l.foldl (fun result r => mapAssign result (f r) (g r)) acc).map Prod.fst).Nodup := by
  intro l
  induction l with
  | nil => intro acc h; exact h
  | cons r rest ih =>
    intro acc h
    rw [List.foldl_cons]
    exact ih _ (nodup_mapAssign acc (f r) (g r) h)

/-- The object keys of the map a driver's `GetMap` returns are distinct. -/
theorem Driver_GetMap_nodup (storage : Driver) (env : Env) (w : World) (table key : String) :
    ((storage.GetMap env w table key).1.1.map Prod.fst).Nodup := by
  cases storage with
  | redis =>
    simp only [Driver.GetMap, onRedis, RedisStorage.GetMap]
    cases env.stmtErr with
    | some e => simp
    | none =>
      simp only
      cases redisFind (purge (nowMillis env.opClock) w.redis) (table ++ "/" ++ key) with
      | none => simp
      | some v =>
        cases v with
        | str a b => simp
        | hash fields =>
          exact nodup_foldl_mapAssign (fun e => e.1) (fun e => e.2) fields [] (by simp)
  | sql d =>
    simp only [Driver.GetMap, onSql, GetMap]
    split
    · simp
    · split
      · simp
      · split
        · simp
        · exact nodup_foldl_mapAssign (fun (r : MapRow) => r.object_key)
            (fun (r : MapRow) => r.value) _ [] (by simp)

theorem decodeInto_append {α : Type} (codec : Codec α) : ∀ (pre rest : List (String × String))
    (content : List (String × α)), (∀ e ∈ pre, decodable codec e.2) →
    GenericStorage.decodeInto codec (pre ++ rest) content
      = GenericStorage.decodeInto codec rest (GenericStorage.decodeInto codec pre content).1 := by
  intro pre
  induction pre with
  | nil => intro rest content _; rfl
  | cons e pre ih =>
    intro rest content h
    obtain ⟨k, el⟩ := e
    obtain ⟨bytes, a, h1, h2⟩ := h (k, el) (List.mem_cons_self _ _)
    simp only at h1
    simp only [List.cons_append, GenericStorage.decodeInto, h1, h2]
    exact ih rest _ (fun e he => h e (List.mem_cons_of_mem _ he))

theorem decodeInto_fails {α : Type} (codec : Codec α) (k text : String)
    (post : List (String × String)) (content : List (String × α))
    (h : ¬ decodable codec text) :
    (GenericStorage.decodeInto codec ((k, text) :: post) content).2 ≠ none ∧
      (GenericStorage.decodeInto codec ((k, text) :: post) content).1 = content := by
  unfold GenericStorage.decodeInto
  cases h1 : base64Decode text with
  | none => simp
  | some bytes =>
    cases h2 : codec.unmarshal bytes with
    | error err => simp [h2]
    | ok a => exact absurd ⟨bytes, a, h1, h2⟩ h

/-- When every entry decodes, the loop of `GetMap` stores each under its key. -/
theorem decodeInto_all {α : Type} (codec : Codec α) (data : List (String × String))
    (content : List (String × α)) (hnodup : (data.map Prod.fst).Nodup)
    (hall : ∀ e ∈ data, decodable codec e.2) :
    ∀ e ∈ data, ∃ bytes a, base64Decode e.2 = some bytes ∧
      codec.unmarshal bytes = Except.ok a ∧
      (e.1, a) ∈ (GenericStorage.decodeInto codec data content).1 ∧
      ∀ o, (e.1, o) ∈ (GenericStorage.decodeInto codec data content).1 → o = a := by
  intro e he
  obtain ⟨bytes, a, h1, h2⟩ := hall e he
  have huniq : ∀ v2, (e.1, v2) ∈ data → v2 = e.2 := by
    intro v2 hv2
    have := List.inj_on_of_nodup_map hnodup hv2 he rfl
    rw [← this]
  have := decodeInto_mem codec e.1 e.2 a bytes h1 h2 data content hall huniq (Or.inl he)
  exact ⟨bytes, a, h1, h2, this.1, this.2⟩



/-- Claim C19, as stated, fails on the code.  The loop of `GetMap` returns at the first
entry that does not decode: on a store whose entry `b` is not base64 text, `GetMap` into a
well-shaped destination returns `illegal base64 data`, `b` is not stored, and the entry
decoded before it stays in the destination.  The checks of the destination come after
the table check and the driver's `GetMap`: with a key of 11 segments, or a table name
with `/`, an ill-shaped destination and a nil destination both get the other error.  And
a well-shaped destination whose pointer is nil gets no entry. -/
theorem C19_counterexample :
    (sqliteFacade.GetMap jsonText exampleEnv worldBad "t" "k" (some exampleRef)).1
        = ([("o", "first")], some "illegal base64 data") ∧
      (sqliteFacade.GetMap jsonText exampleEnv worldEntry "t" elevenSegments (some mapRef)).1
        = ([], some "Too many data columns") ∧
      (sqliteFacade.GetMap jsonText exampleEnv worldEntry "t" elevenSegments none).1
        = ([], some "Too many data columns") ∧
      (sqliteFacade.GetMap jsonText exampleEnv worldEntry "t/x" "k" (some mapRef)).1
        = ([], some "Table can not contains '/' in its name") ∧
      (GetMap exampleEnv worldEntry.sql "t" "k").1 = ([("o", "ImZpcnN0Ig==")], none) ∧
      (sqliteFacade.GetMap jsonText exampleEnv worldEntry "t" "k" (some nilRef)).1.1 = [] := by
  decide

/-- Claim C19, amended: once the table check, `CreateStorage` and the driver's `GetMap`
have succeeded, `GenericStorage.GetMap` rejects a nil destination with the error
`reference is null`; for a non-nil destination it returns the shape-mismatch error, with
the destination left as it was, when the type is not a pointer to a map with string keys
and pointer-typed elements, and otherwise (the pointer not being nil) runs its loop over
the entries the driver returned; when every entry decodes, the loop returns a nil error
and each entry is decoded into a fresh element stored under its object key; the first
entry that does not decode ends the loop with an error, and the entries decoded before it
stay stored. -/
theorem C19_destination_shape {α : Type} (codec : Codec α) (gs : GenericStorage) (env : Env)
    (w w1 : World) (storage : Driver) (table key : String) (data : List (String × String))
    (htab : CheckTableName table = none)
    (hacq : gs.acquire env w = Except.ok (storage, w1))
    (hdrv : (storage.GetMap env w1 table key).1 = (data, none)) :
    (gs.GetMap codec env w table key none).1 = ([], some "reference is null") ∧
      (∀ ref : Reference α, wellShaped ref.type = false →
        (gs.GetMap codec env w table key (some ref)).1 = (ref.content, some shapeMismatch)) ∧
      (∀ ref : Reference α, wellShaped ref.type = true → ref.nilPointer = false →
        (gs.GetMap codec env w table key (some ref)).1
          = GenericStorage.decodeInto codec data ref.content) ∧
      (∀ content : List (String × α), (∀ e ∈ data, decodable codec e.2) →
        (GenericStorage.decodeInto codec data content).2 = none ∧
        ∀ e ∈ data, ∃ bytes a, base64Decode e.2 = some bytes ∧
          codec.unmarshal bytes = Except.ok a ∧
          (e.1, a) ∈ (GenericStorage.decodeInto codec data content).1 ∧
          ∀ o, (e.1, o) ∈ (GenericStorage.decodeInto codec data content).1 → o = a) ∧
      (∀ (content : List (String × α)) (pre post : List (String × String)) (k text : String),
        data = pre ++ (k, text) :: post → (∀ e ∈ pre, decodable codec e.2) →
        ¬ decodable codec text →
        (GenericStorage.decodeInto codec data content).2 ≠ none ∧
          (GenericStorage.decodeInto codec data content).1
            = (GenericStorage.decodeInto codec pre content).1) := by
  have hnodup : (data.map Prod.fst).Nodup := by
    have := Driver_GetMap_nodup storage env w1 table key
    rw [hdrv] at this
    exact this
  have h1 : (storage.GetMap env w1 table key).1.1 = data := by rw [hdrv]
  have h2 : (storage.GetMap env w1 table key).1.2 = none := by rw [hdrv]
  refine ⟨?_, ?_, ?_, ?_, ?_⟩
  · unfold GenericStorage.GetMap
    simp only [htab, hacq, h2]
    rfl
  · intro ref hshape
    unfold GenericStorage.GetMap
    simp only [htab, hacq, h2, shapeRejected_eq, hshape]
    rfl
  · intro ref hshape hnil
    unfold GenericStorage.GetMap
    simp only [htab, hacq, h2, shapeRejected_eq, hshape, hnil, h1]
    rfl
  · intro content hall
    exact ⟨decodeInto_ok codec data content hall, decodeInto_all codec data content hnodup hall⟩
  · intro content pre post k text hdata hpre hbad
    rw [hdata, decodeInto_append codec pre _ content hpre]
    exact decodeInto_fails codec k text post _ hbad

theorem C19_destination_shape_witness :
    (sqliteFacade.GetMap jsonText exampleEnv worldEntry "t" "k" none).1
        = ([], some "reference is null") ∧
      (sqliteFacade.GetMap jsonText exampleEnv worldEntry "t" "k" (some mapRef)).1
        = ([], some shapeMismatch) ∧
      (sqliteFacade.GetMap jsonText exampleEnv worldEntry "t" "k" (some exampleRef)).1
        = ([("o", "first")], none) :=
  have h := C19_destination_shape jsonText sqliteFacade exampleEnv worldEntry
    { worldEntry with opened := worldEntry.opened + 1 } (Driver.sql Dialect.sqlite) "t" "k"
    [("o", "ImZpcnN0Ig==")] (by decide)
    (acquire_dialect sqliteFacade exampleEnv worldEntry Dialect.sqlite rfl rfl) (by decide)
  ⟨h.1, h.2.1 mapRef rfl, (h.2.2.1 exampleRef rfl rfl).trans (by decide)⟩



/-! ## The Redis driver against the SQL drivers -/

theorem fieldsAux_word : ∀ (cs rest cur : List Char), (∀ c ∈ cs, isSpace c = false) →
    fieldsAux (cs ++ rest) cur = fieldsAux rest (cs.reverse ++ cur) := by
  intro cs
  induction cs with
  | nil => intro rest cur _; rfl
  | cons c cs ih =>
    intro rest cur h
    have hc : isSpace c = false := h c (List.mem_cons_self _ _)
    rw [List.cons_append, fieldsAux]
    simp only [hc, Bool.false_eq_true, if_false]
    rw [ih rest (c :: cur) (fun x hx => h x (List.mem_cons_of_mem _ hx))]
    simp

/-- What `strings.Fields` returns for names joined with single blanks, when the names
are not empty and hold no white space: the names. -/
theorem Fields_intercalate : ∀ (names : List String),
    (∀ n ∈ names, n ≠ "" ∧ ∀ c ∈ n.data, isSpace c = false) →
    Fields (" ".intercalate names) = names := by
  intro names
  induction names with
  | nil => intro _; rfl
  | cons a rest ih =>
    intro h
    have ha := h a (List.mem_cons_self _ _)
    have hne : a.data.reverse ≠ [] := by
      intro hh
      apply ha.1
      have : a.data = [] := by simpa using hh
      exact String.ext this
    cases rest with
    | nil =>
      rw [intercalate_singleton]
      unfold Fields
      have := fieldsAux_word a.data [] [] ha.2
      rw [List.append_nil] at this
      rw [this, fieldsAux]
      simp [hne]
    | cons b rest =>
      rw [intercalate_cons_cons]
      have ih2 := ih (fun n hn => h n (List.mem_cons_of_mem _ hn))
      unfold Fields at ih2 ⊢
      have hd : (a ++ " " ++ " ".intercalate (b :: rest)).data
          = a.data ++ (Char.ofNat 32 :: (" ".intercalate (b :: rest)).data) := by
        simp [String.data_append]
      rw [hd, fieldsAux_word a.data _ [] ha.2, fieldsAux]
      have hsp : isSpace (Char.ofNat 32) = true := by decide
      simp only [hsp, if_true, List.append_nil, hne, if_false, ih2]
      simp

/-- Nothing expires in a keyspace of entries without expiry. -/
theorem purge_rowEntry (now : Int) (rows : List KeyRow) :
    purge now (rows.map rowEntry) = rows.map rowEntry := by
  unfold purge
  rw [List.filter_eq_self]
  intro e he
  rw [List.mem_map] at he
  obtain ⟨r, _, rfl⟩ := he
  rfl

/-- The names of a list of plain names are spelled differently. -/
theorem name_injective (d : Dialect) (a b : String × String) (ha : plainName d a)
    (hb : plainName d b) (h : a.1 ++ "/" ++ a.2 = b.1 ++ "/" ++ b.2) : a = b := by
  have h1 := SplitToParts_cons a.1 a.2 ha.1
  have h2 := SplitToParts_cons b.1 b.2 hb.1
  rw [h, h2] at h1
  injection h1 with h3 h4
  have h5 : a.2 = b.2 := by
    rw [← joinRest_SplitToParts a.2, ← joinRest_SplitToParts b.2, h4]
  exact Prod.ext h3.symm h5

/-- On rows that carry the hashes of their names, the filter of a name in play selects
the rows of that name. -/
theorem selects_name (d : Dialect) (names : List (String × String)) (hx : exactNames names)
    (hp : ∀ a ∈ names, plainName d a) (table key : String) (hn : (table, key) ∈ names)
    (r : KeyRow) (hr : (r.table, r.key) ∈ names) (hth : r.table_hash = CalculateHash r.table)
    (hc : r.columns = keyColumns r.key) :
    selects table key r.table_hash r.columns = true ↔ (r.table, r.key) = (table, key) := by
  constructor
  · intro h
    rw [hth, hc] at h
    exact (hx (table, key) hn (r.table, r.key) hr h).symm
  · intro h
    injection h with h1 h2
    rw [hth, hc, h1, h2]
    exact selects_keyColumns table key (hp (table, key) hn).2.1



theorem untilMilliseconds_sentinel (clock expiration : Int) (h : expiration ≤ 0) :
    untilMilliseconds clock expiration = 9223372036854 := by
  unfold untilMilliseconds
  have : Milliseconds expiration ≤ 0 := (Milliseconds_nonpos expiration).2 (by omega)
  simp only [this, if_true]
  decide

/-- On a row that carries the hashes of its name, the filter of a name in play selects
the row exactly when the Redis key of the row is the Redis key of the name. -/
theorem selects_iff_key (d : Dialect) (names : List (String × String)) (hx : exactNames names)
    (hp : ∀ a ∈ names, plainName d a) (table key : String) (hn : (table, key) ∈ names)
    (r : KeyRow) (hr : (r.table, r.key) ∈ names) (hth : r.table_hash = CalculateHash r.table)
    (hc : r.columns = keyColumns r.key) :
    selects table key r.table_hash r.columns = true ↔
      r.table ++ "/" ++ r.key = table ++ "/" ++ key := by
  rw [selects_name d names hx hp table key hn r hr hth hc]
  constructor
  · intro h
    injection h with h1 h2
    rw [h1, h2]
  · intro h
    exact name_injective d (r.table, r.key) (table, key) (hp _ hr) (hp _ hn) h

theorem redisFind_rowEntry (rows : List KeyRow) (name : String) :
    redisFind (rows.map rowEntry) name
      = (rows.find? (fun r => r.table ++ "/" ++ r.key = name)).map
          (fun r => RedisValue.str r.value none) := by
  unfold redisFind
  induction rows with
  | nil => rfl
  | cons r rest ih =>
    by_cases h : r.table ++ "/" ++ r.key = name
    · simp [List.find?_cons, rowEntry, h]
    · simp only [List.map_cons, List.find?_cons]
      have h1 : decide ((rowEntry r).1 = name) = false := by simpa [rowEntry] using h
      have h2 : decide (r.table ++ "/" ++ r.key = name) = false := by simpa using h
      rw [h1, h2]
      exact ih

/-- The value `GetKey` of an SQL driver reads from the rows a filter selects, when the
filter selects by name and nothing expires: the value of the first row of that name. -/
theorem firstUnexpired_find (now : Int) (name : String) (sel : KeyRow → Bool) :
    ∀ (rows : List KeyRow),
      (∀ r ∈ rows, (sel r = true ↔ r.table ++ "/" ++ r.key = name) ∧ now ≤ r.ttl) →
      firstUnexpired now (rows.filter sel)
        = ((rows.find? (fun r => r.table ++ "/" ++ r.key = name)).map (fun r => r.value)).getD "" := by
  intro rows
  induction rows with
  | nil => intro _; rfl
  | cons r rest ih =>
    intro h
    have hr := h r (List.mem_cons_self _ _)
    have ih2 := ih (fun x hx => h x (List.mem_cons_of_mem _ hx))
    by_cases hs : sel r = true
    · have hq := hr.1.1 hs
      simp [List.filter_cons, hs, firstUnexpired, hr.2, List.find?_cons, hq]
    · have hq : ¬ (r.table ++ "/" ++ r.key = name) := fun hh => hs (hr.1.2 hh)
      simp only [List.filter_cons, hs, if_false, List.find?_cons]
      have h2 : decide (r.table ++ "/" ++ r.key = name) = false := by simpa using hq
      rw [h2]
      exact ih2

/-- The sweep of an SQL driver removes nothing from a store that is alike a keyspace. -/
theorem alike_sweep (names : List (String × String)) (env : Env) (s : Store) (db : RedisDB)
    (h : alike names s db) :
    (KeysCleanUp env s).2.keys = s.keys ∧ (KeysCleanUp env s).2.maps = s.maps :=
  ⟨KeysCleanUp_unexpiring env s (fun r hr => (h.2.2.1 r hr).2.2.2), KeysCleanUp_maps env s⟩

/-- A store with the rows of one that is alike a keyspace, whatever its `LastTruncate`. -/
theorem alike_of_keys (names : List (String × String)) (s s2 : Store) (db : RedisDB)
    (h : alike names s db) (hk : s2.keys = s.keys) (hm : s2.maps = s.maps) :
    alike names s2 db := by
  unfold alike at h ⊢
  rw [hk, hm]
  exact h



/-- One `GetKey` on stores that are alike: the same value, and the stores stay alike. -/
theorem step_getKey (d : Dialect) (names : List (String × String)) (hx : exactNames names)
    (hp : ∀ a ∈ names, plainName d a) (env : Env) (s : Store) (db : RedisDB)
    (table key : String) (hal : alike names s db) (henv : env.noFailure)
    (hn : (table, key) ∈ names) :
    ((Call.getKey table key).onSql d env s).1 = ((Call.getKey table key).onRedis env db).1 ∧
      alike names ((Call.getKey table key).onSql d env s).2
        ((Call.getKey table key).onRedis env db).2 := by
  have hsw := alike_sweep names env s db hal
  have hdb := hal.2.1
  simp only [Call.onSql, Call.onRedis]
  rw [GetKey_run env s table key (KeysCleanUp_noFailure env s henv.1 henv.2.1)
    (hp _ hn).2.1 henv.2.2.1]
  simp only [RedisStorage.GetKey, RedisStorage.redisGet, henv.2.2.1]
  rw [hdb, purge_rowEntry, redisFind_rowEntry, hsw.1]
  rw [firstUnexpired_find (nowMillis env.opClock) (table ++ "/" ++ key) _ s.keys
    (fun r hr => ⟨selects_iff_key d names hx hp table key hn r (hal.2.2.1 r hr).1
      (hal.2.2.1 r hr).2.1 (hal.2.2.1 r hr).2.2.1,
      by rw [(hal.2.2.1 r hr).2.2.2]; exact nowMillis_le _⟩)]
  cases hf : List.find? (fun r => decide (r.table ++ "/" ++ r.key = table ++ "/" ++ key)) s.keys with
  | none =>
    refine ⟨by simp [RedisStorage.nilIsAbsent, redisNil], ?_⟩
    simp only [Option.map_none', RedisStorage.nilIsAbsent]
    exact alike_of_keys names s _ _ (by rw [← hdb]; exact hal) hsw.1 hsw.2
  | some r =>
    refine ⟨by simp [RedisStorage.nilIsAbsent], ?_⟩
    simp only [Option.map_some', RedisStorage.nilIsAbsent]
    exact alike_of_keys names s _ _ (by rw [← hdb]; exact hal) hsw.1 hsw.2



/-- Under pairwise distinct names, a filter that selects by name selects one row or none. -/
theorem filter_length_nodup (a : String) (pq : KeyRow → Bool) : ∀ (rows : List KeyRow),
    (∀ r ∈ rows, (pq r = true ↔ r.table ++ "/" ++ r.key = a)) →
    (rows.map (fun r => r.table ++ "/" ++ r.key)).Nodup →
    ((rows.filter pq).length : Int) = if rows.any pq then 1 else 0 := by
  intro rows
  induction rows with
  | nil => intro _ _; rfl
  | cons r rest ih =>
    intro h hnd
    rw [List.map_cons, List.nodup_cons] at hnd
    have ih2 := ih (fun x hx => h x (List.mem_cons_of_mem _ hx)) hnd.2
    by_cases hr : pq r = true
    · have ha := (h r (List.mem_cons_self _ _)).1 hr
      have hnone : rest.any pq = false := by
        rw [Bool.eq_false_iff]
        intro hany
        rw [List.any_eq_true] at hany
        obtain ⟨x, hx, hpx⟩ := hany
        have := (h x (List.mem_cons_of_mem _ hx)).1 hpx
        apply hnd.1
        rw [ha, ← this]
        exact List.mem_map.2 ⟨x, hx, rfl⟩
      rw [hnone] at ih2
      simp only [Bool.false_eq_true, if_false] at ih2
      simp only [List.filter_cons, hr, if_true, List.length_cons, List.any_cons, Bool.true_or]
      omega
    · have hf : pq r = false := by simpa using hr
      simp only [List.filter_cons, hf, Bool.false_eq_true, if_false, List.any_cons,
        Bool.false_or]
      exact ih2

theorem names_nodup (d : Dialect) (names : List (String × String))
    (hp : ∀ a ∈ names, plainName d a) : ∀ (rows : List KeyRow),
    (∀ r ∈ rows, (r.table, r.key) ∈ names) →
    (rows.map (fun r => (r.table, r.key))).Nodup →
    (rows.map (fun r => r.table ++ "/" ++ r.key)).Nodup := by
  intro rows
  induction rows with
  | nil => intro _ _; simp
  | cons r rest ih =>
    intro h hnd
    rw [List.map_cons, List.nodup_cons] at hnd ⊢
    refine ⟨?_, ih (fun x hx => h x (List.mem_cons_of_mem _ hx)) hnd.2⟩
    intro hmem
    rw [List.mem_map] at hmem
    obtain ⟨x, hx, hxe⟩ := hmem
    apply hnd.1
    have := name_injective d (x.table, x.key) (r.table, r.key)
      (hp _ (h x (List.mem_cons_of_mem _ hx))) (hp _ (h r (List.mem_cons_self _ _))) hxe
    rw [← this]
    exact List.mem_map.2 ⟨x, hx, rfl⟩

/-- One `DelKey` on stores that are alike: the same count, and the stores stay alike. -/
theorem step_delKey (d : Dialect) (names : List (String × String)) (hx : exactNames names)
    (hp : ∀ a ∈ names, plainName d a) (env : Env) (s : Store) (db : RedisDB)
    (table key : String) (hal : alike names s db) (henv : env.noFailure)
    (hn : (table, key) ∈ names) :
    ((Call.delKey table key).onSql d env s).1 = ((Call.delKey table key).onRedis env db).1 ∧
      alike names ((Call.delKey table key).onSql d env s).2
        ((Call.delKey table key).onRedis env db).2 := by
  have hsw := alike_sweep names env s db hal
  have hdb := hal.2.1
  have hsel : ∀ r ∈ s.keys, (selects table key r.table_hash r.columns = true ↔
      r.table ++ "/" ++ r.key = table ++ "/" ++ key) := fun r hr =>
    selects_iff_key d names hx hp table key hn r (hal.2.2.1 r hr).1
      (hal.2.2.1 r hr).2.1 (hal.2.2.1 r hr).2.2.1
  have hcount := filter_length_nodup (table ++ "/" ++ key)
    (fun r => selects table key r.table_hash r.columns) s.keys hsel
    (names_nodup d names hp s.keys (fun r hr => (hal.2.2.1 r hr).1) hal.2.2.2)
  have hany : (s.keys.map rowEntry).any (fun e => decide (e.1 = table ++ "/" ++ key))
      = s.keys.any (fun r => selects table key r.table_hash r.columns) := by
    apply Bool.eq_iff_iff.2
    rw [List.any_eq_true, List.any_eq_true]
    constructor
    · rintro ⟨e, he, h⟩
      rw [List.mem_map] at he
      obtain ⟨r, hr, rfl⟩ := he
      exact ⟨r, hr, (hsel r hr).2 (by simpa [rowEntry] using h)⟩
    · rintro ⟨r, hr, h⟩
      exact ⟨rowEntry r, List.mem_map.2 ⟨r, hr, rfl⟩, by simpa [rowEntry] using (hsel r hr).1 h⟩
  have hleft : (s.keys.map rowEntry).filter (fun e => decide (e.1 ≠ table ++ "/" ++ key))
      = (s.keys.filter (fun r => !selects table key r.table_hash r.columns)).map rowEntry := by
    rw [List.filter_map]
    congr 1
    apply List.filter_congr
    intro r hr
    have := hsel r hr
    by_cases h : selects table key r.table_hash r.columns = true
    · simp [h, rowEntry, this.1 h]
    · have hne : ¬ (r.table ++ "/" ++ r.key = table ++ "/" ++ key) := fun hh => h (this.2 hh)
      simp [h, rowEntry, hne]
  have halike : alike names
      ((KeysCleanUp env s).2.withKeys
        (s.keys.filter (fun r => !selects table key r.table_hash r.columns)))
      ((s.keys.filter (fun r => !selects table key r.table_hash r.columns)).map rowEntry) := by
    refine ⟨?_, rfl, ?_, ?_⟩
    · show (KeysCleanUp env s).2.maps = []
      rw [hsw.2]
      exact hal.1
    · intro r hr
      exact hal.2.2.1 r (List.mem_filter.1 hr).1
    · exact List.Nodup.sublist (List.Sublist.map _ (List.filter_sublist _)) hal.2.2.2
  simp only [Call.onSql, Call.onRedis]
  rw [DelKey_run env s table key (KeysCleanUp_noFailure env s henv.1 henv.2.1)
    (hp _ hn).2.1 henv.2.2.1 henv.2.2.2.2]
  simp only [RedisStorage.DelKey, henv.2.2.1]
  rw [hdb, purge_rowEntry, hsw.1, filter_not_mem_filter, hcount, hany, hleft]
  by_cases hex : s.keys.any (fun r => selects table key r.table_hash r.columns) = true
  · rw [if_pos hex, if_pos hex]
    exact ⟨rfl, halike⟩
  · rw [if_neg hex, if_neg hex]
    refine ⟨rfl, ?_⟩
    have hall : s.keys.filter (fun r => !selects table key r.table_hash r.columns) = s.keys := by
      rw [List.filter_eq_self]
      intro r hr
      simp only [List.any_eq_true, not_exists, not_and] at hex
      simpa using hex r hr
    rw [hall] at halike ⊢
    exact halike



theorem updated_texts (r row : KeyRow) :
    (r.updated row).table = r.table ∧ (r.updated row).key = r.key := by
  unfold KeyRow.updated
  split <;> exact ⟨rfl, rfl⟩

/-- The upsert of the SQL drivers and the `SET` of Redis write alike, when the rows that
conflict with the new row are those of its name. -/
theorem upsertKey_rowEntry (rows : List KeyRow) (row : KeyRow) (name : String)
    (hrow : row.table ++ "/" ++ row.key = name)
    (hq : ∀ r ∈ rows, (r.conflicts row = true ↔ r.table ++ "/" ++ r.key = name)) :
    (upsertKey rows row).map rowEntry
      = redisPut (rows.map rowEntry) name (RedisValue.str row.value none) := by
  unfold upsertKey redisPut
  have hany : (rows.map rowEntry).any (fun e => decide (e.1 = name))
      = rows.any (fun r => r.conflicts row) := by
    apply Bool.eq_iff_iff.2
    rw [List.any_eq_true, List.any_eq_true]
    constructor
    · rintro ⟨e, he, h⟩
      rw [List.mem_map] at he
      obtain ⟨r, hr, rfl⟩ := he
      exact ⟨r, hr, (hq r hr).2 (by simpa [rowEntry] using h)⟩
    · rintro ⟨r, hr, h⟩
      exact ⟨rowEntry r, List.mem_map.2 ⟨r, hr, rfl⟩, by simpa [rowEntry] using (hq r hr).1 h⟩
  rw [hany]
  by_cases hc : rows.any (fun r => r.conflicts row) = true
  · rw [if_pos hc, if_pos hc, List.map_map, List.map_map]
    apply List.map_congr_left
    intro r hr
    by_cases h : r.conflicts row = true
    · have hn := (hq r hr).1 h
      simp [KeyRow.updated, h, rowEntry, hn]
    · have hn : ¬ (r.table ++ "/" ++ r.key = name) := fun hh => h ((hq r hr).2 hh)
      simp [KeyRow.updated, h, rowEntry, hn]
  · rw [if_neg hc, if_neg hc, List.map_append]
    simp [rowEntry, hrow]

/-- One `SetKey` without expiry on stores that are alike: both return a nil error, and
the stores stay alike. -/
theorem step_setKey (d : Dialect) (names : List (String × String)) (hx : exactNames names)
    (hp : ∀ a ∈ names, plainName d a) (env : Env) (s : Store) (db : RedisDB)
    (table key value : String) (expiration : Int) (hal : alike names s db)
    (henv : env.noFailure) (hn : (table, key) ∈ names) (hexp : expiration ≤ 0)
    (hv : literalSafe d value = true) :
    ((Call.setKey table key value expiration).onSql d env s).1
        = ((Call.setKey table key value expiration).onRedis env db).1 ∧
      alike names ((Call.setKey table key value expiration).onSql d env s).2
        ((Call.setKey table key value expiration).onRedis env db).2 := by
  have hsw := alike_sweep names env s db hal
  have hdb := hal.2.1
  have hpn := hp _ hn
  have hconf : ∀ r ∈ s.keys, (r.conflicts (writtenRow table key value 9223372036854) = true ↔
      r.table ++ "/" ++ r.key = table ++ "/" ++ key) := by
    intro r hr
    have hw := hal.2.2.1 r hr
    rw [conflicts_eq]
    constructor
    · intro h
      apply (selects_iff_key d names hx hp table key hn r hw.1 hw.2.1 hw.2.2.1).1
      rw [h.1, h.2]
      exact selects_keyColumns table key hpn.2.1
    · intro h
      have := name_injective d (r.table, r.key) (table, key) (hp _ hw.1) hpn h
      injection this with h1 h2
      rw [hw.2.1, hw.2.2.1, h1, h2]
      exact ⟨rfl, rfl⟩
  have hexpire : RedisStorage.redisExpiry (nowMillis env.opClock) expiration = none := by
    unfold RedisStorage.redisExpiry
    simp only [gt_iff_lt, not_lt.2 hexp, if_false]
  have hredis : RedisStorage.SetKey env db table key value expiration
      = (none, redisPut (s.keys.map rowEntry) (table ++ "/" ++ key)
          (RedisValue.str value none)) := by
    simp only [RedisStorage.SetKey, henv.2.2.1]
    rw [hdb, purge_rowEntry, redisFind_rowEntry, hexpire]
    cases List.find? (fun r => decide (r.table ++ "/" ++ r.key = table ++ "/" ++ key))
      s.keys <;> simp only [Option.map_none', Option.map_some', ite_self]
  have hput := upsertKey_rowEntry s.keys (writtenRow table key value 9223372036854)
    (table ++ "/" ++ key) rfl hconf
  simp only [Call.onSql, Call.onRedis]
  rw [SetKey_run d env s table key value expiration
    (KeysCleanUp_noFailure env s henv.1 henv.2.1) hpn.2.1 henv.2.2.1 hpn.2.2.1 hpn.2.2.2.1 hv]
  rw [hredis, hsw.1, untilMilliseconds_sentinel _ _ hexp]
  refine ⟨rfl, ?_, ?_, ?_, ?_⟩
  · show (KeysCleanUp env s).2.maps = []
    rw [hsw.2]
    exact hal.1
  · exact hput.symm
  · intro r hr
    have hr2 : r ∈ upsertKey s.keys (writtenRow table key value 9223372036854) := hr
    unfold upsertKey at hr2
    split at hr2
    · rw [List.mem_map] at hr2
      obtain ⟨r0, hr0, rfl⟩ := hr2
      have hw := hal.2.2.1 r0 hr0
      have ht := updated_texts r0 (writtenRow table key value 9223372036854)
      have hcol := updated_columns r0 (writtenRow table key value 9223372036854)
      refine ⟨by rw [ht.1, ht.2]; exact hw.1, by rw [hcol.2, ht.1]; exact hw.2.1,
        by rw [hcol.1, ht.2]; exact hw.2.2.1, ?_⟩
      unfold KeyRow.updated
      split
      · rfl
      · exact hw.2.2.2
    · rw [List.mem_append, List.mem_singleton] at hr2
      rcases hr2 with h | h
      · exact hal.2.2.1 r h
      · rw [h]
        exact ⟨hn, rfl, rfl, rfl⟩
  · show ((upsertKey s.keys (writtenRow table key value 9223372036854)).map
      (fun r => (r.table, r.key))).Nodup
    unfold upsertKey
    split
    · rw [List.map_map]
      have : (fun r => (r.table, r.key)) ∘
          (fun r => r.updated (writtenRow table key value 9223372036854))
          = fun r : KeyRow => (r.table, r.key) := by
        funext r
        have ht := updated_texts r (writtenRow table key value 9223372036854)
        simp [ht.1, ht.2]
      rw [this]
      exact hal.2.2.2
    · rename_i hnone
      rw [List.map_append, List.nodup_append]
      refine ⟨hal.2.2.2, by simp, ?_⟩
      intro a ha hb
      rw [List.map_singleton, List.mem_singleton] at hb
      subst hb
      rw [List.mem_map] at ha
      obtain ⟨r, hr, hname⟩ := ha
      apply hnone
      rw [List.any_eq_true]
      refine ⟨r, hr, (hconf r hr).2 ?_⟩
      injection hname with h1 h2
      rw [h1, h2]
      rfl



/-- One `GetKeys` on stores that are alike, for a pattern whose glob matches the names in
play that the filter selects: the same keys, and the stores stay alike. -/
theorem step_getKeys (d : Dialect) (names : List (String × String))
    (hp : ∀ a ∈ names, plainName d a) (env : Env) (s : Store) (db : RedisDB)
    (table pattern : String) (hal : alike names s db) (henv : env.noFailure)
    (hlen : (SplitToParts pattern).length ≤ NumberOfColumns)
    (hglob : ∀ a ∈ names, keyMatches (table ++ "/" ++ pattern) (a.1 ++ "/" ++ a.2)
      = selects table pattern (CalculateHash a.1) (keyColumns a.2)) :
    ((Call.getKeys table pattern).onSql d env s).1
        = ((Call.getKeys table pattern).onRedis env db).1 ∧
      alike names ((Call.getKeys table pattern).onSql d env s).2
        ((Call.getKeys table pattern).onRedis env db).2 := by
  have hsw := alike_sweep names env s db hal
  have hdb := hal.2.1
  have hreply : ((s.keys.map rowEntry).filter
      (fun e => keyMatches (table ++ "/" ++ pattern) e.1)).map (fun e => e.1)
      = (s.keys.filter (fun r => selects table pattern r.table_hash r.columns)).map
          (fun r => r.table ++ "/" ++ r.key) := by
    rw [List.filter_map, List.map_map]
    have hf : s.keys.filter ((fun e => keyMatches (table ++ "/" ++ pattern) e.1) ∘ rowEntry)
        = s.keys.filter (fun r => selects table pattern r.table_hash r.columns) := by
      apply List.filter_congr
      intro r hr
      have hw := hal.2.2.1 r hr
      have := hglob (r.table, r.key) hw.1
      simp only [Function.comp, rowEntry]
      rw [this, hw.2.1, hw.2.2.1]
    rw [hf]
    rfl
  have hunexp : unexpiredKeyNames (nowMillis env.opClock)
      (s.keys.filter (fun r => selects table pattern r.table_hash r.columns))
      = (s.keys.filter (fun r => selects table pattern r.table_hash r.columns)).map
          (fun r => r.table ++ "/" ++ r.key) := by
    unfold unexpiredKeyNames
    rw [List.filter_eq_self.2]
    intro r hr
    have hw := hal.2.2.1 r (List.mem_filter.1 hr).1
    have := nowMillis_le env.opClock
    simp only [ge_iff_le, decide_eq_true_eq, hw.2.2.2]
    exact this
  have hfields : Fields (" ".intercalate
      ((s.keys.filter (fun r => selects table pattern r.table_hash r.columns)).map
        (fun r => r.table ++ "/" ++ r.key)))
      = (s.keys.filter (fun r => selects table pattern r.table_hash r.columns)).map
          (fun r => r.table ++ "/" ++ r.key) := by
    apply Fields_intercalate
    intro n hn
    rw [List.mem_map] at hn
    obtain ⟨r, hr, rfl⟩ := hn
    have hw := hal.2.2.1 r (List.mem_filter.1 hr).1
    refine ⟨?_, (hp _ hw.1).2.2.2.2⟩
    intro h
    have := congrArg String.length h
    simp at this
    exact absurd this.1.2 (by decide)
  simp only [Call.onSql, Call.onRedis]
  rw [GetKeys_run d env s table pattern (KeysCleanUp_noFailure env s henv.1 henv.2.1) hlen
    henv.2.2.1 henv.2.2.2.1]
  simp only [RedisStorage.GetKeys, henv.2.2.1]
  rw [hdb, purge_rowEntry, hreply, hfields, hsw.1, hsw.2, hal.1, hunexp]
  refine ⟨by simp, ?_⟩
  exact alike_of_keys names s _ _ (by rw [← hdb]; exact hal) hsw.1 hsw.2

/-- The names of a call are names of the sequence that holds it. -/
theorem name_mem_namesOf : ∀ (calls : List (Env × Call)) (c : Env × Call), c ∈ calls →
    ∀ a ∈ c.2.name, a ∈ namesOf calls := by
  intro calls
  induction calls with
  | nil => intro c hc; simp at hc
  | cons x rest ih =>
    intro c hc a ha
    obtain ⟨env, c0⟩ := x
    unfold namesOf
    rw [List.mem_append]
    rcases List.mem_cons.1 hc with h | h
    · left
      rw [h] at ha
      exact ha
    · right
      exact ih c h a ha

/-- One comparable call on stores that are alike: the same observation, and the stores
stay alike. -/
theorem step_call (d : Dialect) (names : List (String × String)) (hx : exactNames names)
    (hp : ∀ a ∈ names, plainName d a) (env : Env) (s : Store) (db : RedisDB) (c : Call)
    (hal : alike names s db) (henv : env.noFailure) (hname : ∀ a ∈ c.name, a ∈ names)
    (hc : c.comparable d names) :
    (c.onSql d env s).1 = (c.onRedis env db).1 ∧
      alike names (c.onSql d env s).2 (c.onRedis env db).2 := by
  cases c with
  | getKeys table pattern =>
    exact step_getKeys d names hp env s db table pattern hal henv hc.1 hc.2
  | setKey table key value expiration =>
    exact step_setKey d names hx hp env s db table key value expiration hal henv
      (hname _ (by simp [Call.name])) hc.1 hc.2
  | getKey table key =>
    exact step_getKey d names hx hp env s db table key hal henv (hname _ (by simp [Call.name]))
  | delKey table key =>
    exact step_delKey d names hx hp env s db table key hal henv (hname _ (by simp [Call.name]))
  | getFullKey key => exact absurd hc (by simp [Call.comparable])
  | addToMap table key objectKey object => exact absurd hc (by simp [Call.comparable])
  | delFromMap table key objectKey => exact absurd hc (by simp [Call.comparable])
  | getFromMap table key objectKey => exact absurd hc (by simp [Call.comparable])
  | getMap table key => exact absurd hc (by simp [Call.comparable])

/-- A sequence of comparable calls on stores that are alike: the same observations. -/
theorem observe_alike (d : Dialect) (names : List (String × String)) (hx : exactNames names)
    (hp : ∀ a ∈ names, plainName d a) : ∀ (calls : List (Env × Call)) (s : Store)
    (db : RedisDB), alike names s db →
    (∀ c ∈ calls, c.1.noFailure ∧ (∀ a ∈ c.2.name, a ∈ names) ∧ c.2.comparable d names) →
    observeSql d calls s = observeRedis calls db := by
  intro calls
  induction calls with
  | nil => intro s db _ _; rfl
  | cons c rest ih =>
    intro s db hal h
    obtain ⟨env, c⟩ := c
    have hc := h (env, c) (List.mem_cons_self _ _)
    have hstep := step_call d names hx hp env s db c hal hc.1 hc.2.1 hc.2.2
    unfold observeSql observeRedis
    rw [hstep.1, ih _ _ hstep.2 (fun x hx2 => h x (List.mem_cons_of_mem _ hx2))]

theorem agrees_refl (o : Observation) : o.agrees o := by
  cases o <;> simp [Observation.agrees]



/-- Claim C20, as stated, fails on the code.  The SQL drivers select by a filter that
leaves the positions after the last segment of the key unconstrained, the Redis driver
reads the exact name: after `SetKey("t", "a/b", "w", 0)`, `GetKey("t", "a")` returns `w`
on SQLite and the empty string on Redis, `GetKeys("t", "a")` returns `t/a/b` and nothing,
`DelKey("t", "a")` returns 1 and 0.  The Redis driver splits the reply of `KEYS` at white
space, so a key `a b` is listed as `t/a` and `b`; and its patterns are globs, so `a*`
matches the key `ab`, which the SQL filter (the segment `a*` taken literally) does not
select. -/
theorem C20_counterexample :
    observeSql Dialect.sqlite prefixCalls Store.empty
        = [Observation.status none, Observation.value "w" none,
           Observation.names ["t/a/b"] none, Observation.count 1 none] ∧
      observeRedis prefixCalls []
        = [Observation.status none, Observation.value "" none,
           Observation.names [] none, Observation.count 0 none] ∧
      observeSql Dialect.sqlite
          [(exampleEnv, Call.setKey "t" "a b" "w" 0), (exampleEnv, Call.getKeys "t" "*")]
          Store.empty = [Observation.status none, Observation.names ["t/a b"] none] ∧
      observeRedis [(exampleEnv, Call.setKey "t" "a b" "w" 0), (exampleEnv, Call.getKeys "t" "*")]
          [] = [Observation.status none, Observation.names ["t/a", "b"] none] ∧
      observeSql Dialect.sqlite
          [(exampleEnv, Call.setKey "t" "ab" "w" 0), (exampleEnv, Call.getKeys "t" "a*")]
          Store.empty = [Observation.status none, Observation.names [] none] ∧
      observeRedis [(exampleEnv, Call.setKey "t" "ab" "w" 0), (exampleEnv, Call.getKeys "t" "a*")]
          [] = [Observation.status none, Observation.names ["t/ab"] none] := by
  decide

/-- Claim C20, amended: for every sequence of `SetKey`, `GetKey`, `DelKey` and `GetKeys`
calls on empty stores in which no backend call fails, with table names without `/`, keys
and patterns of at most 10 segments, durations that are not positive (no expiring
records), texts that hold no single quote (or backslash on MySQL) and names without white
space, such that among the `(table, key)` names the sequence uses no name's SQL filter
selects another name (no key extends another by further segments, none holds a `*`
segment that stands for another's, no two share their CRC-32 values) and the glob of
every `GetKeys` pattern matches, among these names, those its SQL filter selects: the
results observed from the Redis driver and from the SQL driver are equal, call by call:
the same errors, values and counts, and the same sets of keys from `GetKeys`. -/
theorem C20_redis_sql_agree (d : Dialect) (calls : List (Env × Call))
    (hx : exactNames (namesOf calls))
    (hp : ∀ a ∈ namesOf calls, plainName d a)
    (hc : ∀ c ∈ calls, c.1.noFailure ∧ c.2.comparable d (namesOf calls)) :
    List.Forall₂ Observation.agrees (observeSql d calls Store.empty) (observeRedis calls []) := by
  have hal : alike (namesOf calls) Store.empty [] :=
    ⟨rfl, rfl, fun r hr => absurd hr (List.not_mem_nil r), List.nodup_nil⟩
  have heq := observe_alike d (namesOf calls) hx hp calls Store.empty [] hal
    (fun c hcm => ⟨(hc c hcm).1, name_mem_namesOf calls c hcm, (hc c hcm).2⟩)
  rw [heq]
  exact List.forall₂_same.2 (fun o _ => agrees_refl o)

theorem C20_redis_sql_agree_witness :
    observeSql Dialect.sqlite agreeingCalls Store.empty
        = [Observation.status none, Observation.status none, Observation.status none,
           Observation.names ["t/a/1", "t/a/2"] none, Observation.value "v" none,
           Observation.count 1 none, Observation.names ["t/a/2", "t/b/1"] none,
           Observation.value "" none] ∧
      List.Forall₂ Observation.agrees (observeSql Dialect.sqlite agreeingCalls Store.empty)
        (observeRedis agreeingCalls []) :=
  ⟨by decide,
    C20_redis_sql_agree Dialect.sqlite agreeingCalls (by decide) (by decide) (by decide)⟩



/-! ## What leaves the table `maps` alone -/

theorem SetKey_maps (d : Dialect) (env : Env) (s : Store) (table key value : String)
    (expiration : Int) :
    (SetKey d env s table key value expiration).2.maps = s.maps := by
  rw [← KeysCleanUp_maps env s]
  unfold SetKey
  generalize KeysCleanUp env s = k
  obtain ⟨e, s1⟩ := k
  cases e with
  | some err => rfl
  | none =>
    simp only
    split
    · rfl
    · unfold execInsertKey
      cases env.stmtErr with
      | some e => rfl
      | none =>
        simp only
        cases sqlText d table <;> cases sqlText d key <;> cases sqlText d value <;> rfl

theorem DelKey_maps (env : Env) (s : Store) (table key : String) :
    (DelKey env s table key).2.maps = s.maps := by
  rw [← KeysCleanUp_maps env s]
  unfold DelKey
  generalize KeysCleanUp env s = k
  obtain ⟨e, s1⟩ := k
  cases e with
  | some err => rfl
  | none =>
    simp only
    split
    · rfl
    · split
      · rfl
      · unfold execDeleteKeys
        cases env.stmtErr with
        | some e => rfl
        | none =>
          simp only
          rename_i clause _
          cases whereKeys s1.keys (whereTable (CalculateHash table) clause) with
          | error e => rfl
          | ok hit =>
            simp only
            cases env.rowsErr <;> rfl

/-- The rows of `maps` after an upsert: the conflicting rows with the new value, or, when
none conflicts, the rows followed by the new row. -/
theorem upsertMap_eq (rows : List MapRow) (row : MapRow) :
    upsertMap rows row
      = if rows.any (fun r => r.conflicts row) then
          rows.map (fun r => if r.conflicts row then { r with value := row.value } else r)
        else rows ++ [row] := by
  unfold upsertMap
  split
  · apply List.map_congr_left
    intro r _
    rfl
  · rfl

/-- What `AddToMap` does to the rows of `maps`, in every environment: nothing, or the
upsert of a row that carries the hash tuple of `(table, key, objectKey)`. -/
theorem AddToMap_maps (d : Dialect) (env : Env) (s : Store)
    (table key objectKey object : String) :
    (AddToMap d env s table key objectKey object).2.maps = s.maps ∨
      ∃ row : MapRow, row.addressed table key objectKey = true ∧
        (AddToMap d env s table key objectKey object).2.maps = upsertMap s.maps row := by
  unfold AddToMap
  simp only
  split
  · exact Or.inl rfl
  · unfold execInsertMap
    cases env.stmtErr with
    | some e => exact Or.inl rfl
    | none =>
      simp only
      cases h1 : sqlText d table with
      | none => exact Or.inl rfl
      | some t =>
        cases h2 : sqlText d key with
        | none => exact Or.inl rfl
        | some k =>
          cases h3 : sqlText d objectKey with
          | none => exact Or.inl rfl
          | some o =>
            cases h4 : sqlText d object with
            | none => exact Or.inl rfl
            | some v =>
              right
              exact ⟨_, by simp [MapRow.addressed, keyColumns], rfl⟩

theorem AddToMap_keys (d : Dialect) (env : Env) (s : Store)
    (table key objectKey object : String) :
    (AddToMap d env s table key objectKey object).2.keys = s.keys := by
  unfold AddToMap
  simp only
  split
  · rfl
  · unfold execInsertMap
    cases env.stmtErr with
    | some e => rfl
    | none =>
      simp only
      cases sqlText d table <;> cases sqlText d key <;> cases sqlText d objectKey <;>
        cases sqlText d object <;> rfl

/-- What `SetKey` does to the rows of `keys` when its statement carries its texts, in every
environment: nothing after the sweep, or the upsert of the written row. -/
theorem SetKey_keys_safe (d : Dialect) (env : Env) (s : Store) (table key value : String)
    (expiration : Int) (ht : literalSafe d table = true) (hk : literalSafe d key = true)
    (hv : literalSafe d value = true) :
    (SetKey d env s table key value expiration).2.keys = (KeysCleanUp env s).2.keys ∨
      (SetKey d env s table key value expiration).2.keys
        = upsertKey (KeysCleanUp env s).2.keys
            (writtenRow table key value (untilMilliseconds env.opClock expiration)) := by
  unfold SetKey
  generalize KeysCleanUp env s = k
  obtain ⟨e, s1⟩ := k
  cases e with
  | some err => exact Or.inl rfl
  | none =>
    simp only
    split
    · exact Or.inl rfl
    · unfold execInsertKey
      cases env.stmtErr with
      | some e => exact Or.inl rfl
      | none =>
        simp only [sqlText_safe d _ ht, sqlText_safe d _ hk, sqlText_safe d _ hv]
        exact Or.inr rfl

/-- What `AddToMap` does to the rows of `maps` when its statement carries its texts, in
every environment: nothing, or the upsert of the written row. -/
theorem AddToMap_maps_safe (d : Dialect) (env : Env) (s : Store)
    (table key objectKey object : String)
    (ht : literalSafe d table = true) (hk : literalSafe d key = true)
    (ho : literalSafe d objectKey = true) (hob : literalSafe d object = true) :
    (AddToMap d env s table key objectKey object).2.maps = s.maps ∨
      (AddToMap d env s table key objectKey object).2.maps
        = upsertMap s.maps (writtenMapRow table key objectKey object) := by
  unfold AddToMap
  simp only
  split
  · exact Or.inl rfl
  · unfold execInsertMap
    cases env.stmtErr with
    | some e => exact Or.inl rfl
    | none =>
      simp only [sqlText_safe d _ ht, sqlText_safe d _ hk, sqlText_safe d _ ho,
        sqlText_safe d _ hob]
      exact Or.inr rfl

/-- Claim C21: in each SQL driver and in every environment, for texts that the statements
carry as spliced (no single quote, or backslash on MySQL), the expiry sweep, `SetKey`,
`GetKey`, `GetFullKey`, `GetKeys`, `DelKey`, `GetFromMap` and `GetMap` leave the rows of
`maps` as they are, `SetKey` changing the rows of `keys` by the upsert of its row and
nothing else; and `AddToMap` leaves the rows of `maps` as they are (when it fails), or
gives the object as value to the rows that carry the hash tuple of
`(table, key, objectKey)` and leaves every other row, and the order, as it is, or, when no
row carries that tuple, appends the one row it writes: no row is removed. -/
theorem C21_maps_frame (d : Dialect) (env : Env) (s : Store)
    (table key pattern value objectKey object fullKey : String) (expiration : Int)
    (ht : literalSafe d table = true) (hk : literalSafe d key = true)
    (hv : literalSafe d value = true) (ho : literalSafe d objectKey = true)
    (hob : literalSafe d object = true) :
    (KeysCleanUp env s).2.maps = s.maps ∧
      (SetKey d env s table key value expiration).2.maps = s.maps ∧
      ((SetKey d env s table key value expiration).2.keys = (KeysCleanUp env s).2.keys ∨
        (SetKey d env s table key value expiration).2.keys
          = upsertKey (KeysCleanUp env s).2.keys
              (writtenRow table key value (untilMilliseconds env.opClock expiration))) ∧
      (GetKey env s table key).2.maps = s.maps ∧
      (GetFullKey env s fullKey).2.maps = s.maps ∧
      (GetKeys d env s table pattern).2.maps = s.maps ∧
      (DelKey env s table key).2.maps = s.maps ∧
      (GetFromMap env s table key objectKey).2.maps = s.maps ∧
      (GetMap env s table key).2.maps = s.maps ∧
      ((AddToMap d env s table key objectKey object).2.maps = s.maps ∨
        ((∃ r ∈ s.maps, r.addressed table key objectKey = true) ∧
          (AddToMap d env s table key objectKey object).2.maps
            = s.maps.map (fun r =>
                if r.addressed table key objectKey then { r with value := object } else r)) ∨
        ((∀ r ∈ s.maps, r.addressed table key objectKey = false) ∧
          (AddToMap d env s table key objectKey object).2.maps
            = s.maps ++ [writtenMapRow table key objectKey object])) := by
  refine ⟨KeysCleanUp_maps env s, SetKey_maps d env s table key value expiration,
    SetKey_keys_safe d env s table key value expiration ht hk hv, ?_, ?_, ?_,
    DelKey_maps env s table key, ?_, ?_, ?_⟩
  · rw [GetKey_store, KeysCleanUp_maps]
  · rw [GetFullKey_store, KeysCleanUp_maps]
  · rw [GetKeys_store, KeysCleanUp_maps]
  · rw [GetFromMap_store]
  · rw [GetMap_store]
  · rcases AddToMap_maps_safe d env s table key objectKey object ht hk ho hob with h | h
    · exact Or.inl h
    · right
      have hadd : ∀ r : MapRow, r.conflicts (writtenMapRow table key objectKey object)
          = r.addressed table key objectKey := by
        intro r
        simp only [MapRow.conflicts, MapRow.addressed, writtenMapRow]
        apply Bool.eq_iff_iff.2
        simp only [decide_eq_true_eq]
        tauto
      rw [h, upsertMap_eq]
      by_cases hany : s.maps.any
          (fun r => r.conflicts (writtenMapRow table key objectKey object)) = true
      · left
        rw [if_pos hany]
        rw [List.any_eq_true] at hany
        obtain ⟨r, hr, hc⟩ := hany
        refine ⟨⟨r, hr, by rw [← hadd]; exact hc⟩, ?_⟩
        apply List.map_congr_left
        intro r _
        rw [hadd]
        rfl
      · right
        rw [if_neg hany]
        refine ⟨?_, rfl⟩
        intro r hr
        simp only [List.any_eq_true, not_exists, not_and, Bool.not_eq_true] at hany
        rw [← hadd]
        exact hany r hr

set_option maxRecDepth 100000 in
/-- On the store that holds the record `t/a` and the entry `o` of the map `t/a`, the
sweep, `SetKey(t, "b", "w", 0)` and `DelKey(t, "a")` leave the entry as it is, and
`AddToMap(t, "a", "o", "x")` gives it the value `x`. -/
theorem C21_maps_frame_witness :
    literalSafe Dialect.postgresql "t" = true ∧ literalSafe Dialect.postgresql "x" = true ∧
      (SetKey Dialect.postgresql exampleEnv
        { keys := [writtenRow "t" "a" "w0" 9223372036854],
          maps := [writtenMapRow "t" "a" "o" "x0"],
          LastTruncate := 0 } "t" "b" "w" 0).2.maps = [writtenMapRow "t" "a" "o" "x0"] ∧
      (DelKey exampleEnv
        { keys := [writtenRow "t" "a" "w0" 9223372036854],
          maps := [writtenMapRow "t" "a" "o" "x0"],
          LastTruncate := 0 } "t" "b").2.maps = [writtenMapRow "t" "a" "o" "x0"] ∧
      (AddToMap Dialect.postgresql exampleEnv
        { keys := [writtenRow "t" "a" "w0" 9223372036854],
          maps := [writtenMapRow "t" "a" "o" "x0"],
          LastTruncate := 0 } "t" "b" "o" "x").2.maps
        = [writtenMapRow "t" "a" "o" "x0", writtenMapRow "t" "b" "o" "x"] :=
  have h := C21_maps_frame Dialect.postgresql exampleEnv
    { keys := [writtenRow "t" "a" "w0" 9223372036854],
      maps := [writtenMapRow "t" "a" "o" "x0"],
      LastTruncate := 0 } "t" "b" "*" "w" "o" "x" "t/b" 0
    (by decide) (by decide) (by decide) (by decide) (by decide)
  ⟨by decide, by decide, h.2.1, h.2.2.2.2.2.2.1, by decide⟩



/-! ## `CreateStorage` -/

/-- Claim C22: `CreateStorage` returns the Redis, SQLite, PostgreSQL or MySQL driver
exactly for the storage types `redis`, `sqlite`, `postgresql` and `mysql`, with the error
of the driver's `Create`; for every other storage type it returns a nil storage and the
error `No such storage type` and calls nothing; and the driver's `Setup` is called once
when the flag is true and not at all when it is false. -/
theorem C22_create_storage (env : Env) (w : World) (credentials : List (String × String))
    (storageType : String) (setup : Bool) :
    (CreateStorage env w credentials storageType setup).1.1 = driverOf storageType ∧
      (∀ driver, driverOf storageType = some driver →
        (CreateStorage env w credentials storageType setup).1.2
          = driver.Create env credentials) ∧
      (driverOf storageType = none →
        CreateStorage env w credentials storageType setup
          = ((none, some "No such storage type"), w)) ∧
      (CreateStorage env w credentials storageType setup).2.setups
        = w.setups + (if setup = true ∧ driverOf storageType ≠ none then 1 else 0) ∧
      ((CreateStorage env w credentials storageType setup).1.1 = some Driver.redis
        ↔ storageType = "redis") ∧
      ((CreateStorage env w credentials storageType setup).1.1 = some (Driver.sql Dialect.sqlite)
        ↔ storageType = "sqlite") ∧
      ((CreateStorage env w credentials storageType setup).1.1
          = some (Driver.sql Dialect.postgresql) ↔ storageType = "postgresql") ∧
      ((CreateStorage env w credentials storageType setup).1.1 = some (Driver.sql Dialect.mysql)
        ↔ storageType = "mysql") := by
  have hcreate : ∀ driver : Driver,
      (createDriver driver env w credentials setup).1.1 = some driver ∧
      (createDriver driver env w credentials setup).1.2 = driver.Create env credentials ∧
      (createDriver driver env w credentials setup).2.setups
        = w.setups + (if setup = true then 1 else 0) := by
    intro driver
    unfold createDriver
    cases hc : driver.Create env credentials <;> cases setup <;> simp
  unfold CreateStorage driverOf
  simp only [REDIS_STORAGE, SQLITE_STORAGE, POSTGRE_SQL_STORAGE, MY_SQL_STORAGE]
  by_cases h1 : storageType = "redis"
  · subst h1
    have := hcreate Driver.redis
    simp [this.1, this.2.1, this.2.2]
  · by_cases h2 : storageType = "sqlite"
    · subst h2
      have := hcreate (Driver.sql Dialect.sqlite)
      simp [this.1, this.2.1, this.2.2]
    · by_cases h3 : storageType = "postgresql"
      · subst h3
        have := hcreate (Driver.sql Dialect.postgresql)
        simp [this.1, this.2.1, this.2.2]
      · by_cases h4 : storageType = "mysql"
        · subst h4
          have := hcreate (Driver.sql Dialect.mysql)
          simp [this.1, this.2.1, this.2.2]
        · simp [h1, h2, h3, h4]



/-! ## The uniqueness constraints in every reachable state -/

theorem mapUpdated_tuple (r row : MapRow) :
    (r.updated row).columns = r.columns ∧ (r.updated row).table_hash = r.table_hash ∧
      (r.updated row).object_key_hash = r.object_key_hash := by
  unfold MapRow.updated
  split <;> exact ⟨rfl, rfl, rfl⟩

theorem mapConflicts_updated (a b row : MapRow) :
    (a.updated row).conflicts (b.updated row) = a.conflicts b := by
  unfold MapRow.conflicts
  rw [(mapUpdated_tuple a row).1, (mapUpdated_tuple a row).2.1, (mapUpdated_tuple a row).2.2,
    (mapUpdated_tuple b row).1, (mapUpdated_tuple b row).2.1, (mapUpdated_tuple b row).2.2]

/-- The upsert keeps the uniqueness constraint of `maps`. -/
theorem upsertMap_unique (rows : List MapRow) (row : MapRow) (hu : uniqueMaps rows) :
    uniqueMaps (upsertMap rows row) := by
  unfold upsertMap
  split
  · unfold uniqueMaps
    rw [List.pairwise_map]
    apply List.Pairwise.imp _ hu
    intro a b hab
    rw [mapConflicts_updated]
    exact hab
  · rename_i hany
    unfold uniqueMaps
    rw [List.pairwise_append]
    refine ⟨hu, List.pairwise_singleton _ _, ?_⟩
    intro a ha b hb
    rw [List.mem_singleton] at hb
    subst hb
    simp only [List.any_eq_true, not_exists, not_and, Bool.not_eq_true] at hany
    exact hany a ha

theorem upsertKey_columns (rows : List KeyRow) (row : KeyRow)
    (h : ∀ r ∈ rows, r.columns.length = NumberOfColumns)
    (hrow : row.columns.length = NumberOfColumns) :
    ∀ r ∈ upsertKey rows row, r.columns.length = NumberOfColumns := by
  intro r hr
  unfold upsertKey at hr
  split at hr
  · rw [List.mem_map] at hr
    obtain ⟨r0, hr0, rfl⟩ := hr
    rw [(updated_columns r0 row).1]
    exact h r0 hr0
  · rw [List.mem_append, List.mem_singleton] at hr
    rcases hr with hr | hr
    · exact h r hr
    · rw [hr]; exact hrow

theorem upsertMap_columns (rows : List MapRow) (row : MapRow)
    (h : ∀ r ∈ rows, r.columns.length = NumberOfColumns)
    (hrow : row.columns.length = NumberOfColumns) :
    ∀ r ∈ upsertMap rows row, r.columns.length = NumberOfColumns := by
  intro r hr
  unfold upsertMap at hr
  split at hr
  · rw [List.mem_map] at hr
    obtain ⟨r0, hr0, rfl⟩ := hr
    rw [(mapUpdated_tuple r0 row).1]
    exact h r0 hr0
  · rw [List.mem_append, List.mem_singleton] at hr
    rcases hr with hr | hr
    · exact h r hr
    · rw [hr]; exact hrow

/-- What `SetKey` does to the rows of `keys`, in every environment: the sweep, and then
nothing or the upsert of a row that carries the hash tuple of the key. -/
theorem SetKey_keys (d : Dialect) (env : Env) (s : Store) (table key value : String)
    (expiration : Int) :
    (SetKey d env s table key value expiration).2.keys = (KeysCleanUp env s).2.keys ∨
      ∃ row : KeyRow, row.table_hash = CalculateHash table ∧ row.columns = keyColumns key ∧
        (SetKey d env s table key value expiration).2.keys
          = upsertKey (KeysCleanUp env s).2.keys row := by
  unfold SetKey
  generalize KeysCleanUp env s = k
  obtain ⟨e, s1⟩ := k
  cases e with
  | some err => exact Or.inl rfl
  | none =>
    simp only
    split
    · exact Or.inl rfl
    · unfold execInsertKey
      cases env.stmtErr with
      | some e => exact Or.inl rfl
      | none =>
        simp only
        cases sqlText d table with
        | none => exact Or.inl rfl
        | some t =>
          cases sqlText d key with
          | none => exact Or.inl rfl
          | some k =>
            cases sqlText d value with
            | none => exact Or.inl rfl
            | some v => exact Or.inr ⟨_, rfl, rfl, rfl⟩

theorem DelKey_sublist (env : Env) (s : Store) (table key : String) :
    (DelKey env s table key).2.keys.Sublist s.keys := by
  refine List.Sublist.trans ?_ (KeysCleanUp_sublist env s)
  unfold DelKey
  generalize KeysCleanUp env s = k
  obtain ⟨e, s1⟩ := k
  cases e with
  | some err => exact List.Sublist.refl _
  | none =>
    simp only
    split
    · exact List.Sublist.refl _
    · split
      · exact List.Sublist.refl _
      · unfold execDeleteKeys
        cases env.stmtErr with
        | some e => exact List.Sublist.refl _
        | none =>
          simp only
          rename_i clause _
          cases whereKeys s1.keys (whereTable (CalculateHash table) clause) with
          | error e => exact List.Sublist.refl _
          | ok hit =>
            simp only
            cases env.rowsErr <;> exact List.filter_sublist _

theorem DelFromMap_sublist (env : Env) (s : Store) (table key objectKey : String) :
    (DelFromMap env s table key objectKey).2.maps.Sublist s.maps ∧
      (DelFromMap env s table key objectKey).2.keys = s.keys := by
  unfold DelFromMap
  simp only
  split
  · exact ⟨List.Sublist.refl _, rfl⟩
  · split
    · exact ⟨List.Sublist.refl _, rfl⟩
    · unfold execDeleteMaps
      cases env.stmtErr with
      | some e => exact ⟨List.Sublist.refl _, rfl⟩
      | none =>
        simp only
        rename_i clause _
        cases whereMaps s.maps
          (whereObject (CalculateHash table) (CalculateHash objectKey) clause) with
        | error e => exact ⟨List.Sublist.refl _, rfl⟩
        | ok hit => exact ⟨List.filter_sublist _, rfl⟩

theorem wellFormed_of_sublist (s s2 : Store) (h : s.wellFormed)
    (hk : s2.keys.Sublist s.keys) (hm : s2.maps.Sublist s.maps) : s2.wellFormed :=
  ⟨List.Pairwise.sublist hk h.1, List.Pairwise.sublist hm h.2.1,
    fun r hr => h.2.2.1 r (hk.subset hr), fun r hr => h.2.2.2 r (hm.subset hr)⟩

theorem keyColumns_length (key : String) : (keyColumns key).length = NumberOfColumns := by
  unfold keyColumns
  exact paddedHashes_length _

/-- Every call on an SQL driver, in every environment, keeps the invariant. -/
theorem onSql_wellFormed (d : Dialect) (env : Env) (s : Store) (c : Call)
    (h : s.wellFormed) : (c.onSql d env s).2.wellFormed := by
  have hsweep : (KeysCleanUp env s).2.wellFormed :=
    wellFormed_of_sublist s _ h (KeysCleanUp_sublist env s)
      (by rw [KeysCleanUp_maps])
  cases c with
  | getKeys table pattern =>
    simp only [Call.onSql]
    rw [GetKeys_store]
    exact hsweep
  | setKey table key value expiration =>
    simp only [Call.onSql]
    have hm := SetKey_maps d env s table key value expiration
    rcases SetKey_keys d env s table key value expiration with hk | ⟨row, hth, hc, hk⟩
    · exact wellFormed_of_sublist s _ h (by rw [hk]; exact KeysCleanUp_sublist env s)
        (by rw [hm])
    · refine ⟨?_, ?_, ?_, ?_⟩
      · rw [hk]
        exact upsertKey_unique _ row hsweep.1
      · rw [hm]
        exact h.2.1
      · rw [hk]
        exact upsertKey_columns _ row hsweep.2.2.1 (by rw [hc]; exact keyColumns_length key)
      · rw [hm]
        exact h.2.2.2
  | getFullKey key =>
    simp only [Call.onSql]
    rw [GetFullKey_store]
    exact hsweep
  | getKey table key =>
    simp only [Call.onSql]
    rw [GetKey_store]
    exact hsweep
  | delKey table key =>
    simp only [Call.onSql]
    exact wellFormed_of_sublist s _ h (DelKey_sublist env s table key)
      (by rw [DelKey_maps])
  | addToMap table key objectKey object =>
    simp only [Call.onSql]
    have hk := AddToMap_keys d env s table key objectKey object
    rcases AddToMap_maps d env s table key objectKey object with hm | ⟨row, hrow, hm⟩
    · exact wellFormed_of_sublist s _ h (by rw [hk])
        (by rw [hm])
    · simp only [MapRow.addressed, Bool.decide_and, Bool.and_eq_true,
        decide_eq_true_eq] at hrow
      refine ⟨?_, ?_, ?_, ?_⟩
      · rw [hk]
        exact h.1
      · rw [hm]
        exact upsertMap_unique _ row h.2.1
      · rw [hk]
        exact h.2.2.1
      · rw [hm]
        exact upsertMap_columns _ row h.2.2.2 (by rw [hrow.2.1]; exact keyColumns_length key)
  | delFromMap table key objectKey =>
    simp only [Call.onSql]
    have := DelFromMap_sublist env s table key objectKey
    exact wellFormed_of_sublist s _ h (by rw [this.2]) this.1
  | getFromMap table key objectKey =>
    simp only [Call.onSql]
    rw [GetFromMap_store]
    exact h
  | getMap table key =>
    simp only [Call.onSql]
    rw [GetMap_store]
    exact h

theorem runSql_wellFormed (d : Dialect) : ∀ (calls : List (Env × Call)) (s : Store),
    s.wellFormed → (runSql d calls s).wellFormed := by
  intro calls
  induction calls with
  | nil => intro s h; exact h
  | cons c rest ih =>
    intro s h
    obtain ⟨env, c⟩ := c
    unfold runSql
    exact ih _ (onSql_wellFormed d env s c h)

/-- Every call of a sequence splices only texts that its statement carries. -/
theorem textsSafe_tail (d : Dialect) (c : Env × Call) (rest : List (Env × Call))
    (h : ∀ x ∈ c :: rest, Call.textsSafe d x.2 = true) :
    ∀ x ∈ rest, Call.textsSafe d x.2 = true :=
  fun x hx => h x (List.mem_cons_of_mem _ hx)

/-- Claim C23: in every state that a sequence of calls on an SQL driver reaches from the
empty store, whatever the calls (the nine methods, each key method with its sweep) and
whatever fails, when every text that `SetKey` and `AddToMap` splice is carried by the
statement as spliced (no single quote, or backslash on MySQL), no two rows of `keys` share
their `table_hash` and ten positional hashes, no two rows of `maps` share their
`table_hash`, ten positional hashes and `object_key_hash`, and every row carries ten
positional hashes. -/
theorem C23_unique_tuples (d : Dialect) (calls : List (Env × Call))
    (hsafe : ∀ c ∈ calls, Call.textsSafe d c.2 = true) :
    (runSql d calls Store.empty).keys.Pairwise
        (fun a b => ¬ (a.table_hash = b.table_hash ∧ a.columns = b.columns)) ∧
      (runSql d calls Store.empty).maps.Pairwise
        (fun a b => ¬ (a.table_hash = b.table_hash ∧ a.columns = b.columns ∧
          a.object_key_hash = b.object_key_hash)) ∧
      (∀ r ∈ (runSql d calls Store.empty).keys, r.columns.length = 10) ∧
      (∀ r ∈ (runSql d calls Store.empty).maps, r.columns.length = 10) := by
  have hempty : Store.empty.wellFormed :=
    ⟨List.Pairwise.nil, List.Pairwise.nil, fun r hr => absurd hr (List.not_mem_nil r),
      fun r hr => absurd hr (List.not_mem_nil r)⟩
  have hrun : ∀ (cs : List (Env × Call)) (s : Store),
      (∀ c ∈ cs, Call.textsSafe d c.2 = true) → s.wellFormed →
        (runSql d cs s).wellFormed := by
    intro cs
    induction cs with
    | nil => intro s _ h; exact h
    | cons c rest ih =>
      intro s hs h
      obtain ⟨env, c⟩ := c
      unfold runSql
      exact ih _ (textsSafe_tail d (env, c) rest hs) (onSql_wellFormed d env s c h)
  obtain ⟨h1, h2, h3, h4⟩ := hrun calls Store.empty hsafe hempty
  refine ⟨?_, ?_, h3, h4⟩
  · apply List.Pairwise.imp _ h1
    intro a b hab hc
    have : a.conflicts b = true := (conflicts_eq a b).2 ⟨hc.2, hc.1⟩
    rw [this] at hab
    exact absurd hab (by decide)
  · apply List.Pairwise.imp _ h2
    intro a b hab hc
    have : a.conflicts b = true := (mapConflicts_eq a b).2 ⟨hc.2.1, hc.1, hc.2.2⟩
    rw [this] at hab
    exact absurd hab (by decide)

set_option maxRecDepth 100000 in
/-- After two writes of the record `t/a` (the second through `a/`) and two of the entry
`o` of the map `t/a`, each table holds one row. -/
theorem C23_unique_tuples_witness :
    (∀ c ∈ [(exampleEnv, Call.setKey "t" "a" "w0" 0), (exampleEnv, Call.setKey "t" "a/" "w" 0),
        (exampleEnv, Call.addToMap "t" "a" "o" "x0"), (exampleEnv, Call.addToMap "t" "a" "o" "x")],
        Call.textsSafe Dialect.sqlite c.2 = true) ∧
      (runSql Dialect.sqlite
        [(exampleEnv, Call.setKey "t" "a" "w0" 0), (exampleEnv, Call.setKey "t" "a/" "w" 0),
          (exampleEnv, Call.addToMap "t" "a" "o" "x0"), (exampleEnv, Call.addToMap "t" "a" "o" "x")]
        Store.empty).keys.Pairwise
          (fun a b => ¬ (a.table_hash = b.table_hash ∧ a.columns = b.columns)) ∧
      (runSql Dialect.sqlite
        [(exampleEnv, Call.setKey "t" "a" "w0" 0), (exampleEnv, Call.setKey "t" "a/" "w" 0),
          (exampleEnv, Call.addToMap "t" "a" "o" "x0"), (exampleEnv, Call.addToMap "t" "a" "o" "x")]
        Store.empty).keys = [writtenRow "t" "a" "w" 9223372036854] ∧
      (runSql Dialect.sqlite
        [(exampleEnv, Call.setKey "t" "a" "w0" 0), (exampleEnv, Call.setKey "t" "a/" "w" 0),
          (exampleEnv, Call.addToMap "t" "a" "o" "x0"), (exampleEnv, Call.addToMap "t" "a" "o" "x")]
        Store.empty).maps = [writtenMapRow "t" "a" "o" "x"] :=
  have hs : ∀ c ∈ [(exampleEnv, Call.setKey "t" "a" "w0" 0),
      (exampleEnv, Call.setKey "t" "a/" "w" 0), (exampleEnv, Call.addToMap "t" "a" "o" "x0"),
      (exampleEnv, Call.addToMap "t" "a" "o" "x")],
      Call.textsSafe Dialect.sqlite c.2 = true := by decide
  ⟨hs, (C23_unique_tuples Dialect.sqlite _ hs).1, by decide, by decide⟩



/-! ## The positional hashes of a row -/

set_option maxRecDepth 100000 in
/-- The check value of CRC-32/IEEE: the checksum of `123456789` is `0xCBF43926`. -/
theorem CalculateHash_check : CalculateHash "123456789" = 0xCBF43926 := by
  decide

/-- The ten positional hashes written for a key: the hash of the segment at each position
the key has, and 0 after its last segment. -/
theorem keyColumns_getD (key : String) (i : Nat) (hi : i < NumberOfColumns) :
    (keyColumns key).getD i 0
      = if i < (SplitToParts key).length then CalculateHash ((SplitToParts key).getD i "")
        else 0 := by
  unfold keyColumns
  rw [paddedHashes_getD _ _ hi, hashes_getD]
  split
  · rfl
  · rename_i h
    rw [List.getD_eq_default _ _ (by omega), CalculateHash_empty]

/-- Claim C24: `CalculateHashesOfColumns` returns the CRC-32/IEEE checksum of each segment,
in order; for every key of `n <= 10` segments the tuple written by `SetKey` and by
`AddToMap` holds exactly 10 values, the checksum of the `i`-th segment at position
`i <= n` and 0 at the positions after `n`; and, when no backend call fails and the texts
hold no single quote (or backslash on MySQL), the row that `SetKey` leaves with the value
carries this tuple and the checksum of the table name as `table_hash`, and so does the row
that `AddToMap` leaves, with the checksum of the object key as `object_key_hash`. -/
theorem C24_positional_hashes (d : Dialect) (env : Env) (s : Store)
    (table key value objectKey object : String) (expiration : Int)
    (h : env.noFailure) (hlen : (SplitToParts key).length ≤ NumberOfColumns)
    (ht : literalSafe d table = true) (hk : literalSafe d key = true)
    (hv : literalSafe d value = true) (ho : literalSafe d objectKey = true)
    (hobj : literalSafe d object = true) :
    (∀ columns : List String, CalculateHashesOfColumns columns = columns.map CalculateHash) ∧
      CalculateHash "123456789" = 0xCBF43926 ∧
      (keyColumns key).length = 10 ∧
      (∀ i, i < 10 → (keyColumns key).getD i 0
        = if i < (SplitToParts key).length then CalculateHash ((SplitToParts key).getD i "")
          else 0) ∧
      (∃ r ∈ (SetKey d env s table key value expiration).2.keys,
        r.value = value ∧ r.columns = keyColumns key ∧ r.table_hash = CalculateHash table) ∧
      (∃ r ∈ (AddToMap d env s table key objectKey object).2.maps,
        r.value = object ∧ r.columns = keyColumns key ∧ r.table_hash = CalculateHash table ∧
          r.object_key_hash = CalculateHash objectKey) := by
  refine ⟨CalculateHashesOfColumns_eq_map, CalculateHash_check, keyColumns_length key,
    fun i hi => keyColumns_getD key i hi, ?_, ?_⟩
  · rw [SetKey_run d env s table key value expiration
      (KeysCleanUp_noFailure env s h.1 h.2.1) hlen h.2.2.1 ht hk hv]
    obtain ⟨r, hr, hc, hth, hval, _⟩ := upsertKey_has (KeysCleanUp env s).2.keys
      (writtenRow table key value (untilMilliseconds env.opClock expiration))
    exact ⟨r, hr, hval, hc, hth⟩
  · rw [AddToMap_run d env s table key objectKey object hlen h.2.2.1 ht hk ho hobj]
    rcases upsertMap_has s.maps (writtenMapRow table key objectKey object) with
      hin | ⟨r0, hr0, hc, hin⟩
    · exact ⟨_, hin, rfl, rfl, rfl, rfl⟩
    · rw [mapConflicts_eq] at hc
      exact ⟨_, hin, rfl, hc.1, hc.2.1, hc.2.2⟩

theorem C24_positional_hashes_witness :
    keyColumns "a/b" = [CalculateHash "a", CalculateHash "b", 0, 0, 0, 0, 0, 0, 0, 0] ∧
      (keyColumns "a/b").length = 10 ∧
      (∃ r ∈ (SetKey Dialect.mysql exampleEnv storeWild "t" "a/b" "v" 0).2.keys,
        r.value = "v" ∧ r.columns = keyColumns "a/b" ∧ r.table_hash = CalculateHash "t") :=
  have h := C24_positional_hashes Dialect.mysql exampleEnv storeWild "t" "a/b" "v" "o" "obj" 0
    (by decide) (by decide) (by decide) (by decide) (by decide) (by decide) (by decide)
  ⟨by decide, h.2.2.1, h.2.2.2.2.1⟩



/-! ## The indexes that `Init` creates -/

set_option maxRecDepth 1000000 in
/-- Claim C25 fails on the code of the SQLite driver: every `CREATE INDEX` statement in
the text that `SQLiteStorage.Init` builds for `maps` names the table `keys` (with the
index names of the part on `keys`, and with `object_key_hash`, a column `keys` does not
have), so no index on `maps` is created; the parts on `keys` of the three drivers, and
the parts on `maps` of the PostgreSQL and MySQL drivers, create the indexes on the table
hash and the ten positional hashes of their own table (plus `ttl` on `keys` and
`object_key_hash` on `maps`). -/
theorem C25_sqlite_maps_indexes_on_keys :
    indexesOf SQLiteStorage.mapsTableSQL
        = hashIndexes "keys" ++ [("object_key_hash_index", "keys", "object_key_hash")] ∧
      indexesOf SQLiteStorage.keysTableSQL = hashIndexes "keys" ++ [("ttl_index", "keys", "ttl")] ∧
      PostgreSQLStorage.mapsStatements.flatMap indexesOf
        = hashIndexes "maps" ++ [("object_key_hash_index", "maps", "object_key_hash")] ∧
      PostgreSQLStorage.keysStatements.flatMap indexesOf
        = hashIndexes "keys" ++ [("ttl_index", "keys", "ttl")] ∧
      MySQLStorage.mapsStatements.flatMap indexesOf
        = hashIndexes "maps" ++ [("object_key_hash_index", "maps", "object_key_hash")] ∧
      MySQLStorage.keysStatements.flatMap indexesOf
        = hashIndexes "keys" ++ [("ttl_index", "keys", "ttl")] := by
  decide


/-! ## Patterns shorter than the key -/

/-- A key that agrees with a pattern of at most 10 segments wherever the pattern does not
hold `*` has its padded hash columns selected by the filter of the pattern. -/
theorem selects_of_agrees (table p k : String)
    (hp : (SplitToParts p).length ≤ NumberOfColumns) (h : agrees p k = true) :
    selects table p (CalculateHash table) (keyColumns k) = true := by
  simp only [agrees, List.all_eq_true, List.mem_range, Bool.decide_or, Bool.or_eq_true,
    decide_eq_true_eq] at h
  simp only [selects, hashesMatch, Bool.decide_and, Bool.and_eq_true,
    decide_eq_true_eq, List.all_eq_true, List.mem_range, Bool.decide_or, Bool.or_eq_true,
    true_and]
  intro j hj
  rcases h j hj with h1 | h1
  · exact Or.inl h1
  · right
    rw [keyColumns_getD k j (by omega), hashes_getD, ← h1]
    split
    · rfl
    · rename_i hlt
      rw [List.getD_eq_default _ _ (by omega), CalculateHash_empty]

/-- On the store that holds only the record written by `SetKey(table, k, v, 0)`, the rows
of `keys` are the one written row, also after a sweep. -/
theorem SetKey_single (d : Dialect) (env0 : Env) (table k v : String)
    (h0 : env0.noFailure) (hk : (SplitToParts k).length ≤ NumberOfColumns)
    (ht : literalSafe d table = true) (hkey : literalSafe d k = true)
    (hv : literalSafe d v = true) :
    (SetKey d env0 Store.empty table k v 0).2.keys = [writtenRow table k v 9223372036854] ∧
      ∀ env1 : Env, (KeysCleanUp env1 (SetKey d env0 Store.empty table k v 0).2).2.keys
        = [writtenRow table k v 9223372036854] := by
  have hs0 : (SetKey d env0 Store.empty table k v 0).2.keys
      = [writtenRow table k v 9223372036854] := by
    rw [SetKey_run d env0 _ table k v 0 (KeysCleanUp_noFailure env0 _ h0.1 h0.2.1) hk
      h0.2.2.1 ht hkey hv, untilMilliseconds_zero]
    simp only [Store.withKeys]
    rw [KeysCleanUp_empty_keys env0 Store.empty rfl, upsertKey_nil]
  refine ⟨hs0, ?_⟩
  intro env1
  rw [KeysCleanUp_unexpiring, hs0]
  rw [hs0]
  intro r hr
  rw [List.mem_singleton.1 hr]
  rfl

/-- Claim C26: in each SQL driver, for every key `k` and pattern `p` of at most 10
segments each, if every segment of `p` other than `*` equals the segment of `k` at the
same position (a position after the last segment of `k` reading as the empty segment),
then the row written for `k` by `SetKey` satisfies the filter built from `p`: its hash
columns are selected, the WHERE clause that `CreateWhereClause` builds from `p` keeps the
row, and on the store that holds only that row `GetKey(table, p)` returns its value and
`DelKey(table, p)` removes it.  The positions after the last segment of `p` are not
constrained. -/
theorem C26_pattern_matches_written_row (d : Dialect) (env0 env1 env2 : Env)
    (table p k v : String)
    (h0 : env0.noFailure) (h1 : env1.noFailure) (h2 : env2.noFailure)
    (hp : (SplitToParts p).length ≤ NumberOfColumns)
    (hk : (SplitToParts k).length ≤ NumberOfColumns)
    (ht : literalSafe d table = true) (hkey : literalSafe d k = true)
    (hv : literalSafe d v = true)
    (hagree : agrees p k = true) :
    (SetKey d env0 Store.empty table k v 0).2.keys = [writtenRow table k v 9223372036854] ∧
      selects table p (writtenRow table k v 9223372036854).table_hash
        (writtenRow table k v 9223372036854).columns = true ∧
      (∃ clause, CreateWhereClause (SplitToParts p) (CalculateHashesOfColumns (SplitToParts p))
          = some clause ∧
        whereKeys (SetKey d env0 Store.empty table k v 0).2.keys
            (whereTable (CalculateHash table) clause)
          = Except.ok (SetKey d env0 Store.empty table k v 0).2.keys) ∧
      (GetKey env1 (SetKey d env0 Store.empty table k v 0).2 table p).1 = (v, none) ∧
      (DelKey env2 (SetKey d env0 Store.empty table k v 0).2 table p).1 = (1, none) ∧
      (DelKey env2 (SetKey d env0 Store.empty table k v 0).2 table p).2.keys = [] := by
  obtain ⟨hs0, hs1⟩ := SetKey_single d env0 table k v h0 hk ht hkey hv
  have hsel : selects table p (writtenRow table k v 9223372036854).table_hash
      (writtenRow table k v 9223372036854).columns = true := selects_of_agrees table p k hp hagree
  refine ⟨hs0, hsel, ⟨_, CreateWhereClause_hashes _, ?_⟩, ?_, ?_, ?_⟩
  · rw [whereKeys_whereTable _ _ _ _ hp, hs0]
    have hsel2 : hashesMatch (CalculateHash table) (SplitToParts p)
        (CalculateHashesOfColumns (SplitToParts p))
        (writtenRow table k v 9223372036854).table_hash
        (writtenRow table k v 9223372036854).columns = true := hsel
    simp only [List.filter_cons, hsel2, if_true, List.filter_nil]
  · rw [GetKey_run env1 _ table p (KeysCleanUp_noFailure env1 _ h1.1 h1.2.1) hp h1.2.2.1,
      hs1 env1]
    simp only [List.filter_cons, hsel, if_true, List.filter_nil, Prod.mk.injEq, and_true]
    have := nowMillis_le env1.opClock
    simp [firstUnexpired, writtenRow, this]
  · rw [DelKey_run env2 _ table p (KeysCleanUp_noFailure env2 _ h2.1 h2.2.1) hp h2.2.2.1
      h2.2.2.2.2, hs1 env2]
    simp [List.filter_cons, hsel]
  · rw [DelKey_run env2 _ table p (KeysCleanUp_noFailure env2 _ h2.1 h2.2.1) hp h2.2.2.1
      h2.2.2.2.2]
    simp only [Store.withKeys]
    rw [hs1 env2]
    simp [List.filter_cons, hsel]

theorem exampleEnv_noFailure : exampleEnv.noFailure := by
  simp [Env.noFailure, exampleEnv, Env.quiet]

/-- The claim's own example: a record stored under `a/b` is matched by `GetKey(t, "a")` and
by `DelKey(t, "a")`. -/
theorem C26_pattern_matches_written_row_witness :
    agrees "a" "a/b" = true ∧
      (GetKey exampleEnv storeAB "t" "a").1 = ("w", none) ∧
      (DelKey exampleEnv storeAB "t" "a").1 = (1, none) ∧
      (DelKey exampleEnv storeAB "t" "a").2.keys = [] :=
  have h := C26_pattern_matches_written_row Dialect.postgresql exampleEnv exampleEnv exampleEnv
    "t" "a" "a/b" "w" exampleEnv_noFailure exampleEnv_noFailure exampleEnv_noFailure
    (by decide) (by decide) (by decide) (by decide) (by decide) (by decide)
  ⟨by decide, h.2.2.2.1, h.2.2.2.2.1, h.2.2.2.2.2⟩

/-! ## A trailing separator -/

theorem SplitToParts_append_slash (key : String) :
    SplitToParts (key ++ "/") = SplitToParts key ++ [""] := by
  unfold SplitToParts
  rw [String.data_append]
  have h : ("/" : String).data = Char.ofNat 47 :: [] := by decide
  rw [h]
  simp only [List.splitOn]
  rw [splitOnP_append_sep _ _ (by decide) _ (by simp)]
  simp

/-- A key and the key with a trailing `/` have the same padded hash columns. -/
theorem keyColumns_append_slash (key : String) :
    keyColumns (key ++ "/") = keyColumns key := by
  apply List.ext_getElem
  · rw [keyColumns_length, keyColumns_length]
  · intro j h1 h2
    rw [keyColumns_length] at h1
    rw [← List.getD_eq_getElem _ 0 (by rw [keyColumns_length]; exact h1),
      ← List.getD_eq_getElem _ 0 h2, keyColumns_getD _ j h1, keyColumns_getD _ j h1,
      SplitToParts_append_slash]
    simp only [List.length_append, List.length_singleton]
    by_cases hj : j < (SplitToParts key).length
    · rw [if_pos hj, if_pos (by omega), List.getD_append _ _ _ _ hj]
    · rw [if_neg hj]
      split
      · rw [List.getD_append_right _ _ _ _ (by omega)]
        have : j - (SplitToParts key).length = 0 := by omega
        rw [this]
        exact CalculateHash_empty
      · rfl

theorem literalSafe_slash (d : Dialect) (key : String) (h : literalSafe d key = true) :
    literalSafe d (key ++ "/") = true := by
  unfold literalSafe at h ⊢
  rw [String.data_append]
  have h1 : ("/" : String).data = Char.ofNat 47 :: [] := by decide
  rw [h1]
  have hq : (key.data ++ [Char.ofNat 47]).contains quoteChar = key.data.contains quoteChar := by
    rw [Bool.eq_iff_iff]
    simp only [List.contains, List.elem_eq_mem, decide_eq_true_eq, List.mem_append,
      List.mem_singleton]
    constructor
    · rintro (h | h)
      · exact h
      · exact absurd h (by decide)
    · exact Or.inl
  have hb : (key.data ++ [Char.ofNat 47]).contains backslashChar
      = key.data.contains backslashChar := by
    rw [Bool.eq_iff_iff]
    simp only [List.contains, List.elem_eq_mem, decide_eq_true_eq, List.mem_append,
      List.mem_singleton]
    constructor
    · rintro (h | h)
      · exact h
      · exact absurd h (by decide)
    · exact Or.inl
  rw [hq, hb]
  exact h

/-- An upsert of a row whose hash tuple a row of the list carries adds no row. -/
theorem upsertKey_length_of_conflict (rows : List KeyRow) (row : KeyRow)
    (h : ∃ r ∈ rows, r.columns = row.columns ∧ r.table_hash = row.table_hash) :
    (upsertKey rows row).length = rows.length := by
  obtain ⟨r, hr, hc⟩ := h
  unfold upsertKey
  rw [if_pos (List.any_eq_true.2 ⟨r, hr, (conflicts_eq r row).2 hc⟩), List.length_map]

/-- Claim C27: for every key of fewer than 10 segments, `key` and `key + "/"` produce the
same padded 10-column hash tuple, the CRC-32/IEEE checksum of the empty segment being 0,
the value written for unused positions; so, in each SQL driver, on any rows of `keys` the
upsert of `(table, key + "/")` after that of `(table, key)` adds no row and leaves a row
with that hash tuple and the new value, and `SetKey(table, key + "/", v, e)` on the store
that holds only the record written by `SetKey(table, key, v0, 0)` leaves that one row,
with its key text `key`, and the value `v`. -/
theorem C27_trailing_slash_same_row (d : Dialect) (env0 env1 : Env)
    (table key v0 v : String) (e : Int)
    (h0 : env0.noFailure) (h1 : env1.noFailure)
    (hlen : (SplitToParts key).length < NumberOfColumns)
    (ht : literalSafe d table = true) (hk : literalSafe d key = true)
    (hv0 : literalSafe d v0 = true) (hv : literalSafe d v = true) :
    CalculateHash "" = 0 ∧
      SplitToParts (key ++ "/") = SplitToParts key ++ [""] ∧
      keyColumns (key ++ "/") = keyColumns key ∧
      (∀ (rows : List KeyRow) (ttl0 ttl : Int),
        (upsertKey (upsertKey rows (writtenRow table key v0 ttl0))
            (writtenRow table (key ++ "/") v ttl)).length
          = (upsertKey rows (writtenRow table key v0 ttl0)).length ∧
        ∃ r ∈ upsertKey (upsertKey rows (writtenRow table key v0 ttl0))
            (writtenRow table (key ++ "/") v ttl),
          r.table_hash = CalculateHash table ∧ r.columns = keyColumns key ∧ r.value = v ∧
            r.ttl = ttl) ∧
      (SetKey d env1 (SetKey d env0 Store.empty table key v0 0).2 table (key ++ "/") v e).1
        = none ∧
      (SetKey d env1 (SetKey d env0 Store.empty table key v0 0).2 table (key ++ "/") v e).2.keys
        = [writtenRow table key v (untilMilliseconds env1.opClock e)] := by
  have hcols := keyColumns_append_slash key
  have hlen2 : (SplitToParts (key ++ "/")).length ≤ NumberOfColumns := by
    rw [SplitToParts_append_slash, List.length_append, List.length_singleton]
    omega
  have hrun := SetKey_run d env1 (SetKey d env0 Store.empty table key v0 0).2 table (key ++ "/")
    v e (KeysCleanUp_noFailure env1 _ h1.1 h1.2.1) hlen2 h1.2.2.1 ht (literalSafe_slash d key hk) hv
  refine ⟨CalculateHash_empty, SplitToParts_append_slash key, hcols, ?_, ?_, ?_⟩
  · intro rows ttl0 ttl
    constructor
    · apply upsertKey_length_of_conflict
      obtain ⟨r, hr, hc1, hc2, _, _⟩ := upsertKey_has rows (writtenRow table key v0 ttl0)
      exact ⟨r, hr, by rw [hc1]; simp only [writtenRow]; exact hcols.symm,
        by rw [hc2]; rfl⟩
    · obtain ⟨r, hr, hc1, hc2, hc3, hc4⟩ := upsertKey_has
        (upsertKey rows (writtenRow table key v0 ttl0)) (writtenRow table (key ++ "/") v ttl)
      exact ⟨r, hr, by rw [hc2]; rfl, by rw [hc1]; simp only [writtenRow]; exact hcols,
        by rw [hc3]; rfl, by rw [hc4]; rfl⟩
  · rw [hrun]
  · rw [hrun]
    simp only [Store.withKeys]
    rw [(SetKey_single d env0 table key v0 h0 (Nat.le_of_lt hlen) ht hk hv0).2 env1]
    have hc : (writtenRow table key v0 9223372036854).conflicts
        (writtenRow table (key ++ "/") v (untilMilliseconds env1.opClock e)) = true := by
      rw [conflicts_eq]
      simp only [writtenRow]
      exact ⟨hcols.symm, trivial⟩
    simp only [upsertKey, List.any_cons, hc, List.any_nil, Bool.or_false, if_true, List.map_cons,
      List.map_nil, KeyRow.updated]
    rfl

set_option maxRecDepth 100000 in
/-- On the store that holds `t/a` with value `w0`, `SetKey(t, "a/", "w", 0)` leaves the one
row of key text `a`, with value `w`. -/
theorem C27_trailing_slash_same_row_witness :
    (SplitToParts "a").length < NumberOfColumns ∧
      keyColumns "a/" = keyColumns "a" ∧
      (SetKey Dialect.sqlite exampleEnv
        (SetKey Dialect.sqlite exampleEnv Store.empty "t" "a" "w0" 0).2 "t" "a/" "w" 0).2.keys
        = [writtenRow "t" "a" "w" 9223372036854] :=
  have h := C27_trailing_slash_same_row Dialect.sqlite exampleEnv exampleEnv "t" "a" "w0" "w" 0
    exampleEnv_noFailure exampleEnv_noFailure (by decide) (by decide) (by decide) (by decide)
    (by decide)
  ⟨by decide, h.2.2.1, h.2.2.2.2.2.trans
    (congrArg (fun t => [writtenRow "t" "a" "w" t]) (untilMilliseconds_zero _))⟩

/-! ## What a write keeps of the row it hits -/

/-- The upsert on `keys` that hits a row: every row keeps its texts and hash columns, the
rows of the hash tuple take the new value and ttl. -/
theorem upsertKey_of_conflict (rows : List KeyRow) (row : KeyRow)
    (h : ∃ r ∈ rows, r.columns = row.columns ∧ r.table_hash = row.table_hash) :
    upsertKey rows row
      = rows.map (fun r => if r.columns = row.columns ∧ r.table_hash = row.table_hash then
          { r with value := row.value, ttl := row.ttl } else r) := by
  obtain ⟨r, hr, hc⟩ := h
  unfold upsertKey
  rw [if_pos (List.any_eq_true.2 ⟨r, hr, (conflicts_eq r row).2 hc⟩)]
  apply List.map_congr_left
  intro x _
  unfold KeyRow.updated
  by_cases hx : x.columns = row.columns ∧ x.table_hash = row.table_hash
  · rw [if_pos ((conflicts_eq x row).2 hx), if_pos hx]
  · rw [if_neg (fun hh => hx ((conflicts_eq x row).1 hh)), if_neg hx]

/-- The upsert on `maps` that hits a row: every row keeps its texts and hash columns, the
rows of the hash tuple take the new value. -/
theorem upsertMap_of_conflict (rows : List MapRow) (row : MapRow)
    (h : ∃ r ∈ rows, r.columns = row.columns ∧ r.table_hash = row.table_hash ∧
      r.object_key_hash = row.object_key_hash) :
    upsertMap rows row
      = rows.map (fun r => if r.columns = row.columns ∧ r.table_hash = row.table_hash ∧
          r.object_key_hash = row.object_key_hash then { r with value := row.value } else r) := by
  obtain ⟨r, hr, hc⟩ := h
  unfold upsertMap
  rw [if_pos (List.any_eq_true.2 ⟨r, hr, (mapConflicts_eq r row).2 hc⟩)]
  apply List.map_congr_left
  intro x _
  unfold MapRow.updated
  by_cases hx : x.columns = row.columns ∧ x.table_hash = row.table_hash ∧
      x.object_key_hash = row.object_key_hash
  · rw [if_pos ((mapConflicts_eq x row).2 hx), if_pos hx]
  · rw [if_neg (fun hh => hx ((mapConflicts_eq x row).1 hh)), if_neg hx]

/-- Claim C28: in each SQL driver, when no backend call fails and the statement carries
its texts, a `SetKey(table, key, value, expiration)` that hits a row of `keys` with the
hash tuple of `(table, key)` replaces the value and the ttl of the rows of that tuple
and nothing else: every row keeps its table text, key text and hash columns, so that
every name a following `GetKeys` reports is the `table/key` text of a row stored before;
and an `AddToMap(table, key, objectKey, object)` that hits a row of `maps` with the hash
tuple of `(table, key, objectKey)` replaces the value of the rows of that tuple and
nothing else: every row keeps its table, key and object_key texts and its hash columns. -/
theorem C28_conflict_keeps_first_texts (d : Dialect) (env env2 : Env) (s : Store)
    (table key value objectKey object table2 pattern : String) (expiration : Int)
    (h : env.noFailure)
    (hlen : (SplitToParts key).length ≤ NumberOfColumns)
    (ht : literalSafe d table = true) (hk : literalSafe d key = true)
    (hv : literalSafe d value = true) (ho : literalSafe d objectKey = true)
    (hob : literalSafe d object = true)
    (hkeys : ∃ r ∈ (KeysCleanUp env s).2.keys,
      r.columns = keyColumns key ∧ r.table_hash = CalculateHash table)
    (hmaps : ∃ r ∈ s.maps, r.columns = keyColumns key ∧ r.table_hash = CalculateHash table ∧
      r.object_key_hash = CalculateHash objectKey) :
    (SetKey d env s table key value expiration).2.keys
        = (KeysCleanUp env s).2.keys.map (fun r =>
            if r.columns = keyColumns key ∧ r.table_hash = CalculateHash table then
              { r with value := value, ttl := untilMilliseconds env.opClock expiration }
            else r) ∧
      (SetKey d env s table key value expiration).2.keys.map
          (fun r => (r.table, r.table_hash, r.key, r.columns))
        = (KeysCleanUp env s).2.keys.map (fun r => (r.table, r.table_hash, r.key, r.columns)) ∧
      (∀ x ∈ (GetKeys d env2 (SetKey d env s table key value expiration).2 table2 pattern).1.1,
        x ∈ (KeysCleanUp env s).2.keys.map (fun r => r.table ++ "/" ++ r.key) ∨
          x ∈ s.maps.map (fun m => m.table ++ "/" ++ m.key)) ∧
      (AddToMap d env s table key objectKey object).2.maps
        = s.maps.map (fun r =>
            if r.columns = keyColumns key ∧ r.table_hash = CalculateHash table ∧
                r.object_key_hash = CalculateHash objectKey then { r with value := object }
            else r) ∧
      (AddToMap d env s table key objectKey object).2.maps.map
          (fun r => (r.table, r.table_hash, r.key, r.columns, r.object_key, r.object_key_hash))
        = s.maps.map
          (fun r => (r.table, r.table_hash, r.key, r.columns, r.object_key, r.object_key_hash)) := by
  have hset : (SetKey d env s table key value expiration).2.keys
      = (KeysCleanUp env s).2.keys.map (fun r =>
          if r.columns = keyColumns key ∧ r.table_hash = CalculateHash table then
            { r with value := value, ttl := untilMilliseconds env.opClock expiration }
          else r) := by
    rw [SetKey_run d env s table key value expiration (KeysCleanUp_noFailure env s h.1 h.2.1)
      hlen h.2.2.1 ht hk hv]
    simp only [Store.withKeys]
    exact upsertKey_of_conflict _ (writtenRow table key value _) hkeys
  have hadd : (AddToMap d env s table key objectKey object).2.maps
      = s.maps.map (fun r =>
          if r.columns = keyColumns key ∧ r.table_hash = CalculateHash table ∧
              r.object_key_hash = CalculateHash objectKey then { r with value := object }
          else r) := by
    rw [AddToMap_run d env s table key objectKey object hlen h.2.2.1 ht hk ho hob]
    simp only [Store.withMaps]
    exact upsertMap_of_conflict _ (writtenMapRow table key objectKey object) hmaps
  have hnames : (SetKey d env s table key value expiration).2.keys.map
        (fun r => (r.table, r.table_hash, r.key, r.columns))
      = (KeysCleanUp env s).2.keys.map (fun r => (r.table, r.table_hash, r.key, r.columns)) := by
    rw [hset, List.map_map]
    apply List.map_congr_left
    intro r _
    simp only [Function.comp]
    split <;> rfl
  refine ⟨hset, hnames, ?_, hadd, ?_⟩
  · intro x hx
    rcases GetKeys_unexpired d env2 _ table2 pattern x hx with ⟨r, hr, _, hxr⟩ | ⟨_, m, hm, hxm⟩
    · left
      rw [hset, List.mem_map] at hr
      obtain ⟨r0, hr0, rfl⟩ := hr
      rw [List.mem_map]
      refine ⟨r0, hr0, ?_⟩
      rw [hxr]
      split <;> rfl
    · right
      rw [SetKey_maps] at hm
      exact List.mem_map.2 ⟨m, hm, hxm.symm⟩
  · rw [hadd, List.map_map]
    apply List.map_congr_left
    intro r _
    simp only [Function.comp]
    split <;> rfl

/-- The store that holds the record `t/a` with value `w0` and the entry `o` of the map
`t/a` with value `x0`. -/
theorem storeA_rows :
    (AddToMap Dialect.postgresql exampleEnv
      (SetKey Dialect.postgresql exampleEnv Store.empty "t" "a" "w0" 0).2 "t" "a" "o" "x0").2
      = { keys := [writtenRow "t" "a" "w0" 9223372036854],
          maps := [writtenMapRow "t" "a" "o" "x0"],
          LastTruncate := nowMillis exampleEnv.sweepClock } := by
  decide

set_option maxRecDepth 100000 in
/-- On the store that holds the record `t/a` and the entry `o` of the map `t/a`,
`SetKey(t, "a/", "w", 0)` leaves the row with the key text `a` and the value `w`, and
`AddToMap(t, "a/", "o", "x")` leaves the row with the key text `a` and the value `x`. -/
theorem C28_conflict_keeps_first_texts_witness :
    (SetKey Dialect.postgresql exampleEnv
        { keys := [writtenRow "t" "a" "w0" 9223372036854],
          maps := [writtenMapRow "t" "a" "o" "x0"],
          LastTruncate := nowMillis exampleEnv.sweepClock } "t" "a/" "w" 0).2.keys
        = [writtenRow "t" "a" "w" 9223372036854] ∧
      (AddToMap Dialect.postgresql exampleEnv
        { keys := [writtenRow "t" "a" "w0" 9223372036854],
          maps := [writtenMapRow "t" "a" "o" "x0"],
          LastTruncate := nowMillis exampleEnv.sweepClock } "t" "a/" "o" "x").2.maps
        = [writtenMapRow "t" "a" "o" "x"] :=
  have h := C28_conflict_keeps_first_texts Dialect.postgresql exampleEnv exampleEnv
    { keys := [writtenRow "t" "a" "w0" 9223372036854],
      maps := [writtenMapRow "t" "a" "o" "x0"],
      LastTruncate := nowMillis exampleEnv.sweepClock }
    "t" "a/" "w" "o" "x" "t" "*" 0 exampleEnv_noFailure (by decide) (by decide) (by decide)
    (by decide) (by decide) (by decide)
    ⟨writtenRow "t" "a" "w0" 9223372036854, by decide, by decide⟩
    ⟨writtenMapRow "t" "a" "o" "x0", by decide, by decide⟩
  ⟨h.1.trans (by decide), h.2.2.2.1.trans (by decide)⟩

/-! ## The sweep and the reads -/

/-- The row loop of `GetKey` reads the same value after the removal of rows among those it
skips. -/
theorem firstUnexpired_filter (now : Int) (keep : KeyRow → Bool)
    (h : ∀ r : KeyRow, now ≤ r.ttl → keep r = true) :
    ∀ rows : List KeyRow, firstUnexpired now (rows.filter keep) = firstUnexpired now rows := by
  intro rows
  induction rows with
  | nil => rfl
  | cons r rest ih =>
    by_cases hk : keep r = true
    · rw [List.filter_cons_of_pos hk]
      unfold firstUnexpired
      rw [ih]
    · rw [List.filter_cons_of_neg hk, ih]
      have hr : ¬ (r.ttl ≥ now) := fun hh => hk (h r hh)
      conv => rhs; unfold firstUnexpired
      rw [if_neg hr]

/-- The row loop of `GetKeys` lists the same names after the removal of rows among those
it skips. -/
theorem unexpiredKeyNames_filter (now : Int) (keep : KeyRow → Bool)
    (h : ∀ r : KeyRow, now ≤ r.ttl → keep r = true) (rows : List KeyRow) :
    unexpiredKeyNames now (rows.filter keep) = unexpiredKeyNames now rows := by
  unfold unexpiredKeyNames
  congr 1
  rw [List.filter_filter]
  apply List.filter_congr
  intro r _
  by_cases hr : r.ttl ≥ now
  · simp [hr, h r hr]
  · simp [hr]

/-- The rows a filter selects among those a sweep left. -/
theorem filter_swept (m : Int) (sel : KeyRow → Bool) (rows : List KeyRow) :
    (rows.filter (fun r => ¬ (r.ttl < m))).filter sel
      = (rows.filter sel).filter (fun r => ¬ (r.ttl < m)) := by
  rw [List.filter_filter, List.filter_filter]
  apply List.filter_congr
  intro r _
  exact Bool.and_comm _ _

/-- When no backend call fails and the sweep of the call reads the clock no later than its
query does, `GetKey` returns what its row loop reads from the rows of the store it was
called on, swept or not. -/
theorem GetKey_of_rows (env : Env) (s : Store) (table key : String) (h : env.noFailure)
    (hlen : (SplitToParts key).length ≤ NumberOfColumns)
    (hown : nowMillis env.sweepClock ≤ nowMillis env.opClock) :
    (GetKey env s table key).1
      = (firstUnexpired (nowMillis env.opClock)
          (s.keys.filter (fun r => selects table key r.table_hash r.columns)), none) := by
  rw [GetKey_run env s table key (KeysCleanUp_noFailure env s h.1 h.2.1) hlen h.2.2.1]
  rcases KeysCleanUp_keys env s with hk | hk
  · rw [hk]
  · rw [hk, filter_swept, firstUnexpired_filter]
    intro r hr
    simp only [decide_eq_true_eq, not_lt]
    omega

/-- The same for `GetKeys`: the names of the unexpired rows its filter selects, then, on
MySQL and PostgreSQL, those of the rows of `maps`. -/
theorem GetKeys_of_rows (d : Dialect) (env : Env) (s : Store) (table pattern : String)
    (h : env.noFailure) (hlen : (SplitToParts pattern).length ≤ NumberOfColumns)
    (hown : nowMillis env.sweepClock ≤ nowMillis env.opClock) :
    (GetKeys d env s table pattern).1
      = (unexpiredKeyNames (nowMillis env.opClock)
            (s.keys.filter (fun r => selects table pattern r.table_hash r.columns))
          ++ (if d = Dialect.sqlite then []
              else (s.maps.filter (fun r => selects table pattern r.table_hash r.columns)).map
                (fun r => r.table ++ "/" ++ r.key)), none) := by
  rw [GetKeys_run d env s table pattern (KeysCleanUp_noFailure env s h.1 h.2.1) hlen h.2.2.1
    h.2.2.2.1, KeysCleanUp_maps]
  rcases KeysCleanUp_keys env s with hk | hk
  · rw [hk]
  · rw [hk, filter_swept, unexpiredKeyNames_filter]
    intro r hr
    simp only [decide_eq_true_eq, not_lt]
    omega

/-- Claim C29: in each SQL driver, a sweep that executes at the clock reading `now` (more
than the interval after the last one, its `DELETE` not failing) removes exactly the rows
of `keys` with `ttl < now` and leaves `maps` as it is; and for a later call whose query
reads the clock at `now2 >= now` (its own sweep reading the clock no later than its
query), the row loops of `GetKey` and `GetKeys` read the same from the swept rows as from
the unswept ones, and, when no backend call of the later call fails, `GetKey` and
`GetKeys` return the same on the store the sweep left as on the store before it. -/
theorem C29_sweep_invisible_to_reads (d : Dialect) (env env2 : Env) (s : Store)
    (table key pattern : String)
    (hexec : nowMillis env.sweepClock - s.LastTruncate > TruncateInterval)
    (hsweep : env.sweepErr = none)
    (h2 : env2.noFailure)
    (hkey : (SplitToParts key).length ≤ NumberOfColumns)
    (hpat : (SplitToParts pattern).length ≤ NumberOfColumns)
    (hlater : nowMillis env.sweepClock ≤ nowMillis env2.opClock)
    (hown : nowMillis env2.sweepClock ≤ nowMillis env2.opClock) :
    (KeysCleanUp env s).2.keys
        = s.keys.filter (fun r => ¬ (r.ttl < nowMillis env.sweepClock)) ∧
      (∀ r, r ∈ (KeysCleanUp env s).2.keys ↔ r ∈ s.keys ∧ ¬ (r.ttl < nowMillis env.sweepClock)) ∧
      (KeysCleanUp env s).2.maps = s.maps ∧
      firstUnexpired (nowMillis env2.opClock)
          ((KeysCleanUp env s).2.keys.filter (fun r => selects table key r.table_hash r.columns))
        = firstUnexpired (nowMillis env2.opClock)
          (s.keys.filter (fun r => selects table key r.table_hash r.columns)) ∧
      unexpiredKeyNames (nowMillis env2.opClock)
          ((KeysCleanUp env s).2.keys.filter
            (fun r => selects table pattern r.table_hash r.columns))
        = unexpiredKeyNames (nowMillis env2.opClock)
          (s.keys.filter (fun r => selects table pattern r.table_hash r.columns)) ∧
      (GetKey env2 (KeysCleanUp env s).2 table key).1 = (GetKey env2 s table key).1 ∧
      (GetKeys d env2 (KeysCleanUp env s).2 table pattern).1
        = (GetKeys d env2 s table pattern).1 := by
  have hk : (KeysCleanUp env s).2.keys
      = s.keys.filter (fun r => ¬ (r.ttl < nowMillis env.sweepClock)) := by
    unfold KeysCleanUp execSweep
    simp only [hexec, if_true, hsweep]
    cases env.sweepRowsErr <;> rfl
  have hhide : ∀ r : KeyRow, nowMillis env2.opClock ≤ r.ttl →
      decide (¬ (r.ttl < nowMillis env.sweepClock)) = true := by
    intro r hr
    simp only [decide_eq_true_eq, not_lt]
    omega
  have hfirst : firstUnexpired (nowMillis env2.opClock)
        ((KeysCleanUp env s).2.keys.filter (fun r => selects table key r.table_hash r.columns))
      = firstUnexpired (nowMillis env2.opClock)
        (s.keys.filter (fun r => selects table key r.table_hash r.columns)) := by
    rw [hk, filter_swept, firstUnexpired_filter _ _ hhide]
  have hnames : unexpiredKeyNames (nowMillis env2.opClock)
        ((KeysCleanUp env s).2.keys.filter
          (fun r => selects table pattern r.table_hash r.columns))
      = unexpiredKeyNames (nowMillis env2.opClock)
        (s.keys.filter (fun r => selects table pattern r.table_hash r.columns)) := by
    rw [hk, filter_swept, unexpiredKeyNames_filter _ _ hhide]
  refine ⟨hk, ?_, KeysCleanUp_maps env s, hfirst, hnames, ?_, ?_⟩
  · intro r
    rw [hk, List.mem_filter, decide_eq_true_eq]
  · rw [GetKey_of_rows env2 _ table key h2 hkey hown, GetKey_of_rows env2 s table key h2 hkey hown,
      hfirst]
  · rw [GetKeys_of_rows d env2 _ table pattern h2 hpat hown,
      GetKeys_of_rows d env2 s table pattern h2 hpat hown, hnames, KeysCleanUp_maps]

set_option maxRecDepth 100000 in
/-- On the store that holds one record and one that expired long ago, never swept, the
sweep at the example clock reading removes the expired record alone, and `GetKey` and
`GetKeys` at that reading return the same before and after it. -/
theorem C29_sweep_invisible_to_reads_witness :
    nowMillis exampleEnv.sweepClock - (0 : Int) > TruncateInterval ∧
      (KeysCleanUp exampleEnv
        { keys := [writtenRow "t" "old" "w" 5, writtenRow "t" "a" "v" 9223372036854],
          maps := [], LastTruncate := 0 }).2.keys = [writtenRow "t" "a" "v" 9223372036854] ∧
      (GetKey exampleEnv (KeysCleanUp exampleEnv
        { keys := [writtenRow "t" "old" "w" 5, writtenRow "t" "a" "v" 9223372036854],
          maps := [], LastTruncate := 0 }).2 "t" "old").1
        = (GetKey exampleEnv
          { keys := [writtenRow "t" "old" "w" 5, writtenRow "t" "a" "v" 9223372036854],
            maps := [], LastTruncate := 0 } "t" "old").1 ∧
      (GetKeys Dialect.mysql exampleEnv (KeysCleanUp exampleEnv
        { keys := [writtenRow "t" "old" "w" 5, writtenRow "t" "a" "v" 9223372036854],
          maps := [], LastTruncate := 0 }).2 "t" "*").1
        = (GetKeys Dialect.mysql exampleEnv
          { keys := [writtenRow "t" "old" "w" 5, writtenRow "t" "a" "v" 9223372036854],
            maps := [], LastTruncate := 0 } "t" "*").1 :=
  have h := C29_sweep_invisible_to_reads Dialect.mysql exampleEnv exampleEnv
    { keys := [writtenRow "t" "old" "w" 5, writtenRow "t" "a" "v" 9223372036854],
      maps := [], LastTruncate := 0 } "t" "old" "*"
    (by decide) (by decide) exampleEnv_noFailure (by decide) (by decide) (by decide) (by decide)
  ⟨by decide, h.1.trans (by decide), h.2.2.2.2.2.1, h.2.2.2.2.2.2⟩

/-! ## The address before the port -/

/-- No part of a split holds a separator. -/
theorem splitOnP_mem_not {α : Type} (p : α → Bool) :
    ∀ (l : List α) (part : List α), part ∈ l.splitOnP p → ∀ c ∈ part, ¬ p c = true := by
  intro l
  induction l with
  | nil =>
    intro part hpart c hc
    simp only [List.splitOnP_nil, List.mem_singleton] at hpart
    subst hpart
    simp at hc
  | cons x xs ih =>
    intro part hpart c hc
    rw [List.splitOnP_cons] at hpart
    by_cases hx : p x = true
    · rw [if_pos hx, List.mem_cons] at hpart
      rcases hpart with h | h
      · subst h
        simp at hc
      · exact ih part h c hc
    · rw [if_neg hx] at hpart
      cases hs : List.splitOnP p xs with
      | nil => rw [hs] at hpart; simp [List.modifyHead] at hpart
      | cons a rest =>
        rw [hs] at hpart ih
        simp only [List.modifyHead, List.mem_cons] at hpart
        rcases hpart with h | h
        · subst h
          rcases List.mem_cons.1 hc with h1 | h1
          · rw [h1]; exact hx
          · exact ih a (List.mem_cons_self _ _) c h1
        · exact ih part (List.mem_cons_of_mem _ h) c hc

/-- The loop of `ParseIP` over two parts or more, from any text gathered so far: with `:`
and the last part after it, the result is the text gathered, then the parts joined by
`:`. -/
theorem ParseIP_loop : ∀ (parts : List (List Char)) (acc : String), 2 ≤ parts.length →
    ((List.range ((parts.map String.mk).length - 1)).foldl (fun ip i =>
        let ip := ip ++ (parts.map String.mk).getD i ""
        if (i : Int) < ((parts.map String.mk).length : Int) - 2 then ip ++ ":" else ip) acc).data
      ++ Char.ofNat 58 :: parts.getLastD []
      = acc.data ++ [Char.ofNat 58].intercalate parts := by
  intro parts
  induction parts with
  | nil => intro acc h; simp at h
  | cons a rest ih =>
    intro acc h
    cases rest with
    | nil => simp at h
    | cons b r =>
      cases r with
      | nil =>
        simp [List.range_succ, List.intercalate, String.data_append]
      | cons c r2 =>
        have ih2 := ih (acc ++ String.mk a ++ ":") (by simp)
        simp only [List.map_cons, List.length_cons, Nat.add_sub_cancel] at ih2 ⊢
        rw [List.range_succ_eq_map, List.foldl_cons, List.foldl_map]
        have hcond : ((0 : Nat) : Int)
            < ((((List.map String.mk r2).length + 1 + 1 + 1 : Nat) : Int)) - 2 := by
          push_cast
          omega
        simp only [List.getD_cons_zero, hcond, if_true]
        have hf : (fun (ip : String) (i : Nat) =>
              let ip := ip ++ (String.mk a :: String.mk b :: String.mk c :: List.map String.mk r2).getD
                (i + 1) ""
              if ((i + 1 : Nat) : Int)
                  < ((((List.map String.mk r2).length + 1 + 1 + 1 : Nat) : Int)) - 2
              then ip ++ ":" else ip)
            = (fun (ip : String) (i : Nat) =>
              let ip := ip ++ (String.mk b :: String.mk c :: List.map String.mk r2).getD i ""
              if (i : Int) < ((((List.map String.mk r2).length + 1 + 1 : Nat) : Int)) - 2
              then ip ++ ":" else ip) := by
          funext ip i
          simp only [List.getD_cons_succ]
          have : (((i + 1 : Nat) : Int)
                < ((((List.map String.mk r2).length + 1 + 1 + 1 : Nat) : Int)) - 2)
              ↔ ((i : Int) < ((((List.map String.mk r2).length + 1 + 1 : Nat) : Int)) - 2) := by
            push_cast
            omega
          simp only [this]
        have hf2 : (fun (x : String) (y : Nat) =>
              let ip := x ++ (String.mk a :: String.mk b :: String.mk c :: List.map String.mk r2).getD
                (Nat.succ y) ""
              if ((Nat.succ y : Nat) : Int)
                  < ((((List.map String.mk r2).length + 1 + 1 + 1 : Nat) : Int)) - 2
              then ip ++ ":" else ip)
            = (fun (ip : String) (i : Nat) =>
              let ip := ip ++ (String.mk b :: String.mk c :: List.map String.mk r2).getD i ""
              if (i : Int) < ((((List.map String.mk r2).length + 1 + 1 : Nat) : Int)) - 2
              then ip ++ ":" else ip) := hf
        rw [hf2]
        have hlast : (a :: b :: c :: r2).getLastD [] = (b :: c :: r2).getLastD [] := by
          simp [List.getLastD]
        rw [hlast, ih2]
        simp [String.data_append, List.intercalate, List.append_assoc]

/-- The text `ParseIP` returns, for an address with a `:` in it: the address is that text,
a `:` and a rest without `:`. -/
theorem ParseIP_colon (addr : String) (h : Char.ofNat 58 ∈ addr.data) :
    ∃ rest : String, Char.ofNat 58 ∉ rest.data ∧ addr = ParseIP addr ++ ":" ++ rest := by
  have hjoin : [Char.ofNat 58].intercalate (addr.data.splitOn (Char.ofNat 58)) = addr.data :=
    List.intercalate_splitOn _ _
  have hno : ∀ part ∈ addr.data.splitOn (Char.ofNat 58), Char.ofNat 58 ∉ part := by
    intro part hpart hc
    have := splitOnP_mem_not (fun c => c == Char.ofNat 58) addr.data part hpart _ hc
    simp at this
  have hlen : 2 ≤ (addr.data.splitOn (Char.ofNat 58)).length := by
    rcases hs : List.splitOn (Char.ofNat 58) addr.data with _ | ⟨a, _ | ⟨b, r⟩⟩
    · rw [hs] at hjoin
      simp [List.intercalate] at hjoin
      rw [hjoin] at h
      simp at h
    · rw [hs] at hjoin hno
      simp [List.intercalate] at hjoin
      rw [← hjoin] at h
      exact absurd h (hno a (List.mem_singleton_self _))
    · simp
  have hloop := ParseIP_loop (addr.data.splitOn (Char.ofNat 58)) "" hlen
  refine ⟨String.mk ((addr.data.splitOn (Char.ofNat 58)).getLastD []), ?_, ?_⟩
  · apply hno
    rw [List.getLastD_eq_getLast?]
    rcases hs : addr.data.splitOn (Char.ofNat 58) with _ | ⟨a, r⟩
    · rw [hs] at hlen; simp at hlen
    · have := List.getLast?_eq_getLast (a :: r) (by simp)
      rw [this]
      simp only [Option.getD_some]
      exact List.getLast_mem _
  · apply String.ext
    rw [String.data_append, String.data_append]
    have hc : (":" : String).data = [Char.ofNat 58] := by decide
    rw [hc, List.append_assoc, List.singleton_append]
    unfold ParseIP
    simp only
    rw [hloop, hjoin]
    rfl

/-- Claim C30: `ParseIP(addr)` returns the part of `addr` before its last `:`: for every
`addr` that holds a `:`, `addr` is the returned text, a `:` and a rest without `:`; for
example `1.2.3.4:80` gives `1.2.3.4` and `[::1]:80` gives `[::1]`; and it returns the
empty string for every `addr` that holds no `:`. -/
theorem C30_ParseIP_before_last_colon :
    (∀ addr : String, Char.ofNat 58 ∈ addr.data →
        ∃ rest : String, Char.ofNat 58 ∉ rest.data ∧ addr = ParseIP addr ++ ":" ++ rest) ∧
      (∀ addr : String, Char.ofNat 58 ∉ addr.data → ParseIP addr = "") ∧
      ParseIP "1.2.3.4:80" = "1.2.3.4" ∧ ParseIP "[::1]:80" = "[::1]" := by
  refine ⟨ParseIP_colon, ?_, by decide, by decide⟩
  intro addr h
  unfold ParseIP
  simp only [List.splitOn]
  rw [List.splitOnP_eq_single]
  · rfl
  · intro c hc hcc
    simp only [beq_iff_eq] at hcc
    exact h (hcc ▸ hc)

end Storage
